import Mathlib

/-!
Blocked multiply-accumulate kernels of `calgo` (`matmult.c`, `mult.c`)

A shallow embedding of the three C kernels

* `mat_mult`               (`mult.c`, lines 14-46),
* `matmult_block_notrans`  (`matmult.c`, lines 14-53),
* `matmult_vp_notrans`     (`matmult.c`, lines 69-121),

followed by theorems about them.

Modelling conventions.

* A C `int` is a 32-bit signed integer.  The embedding of the three C
  functions is `matmult_block_notrans32`, `matmult_vp_notrans32` and
  `mat_mult32`: they carry explicit `int` loop counters and store every
  computed `int` value through a parameter `iv`, either checked against
  `[0, INT_MAX]` (`checked32`, a signed overflow is a fault) or wrapped to 32
  bits (`wrapped32`).  The main theorems are stated about these.
* The functions without the suffix (`matmult_block_notrans`,
  `matmult_vp_notrans`, `mat_mult`) compute the same indices on unbounded
  integers.  They are an auxiliary model in which the facts are first proved;
  `block32_of_block`, `vp32_of_vp` and `mat_mult32_of_mat_mult` carry a result
  over to the kernels with machine integers when `M*N`, `M*P`, `P*N` (and
  `P + vlen`) are at most `INT_MAX`.
* A `double *` buffer is a `List α`; a pointer into it is the `Int` offset from
  the start of the buffer.  Pointer arithmetic is offset arithmetic, a
  dereference is `rd`/`wr`, which answer `none` outside the buffer.
* The element type `α` and its operations are a parameter (`Arith α`): the
  kernels only add, multiply and test against `0.0`.  `exactArith` is the
  instance for exact arithmetic in a commutative ring.
* In the kernels with machine integers every loop is run with fuel, one unit
  per evaluation of the loop condition (`forInt`, `vpWhile32`).  In the
  auxiliary model a counting `for` loop whose counter is not assigned in its
  body runs `(hi - lo).toNat` times, a structural recursion on that count, and
  only the `while` loop of `matmult_vp_notrans` is run with fuel.
-/

namespace Calgo

/-- The arithmetic the kernels use on buffer elements: `+`, `*`, and the
    outcome of the C test `x != 0.0` (`isZero x = true` when the test fails). -/
structure Arith (α : Type) where
  add : α → α → α
  mul : α → α → α
  isZero : α → Bool

/-- Exact arithmetic: the ring operations and the test `x = 0`. -/
def exactArith (α : Type) [CommRing α] [DecidableEq α] : Arith α where
  add := fun x y => x + y
  mul := fun x y => x * y
  isZero := fun x => decide (x = 0)

/-- Dereference for reading: `buf[i]`, `none` when `i` is outside the buffer. -/
def rd {α : Type} (buf : List α) (i : Int) : Option α :=
  if 0 ≤ i then buf[i.toNat]? else none

/-- Dereference for writing: `buf[i] = v`, `none` when `i` is outside the buffer. -/
def wr {α : Type} (buf : List α) (i : Int) (v : α) : Option (List α) :=
  if 0 ≤ i ∧ i.toNat < buf.length then some (buf.set i.toNat v) else none

/-- The row loop shared by `matmult_block_notrans` (lines 39-43) and
    `matmult_vp_notrans` (lines 100-104):
    `for (i = R; i < E; i++) { *Cr += (*Ar) * coeff; Cr++; Ar++; }`.
    The first argument is the number of iterations left, `cr` and `ar` are the
    offsets of `Cr` in `C` and of `Ar` in `A`. -/
def rowLoop {α : Type} (ar : Arith α) (A : List α) (coeff : α) :
    Nat → Int → Int → List α → Option (List α)
  | 0, _, _, C => some C
  | n + 1, cr, a, C =>
    match rd A a, rd C cr with
    | some x, some c =>
      match wr C cr (ar.add c (ar.mul x coeff)) with
      | some C1 => rowLoop ar A coeff n (cr + 1) (a + 1) C1
      | none => none
    | _, _ => none

/-- The inner-dimension loop shared by `matmult_block_notrans` (lines 33-48) and
    `matmult_vp_notrans` (lines 93-109):
    `for (k = ..; k < ..; k++) { Cr = Cc; Ar = Ac; if (*Br != 0.0) { coeff = *Br * alpha; <row loop> } Br++; Ac += M; }`.
    The first explicit argument is the number of iterations left, `rows` the
    iteration count `(E - R).toNat` of the row loop, `cc`, `br`, `ac` the offsets of
    `Cc` in `C`, `Br` in `B` and `Ac` in `A`. -/
def kLoop {α : Type} (ar : Arith α) (A B : List α) (alpha : α) (M : Int) (rows : Nat)
    (cc : Int) : Nat → Int → Int → List α → Option (List α)
  | 0, _, _, C => some C
  | n + 1, br, ac, C =>
    match rd B br with
    | none => none
    | some b =>
      if ar.isZero b then kLoop ar A B alpha M rows cc n (br + 1) (ac + M) C
      else
        match rowLoop ar A (ar.mul b alpha) rows cc ac C with
        | some C1 => kLoop ar A B alpha M rows cc n (br + 1) (ac + M) C1
        | none => none

/-- The column loop shared by `matmult_block_notrans` (lines 30-52) and
    `matmult_vp_notrans` (lines 90-113):
    `for (j = S; j < L; j++) { Ac = <a0>; Br = Bc; <k loop>; Cc += M; Bc += P; }`
    where `a0` is `A + R` in the block kernel and `AvpS` in the viewport kernel and
    `kcount` is the iteration count of the `k` loop.  The first explicit argument
    after `a0` is the number of iterations left, `cc` and `bc` are the offsets of
    `Cc` in `C` and of `Bc` in `B`. -/
def jLoop {α : Type} (ar : Arith α) (A B : List α) (alpha : α) (M P : Int) (rows kcount : Nat)
    (a0 : Int) : Nat → Int → Int → List α → Option (List α)
  | 0, _, _, C => some C
  | n + 1, cc, bc, C =>
    match kLoop ar A B alpha M rows cc kcount bc a0 C with
    | some C1 => jLoop ar A B alpha M P rows kcount a0 n (cc + M) (bc + P) C1
    | none => none

/-- `matmult_block_notrans` (`matmult.c`, lines 14-53) on unbounded integers
    (the auxiliary model; `matmult_block_notrans32` has the `int` arithmetic):
    `Cc = &C[S*M+R]`,
    `Bc = &B[S*P]`, the column loop over `j` in `[S, L)` with `Ac = A + R` and the
    `k` loop over `[0, P)`.  `N` is a parameter of the C function that its body
    never reads.  The result is the final `C`, `none` when a dereference fell
    outside its buffer. -/
def matmult_block_notrans {α : Type} (ar : Arith α) (C A B : List α) (alpha : α)
    (M N P S L R E : Int) : Option (List α) :=
  let _unused := N
  jLoop ar A B alpha M P (E - R).toNat (P - 0).toNat R (L - S).toNat (S * M + R) (S * P) C

/-- How a run of the viewport kernel ends. -/
inductive Outcome (σ : Type) where
  | done (s : σ)
  | outOfBounds
  | outOfFuel
  deriving DecidableEq

/-- The `while (vpS < P) { <body>; vpS = vpL; vpL += vlen; if (vpL > P) vpL = P; }`
    loop of `matmult_vp_notrans` (lines 85-120), for any loop body acting on a
    state `σ` and given the current `vpS` and `vpL`.  One unit of fuel is used
    per evaluation of the loop condition.  On exit the final `vpS`, `vpL` and
    state are returned. -/
def vpWhile {σ : Type} (body : Int → Int → σ → Option σ) (P vlen : Int) :
    Nat → Int → Int → σ → Outcome (Int × Int × σ)
  | 0, _, _, _ => Outcome.outOfFuel
  | fuel + 1, vpS, vpL, s =>
    if vpS < P then
      match body vpS vpL s with
      | none => Outcome.outOfBounds
      | some s1 =>
        let vpS1 := vpL
        let vpL1 := vpL + vlen
        let vpL2 := if vpL1 > P then P else vpL1
        vpWhile body P vlen fuel vpS1 vpL2 s1
    else Outcome.done (vpS, vpL, s)

/-- The value of `VLEN_DEFAULT` (`matmult.c`, line 9). -/
def VLEN_DEFAULT : Int := 30

/-- The control skeleton of `matmult_vp_notrans` (lines 80-85 and 115-120) around
    an arbitrary loop body: `if (vlen == 0) vlen = VLEN_DEFAULT; vpS = 0;
    vpL = vlen < P ? vlen : P; while (vpS < P) ...`. -/
def vpDriver {σ : Type} (body : Int → Int → σ → Option σ) (fuel : Nat) (P vlen : Int) (s : σ) :
    Outcome (Int × Int × σ) :=
  let vlen1 := if vlen = 0 then VLEN_DEFAULT else vlen
  let vpS := 0
  let vpL := if vlen1 < P then vlen1 else P
  vpWhile body P vlen1 fuel vpS vpL s

/-- The body of the `while` loop of `matmult_vp_notrans` (lines 86-113):
    `Cc = &C[S*M+R]; Bc = &B[S*P + vpS]; AvpS = &A[vpS*M + R];` and the column
    loop over `j` in `[S, L)` with the `k` loop over `[vpS, vpL)`. -/
def vpBody {α : Type} (ar : Arith α) (A B : List α) (alpha : α) (M P S L R E : Int)
    (vpS vpL : Int) (C : List α) : Option (List α) :=
  jLoop ar A B alpha M P (E - R).toNat (vpL - vpS).toNat (vpS * M + R) (L - S).toNat
    (S * M + R) (S * P + vpS) C

/-- The final state of an outcome without the loop cursors. -/
def Outcome.state {σ : Type} : Outcome (Int × Int × σ) → Outcome σ
  | Outcome.done (_, _, s) => Outcome.done s
  | Outcome.outOfBounds => Outcome.outOfBounds
  | Outcome.outOfFuel => Outcome.outOfFuel

/-- `matmult_vp_notrans` (`matmult.c`, lines 69-121) on unbounded integers (the
    auxiliary model; `matmult_vp_notrans32` has the `int` arithmetic).  `N` is a
    parameter of the C function that its body never reads.  The result is the final `C`,
    `outOfBounds` when a dereference fell outside its buffer, `outOfFuel` when
    the `while` loop was still running after `fuel` tests of its condition. -/
def matmult_vp_notrans {α : Type} (ar : Arith α) (fuel : Nat) (C A B : List α) (alpha : α)
    (M N P S L R E vlen : Int) : Outcome (List α) :=
  let _unused := N
  (vpDriver (vpBody ar A B alpha M P S L R E) fuel P vlen C).state

/-- The row loop of `mat_mult` (`mult.c`, lines 29-35):
    `for (i = 0; i < M; i++) { C[cr] += A[ar]*beta; cr++; ar++; }`.
    The first argument is the number of iterations left; the result is the
    final `C` and the final value of the cursor `ar` (here `a`). -/
def mmRowLoop {α : Type} (ar : Arith α) (A : List α) (beta : α) :
    Nat → Int → Int → List α → Option (List α × Int)
  | 0, _, a, C => some (C, a)
  | n + 1, cr, a, C =>
    match rd C cr, rd A a with
    | some c, some x =>
      match wr C cr (ar.add c (ar.mul x beta)) with
      | some C1 => mmRowLoop ar A beta n (cr + 1) (a + 1) C1
      | none => none
    | _, _ => none

/-- The `k` loop of `mat_mult` (`mult.c`, lines 21-42):
    `for (k = 0; k < P; k++) { cr = cc; beta = B[br]; if (beta != 0.0) <row loop> else ar += M; br++; }`.
    The first explicit argument is the number of iterations left; the result is
    the final `C` and the final cursors `ar` (here `a`) and `br`. -/
def mmKLoop {α : Type} (ar : Arith α) (A B : List α) (M : Int) (cc : Int) :
    Nat → Int → Int → List α → Option (List α × Int × Int)
  | 0, a, br, C => some (C, a, br)
  | n + 1, a, br, C =>
    match rd B br with
    | none => none
    | some beta =>
      if ar.isZero beta then mmKLoop ar A B M cc n (a + M) (br + 1) C
      else
        match mmRowLoop ar A beta M.toNat cc a C with
        | some (C1, a1) => mmKLoop ar A B M cc n a1 (br + 1) C1
        | none => none

/-- The column loop of `mat_mult` (`mult.c`, lines 19-45):
    `for (j = S; j < N; j++) { ar = 0; <k loop>; cc += M; }`.
    The first explicit argument is the number of iterations left; `br` is not
    reset between columns. -/
def mmJLoop {α : Type} (ar : Arith α) (A B : List α) (M P : Int) :
    Nat → Int → Int → List α → Option (List α)
  | 0, _, _, C => some C
  | n + 1, cc, br, C =>
    match mmKLoop ar A B M cc (P - 0).toNat 0 br C with
    | some (C1, _, br1) => mmJLoop ar A B M P n (cc + M) br1 C1
    | none => none

/-- `mat_mult` (`mult.c`, lines 14-46) on unbounded integers (the auxiliary
    model; `mat_mult32` has the `int` arithmetic): `cc = S*M; br = S*P;` and the
    column loop over `j` in `[S, N)`.  The result is the final `C`, `none` when an
    index fell outside its buffer. -/
def mat_mult {α : Type} (ar : Arith α) (S N M P : Int) (C A B : List α) : Option (List α) :=
  mmJLoop ar A B M P (N - S).toNat (S * M) (S * P) C

/-- The `k` loop with the coefficient left open: `kLoop` is the instance
    `coef b = b * alpha`, the `k` loop of `mat_mult` the instance `coef b = b`.
    Used only to state facts about both at once. -/
def kLoopG {α : Type} (ar : Arith α) (coef : α → α) (A B : List α) (M : Int) (rows : Nat)
    (cc : Int) : Nat → Int → Int → List α → Option (List α)
  | 0, _, _, C => some C
  | n + 1, br, ac, C =>
    match rd B br with
    | none => none
    | some b =>
      if ar.isZero b then kLoopG ar coef A B M rows cc n (br + 1) (ac + M) C
      else
        match rowLoop ar A (coef b) rows cc ac C with
        | some C1 => kLoopG ar coef A B M rows cc n (br + 1) (ac + M) C1
        | none => none

/-- The column loop over `kLoopG`. -/
def jLoopG {α : Type} (ar : Arith α) (coef : α → α) (A B : List α) (M P : Int)
    (rows kcount : Nat) (a0 : Int) : Nat → Int → Int → List α → Option (List α)
  | 0, _, _, C => some C
  | n + 1, cc, bc, C =>
    match kLoopG ar coef A B M rows cc kcount bc a0 C with
    | some C1 => jLoopG ar coef A B M P rows kcount a0 n (cc + M) (bc + P) C1
    | none => none

/-- One step of the accumulation into a cell holding `c`, with `a = A[i,k]` and
    `b = B[k,j]`: nothing when `b` tests as zero, `c + a * coef b` otherwise. -/
def cellStep {α : Type} (ar : Arith α) (coef : α → α) (c a b : α) : α :=
  if ar.isZero b then c else ar.add c (ar.mul a (coef b))

/-- The value of a cell after `n` consecutive steps of the `k` loop, started
    with the cell holding `c`, the cell's row of the current column of `A` at
    offset `a` and the current entry of the column of `B` at offset `b`
    (offsets into the flat buffers, `M` the column stride of `A`). -/
def cellFold {α : Type} (ar : Arith α) (coef : α → α) (A B : List α) (d : α) (M : Nat) :
    Nat → Nat → Nat → α → α
  | 0, _, _, c => c
  | n + 1, a, b, c =>
    cellFold ar coef A B d M n (a + M) (b + 1) (cellStep ar coef c (A.getD a d) (B.getD b d))

/-- Element `(i, j)` of a column-major matrix with `ld` rows: `buf[j*ld + i]`
    (`d` when that offset is outside the buffer). -/
def cell {α : Type} (buf : List α) (ld : Int) (d : α) (i j : Int) : α :=
  (rd buf (j * ld + i)).getD d

/-- The dimensions are positive and the buffers have exactly the sizes of an
    `M x N` matrix `C`, an `M x P` matrix `A` and a `P x N` matrix `B`. -/
def ValidDims {α : Type} (M N P : Int) (C A B : List α) : Prop :=
  0 < M ∧ 0 < N ∧ 0 < P ∧
    (C.length : Int) = M * N ∧ (A.length : Int) = M * P ∧ (B.length : Int) = P * N

instance {α : Type} (M N P : Int) (C A B : List α) : Decidable (ValidDims M N P C A B) := by
  unfold ValidDims; infer_instance

/-- The sub-block selector is valid: `0 <= R < E <= M` and `0 <= S < L <= N`. -/
def ValidRegion (M N S L R E : Int) : Prop :=
  0 ≤ R ∧ R < E ∧ E ≤ M ∧ 0 ≤ S ∧ S < L ∧ L ≤ N

instance (M N S L R E : Int) : Decidable (ValidRegion M N S L R E) := by
  unfold ValidRegion; infer_instance

/-- A loop body that only records the chunk `(vpS, vpL)` it is run with: under
    `vpDriver` it lists the iterations of the `while` loop of
    `matmult_vp_notrans`. -/
def recordChunk (vpS vpL : Int) (tr : List (Int × Int)) : Option (List (Int × Int)) :=
  some (tr ++ [(vpS, vpL)])

/-- The control skeleton of `matmult_vp_notrans` run on `recordChunk`: on exit
    the final `vpS`, the final `vpL` and the `(vpS, vpL)` pairs of the
    iterations of the `while` loop, in order. -/
def vpChunks (fuel : Nat) (P vlen : Int) : Outcome (Int × Int × List (Int × Int)) :=
  vpDriver recordChunk fuel P vlen []

/-- The first `m` chunks of width `v` of `[0, P)`: chunk `c` is
    `(c*v, min ((c+1)*v) P)`. -/
def chunkList (v P : Int) (m : Nat) : List (Int × Int) :=
  (List.range m).map (fun (c : Nat) => ((c : Int) * v, min (((c : Int) + 1) * v) P))

/-- The viewport length in effect: `VLEN_DEFAULT` for `vlen = 0` (line 80-82). -/
def effectiveVlen (vlen : Int) : Int := if vlen = 0 then VLEN_DEFAULT else vlen

/-- Formal expressions over atoms: the free structure with one binary `plus`
    and one binary `times`, on which no algebraic law holds. -/
inductive Sym where
  | atom (n : Nat)
  | plus (x y : Sym)
  | times (x y : Sym)

/-- The arithmetic of formal expressions: `add` and `mul` only build the
    expression, `atom 0` is the one element that tests as zero. -/
def symArith : Arith Sym where
  add := Sym.plus
  mul := Sym.times
  isZero := fun x => match x with
    | Sym.atom 0 => true
    | _ => false

/-- A loop body instrumented to record, after it has run, the chunk
    `(vpS, vpL)` it was run with. -/
def tracedBody {σ : Type} (body : Int → Int → σ → Option σ) (vpS vpL : Int)
    (st : σ × List (Int × Int)) : Option (σ × List (Int × Int)) :=
  match body vpS vpL st.1 with
  | some s1 => some (s1, st.2 ++ [(vpS, vpL)])
  | none => none

/-- The kernel `matmult_vp_notrans` with the body of its `while` loop
    instrumented: the final `C` together with the `(vpS, vpL)` pairs with which
    the inner loops (lines 86-113) were run, in order. -/
def matmult_vp_notrans_traced {α : Type} (ar : Arith α) (fuel : Nat) (C A B : List α)
    (alpha : α) (M N P S L R E vlen : Int) : Outcome (List α × List (Int × Int)) :=
  let _unused := N
  (vpDriver (tracedBody (vpBody ar A B alpha M P S L R E)) fuel P vlen (C, [])).state

/-- The `k` loop of `mat_mult` (`mult.c`, lines 21-42) instrumented to record,
    at the start of every iteration, the values `(cc, ar, br)` of the C column
    base and of the A and B cursors.  Apart from the log it is `mmKLoop`. -/
def mmKLoopLog {α : Type} (ar : Arith α) (A B : List α) (M : Int) (cc : Int) :
    Nat → Int → Int → List α → List (Int × Int × Int) →
      Option (List α × Int × Int × List (Int × Int × Int))
  | 0, a, br, C, log => some (C, a, br, log)
  | n + 1, a, br, C, log =>
    match rd B br with
    | none => none
    | some beta =>
      if ar.isZero beta then mmKLoopLog ar A B M cc n (a + M) (br + 1) C (log ++ [(cc, a, br)])
      else
        match mmRowLoop ar A beta M.toNat cc a C with
        | some (C1, a1) => mmKLoopLog ar A B M cc n a1 (br + 1) C1 (log ++ [(cc, a, br)])
        | none => none

/-- The column loop of `mat_mult` (`mult.c`, lines 19-45) over `mmKLoopLog`. -/
def mmJLoopLog {α : Type} (ar : Arith α) (A B : List α) (M P : Int) :
    Nat → Int → Int → List α → List (Int × Int × Int) →
      Option (List α × List (Int × Int × Int))
  | 0, _, _, C, log => some (C, log)
  | n + 1, cc, br, C, log =>
    match mmKLoopLog ar A B M cc (P - 0).toNat 0 br C log with
    | some (C1, _, br1, log1) => mmJLoopLog ar A B M P n (cc + M) br1 C1 log1
    | none => none

/-- The function `mat_mult` instrumented: the final `C` and, for every inner
    (`k`) iteration in execution order, the values `(cc, ar, br)` at its start. -/
def mat_mult_traced {α : Type} (ar : Arith α) (S N M P : Int) (C A B : List α) :
    Option (List α × List (Int × Int × Int)) :=
  mmJLoopLog ar A B M P (N - S).toNat (S * M) (S * P) C []

/-- The cursor values `(cc, k*M, br + k)`, `k = 0 .. kcount-1`, of `n` successive
    columns whose first has column base `cc` and B cursor `br`. -/
def cursorLog (M : Int) (kcount : Nat) : Nat → Int → Int → List (Int × Int × Int)
  | 0, _, _ => []
  | n + 1, cc, br =>
    (List.range kcount).map (fun (k : Nat) => (cc, (k : Int) * M, br + (k : Int)))
      ++ cursorLog M kcount n (cc + M) (br + (kcount : Int))

/-- What stops a run of the kernels with machine integers. -/
inductive Fault where
  | outOfBounds
  | outOfFuel
  | intOverflow
  deriving DecidableEq

/-- The largest value of a 32-bit signed `int`. -/
def INT_MAX : Int := 2147483647

/-- The value a 32-bit signed `int` holds when the exact result is `x`
    (two's complement wrap-around). -/
def wrap32 (x : Int) : Int := (x + 2147483648) % 4294967296 - 2147483648

/-- Storing a computed `int` value, checked: a fault unless the exact value is
    within `[0, INT_MAX]`. -/
def checked32 (x : Int) : Except Fault Int :=
  if 0 ≤ x ∧ x ≤ INT_MAX then Except.ok x else Except.error Fault.intOverflow

/-- Storing a computed `int` value, wrapped: the value `wrap32 x`. -/
def wrapped32 (x : Int) : Except Fault Int := Except.ok (wrap32 x)

/-- A dereference that may fall outside its buffer, as a run. -/
def deref {β : Type} : Option β → Except Fault β
  | some b => Except.ok b
  | none => Except.error Fault.outOfBounds

/-- The loop `for (c = lo; c < hi; c++) body` with an `int` counter: `iv` stores
    the value `c + 1` computed by `c++`, the body does not read the counter.
    One unit of fuel per test of the loop condition; the third argument is the
    current counter. -/
def forInt {σ : Type} (iv : Int → Except Fault Int) (hi : Int) (body : σ → Except Fault σ) :
    Nat → Int → σ → Except Fault σ
  | 0, _, _ => Except.error Fault.outOfFuel
  | fuel + 1, c, s =>
    if c < hi then
      match body s with
      | Except.error e => Except.error e
      | Except.ok s1 =>
        match iv (c + 1) with
        | Except.error e => Except.error e
        | Except.ok c1 => forInt iv hi body fuel c1 s1
    else Except.ok s

/-- The body `*Cr += (*Ar) * coeff; Cr++; Ar++;` of the row loop of
    `matmult_block_notrans` and `matmult_vp_notrans` on the state `(C, Cr, Ar)`;
    `Cr++` and `Ar++` are pointer increments. -/
def rowBody32 {α : Type} (ar : Arith α) (A : List α) (coeff : α) :
    List α × Int × Int → Except Fault (List α × Int × Int)
  | (C, cr, a) =>
    match deref (rd A a) with
    | Except.error e => Except.error e
    | Except.ok x =>
      match deref (rd C cr) with
      | Except.error e => Except.error e
      | Except.ok c =>
        match deref (wr C cr (ar.add c (ar.mul x coeff))) with
        | Except.error e => Except.error e
        | Except.ok C1 => Except.ok (C1, cr + 1, a + 1)

/-- The body of the `k` loop of `matmult_block_notrans` (lines 34-47) and
    `matmult_vp_notrans` (lines 95-108) on the state `(C, Br, Ac)`, with the row
    loop `for (i = R; i < E; i++)` on an `int` counter; `Br++` and `Ac += M` are
    pointer arithmetic. -/
def kBody32 {α : Type} (ar : Arith α) (iv : Int → Except Fault Int) (fuel : Nat)
    (A B : List α) (alpha : α) (M R E : Int) (cc : Int) :
    List α × Int × Int → Except Fault (List α × Int × Int)
  | (C, br, ac) =>
    match deref (rd B br) with
    | Except.error e => Except.error e
    | Except.ok b =>
      if ar.isZero b then Except.ok (C, br + 1, ac + M)
      else
        match forInt iv E (rowBody32 ar A (ar.mul b alpha)) fuel R (C, cc, ac) with
        | Except.error e => Except.error e
        | Except.ok (C1, _, _) => Except.ok (C1, br + 1, ac + M)

/-- The body of the column loop of `matmult_block_notrans` (lines 31-51) and
    `matmult_vp_notrans` (lines 91-112) on the state `(C, Cc, Bc)`, with the `k`
    loop `for (k = klo; k < khi; k++)` on an `int` counter and `Ac` reset to the
    offset `a0`; `Cc += M` and `Bc += P` are pointer arithmetic. -/
def jBody32 {α : Type} (ar : Arith α) (iv : Int → Except Fault Int) (fuel : Nat)
    (A B : List α) (alpha : α) (M P R E klo khi a0 : Int) :
    List α × Int × Int → Except Fault (List α × Int × Int)
  | (C, cc, bc) =>
    match forInt iv khi (kBody32 ar iv fuel A B alpha M R E cc) fuel klo (C, bc, a0) with
    | Except.error e => Except.error e
    | Except.ok (C1, _, _) => Except.ok (C1, cc + M, bc + P)

/-- The function `matmult_block_notrans` (`matmult.c`, lines 14-53) with machine
    integers: `iv` stores every computed `int` value, here `S*M`, `S*M+R`, `S*P`
    and the incremented loop counters `j`, `k`, `i`. -/
def matmult_block_notrans32 {α : Type} (ar : Arith α) (iv : Int → Except Fault Int)
    (fuel : Nat) (C A B : List α) (alpha : α) (M N P S L R E : Int) : Except Fault (List α) :=
  let _unused := N
  match iv (S * M) with
  | Except.error e => Except.error e
  | Except.ok sm =>
    match iv (sm + R) with
    | Except.error e => Except.error e
    | Except.ok cc0 =>
      match iv (S * P) with
      | Except.error e => Except.error e
      | Except.ok bc0 =>
        match forInt iv L (jBody32 ar iv fuel A B alpha M P R E 0 P R) fuel S (C, cc0, bc0) with
        | Except.error e => Except.error e
        | Except.ok (C1, _, _) => Except.ok C1

/-- The body of the `while` loop of `matmult_vp_notrans` (lines 86-113) with
    machine integers: `S*M`, `S*M+R`, `S*P`, `S*P+vpS`, `vpS*M`, `vpS*M+R` and the
    incremented loop counters are stored by `iv`. -/
def vpBody32 {α : Type} (ar : Arith α) (iv : Int → Except Fault Int) (fuel : Nat)
    (A B : List α) (alpha : α) (M P S L R E : Int) (vpS vpL : Int) (C : List α) :
    Except Fault (List α) :=
  match iv (S * M) with
  | Except.error e => Except.error e
  | Except.ok sm =>
    match iv (sm + R) with
    | Except.error e => Except.error e
    | Except.ok cc0 =>
      match iv (S * P) with
      | Except.error e => Except.error e
      | Except.ok sp =>
        match iv (sp + vpS) with
        | Except.error e => Except.error e
        | Except.ok bc0 =>
          match iv (vpS * M) with
          | Except.error e => Except.error e
          | Except.ok vm =>
            match iv (vm + R) with
            | Except.error e => Except.error e
            | Except.ok a0 =>
              match forInt iv L (jBody32 ar iv fuel A B alpha M P R E vpS vpL a0) fuel S
                  (C, cc0, bc0) with
              | Except.error e => Except.error e
              | Except.ok (C1, _, _) => Except.ok C1

/-- The `while` loop of `matmult_vp_notrans` (lines 85-120) with machine
    integers: `vpL += vlen` is stored by `iv`. -/
def vpWhile32 {σ : Type} (iv : Int → Except Fault Int)
    (body : Int → Int → σ → Except Fault σ) (P vlen : Int) :
    Nat → Int → Int → σ → Except Fault σ
  | 0, _, _, _ => Except.error Fault.outOfFuel
  | fuel + 1, vpS, vpL, s =>
    if vpS < P then
      match body vpS vpL s with
      | Except.error e => Except.error e
      | Except.ok s1 =>
        match iv (vpL + vlen) with
        | Except.error e => Except.error e
        | Except.ok vpL1 =>
          vpWhile32 iv body P vlen fuel vpL (if vpL1 > P then P else vpL1) s1
    else Except.ok s

/-- The function `matmult_vp_notrans` (`matmult.c`, lines 69-121) with machine
    integers. -/
def matmult_vp_notrans32 {α : Type} (ar : Arith α) (iv : Int → Except Fault Int)
    (fuel : Nat) (C A B : List α) (alpha : α) (M N P S L R E vlen : Int) :
    Except Fault (List α) :=
  let _unused := N
  let vlen1 := if vlen = 0 then VLEN_DEFAULT else vlen
  let vpS := 0
  let vpL := if vlen1 < P then vlen1 else P
  vpWhile32 iv (vpBody32 ar iv fuel A B alpha M P S L R E) P vlen1 fuel vpS vpL C

/-- The body `C[cr] += A[ar]*beta; cr++; ar++;` of the row loop of `mat_mult`
    on the state `(C, cr, ar)`: `cr` and `ar` are `int` indices, their
    increments are stored by `iv`. -/
def mmRowBody32 {α : Type} (ar : Arith α) (iv : Int → Except Fault Int) (A : List α)
    (beta : α) : List α × Int × Int → Except Fault (List α × Int × Int)
  | (C, cr, a) =>
    match deref (rd C cr) with
    | Except.error e => Except.error e
    | Except.ok c =>
      match deref (rd A a) with
      | Except.error e => Except.error e
      | Except.ok x =>
        match deref (wr C cr (ar.add c (ar.mul x beta))) with
        | Except.error e => Except.error e
        | Except.ok C1 =>
          match iv (cr + 1) with
          | Except.error e => Except.error e
          | Except.ok cr1 =>
            match iv (a + 1) with
            | Except.error e => Except.error e
            | Except.ok a1 => Except.ok (C1, cr1, a1)

/-- The body of the `k` loop of `mat_mult` (`mult.c`, lines 22-41) on the state
    `(C, ar, br)`: `ar += M` and `br++` are stored by `iv`. -/
def mmKBody32 {α : Type} (ar : Arith α) (iv : Int → Except Fault Int) (fuel : Nat)
    (A B : List α) (M : Int) (cc : Int) :
    List α × Int × Int → Except Fault (List α × Int × Int)
  | (C, a, br) =>
    match deref (rd B br) with
    | Except.error e => Except.error e
    | Except.ok beta =>
      if ar.isZero beta then
        match iv (a + M) with
        | Except.error e => Except.error e
        | Except.ok a1 =>
          match iv (br + 1) with
          | Except.error e => Except.error e
          | Except.ok br1 => Except.ok (C, a1, br1)
      else
        match forInt iv M (mmRowBody32 ar iv A beta) fuel 0 (C, cc, a) with
        | Except.error e => Except.error e
        | Except.ok (C1, _, a1) =>
          match iv (br + 1) with
          | Except.error e => Except.error e
          | Except.ok br1 => Except.ok (C1, a1, br1)

/-- The body of the column loop of `mat_mult` (`mult.c`, lines 20-44) on the
    state `(C, cc, br)`: `ar = 0`, the `k` loop, `cc += M` stored by `iv`. -/
def mmJBody32 {α : Type} (ar : Arith α) (iv : Int → Except Fault Int) (fuel : Nat)
    (A B : List α) (M P : Int) : List α × Int × Int → Except Fault (List α × Int × Int)
  | (C, cc, br) =>
    match forInt iv P (mmKBody32 ar iv fuel A B M cc) fuel 0 (C, 0, br) with
    | Except.error e => Except.error e
    | Except.ok (C1, _, br1) =>
      match iv (cc + M) with
      | Except.error e => Except.error e
      | Except.ok cc1 => Except.ok (C1, cc1, br1)

/-- The function `mat_mult` (`mult.c`, lines 14-46) with machine integers: `iv`
    stores `S*M`, `S*P`, the updated `cc`, `cr`, `ar`, `br` and the incremented
    loop counters. -/
def mat_mult32 {α : Type} (ar : Arith α) (iv : Int → Except Fault Int) (fuel : Nat)
    (S N M P : Int) (C A B : List α) : Except Fault (List α) :=
  match iv (S * M) with
  | Except.error e => Except.error e
  | Except.ok cc0 =>
    match iv (S * P) with
    | Except.error e => Except.error e
    | Except.ok br0 =>
      match forInt iv N (mmJBody32 ar iv fuel A B M P) fuel S (C, cc0, br0) with
      | Except.error e => Except.error e
      | Except.ok (C1, _, _) => Except.ok C1

/-- The loop body `body` run `n` times in succession. -/
def iterE {σ : Type} (body : σ → Except Fault σ) : Nat → σ → Except Fault σ
  | 0, s => Except.ok s
  | n + 1, s =>
    match body s with
    | Except.error e => Except.error e
    | Except.ok s1 => iterE body n s1

/-- A store of computed `int` values that is exact on `[0, INT_MAX]`: it keeps
    every value of that range as it is.  Both `checked32` and `wrapped32` are
    such stores. -/
def ExactStore (iv : Int → Except Fault Int) : Prop :=
  ∀ x, 0 ≤ x → x ≤ INT_MAX → iv x = Except.ok x

/-- The sizes `M*N`, `M*P`, `P*N` of the three buffers are at most `INT_MAX`. -/
def SizesFit (M N P : Int) : Prop :=
  M * N ≤ INT_MAX ∧ M * P ≤ INT_MAX ∧ P * N ≤ INT_MAX

instance (M N P : Int) : Decidable (SizesFit M N P) := by
  unfold SizesFit; infer_instance

/-- The fuel given to every loop of a run exceeds `M`, `N` and `P`, the largest
    iteration counts. -/
def EnoughFuel (fuel : Nat) (M N P : Int) : Prop :=
  M.toNat < fuel ∧ N.toNat < fuel ∧ P.toNat < fuel

instance (fuel : Nat) (M N P : Int) : Decidable (EnoughFuel fuel M N P) := by
  unfold EnoughFuel; infer_instance

/-- The control skeleton of `matmult_vp_notrans32` (lines 80-85 and 115-120)
    around an arbitrary loop body. -/
def vpDriver32 {σ : Type} (iv : Int → Except Fault Int)
    (body : Int → Int → σ → Except Fault σ) (fuel : Nat) (P vlen : Int) (s : σ) :
    Except Fault σ :=
  let vlen1 := if vlen = 0 then VLEN_DEFAULT else vlen
  let vpS := 0
  let vpL := if vlen1 < P then vlen1 else P
  vpWhile32 iv body P vlen1 fuel vpS vpL s

/-- A loop body that only records the chunk `(vpS, vpL)` it is run with. -/
def recordChunk32 (vpS vpL : Int) (tr : List (Int × Int)) : Except Fault (List (Int × Int)) :=
  Except.ok (tr ++ [(vpS, vpL)])

/-- A loop body instrumented to record, after it has run, the chunk
    `(vpS, vpL)` it was run with. -/
def tracedBody32 {σ : Type} (body : Int → Int → σ → Except Fault σ) (vpS vpL : Int)
    (st : σ × List (Int × Int)) : Except Fault (σ × List (Int × Int)) :=
  match body vpS vpL st.1 with
  | Except.ok s1 => Except.ok (s1, st.2 ++ [(vpS, vpL)])
  | Except.error e => Except.error e

/-- The kernel `matmult_vp_notrans32` with the body of its `while` loop
    instrumented: the final `C` together with the `(vpS, vpL)` pairs with which
    the inner loops (lines 86-113) were run, in order. -/
def matmult_vp_notrans32_traced {α : Type} (ar : Arith α) (iv : Int → Except Fault Int)
    (fuel : Nat) (C A B : List α) (alpha : α) (M N P S L R E vlen : Int) :
    Except Fault (List α × List (Int × Int)) :=
  let _unused := N
  vpDriver32 iv (tracedBody32 (vpBody32 ar iv fuel A B alpha M P S L R E)) fuel P vlen (C, [])

/-- The body of the `k` loop of `mat_mult32` instrumented to record, at the
    start of the iteration, the values `(cc, ar, br)`; state `(C, ar, br, log)`.
    Apart from the log it is `mmKBody32`. -/
def mmKBody32Log {α : Type} (ar : Arith α) (iv : Int → Except Fault Int) (fuel : Nat)
    (A B : List α) (M : Int) (cc : Int) :
    List α × Int × Int × List (Int × Int × Int) →
      Except Fault (List α × Int × Int × List (Int × Int × Int))
  | (C, a, br, log) =>
    match mmKBody32 ar iv fuel A B M cc (C, a, br) with
    | Except.error e => Except.error e
    | Except.ok (C1, a1, br1) => Except.ok (C1, a1, br1, log ++ [(cc, a, br)])

/-- The body of the column loop of `mat_mult32` over `mmKBody32Log`; state
    `(C, cc, br, log)`. -/
def mmJBody32Log {α : Type} (ar : Arith α) (iv : Int → Except Fault Int) (fuel : Nat)
    (A B : List α) (M P : Int) :
    List α × Int × Int × List (Int × Int × Int) →
      Except Fault (List α × Int × Int × List (Int × Int × Int))
  | (C, cc, br, log) =>
    match forInt iv P (mmKBody32Log ar iv fuel A B M cc) fuel 0 (C, 0, br, log) with
    | Except.error e => Except.error e
    | Except.ok (C1, _, br1, log1) =>
      match iv (cc + M) with
      | Except.error e => Except.error e
      | Except.ok cc1 => Except.ok (C1, cc1, br1, log1)

/-- The function `mat_mult32` instrumented: the final `C` and, for every inner
    (`k`) iteration in execution order, the values `(cc, ar, br)` at its start. -/
def mat_mult32_traced {α : Type} (ar : Arith α) (iv : Int → Except Fault Int) (fuel : Nat)
    (S N M P : Int) (C A B : List α) : Except Fault (List α × List (Int × Int × Int)) :=
  match iv (S * M) with
  | Except.error e => Except.error e
  | Except.ok cc0 =>
    match iv (S * P) with
    | Except.error e => Except.error e
    | Except.ok br0 =>
      match forInt iv N (mmJBody32Log ar iv fuel A B M P) fuel S (C, cc0, br0, []) with
      | Except.error e => Except.error e
      | Except.ok (C1, _, _, log) => Except.ok (C1, log)

/-- The `while` loop of `matmult_vp_notrans` (lines 85-120) with machine
    integers, as `vpWhile32`, returning also the values of `vpS` and `vpL` on
    exit. -/
def vpWhile32c {σ : Type} (iv : Int → Except Fault Int)
    (body : Int → Int → σ → Except Fault σ) (P vlen : Int) :
    Nat → Int → Int → σ → Except Fault (Int × Int × σ)
  | 0, _, _, _ => Except.error Fault.outOfFuel
  | fuel + 1, vpS, vpL, s =>
    if vpS < P then
      match body vpS vpL s with
      | Except.error e => Except.error e
      | Except.ok s1 =>
        match iv (vpL + vlen) with
        | Except.error e => Except.error e
        | Except.ok vpL1 =>
          vpWhile32c iv body P vlen fuel vpL (if vpL1 > P then P else vpL1) s1
    else Except.ok (vpS, vpL, s)

/-- The control skeleton of `matmult_vp_notrans32` run on `recordChunk32`: on
    exit the final `vpS`, the final `vpL` and the `(vpS, vpL)` pairs of the
    iterations of the `while` loop, in order. -/
def vpChunks32 (iv : Int → Except Fault Int) (fuel : Nat) (P vlen : Int) :
    Except Fault (Int × Int × List (Int × Int)) :=
  let vlen1 := if vlen = 0 then VLEN_DEFAULT else vlen
  let vpS := 0
  let vpL := if vlen1 < P then vlen1 else P
  vpWhile32c iv recordChunk32 P vlen1 fuel vpS vpL []

/-- Test data: a `C` buffer of `3 * INT_MAX` zeros, the size of an
    `INT_MAX x 3` matrix. -/
def largeC : List Int := List.replicate 6442450941 0

/-- Test data: an `A` buffer of `INT_MAX` ones, the size of an `INT_MAX x 1`
    matrix. -/
def largeA : List Int := List.replicate 2147483647 1

/-- Test data: a `B` buffer of `INT_MAX` zeros, the size of an `INT_MAX x 1`
    matrix. -/
def largeZeroB : List Int := List.replicate 2147483647 0

/-- Test data: the `n x n` identity matrix, column-major (`n*n` entries, a one
    where the row index `t % n` equals the column index `t / n`). -/
def identityBuf (n : Nat) : List Int :=
  (List.range (n * n)).map (fun (t : Nat) => if t / n = t % n then 1 else 0)

/-- Test data: a buffer of `len` entries, all zero except a one at index `p`. -/
def spikeBuf (len p : Nat) : List Int :=
  (List.range len).map (fun (t : Nat) => if t = p then 1 else 0)

/-- Test data: a buffer of `len` zeros. -/
def zeroBuf (len : Nat) : List Int := List.replicate len 0

/-! Facts about buffers, the loops and the kernels. -/

variable {α : Type}

theorem rd_natCast (buf : List α) (n : ℕ) : rd buf (n : ℤ) = buf[n]? := by
  simp [rd]

theorem wr_natCast (buf : List α) (n : ℕ) (v : α) (h : n < buf.length) :
    wr buf (n : ℤ) v = some (buf.set n v) := by
  simp [wr, h]

theorem getElem?_eq_some_getD (buf : List α) (n : ℕ) (d : α) (h : n < buf.length) :
    buf[n]? = some (buf.getD n d) := by
  simp [List.getD_eq_getElem?_getD, List.getElem?_eq_getElem h]

theorem getD_set_self (buf : List α) (n : ℕ) (v d : α) (h : n < buf.length) :
    (buf.set n v).getD n d = v := by
  simp [List.getD_eq_getElem?_getD, h]

theorem getD_set_other (buf : List α) (n t : ℕ) (v d : α) (h : n ≠ t) :
    (buf.set n v).getD t d = buf.getD t d := by
  simp [List.getD_eq_getElem?_getD, List.getElem?_set_ne h]

theorem rowLoop_spec (ar : Arith α) (A : List α) (coeff d : α) :
    ∀ (n c a : ℕ) (C : List α), c + n ≤ C.length → a + n ≤ A.length →
      ∃ C', rowLoop ar A coeff n (c : ℤ) (a : ℤ) C = some C' ∧ C'.length = C.length ∧
        (∀ t, t < c ∨ c + n ≤ t → C'.getD t d = C.getD t d) ∧
        (∀ i, i < n → C'.getD (c + i) d
            = ar.add (C.getD (c + i) d) (ar.mul (A.getD (a + i) d) coeff)) := by
  intro n
  induction n with
  | zero =>
    intro c a C _ _
    exact ⟨C, rfl, rfl, fun _ _ => rfl, fun i hi => absurd hi (Nat.not_lt_zero i)⟩
  | succ n ih =>
    intro c a C hc ha
    have hc1 : c < C.length := by omega
    have ha1 : a < A.length := by omega
    obtain ⟨C', hrun, hlen, hframe, hupd⟩ :=
      ih (c + 1) (a + 1) (C.set c (ar.add (C.getD c d) (ar.mul (A.getD a d) coeff)))
        (by simp; omega) (by omega)
    refine ⟨C', ?_, ?_, ?_, ?_⟩
    · simp only [rowLoop, rd_natCast, getElem?_eq_some_getD A a d ha1,
        getElem?_eq_some_getD C c d hc1, wr_natCast _ _ _ hc1]
      exact_mod_cast hrun
    · simpa using hlen
    · intro t ht
      rw [hframe t (by omega), getD_set_other _ _ _ _ _ (by omega)]
    · intro i hi
      rcases Nat.eq_zero_or_pos i with h0 | hpos
      · subst h0
        rw [Nat.add_zero, Nat.add_zero, hframe c (by omega), getD_set_self _ _ _ _ hc1]
      · have := hupd (i - 1) (by omega)
        rw [show c + 1 + (i - 1) = c + i by omega, show a + 1 + (i - 1) = a + i by omega] at this
        rw [this, getD_set_other _ _ _ _ _ (by omega)]

theorem kLoop_eq_kLoopG (ar : Arith α) (A B : List α) (alpha : α) (M : ℤ) (rows : ℕ) (cc : ℤ) :
    ∀ (n : ℕ) (br ac : ℤ) (C : List α),
      kLoop ar A B alpha M rows cc n br ac C
        = kLoopG ar (fun b => ar.mul b alpha) A B M rows cc n br ac C := by
  intro n
  induction n with
  | zero => intros; rfl
  | succ n ih =>
    intro br ac C
    simp only [kLoop, kLoopG, ih]

theorem jLoop_eq_jLoopG (ar : Arith α) (A B : List α) (alpha : α) (M P : ℤ) (rows kcount : ℕ)
    (a0 : ℤ) : ∀ (n : ℕ) (cc bc : ℤ) (C : List α),
      jLoop ar A B alpha M P rows kcount a0 n cc bc C
        = jLoopG ar (fun b => ar.mul b alpha) A B M P rows kcount a0 n cc bc C := by
  intro n
  induction n with
  | zero => intros; rfl
  | succ n ih =>
    intro cc bc C
    simp only [jLoop, jLoopG, ih, kLoop_eq_kLoopG]

theorem kLoopG_spec (ar : Arith α) (coef : α → α) (A B : List α) (d : α) (M rows cc : ℕ) :
    ∀ (n br ac : ℕ) (C : List α), cc + rows ≤ C.length → br + n ≤ B.length →
      (∀ k, k < n → ac + k * M + rows ≤ A.length) →
      ∃ C', kLoopG ar coef A B (M : ℤ) rows (cc : ℤ) n (br : ℤ) (ac : ℤ) C = some C' ∧
        C'.length = C.length ∧
        (∀ t, t < cc ∨ cc + rows ≤ t → C'.getD t d = C.getD t d) ∧
        (∀ i, i < rows → C'.getD (cc + i) d
            = cellFold ar coef A B d M n (ac + i) br (C.getD (cc + i) d)) := by
  intro n
  induction n with
  | zero =>
    intro br ac C _ _ _
    exact ⟨C, rfl, rfl, fun _ _ => rfl, fun _ _ => rfl⟩
  | succ n ih =>
    intro br ac C hc hb ha
    have hb1 : br < B.length := by omega
    have ha' : ∀ k, k < n → (ac + M) + k * M + rows ≤ A.length := by
      intro k hk
      have := ha (k + 1) (by omega)
      rw [Nat.succ_mul] at this
      omega
    have hcast1 : (br : ℤ) + 1 = ((br + 1 : ℕ) : ℤ) := by push_cast; rfl
    have hcast2 : (ac : ℤ) + (M : ℤ) = ((ac + M : ℕ) : ℤ) := by push_cast; rfl
    simp only [kLoopG, rd_natCast, getElem?_eq_some_getD B br d hb1, hcast1, hcast2]
    by_cases hz : ar.isZero (B.getD br d) = true
    · obtain ⟨C', hrun, hlen, hframe, hupd⟩ := ih (br + 1) (ac + M) C hc (by omega) ha'
      refine ⟨C', ?_, hlen, hframe, ?_⟩
      · rw [if_pos hz]; exact hrun
      · intro i hi
        rw [hupd i hi, cellFold, cellStep, if_pos hz, Nat.add_right_comm]
    · obtain ⟨C1, hrun1, hlen1, hframe1, hupd1⟩ :=
        rowLoop_spec ar A (coef (B.getD br d)) d rows cc ac C hc
          (by have := ha 0 (by omega); omega)
      obtain ⟨C', hrun, hlen, hframe, hupd⟩ :=
        ih (br + 1) (ac + M) C1 (by omega) (by omega) ha'
      refine ⟨C', ?_, by omega, ?_, ?_⟩
      · rw [if_neg hz, hrun1]; exact hrun
      · intro t ht
        rw [hframe t ht, hframe1 t ht]
      · intro i hi
        rw [hupd i hi, hupd1 i hi, cellFold, cellStep, if_neg hz, Nat.add_right_comm]

theorem jLoopG_spec (ar : Arith α) (coef : α → α) (A B : List α) (d : α)
    (M P rows kcount a0 : ℕ) (hrows : rows ≤ M)
    (hA : ∀ k, k < kcount → a0 + k * M + rows ≤ A.length) :
    ∀ (n cc bc : ℕ) (C : List α), (∀ j, j < n → cc + j * M + rows ≤ C.length) →
      (∀ j, j < n → bc + j * P + kcount ≤ B.length) →
      ∃ C', jLoopG ar coef A B (M : ℤ) (P : ℤ) rows kcount (a0 : ℤ) n (cc : ℤ) (bc : ℤ) C
          = some C' ∧
        C'.length = C.length ∧
        (∀ t, (∀ j, j < n → t < cc + j * M ∨ cc + j * M + rows ≤ t) →
          C'.getD t d = C.getD t d) ∧
        (∀ j i, j < n → i < rows → C'.getD (cc + j * M + i) d
            = cellFold ar coef A B d M kcount (a0 + i) (bc + j * P)
                (C.getD (cc + j * M + i) d)) := by
  intro n
  induction n with
  | zero =>
    intro cc bc C _ _
    exact ⟨C, rfl, rfl, fun _ _ => rfl, fun j _ hj _ => absurd hj (Nat.not_lt_zero j)⟩
  | succ n ih =>
    intro cc bc C hC hB
    have hC0 := hC 0 (by omega)
    have hB0 := hB 0 (by omega)
    simp only [Nat.zero_mul, Nat.add_zero] at hC0 hB0
    obtain ⟨C1, hrun1, hlen1, hframe1, hupd1⟩ :=
      kLoopG_spec ar coef A B d M rows cc kcount bc a0 C hC0 hB0 hA
    have hC' : ∀ j, j < n → (cc + M) + j * M + rows ≤ C1.length := by
      intro j hj
      have := hC (j + 1) (by omega)
      rw [Nat.succ_mul] at this
      omega
    have hB' : ∀ j, j < n → (bc + P) + j * P + kcount ≤ B.length := by
      intro j hj
      have := hB (j + 1) (by omega)
      rw [Nat.succ_mul] at this
      omega
    obtain ⟨C', hrun, hlen, hframe, hupd⟩ := ih (cc + M) (bc + P) C1 hC' hB'
    have hcast1 : (cc : ℤ) + (M : ℤ) = ((cc + M : ℕ) : ℤ) := by push_cast; rfl
    have hcast2 : (bc : ℤ) + (P : ℤ) = ((bc + P : ℕ) : ℤ) := by push_cast; rfl
    refine ⟨C', ?_, by omega, ?_, ?_⟩
    · simp only [jLoopG, hrun1, hcast1, hcast2]
      exact hrun
    · intro t ht
      have h0 := ht 0 (by omega)
      simp only [Nat.zero_mul, Nat.add_zero] at h0
      rw [hframe t ?_, hframe1 t h0]
      intro j hj
      have := ht (j + 1) (by omega)
      rw [Nat.succ_mul] at this
      omega
    · intro j i hj hi
      rcases Nat.eq_zero_or_pos j with h0 | hpos
      · subst h0
        simp only [Nat.zero_mul, Nat.add_zero]
        rw [hframe (cc + i) ?_, hupd1 i hi]
        intro j _
        left
        omega
      · obtain ⟨j', rfl⟩ : ∃ j', j = j' + 1 := ⟨j - 1, by omega⟩
        have e1 : (j' + 1) * M = j' * M + M := Nat.succ_mul _ _
        have e2 : (j' + 1) * P = j' * P + P := Nat.succ_mul _ _
        have := hupd j' i (by omega) hi
        rw [hframe1 (cc + M + j' * M + i) (by right; omega)] at this
        rw [show cc + (j' + 1) * M + i = cc + M + j' * M + i by omega,
          show bc + (j' + 1) * P = bc + P + j' * P by omega]
        exact this

theorem stride_le {a b : ℕ} (M : ℕ) (h : a + 1 ≤ b) : a * M + M ≤ b * M := by
  have := Nat.mul_le_mul_right M h
  rwa [Nat.succ_mul] at this

theorem panel_spec (ar : Arith α) (coef : α → α) (A B : List α) (d : α)
    (M N P S L R E k0 kn : ℕ) (hRE : R ≤ E) (hEM : E ≤ M) (hSL : S ≤ L) (hLN : L ≤ N)
    (hk : k0 + kn ≤ P) (hA : A.length = M * P) (hB : B.length = P * N)
    (C : List α) (hC : C.length = M * N) :
    ∃ C', jLoopG ar coef A B (M : ℤ) (P : ℤ) (E - R) kn ((k0 * M + R : ℕ) : ℤ) (L - S)
          ((S * M + R : ℕ) : ℤ) ((S * P + k0 : ℕ) : ℤ) C = some C' ∧
      C'.length = C.length ∧
      ∀ i j, i < M → j < N → C'.getD (j * M + i) d
        = if R ≤ i ∧ i < E ∧ S ≤ j ∧ j < L then
            cellFold ar coef A B d M kn (k0 * M + i) (j * P + k0) (C.getD (j * M + i) d)
          else C.getD (j * M + i) d := by
  have hA' : ∀ k, k < kn → (k0 * M + R) + k * M + (E - R) ≤ A.length := by
    intro k hk'
    have := stride_le M (show (k0 + k) + 1 ≤ P by omega)
    rw [Nat.add_mul] at this
    rw [hA, Nat.mul_comm M P]
    omega
  have hC' : ∀ j, j < L - S → (S * M + R) + j * M + (E - R) ≤ C.length := by
    intro j hj
    have := stride_le M (show (S + j) + 1 ≤ N by omega)
    rw [Nat.add_mul] at this
    rw [hC, Nat.mul_comm M N]
    omega
  have hB' : ∀ j, j < L - S → (S * P + k0) + j * P + kn ≤ B.length := by
    intro j hj
    have := stride_le P (show (S + j) + 1 ≤ N by omega)
    rw [Nat.add_mul] at this
    rw [hB, Nat.mul_comm P N]
    omega
  obtain ⟨C', hrun, hlen, hframe, hupd⟩ :=
    jLoopG_spec ar coef A B d M P (E - R) kn (k0 * M + R) (by omega) hA'
      (L - S) (S * M + R) (S * P + k0) C hC' hB'
  refine ⟨C', hrun, hlen, ?_⟩
  intro i j hi hj
  split_ifs with hreg
  · obtain ⟨h1, h2, h3, h4⟩ := hreg
    have := hupd (j - S) (i - R) (by omega) (by omega)
    have e1 : j * M = S * M + (j - S) * M := by
      rw [← Nat.add_mul]; congr 1; omega
    have e2 : j * P = S * P + (j - S) * P := by
      rw [← Nat.add_mul]; congr 1; omega
    rw [show S * M + R + (j - S) * M + (i - R) = j * M + i by omega,
      show k0 * M + R + (i - R) = k0 * M + i by omega,
      show S * P + k0 + (j - S) * P = j * P + k0 by omega] at this
    exact this
  · apply hframe
    intro j' hj'
    have e : (S + j') * M = S * M + j' * M := Nat.add_mul _ _ _
    rcases Nat.lt_trichotomy j (S + j') with hlt | heq | hgt
    · left
      have := stride_le M (show j + 1 ≤ S + j' by omega)
      omega
    · have e3 : j * M = S * M + j' * M := by rw [heq, e]
      have : ¬ (R ≤ i ∧ i < E) := fun h => hreg ⟨h.1, h.2, by omega, by omega⟩
      by_cases hi' : i < R
      · left; omega
      · right; omega
    · right
      have := stride_le M (show (S + j') + 1 ≤ j by omega)
      omega

theorem cellFold_add (ar : Arith α) (coef : α → α) (A B : List α) (d : α) (M : ℕ) :
    ∀ (n m a b : ℕ) (c : α),
      cellFold ar coef A B d M (n + m) a b c
        = cellFold ar coef A B d M m (a + n * M) (b + n) (cellFold ar coef A B d M n a b c) := by
  intro n
  induction n with
  | zero => intro m a b c; simp [cellFold]
  | succ n ih =>
    intro m a b c
    rw [show n + 1 + m = (n + m) + 1 by omega, cellFold, ih, cellFold, Nat.succ_mul]
    congr 1 <;> omega

theorem cellFold_exact {R : Type} [CommRing R] [DecidableEq R] (alpha : R) (A B : List R)
    (M : ℕ) : ∀ (n a b : ℕ) (c : R),
      cellFold (exactArith R) (fun x => (exactArith R).mul x alpha) A B 0 M n a b c
        = c + alpha * ∑ k ∈ Finset.range n, A.getD (a + k * M) 0 * B.getD (b + k) 0 := by
  intro n
  induction n with
  | zero => intro a b c; simp [cellFold]
  | succ n ih =>
    intro a b c
    rw [cellFold, ih, Finset.sum_range_succ', cellStep]
    have e : ∀ k, a + M + k * M = a + (k + 1) * M := fun k => by rw [Nat.succ_mul]; omega
    have e2 : ∀ k, b + 1 + k = b + (k + 1) := fun k => by omega
    simp only [e, e2, exactArith, decide_eq_true_eq, Nat.zero_mul, Nat.add_zero]
    split_ifs with hz
    · rw [hz]; ring
    · ring

theorem list_eq_of_cells (M N : ℕ) (d : α) (l1 l2 : List α) (h1 : l1.length = M * N)
    (h2 : l2.length = M * N)
    (h : ∀ i j, i < M → j < N → l1.getD (j * M + i) d = l2.getD (j * M + i) d) : l1 = l2 := by
  apply List.ext_getElem (by omega)
  intro t ht1 ht2
  have hM : 0 < M := by
    rcases Nat.eq_zero_or_pos M with h0 | h0
    · subst h0; simp at h1; omega
    · exact h0
  have := h (t % M) (t / M) (Nat.mod_lt _ hM)
    (by rw [Nat.div_lt_iff_lt_mul hM, Nat.mul_comm]; omega)
  rw [Nat.div_add_mod' t M, List.getD_eq_getElem _ _ ht1, List.getD_eq_getElem _ _ ht2] at this
  exact this

theorem vpWhile_inv {σ : Type} (body : ℤ → ℤ → σ → Option σ) (P vlen : ℤ) (hv : 1 ≤ vlen)
    (Inv : ℤ → σ → Prop)
    (hbody : ∀ vpS vpL s, 0 ≤ vpS → vpS < vpL → vpL ≤ P → vpL = min (vpS + vlen) P →
      Inv vpS s → ∃ s', body vpS vpL s = some s' ∧ Inv vpL s') :
    ∀ (fuel : ℕ) (vpS : ℤ) (s : σ), 0 ≤ vpS → vpS ≤ P → (P - vpS).toNat < fuel → Inv vpS s →
      ∃ s', vpWhile body P vlen fuel vpS (min (vpS + vlen) P) s = Outcome.done (P, P, s') ∧
        Inv P s' := by
  intro fuel
  induction fuel with
  | zero => intro vpS s _ _ hf _; omega
  | succ fuel ih =>
    intro vpS s h0 hP hf hI
    by_cases hlt : vpS < P
    · obtain ⟨s', hb, hI'⟩ :=
        hbody vpS (min (vpS + vlen) P) s h0 (by omega) (by omega) rfl hI
      obtain ⟨s'', hrun, hI''⟩ :=
        ih (min (vpS + vlen) P) s' (by omega) (by omega) (by omega) hI'
      refine ⟨s'', ?_, hI''⟩
      rw [vpWhile, if_pos hlt, hb]
      simp only
      have e : (if min (vpS + vlen) P + vlen > P then P else min (vpS + vlen) P + vlen)
          = min (min (vpS + vlen) P + vlen) P := by
        split_ifs <;> omega
      rw [e]
      exact hrun
    · have e : vpS = P := by omega
      have e2 : min (vpS + vlen) P = P := by omega
      refine ⟨s, ?_, e ▸ hI⟩
      rw [vpWhile, if_neg hlt, e2, e]

theorem vpBody_natCast (ar : Arith α) (A B : List α) (alpha : α) (M P S L R E k0 k1 : ℕ)
    (C : List α) :
    vpBody ar A B alpha (M : ℤ) (P : ℤ) (S : ℤ) (L : ℤ) (R : ℤ) (E : ℤ) (k0 : ℤ) (k1 : ℤ) C
      = jLoopG ar (fun b => ar.mul b alpha) A B (M : ℤ) (P : ℤ) (E - R) (k1 - k0)
          ((k0 * M + R : ℕ) : ℤ) (L - S) ((S * M + R : ℕ) : ℤ) ((S * P + k0 : ℕ) : ℤ) C := by
  have h1 : ((E : ℤ) - (R : ℤ)).toNat = E - R := by omega
  have h2 : ((k1 : ℤ) - (k0 : ℤ)).toNat = k1 - k0 := by omega
  have h3 : ((L : ℤ) - (S : ℤ)).toNat = L - S := by omega
  rw [vpBody, jLoop_eq_jLoopG, h1, h2, h3]
  push_cast
  rfl

theorem block_natCast (ar : Arith α) (C A B : List α) (alpha : α) (M N P S L R E : ℕ) :
    matmult_block_notrans ar C A B alpha (M : ℤ) (N : ℤ) (P : ℤ) (S : ℤ) (L : ℤ) (R : ℤ) (E : ℤ)
      = jLoopG ar (fun b => ar.mul b alpha) A B (M : ℤ) (P : ℤ) (E - R) (P - 0)
          ((0 * M + R : ℕ) : ℤ) (L - S) ((S * M + R : ℕ) : ℤ) ((S * P + 0 : ℕ) : ℤ) C := by
  have h := vpBody_natCast ar A B alpha M P S L R E 0 P C
  rw [← h, vpBody, matmult_block_notrans]
  simp

/-- Nat-level characterisation of the block kernel. -/
theorem block_nat (ar : Arith α) (C A B : List α) (alpha d : α) (M N P S L R E : ℕ)
    (hRE : R ≤ E) (hEM : E ≤ M) (hSL : S ≤ L) (hLN : L ≤ N)
    (hC : C.length = M * N) (hA : A.length = M * P) (hB : B.length = P * N) :
    ∃ C', matmult_block_notrans ar C A B alpha (M : ℤ) (N : ℤ) (P : ℤ) (S : ℤ) (L : ℤ) (R : ℤ)
          (E : ℤ) = some C' ∧
      C'.length = C.length ∧
      ∀ i j, i < M → j < N → C'.getD (j * M + i) d
        = if R ≤ i ∧ i < E ∧ S ≤ j ∧ j < L then
            cellFold ar (fun b => ar.mul b alpha) A B d M P i (j * P) (C.getD (j * M + i) d)
          else C.getD (j * M + i) d := by
  obtain ⟨C', hrun, hlen, hcells⟩ :=
    panel_spec ar (fun b => ar.mul b alpha) A B d M N P S L R E 0 P hRE hEM hSL hLN (by omega)
      hA hB C hC
  refine ⟨C', ?_, hlen, ?_⟩
  · rw [block_natCast]; exact hrun
  · intro i j hi hj
    have := hcells i j hi hj
    simpa using this

theorem vp_nat (ar : Arith α) (C A B : List α) (alpha d : α) (M N P S L R E : ℕ) (vlen : ℤ)
    (fuel : ℕ) (hv : 0 ≤ vlen) (hf : P < fuel)
    (hRE : R ≤ E) (hEM : E ≤ M) (hSL : S ≤ L) (hLN : L ≤ N)
    (hC : C.length = M * N) (hA : A.length = M * P) (hB : B.length = P * N) :
    ∃ C', matmult_vp_notrans ar fuel C A B alpha (M : ℤ) (N : ℤ) (P : ℤ) (S : ℤ) (L : ℤ) (R : ℤ)
          (E : ℤ) vlen = Outcome.done C' ∧
      C'.length = C.length ∧
      ∀ i j, i < M → j < N → C'.getD (j * M + i) d
        = if R ≤ i ∧ i < E ∧ S ≤ j ∧ j < L then
            cellFold ar (fun b => ar.mul b alpha) A B d M P i (j * P) (C.getD (j * M + i) d)
          else C.getD (j * M + i) d := by
  let Inv : ℤ → List α → Prop := fun vpS C1 =>
    C1.length = C.length ∧
      ∀ i j, i < M → j < N → C1.getD (j * M + i) d
        = if R ≤ i ∧ i < E ∧ S ≤ j ∧ j < L then
            cellFold ar (fun b => ar.mul b alpha) A B d M vpS.toNat i (j * P)
              (C.getD (j * M + i) d)
          else C.getD (j * M + i) d
  obtain ⟨v, hv1, hdrv⟩ : ∃ v : ℤ, 1 ≤ v ∧
      (if vlen = 0 then VLEN_DEFAULT else vlen) = v := by
    by_cases h0 : vlen = 0
    · exact ⟨30, by omega, by simp [h0, VLEN_DEFAULT]⟩
    · exact ⟨vlen, by omega, by simp [h0]⟩
  have hbody : ∀ vpS vpL (C1 : List α), 0 ≤ vpS → vpS < vpL → vpL ≤ (P : ℤ) →
      vpL = min (vpS + v) (P : ℤ) → Inv vpS C1 →
      ∃ C2, vpBody ar A B alpha (M : ℤ) (P : ℤ) (S : ℤ) (L : ℤ) (R : ℤ) (E : ℤ) vpS vpL C1
        = some C2 ∧ Inv vpL C2 := by
    intro vpS vpL C1 h0 hlt hle _ hI
    obtain ⟨k0, rfl⟩ := Int.eq_ofNat_of_zero_le h0
    obtain ⟨k1, rfl⟩ := Int.eq_ofNat_of_zero_le (show 0 ≤ vpL by omega)
    obtain ⟨hlen1, hcells1⟩ := hI
    obtain ⟨C2, hrun, hlen2, hcells2⟩ :=
      panel_spec ar (fun b => ar.mul b alpha) A B d M N P S L R E k0 (k1 - k0) hRE hEM hSL hLN
        (by omega) hA hB C1 (by omega)
    refine ⟨C2, ?_, by omega, ?_⟩
    · rw [vpBody_natCast]; exact hrun
    · intro i j hi hj
      rw [hcells2 i j hi hj, hcells1 i j hi hj]
      split_ifs with hreg
      · have e : k1 = k0 + (k1 - k0) := by omega
        simp only [Int.toNat_ofNat]
        conv_rhs => rw [e, cellFold_add]
        rw [Nat.add_comm i (k0 * M)]
      · rfl
  have hstart : Inv 0 C := by
    refine ⟨rfl, ?_⟩
    intro i j _ _
    simp [cellFold]
  obtain ⟨C', hrun, hlen, hcells⟩ :=
    vpWhile_inv _ (P : ℤ) v hv1 Inv hbody fuel 0 C (by omega) (by omega) (by omega) hstart
  refine ⟨C', ?_, hlen, ?_⟩
  · rw [matmult_vp_notrans, vpDriver]
    simp only [hdrv]
    have e : (if v < (P : ℤ) then v else (P : ℤ)) = min (0 + v) (P : ℤ) := by
      split_ifs <;> omega
    rw [e, hrun]
    rfl
  · intro i j hi hj
    have := hcells i j hi hj
    simpa using this

theorem mmRowLoop_eq (ar : Arith α) (A : List α) (beta : α) :
    ∀ (n : ℕ) (cr a : ℤ) (C : List α),
      mmRowLoop ar A beta n cr a C
        = (rowLoop ar A beta n cr a C).map (fun C' => (C', a + (n : ℤ))) := by
  intro n
  induction n with
  | zero => intro cr a C; simp [mmRowLoop, rowLoop]
  | succ n ih =>
    intro cr a C
    rw [mmRowLoop, rowLoop]
    cases hA : rd A a <;> cases hC : rd C cr <;> simp only [Option.map_none']
    rename_i x c
    cases hw : wr C cr (ar.add c (ar.mul x beta)) <;> simp only [Option.map_none']
    rw [ih]
    congr 1
    funext C'
    push_cast
    congr 1
    ring

theorem mmKLoop_eq (ar : Arith α) (A B : List α) (M : ℤ) (hM : 0 ≤ M) (cc : ℤ) :
    ∀ (n : ℕ) (a br : ℤ) (C : List α),
      mmKLoop ar A B M cc n a br C
        = (kLoopG ar (fun b => b) A B M M.toNat cc n br a C).map
            (fun C' => (C', a + (n : ℤ) * M, br + (n : ℤ))) := by
  intro n
  induction n with
  | zero => intro a br C; simp [mmKLoop, kLoopG]
  | succ n ih =>
    intro a br C
    have e1 : ∀ C' : List α, (C', a + M + (n : ℤ) * M, br + 1 + (n : ℤ))
        = (C', a + ((n + 1 : ℕ) : ℤ) * M, br + ((n + 1 : ℕ) : ℤ)) := by
      intro C'
      push_cast
      congr 2 <;> ring
    rw [mmKLoop, kLoopG]
    cases hB : rd B br with
    | none => rfl
    | some b =>
      simp only
      by_cases hz : ar.isZero b = true
      · rw [if_pos hz, if_pos hz, ih]
        simp only [e1]
      · rw [if_neg hz, if_neg hz, mmRowLoop_eq]
        cases hr : rowLoop ar A b M.toNat cc a C with
        | none => rfl
        | some C1 =>
          simp only [Option.map_some']
          rw [Int.toNat_of_nonneg hM, ih]
          simp only [e1]

theorem mmJLoop_eq (ar : Arith α) (A B : List α) (M P : ℤ) (hM : 0 ≤ M) (hP : 0 ≤ P) :
    ∀ (n : ℕ) (cc br : ℤ) (C : List α),
      mmJLoop ar A B M P n cc br C
        = jLoopG ar (fun b => b) A B M P M.toNat (P - 0).toNat 0 n cc br C := by
  intro n
  induction n with
  | zero => intro cc br C; rfl
  | succ n ih =>
    intro cc br C
    rw [mmJLoop, jLoopG, mmKLoop_eq ar A B M hM]
    cases hk : kLoopG ar (fun b => b) A B M M.toNat cc (P - 0).toNat br 0 C with
    | none => rfl
    | some C1 =>
      simp only [Option.map_some']
      rw [ih]
      congr 1
      rw [Int.sub_zero, Int.toNat_of_nonneg hP]

theorem mat_mult_natCast (ar : Arith α) (C A B : List α) (M N P S : ℕ) :
    mat_mult ar (S : ℤ) (N : ℤ) (M : ℤ) (P : ℤ) C A B
      = jLoopG ar (fun b => b) A B (M : ℤ) (P : ℤ) (M - 0) (P - 0)
          ((0 * M + 0 : ℕ) : ℤ) (N - S) ((S * M + 0 : ℕ) : ℤ) ((S * P + 0 : ℕ) : ℤ) C := by
  have h3 : ((N : ℤ) - (S : ℤ)).toNat = N - S := by omega
  rw [mat_mult, mmJLoop_eq ar A B _ _ (by omega) (by omega), h3]
  simp

theorem mat_mult_nat (ar : Arith α) (C A B : List α) (d : α) (M N P S : ℕ)
    (hSN : S ≤ N) (hC : C.length = M * N) (hA : A.length = M * P) (hB : B.length = P * N) :
    ∃ C', mat_mult ar (S : ℤ) (N : ℤ) (M : ℤ) (P : ℤ) C A B = some C' ∧
      C'.length = C.length ∧
      ∀ i j, i < M → j < N → C'.getD (j * M + i) d
        = if S ≤ j then
            cellFold ar (fun b => b) A B d M P i (j * P) (C.getD (j * M + i) d)
          else C.getD (j * M + i) d := by
  obtain ⟨C', hrun, hlen, hcells⟩ :=
    panel_spec ar (fun b => b) A B d M N P S N 0 M 0 P (by omega) (by omega) hSN (by omega)
      (by omega) hA hB C hC
  refine ⟨C', ?_, hlen, ?_⟩
  · rw [mat_mult_natCast]; exact hrun
  · intro i j hi hj
    have := hcells i j hi hj
    simp only [Nat.zero_mul, Nat.zero_add, Nat.add_zero, Nat.zero_le, true_and, hi, hj] at this
    rw [this]
    simp only [and_true]

theorem cell_natCast (buf : List α) (M i j : ℕ) (d : α) :
    cell buf (M : ℤ) d (i : ℤ) (j : ℤ) = buf.getD (j * M + i) d := by
  have e : (j : ℤ) * (M : ℤ) + (i : ℤ) = ((j * M + i : ℕ) : ℤ) := by push_cast; rfl
  rw [cell, e, rd_natCast, List.getD_eq_getElem?_getD]

theorem rd_eq_of_getD (l1 l2 : List α) (M i j : ℕ) (d : α) (hlen : l1.length = l2.length)
    (h : l1.getD (j * M + i) d = l2.getD (j * M + i) d) :
    rd l1 ((j : ℤ) * (M : ℤ) + (i : ℤ)) = rd l2 ((j : ℤ) * (M : ℤ) + (i : ℤ)) := by
  have e : (j : ℤ) * (M : ℤ) + (i : ℤ) = ((j * M + i : ℕ) : ℤ) := by push_cast; rfl
  rw [e, rd_natCast, rd_natCast]
  by_cases ht : j * M + i < l1.length
  · rw [getElem?_eq_some_getD l1 _ d ht, getElem?_eq_some_getD l2 _ d (by omega), h]
  · rw [List.getElem?_eq_none (by omega), List.getElem?_eq_none (by omega)]

theorem validDims_nat {M N P : ℤ} {C A B : List α} (hd : ValidDims M N P C A B) :
    ∃ m n p : ℕ, M = (m : ℤ) ∧ N = (n : ℤ) ∧ P = (p : ℤ) ∧ 0 < m ∧ 0 < n ∧ 0 < p ∧
      C.length = m * n ∧ A.length = m * p ∧ B.length = p * n := by
  obtain ⟨hM, hN, hP, hC, hA, hB⟩ := hd
  obtain ⟨m, rfl⟩ := Int.eq_ofNat_of_zero_le hM.le
  obtain ⟨n, rfl⟩ := Int.eq_ofNat_of_zero_le hN.le
  obtain ⟨p, rfl⟩ := Int.eq_ofNat_of_zero_le hP.le
  refine ⟨m, n, p, rfl, rfl, rfl, by omega, by omega, by omega, ?_, ?_, ?_⟩
  · exact_mod_cast hC
  · exact_mod_cast hA
  · exact_mod_cast hB

theorem validRegion_nat {m n : ℕ} {S L R E : ℤ} (hr : ValidRegion (m : ℤ) (n : ℤ) S L R E) :
    ∃ s l r e : ℕ, S = (s : ℤ) ∧ L = (l : ℤ) ∧ R = (r : ℤ) ∧ E = (e : ℤ) ∧
      r < e ∧ e ≤ m ∧ s < l ∧ l ≤ n := by
  obtain ⟨hR, hRE, hEM, hS, hSL, hLN⟩ := hr
  obtain ⟨r, rfl⟩ := Int.eq_ofNat_of_zero_le hR
  obtain ⟨e, rfl⟩ := Int.eq_ofNat_of_zero_le (show 0 ≤ E by omega)
  obtain ⟨s, rfl⟩ := Int.eq_ofNat_of_zero_le hS
  obtain ⟨l, rfl⟩ := Int.eq_ofNat_of_zero_le (show 0 ≤ L by omega)
  exact ⟨s, l, r, e, rfl, rfl, rfl, rfl, by omega, by omega, by omega, by omega⟩

/-- In exact arithmetic the accumulated cell is the cell plus `alpha` times
    the dot product of row `i` of `A` and column `j` of `B`. -/
theorem cellFold_exact_cells {K : Type} [CommRing K] [DecidableEq K] (alpha : K)
    (A B : List K) (M P i j : ℕ) (c : K) :
    cellFold (exactArith K) (fun x => (exactArith K).mul x alpha) A B 0 M P i (j * P) c
      = c + alpha * ∑ k ∈ Finset.range ((P : ℤ).toNat),
          cell A (M : ℤ) 0 (i : ℤ) (k : ℤ) * cell B (P : ℤ) 0 (k : ℤ) (j : ℤ) := by
  rw [cellFold_exact, Int.toNat_ofNat]
  congr 2
  apply Finset.sum_congr rfl
  intro k _
  rw [cell_natCast, cell_natCast, Nat.add_comm i (k * M)]

theorem exact_mul_one {K : Type} [CommRing K] [DecidableEq K] :
    (fun x : K => (exactArith K).mul x 1) = fun x => x := by
  funext x
  simp [exactArith]

/-- On unbounded integers (the auxiliary model). Sub-block kernel postcondition in exact arithmetic: with positive
    dimensions, buffers of sizes `M*N`, `M*P`, `P*N` and a valid region,
    `matmult_block_notrans` returns a buffer `C'` in which every cell `(i, j)`
    of the region `[R,E) x [S,L)` holds
    `C[j*M+i] + alpha * sum over k in [0,P) of A[k*M+i] * B[j*P+k]`. -/
theorem matmult_block_notrans_postcondition {K : Type} [CommRing K] [DecidableEq K]
    (M N P S L R E : ℤ) (alpha : K) (C A B : List K)
    (hd : ValidDims M N P C A B) (hr : ValidRegion M N S L R E) :
    ∃ C', matmult_block_notrans (exactArith K) C A B alpha M N P S L R E = some C' ∧
      ∀ i j : ℤ, R ≤ i → i < E → S ≤ j → j < L →
        cell C' M 0 i j
          = cell C M 0 i j
            + alpha * ∑ k ∈ Finset.range P.toNat, cell A M 0 i (k : ℤ) * cell B P 0 (k : ℤ) j := by
  obtain ⟨m, n, p, rfl, rfl, rfl, hm, hn, hp, hC, hA, hB⟩ := validDims_nat hd
  obtain ⟨s, l, r, e, rfl, rfl, rfl, rfl, hre, hem, hsl, hln⟩ := validRegion_nat hr
  obtain ⟨C', hrun, hlen, hcells⟩ :=
    block_nat (exactArith K) C A B alpha 0 m n p s l r e hre.le hem hsl.le hln hC hA hB
  refine ⟨C', hrun, ?_⟩
  intro i j hi1 hi2 hj1 hj2
  obtain ⟨i, rfl⟩ := Int.eq_ofNat_of_zero_le (show 0 ≤ i by omega)
  obtain ⟨j, rfl⟩ := Int.eq_ofNat_of_zero_le (show 0 ≤ j by omega)
  rw [cell_natCast, cell_natCast, hcells i j (by omega) (by omega),
    if_pos ⟨by omega, by omega, by omega, by omega⟩, cellFold_exact_cells]

theorem nonempty_of_validDims {m n : ℕ} {C : List α} (hm : 0 < m) (hn : 0 < n)
    (hC : C.length = m * n) : Nonempty α := by
  cases C with
  | nil =>
    have := Nat.mul_pos hm hn
    simp at hC
    omega
  | cons x _ => exact ⟨x⟩

/-- For every arithmetic, every `vlen >= 0` and enough fuel the viewport kernel
    ends with the buffer the block kernel returns. -/
theorem vp_eq_block (ar : Arith α) (M N P S L R E vlen : ℤ) (alpha : α) (C A B : List α)
    (fuel : ℕ) (hd : ValidDims M N P C A B) (hr : ValidRegion M N S L R E)
    (hv : 0 ≤ vlen) (hf : P.toNat < fuel) :
    ∃ C', matmult_block_notrans ar C A B alpha M N P S L R E = some C' ∧
      matmult_vp_notrans ar fuel C A B alpha M N P S L R E vlen = Outcome.done C' := by
  obtain ⟨m, n, p, rfl, rfl, rfl, hm, hn, hp, hC, hA, hB⟩ := validDims_nat hd
  obtain ⟨s, l, r, e, rfl, rfl, rfl, rfl, hre, hem, hsl, hln⟩ := validRegion_nat hr
  obtain ⟨d⟩ := nonempty_of_validDims hm hn hC
  obtain ⟨C1, hrun1, hlen1, hcells1⟩ :=
    block_nat ar C A B alpha d m n p s l r e hre.le hem hsl.le hln hC hA hB
  obtain ⟨C2, hrun2, hlen2, hcells2⟩ :=
    vp_nat ar C A B alpha d m n p s l r e vlen fuel hv (by simpa using hf) hre.le hem hsl.le hln
      hC hA hB
  have : C2 = C1 := by
    apply list_eq_of_cells m n d C2 C1 (by omega) (by omega)
    intro i j hi hj
    rw [hcells1 i j hi hj, hcells2 i j hi hj]
  exact ⟨C1, hrun1, this ▸ hrun2⟩

/-- On unbounded integers (the auxiliary model). Reference kernel postcondition in exact arithmetic: with positive
    dimensions, buffers of sizes `M*N`, `M*P`, `P*N` and `0 <= S < N`,
    `mat_mult` returns a buffer `C'` in which every cell `(i, j)` with
    `0 <= i < M` and `S <= j < N` holds
    `C[j*M+i] + sum over k in [0,P) of A[k*M+i] * B[j*P+k]`, and every cell of a
    column `j < S` is the cell of `C`. -/
theorem mat_mult_postcondition {K : Type} [CommRing K] [DecidableEq K]
    (S N M P : ℤ) (C A B : List K) (hd : ValidDims M N P C A B) (hS : 0 ≤ S) (hSN : S < N) :
    ∃ C', mat_mult (exactArith K) S N M P C A B = some C' ∧
      (∀ i j : ℤ, 0 ≤ i → i < M → S ≤ j → j < N →
        cell C' M 0 i j
          = cell C M 0 i j
            + ∑ k ∈ Finset.range P.toNat, cell A M 0 i (k : ℤ) * cell B P 0 (k : ℤ) j) ∧
      (∀ i j : ℤ, 0 ≤ i → i < M → 0 ≤ j → j < S → cell C' M 0 i j = cell C M 0 i j) := by
  obtain ⟨m, n, p, rfl, rfl, rfl, hm, hn, hp, hC, hA, hB⟩ := validDims_nat hd
  obtain ⟨s, rfl⟩ := Int.eq_ofNat_of_zero_le hS
  obtain ⟨C', hrun, hlen, hcells⟩ :=
    mat_mult_nat (exactArith K) C A B 0 m n p s (by omega) hC hA hB
  refine ⟨C', hrun, ?_, ?_⟩
  · intro i j hi1 hi2 hj1 hj2
    obtain ⟨i, rfl⟩ := Int.eq_ofNat_of_zero_le hi1
    obtain ⟨j, rfl⟩ := Int.eq_ofNat_of_zero_le (show 0 ≤ j by omega)
    rw [cell_natCast, cell_natCast, hcells i j (by omega) (by omega), if_pos (by omega),
      ← exact_mul_one, cellFold_exact_cells, one_mul]
  · intro i j hi1 hi2 hj1 hj2
    obtain ⟨i, rfl⟩ := Int.eq_ofNat_of_zero_le hi1
    obtain ⟨j, rfl⟩ := Int.eq_ofNat_of_zero_le hj1
    rw [cell_natCast, cell_natCast, hcells i j (by omega) (by omega), if_neg (by omega)]

/-- On unbounded integers (the auxiliary model). Region isolation, for every arithmetic: with valid dimensions and
    region, every `alpha`, every `vlen >= 0` and enough fuel, both
    `matmult_block_notrans` and `matmult_vp_notrans` return a buffer in which
    every cell `(i, j)` of the `M x N` matrix outside `[R,E) x [S,L)` reads as it
    did in `C`. -/
theorem region_isolation (ar : Arith α) (M N P S L R E vlen : ℤ) (alpha : α)
    (C A B : List α) (fuel : ℕ) (hd : ValidDims M N P C A B) (hr : ValidRegion M N S L R E)
    (hv : 0 ≤ vlen) (hf : P.toNat < fuel) :
    ∃ C1 C2, matmult_block_notrans ar C A B alpha M N P S L R E = some C1 ∧
      matmult_vp_notrans ar fuel C A B alpha M N P S L R E vlen = Outcome.done C2 ∧
      ∀ i j : ℤ, 0 ≤ i → i < M → 0 ≤ j → j < N → ¬ (R ≤ i ∧ i < E ∧ S ≤ j ∧ j < L) →
        rd C1 (j * M + i) = rd C (j * M + i) ∧ rd C2 (j * M + i) = rd C (j * M + i) := by
  obtain ⟨C1, hb, hvp⟩ := vp_eq_block ar M N P S L R E vlen alpha C A B fuel hd hr hv hf
  obtain ⟨m, n, p, rfl, rfl, rfl, hm, hn, hp, hC, hA, hB⟩ := validDims_nat hd
  obtain ⟨s, l, r, e, rfl, rfl, rfl, rfl, hre, hem, hsl, hln⟩ := validRegion_nat hr
  obtain ⟨d⟩ := nonempty_of_validDims hm hn hC
  obtain ⟨C1', hrun1, hlen1, hcells1⟩ :=
    block_nat ar C A B alpha d m n p s l r e hre.le hem hsl.le hln hC hA hB
  rw [hb] at hrun1
  injection hrun1 with hC1
  subst hC1
  refine ⟨C1, C1, hb, hvp, ?_⟩
  intro i j hi1 hi2 hj1 hj2 hout
  obtain ⟨i, rfl⟩ := Int.eq_ofNat_of_zero_le hi1
  obtain ⟨j, rfl⟩ := Int.eq_ofNat_of_zero_le hj1
  have h := hcells1 i j (by omega) (by omega)
  rw [if_neg (by omega)] at h
  exact ⟨rd_eq_of_getD _ _ m i j d hlen1 h, rd_eq_of_getD _ _ m i j d hlen1 h⟩

theorem vpWhile_fuel_mono {σ : Type} (body : ℤ → ℤ → σ → Option σ) (P vlen : ℤ) :
    ∀ (fuel extra : ℕ) (vpS vpL : ℤ) (s : σ),
      vpWhile body P vlen fuel vpS vpL s ≠ Outcome.outOfFuel →
      vpWhile body P vlen (fuel + extra) vpS vpL s = vpWhile body P vlen fuel vpS vpL s := by
  intro fuel
  induction fuel with
  | zero => intro extra vpS vpL s h; exact absurd rfl h
  | succ fuel ih =>
    intro extra vpS vpL s h
    rw [show fuel + 1 + extra = (fuel + extra) + 1 by omega]
    rw [vpWhile] at h
    conv_lhs => rw [vpWhile]
    conv_rhs => rw [vpWhile]
    by_cases hlt : vpS < P
    · rw [if_pos hlt] at h ⊢
      rw [if_pos hlt]
      cases hb : body vpS vpL s with
      | none => rfl
      | some s1 =>
        rw [hb] at h
        simp only at h ⊢
        rw [ih extra _ _ _ h]
    · rw [if_neg hlt, if_neg hlt]

theorem vp_fuel_mono (ar : Arith α) (fuel extra : ℕ) (C A B : List α) (alpha : α)
    (M N P S L R E vlen : ℤ)
    (h : matmult_vp_notrans ar fuel C A B alpha M N P S L R E vlen ≠ Outcome.outOfFuel) :
    matmult_vp_notrans ar (fuel + extra) C A B alpha M N P S L R E vlen
      = matmult_vp_notrans ar fuel C A B alpha M N P S L R E vlen := by
  simp only [matmult_vp_notrans, vpDriver] at h ⊢
  rw [vpWhile_fuel_mono]
  intro h'
  rw [h'] at h
  exact h rfl

/-- On unbounded integers (the auxiliary model). Bounds safety: with positive dimensions, buffers of lengths exactly
    `M*N`, `M*P`, `P*N`, a valid region (`E = M` and `L = N` allowed) and
    `vlen >= 0`, no dereference of `matmult_block_notrans`, of
    `matmult_vp_notrans` (whatever the fuel; with more than `P` units it runs to
    the end) or, for `0 <= S0 < N`, of `mat_mult` falls outside its buffer. -/
theorem bounds_safety (ar : Arith α) (M N P S L R E vlen : ℤ) (alpha : α)
    (C A B : List α) (hd : ValidDims M N P C A B) (hr : ValidRegion M N S L R E)
    (hv : 0 ≤ vlen) :
    (∃ C1, matmult_block_notrans ar C A B alpha M N P S L R E = some C1) ∧
    (∀ fuel : ℕ, matmult_vp_notrans ar fuel C A B alpha M N P S L R E vlen
        ≠ Outcome.outOfBounds) ∧
    (∀ fuel : ℕ, P.toNat < fuel →
        ∃ C2, matmult_vp_notrans ar fuel C A B alpha M N P S L R E vlen = Outcome.done C2) ∧
    (∀ S0 : ℤ, 0 ≤ S0 → S0 < N → ∃ C3, mat_mult ar S0 N M P C A B = some C3) := by
  have hdone : ∀ fuel : ℕ, P.toNat < fuel →
      ∃ C2, matmult_vp_notrans ar fuel C A B alpha M N P S L R E vlen = Outcome.done C2 := by
    intro fuel hf
    obtain ⟨C1, _, h⟩ := vp_eq_block ar M N P S L R E vlen alpha C A B fuel hd hr hv hf
    exact ⟨C1, h⟩
  refine ⟨?_, ?_, hdone, ?_⟩
  · obtain ⟨C1, h, _⟩ :=
      vp_eq_block ar M N P S L R E vlen alpha C A B (P.toNat + 1) hd hr hv (by omega)
    exact ⟨C1, h⟩
  · intro fuel hoob
    obtain ⟨C2, h2⟩ := hdone (fuel + (P.toNat + 1)) (by omega)
    rw [vp_fuel_mono ar fuel (P.toNat + 1) C A B alpha M N P S L R E vlen
      (by rw [hoob]; exact fun h => Outcome.noConfusion h), hoob] at h2
    exact Outcome.noConfusion h2
  · intro S0 h0 h1
    obtain ⟨m, n, p, rfl, rfl, rfl, hm, hn, hp, hC, hA, hB⟩ := validDims_nat hd
    obtain ⟨s, rfl⟩ := Int.eq_ofNat_of_zero_le h0
    obtain ⟨d⟩ := nonempty_of_validDims hm hn hC
    obtain ⟨C', hrun, _⟩ := mat_mult_nat ar C A B d m n p s (by omega) hC hA hB
    exact ⟨C', hrun⟩

/-- With `vlen = 0` the viewport kernel is, by its first statement, the run
    with `vlen = 30`. -/
theorem vp_default_zero (ar : Arith α) (fuel : ℕ) (C A B : List α) (alpha : α)
    (M N P S L R E : ℤ) :
    matmult_vp_notrans ar fuel C A B alpha M N P S L R E 0
      = matmult_vp_notrans ar fuel C A B alpha M N P S L R E 30 := by
  simp [matmult_vp_notrans, vpDriver, VLEN_DEFAULT]

/-- On unbounded integers (the auxiliary model). For `vlen = 0` (valid dimensions and region, enough fuel)
    `matmult_vp_notrans` substitutes the default 30: it runs to the end and
    ends with exactly the buffer of the call with `vlen = 30`. -/
theorem vp_zero_vlen_is_default (ar : Arith α) (M N P S L R E : ℤ) (alpha : α)
    (C A B : List α) (fuel : ℕ) (hd : ValidDims M N P C A B) (hr : ValidRegion M N S L R E)
    (hf : P.toNat < fuel) :
    ∃ C', matmult_vp_notrans ar fuel C A B alpha M N P S L R E 0 = Outcome.done C' ∧
      matmult_vp_notrans ar fuel C A B alpha M N P S L R E VLEN_DEFAULT = Outcome.done C' := by
  obtain ⟨C', _, h⟩ := vp_eq_block ar M N P S L R E 0 alpha C A B fuel hd hr (by omega) hf
  refine ⟨C', h, ?_⟩
  rw [← h, vp_default_zero]
  rfl

theorem chunkList_succ (v P : ℤ) (m : ℕ) :
    chunkList v P (m + 1) = chunkList v P m ++ [((m : ℤ) * v, min (((m : ℤ) + 1) * v) P)] := by
  simp [chunkList, List.range_succ]

theorem ceil_div_eq (P v : ℤ) (m : ℕ) (hv : 1 ≤ v) (h1 : ((m : ℤ) - 1) * v < P)
    (h2 : P ≤ (m : ℤ) * v) : ((P + v - 1) / v).toNat = m := by
  have e : ((m : ℤ) - 1) * v = (m : ℤ) * v - v := by ring
  have e' : ((m : ℤ) + 1) * v = (m : ℤ) * v + v := by ring
  have a1 : (m : ℤ) ≤ (P + v - 1) / v := by
    rw [Int.le_ediv_iff_mul_le (by omega)]; omega
  have a2 : (P + v - 1) / v < (m : ℤ) + 1 := by
    rw [Int.ediv_lt_iff_lt_mul (by omega)]; omega
  omega

/-- The iterations of the `while` loop of `matmult_vp_notrans`, listed: for
    `P >= 1`, `vlen >= 0` and more than `P` units of fuel the loop exits with
    `vpS = vpL = P` after running the chunks `(c*v, min ((c+1)*v) P)`,
    `c = 0 .. ceil(P/v) - 1`, in that order (`v` the viewport length in effect). -/
theorem vpChunks_eq (P vlen : ℤ) (fuel : ℕ) (hP : 1 ≤ P) (hv : 0 ≤ vlen)
    (hf : P.toNat < fuel) :
    vpChunks fuel P vlen
      = Outcome.done (P, P, chunkList (effectiveVlen vlen) P
          ((P + effectiveVlen vlen - 1) / effectiveVlen vlen).toNat) := by
  obtain ⟨v, hv1, hdrv⟩ : ∃ v : ℤ, 1 ≤ v ∧ effectiveVlen vlen = v := by
    by_cases h0 : vlen = 0
    · exact ⟨30, by omega, by simp [effectiveVlen, h0, VLEN_DEFAULT]⟩
    · exact ⟨vlen, by omega, by simp [effectiveVlen, h0]⟩
  rw [hdrv]
  let Inv : ℤ → List (ℤ × ℤ) → Prop := fun vpS tr =>
    ∃ m : ℕ, tr = chunkList v P m ∧ vpS = min ((m : ℤ) * v) P ∧
      (m = 0 ∨ ((m : ℤ) - 1) * v < P)
  have hbody : ∀ vpS vpL (tr : List (ℤ × ℤ)), 0 ≤ vpS → vpS < vpL → vpL ≤ P →
      vpL = min (vpS + v) P → Inv vpS tr →
      ∃ tr', recordChunk vpS vpL tr = some tr' ∧ Inv vpL tr' := by
    intro vpS vpL tr _ hlt hle hL hI
    obtain ⟨m, htr, hS, _⟩ := hI
    have hS' : vpS = (m : ℤ) * v := by omega
    have e : ((m : ℤ) + 1) * v = (m : ℤ) * v + v := by ring
    refine ⟨_, rfl, m + 1, ?_, ?_, ?_⟩
    · rw [chunkList_succ, htr, hL, hS', e]
    · push_cast
      rw [hL, hS', e]
    · right
      have e3 : (((m + 1 : ℕ) : ℤ) - 1) * v = (m : ℤ) * v := by push_cast; ring
      rw [e3]
      omega
  obtain ⟨tr, hrun, m, htr, hPm, hm⟩ :=
    vpWhile_inv recordChunk P v hv1 Inv hbody fuel 0 [] (by omega) (by omega) (by omega)
      ⟨0, rfl, by simp; omega, Or.inl rfl⟩
  have hm0 : m ≠ 0 := by
    rintro rfl
    simp at hPm
    omega
  have hm' : ((m : ℤ) - 1) * v < P := by
    rcases hm with h | h
    · exact absurd h hm0
    · exact h
  have hceil := ceil_div_eq P v m hv1 hm' (by omega)
  rw [hceil, ← htr]
  have e : (if v < P then v else P) = min (0 + v) P := by
    split_ifs <;> omega
  have hdrv' : (if vlen = 0 then VLEN_DEFAULT else vlen) = v := hdrv
  simp only [vpChunks, vpDriver, hdrv']
  rw [e, hrun]

theorem chunkList_length (v P : ℤ) (m : ℕ) : (chunkList v P m).length = m := by
  simp [chunkList]

theorem chunkList_cursors (v P : ℤ) (m : ℕ) (hv : 1 ≤ v) (hm : ((m : ℤ) - 1) * v < P) :
    List.Pairwise (fun a b => a < b) ((chunkList v P m).map Prod.fst ++ [P]) := by
  rw [List.pairwise_append]
  refine ⟨?_, List.pairwise_singleton _ _, ?_⟩
  · rw [chunkList, List.map_map, List.pairwise_map]
    apply List.Pairwise.imp _ (List.pairwise_lt_range m)
    intro a b hab
    simp only [Function.comp]
    have : (a : ℤ) < (b : ℤ) := by exact_mod_cast hab
    exact mul_lt_mul_of_pos_right this (by omega)
  · intro a ha b hb
    simp only [List.mem_singleton] at hb
    rw [hb]
    simp only [chunkList, List.map_map, List.mem_map, List.mem_range, Function.comp] at ha
    obtain ⟨c, hc, rfl⟩ := ha
    have h1 : (c : ℤ) ≤ (m : ℤ) - 1 := by omega
    have h2 := mul_le_mul_of_nonneg_right h1 (show (0 : ℤ) ≤ v by omega)
    show (c : ℤ) * v < P
    omega

theorem effectiveVlen_pos (vlen : ℤ) (hv : 0 ≤ vlen) : 1 ≤ effectiveVlen vlen := by
  unfold effectiveVlen VLEN_DEFAULT
  split_ifs <;> omega

theorem ceil_rat_eq (P v : ℤ) (hv : 1 ≤ v) : ⌈(P : ℚ) / (v : ℚ)⌉ = (P + v - 1) / v := by
  have hv0 : (0 : ℚ) < (v : ℚ) := by exact_mod_cast (show (0 : ℤ) < v by omega)
  have h1 : (P + v - 1) / v * v ≤ P + v - 1 := Int.ediv_mul_le _ (by omega)
  have h2 : P + v - 1 < ((P + v - 1) / v + 1) * v := Int.lt_ediv_add_one_mul_self _ (by omega)
  have e : ((P + v - 1) / v + 1) * v = (P + v - 1) / v * v + v := by ring
  rw [Int.ceil_eq_iff]
  constructor
  · rw [lt_div_iff₀ hv0]
    have : ((P + v - 1) / v - 1) * v < P := by
      have e' : ((P + v - 1) / v - 1) * v = (P + v - 1) / v * v - v := by ring
      omega
    exact_mod_cast this
  · rw [div_le_iff₀ hv0]
    have : P ≤ (P + v - 1) / v * v := by omega
    exact_mod_cast this

theorem chunkList_nonempty_chunks (v P : ℤ) (m : ℕ) (hv : 1 ≤ v)
    (hm : ((m : ℤ) - 1) * v < P) : ∀ p ∈ chunkList v P m, p.1 < p.2 := by
  intro p hp
  simp only [chunkList, List.mem_map, List.mem_range] at hp
  obtain ⟨c, hc, rfl⟩ := hp
  have h1 : (c : ℤ) ≤ (m : ℤ) - 1 := by omega
  have h2 := mul_le_mul_of_nonneg_right h1 (show (0 : ℤ) ≤ v by omega)
  have e : ((c : ℤ) + 1) * v = (c : ℤ) * v + v := by ring
  show (c : ℤ) * v < min (((c : ℤ) + 1) * v) P
  omega

theorem ceil_div_bounds (P v : ℤ) (hP : 1 ≤ P) (hv : 1 ≤ v) :
    ((((P + v - 1) / v).toNat : ℕ) : ℤ) = (P + v - 1) / v ∧
      ((P + v - 1) / v - 1) * v < P := by
  have h1 : (P + v - 1) / v * v ≤ P + v - 1 := Int.ediv_mul_le _ (by omega)
  have h0 : 0 ≤ (P + v - 1) / v := Int.ediv_nonneg (by omega) (by omega)
  have e' : ((P + v - 1) / v - 1) * v = (P + v - 1) / v * v - v := by ring
  exact ⟨Int.toNat_of_nonneg h0, by omega⟩

/-- On unbounded integers (the auxiliary model). Termination of the viewport loop: for `P >= 1`, `vlen >= 0` (`v` the
    length in effect, 30 for `vlen = 0`) and more than `P` units of fuel, the
    `while` loop of `matmult_vp_notrans` runs exactly `ceil(P/v)` iterations
    (one when `v >= P`), every iteration moves the cursor `vpS` to a strictly
    larger value (`vpS < vpL`, the successive cursors followed by the exit value
    form a strictly increasing sequence), and on exit `vpS = P`. -/
theorem vp_loop_terminates (P vlen : ℤ) (fuel : ℕ) (hP : 1 ≤ P) (hv : 0 ≤ vlen)
    (hf : P.toNat < fuel) :
    ∃ vpL tr, vpChunks fuel P vlen = Outcome.done (P, vpL, tr) ∧
      (tr.length : ℤ) = ⌈(P : ℚ) / (effectiveVlen vlen : ℚ)⌉ ∧
      (P ≤ effectiveVlen vlen → tr.length = 1) ∧
      (∀ p ∈ tr, p.1 < p.2) ∧
      List.Pairwise (fun a b => a < b) (tr.map Prod.fst ++ [P]) := by
  have hv1 := effectiveVlen_pos vlen hv
  obtain ⟨hc1, hc2⟩ := ceil_div_bounds P (effectiveVlen vlen) hP hv1
  rw [← hc1] at hc2
  refine ⟨P, _, vpChunks_eq P vlen fuel hP hv hf, ?_, ?_, ?_, ?_⟩
  · rw [chunkList_length, ceil_rat_eq P _ hv1, hc1]
  · intro hle
    rw [chunkList_length]
    exact ceil_div_eq P _ 1 hv1 (by simp; omega) (by simp; omega)
  · exact chunkList_nonempty_chunks _ P _ hv1 hc2
  · exact chunkList_cursors _ P _ hv1 hc2

/-- When multiplying by `alpha` on the right changes nothing, the block kernel
    on the full range is the reference kernel. -/
theorem block_eq_mat_mult (ar : Arith α) (alpha : α) (h1 : ∀ b, ar.mul b alpha = b)
    (M N P : ℤ) (hM : 0 ≤ M) (hP : 0 ≤ P) (C A B : List α) :
    matmult_block_notrans ar C A B alpha M N P 0 N 0 M = mat_mult ar 0 N M P C A B := by
  have hc : (fun b => ar.mul b alpha) = fun b => b := funext h1
  rw [matmult_block_notrans, mat_mult, jLoop_eq_jLoopG, mmJLoop_eq ar A B M P hM hP, hc]
  simp

/-- On unbounded integers (the auxiliary model). In exact arithmetic, for valid dimensions and `alpha = 1`,
    `matmult_block_notrans` on the full range `R = 0`, `E = M`, `S = 0`, `L = N`
    and `mat_mult(0, N, M, P, C, A, B)` return the same buffer. -/
theorem block_full_range_eq_mat_mult {K : Type} [CommRing K] [DecidableEq K]
    (M N P : ℤ) (C A B : List K) (hd : ValidDims M N P C A B) :
    ∃ C', matmult_block_notrans (exactArith K) C A B 1 M N P 0 N 0 M = some C' ∧
      mat_mult (exactArith K) 0 N M P C A B = some C' := by
  have hr : ValidRegion M N 0 N 0 M := by
    obtain ⟨hM, hN, _⟩ := hd
    exact ⟨le_refl _, hM, le_refl _, le_refl _, hN, le_refl _⟩
  obtain ⟨C', h, _⟩ := vp_eq_block (exactArith K) M N P 0 N 0 M 0 1 C A B (P.toNat + 1) hd hr
    (le_refl _) (by omega)
  refine ⟨C', h, ?_⟩
  rw [← block_eq_mat_mult (exactArith K) 1 (fun b => by simp [exactArith]) M N P
    (by have := hd.1; omega) (by have := hd.2.2.1; omega), h]

/-- Two buffers, the second obtained from the first by the same accumulation
    that produced the first from `C`, differ from `C` by twice the first
    difference in every cell. -/
theorem twice_cells {K : Type} [CommRing K] [DecidableEq K] (coef : K → K) (alpha : K)
    (hcoef : coef = fun x => (exactArith K).mul x alpha) (A B C C1 C2 : List K) (m n p : ℕ)
    (reg : ℕ → ℕ → Prop) [∀ i j, Decidable (reg i j)]
    (h1 : ∀ i j, i < m → j < n → C1.getD (j * m + i) 0
        = if reg i j then
            cellFold (exactArith K) coef A B 0 m p i (j * p) (C.getD (j * m + i) 0)
          else C.getD (j * m + i) 0)
    (h2 : ∀ i j, i < m → j < n → C2.getD (j * m + i) 0
        = if reg i j then
            cellFold (exactArith K) coef A B 0 m p i (j * p) (C1.getD (j * m + i) 0)
          else C1.getD (j * m + i) 0) :
    ∀ i j : ℤ, 0 ≤ i → i < (m : ℤ) → 0 ≤ j → j < (n : ℤ) →
      cell C2 (m : ℤ) 0 i j - cell C (m : ℤ) 0 i j
        = 2 * (cell C1 (m : ℤ) 0 i j - cell C (m : ℤ) 0 i j) := by
  intro i j hi1 hi2 hj1 hj2
  obtain ⟨i, rfl⟩ := Int.eq_ofNat_of_zero_le hi1
  obtain ⟨j, rfl⟩ := Int.eq_ofNat_of_zero_le hj1
  subst hcoef
  rw [cell_natCast, cell_natCast, cell_natCast, h2 i j (by omega) (by omega),
    h1 i j (by omega) (by omega)]
  split_ifs
  · rw [cellFold_exact, cellFold_exact]
    ring
  · ring

/-- On unbounded integers (the auxiliary model). Accumulation semantics in exact arithmetic: for valid inputs,
    `vlen >= 0` and enough fuel, each of `matmult_block_notrans`,
    `matmult_vp_notrans` and `mat_mult` can be applied twice in succession to
    `C`, and in every cell of the matrix
    `C_after_twice - C_before = 2 * (C_after_once - C_before)`. -/
theorem accumulation_twice {K : Type} [CommRing K] [DecidableEq K]
    (M N P S L R E vlen : ℤ) (alpha : K) (C A B : List K) (fuel : ℕ)
    (hd : ValidDims M N P C A B) (hr : ValidRegion M N S L R E)
    (hv : 0 ≤ vlen) (hf : P.toNat < fuel) :
    (∃ C1 C2, matmult_block_notrans (exactArith K) C A B alpha M N P S L R E = some C1 ∧
      matmult_block_notrans (exactArith K) C1 A B alpha M N P S L R E = some C2 ∧
      ∀ i j : ℤ, 0 ≤ i → i < M → 0 ≤ j → j < N →
        cell C2 M 0 i j - cell C M 0 i j = 2 * (cell C1 M 0 i j - cell C M 0 i j)) ∧
    (∃ C1 C2,
      matmult_vp_notrans (exactArith K) fuel C A B alpha M N P S L R E vlen = Outcome.done C1 ∧
      matmult_vp_notrans (exactArith K) fuel C1 A B alpha M N P S L R E vlen = Outcome.done C2 ∧
      ∀ i j : ℤ, 0 ≤ i → i < M → 0 ≤ j → j < N →
        cell C2 M 0 i j - cell C M 0 i j = 2 * (cell C1 M 0 i j - cell C M 0 i j)) ∧
    (∃ C1 C2, mat_mult (exactArith K) S N M P C A B = some C1 ∧
      mat_mult (exactArith K) S N M P C1 A B = some C2 ∧
      ∀ i j : ℤ, 0 ≤ i → i < M → 0 ≤ j → j < N →
        cell C2 M 0 i j - cell C M 0 i j = 2 * (cell C1 M 0 i j - cell C M 0 i j)) := by
  obtain ⟨C1, hb1, hvp1⟩ :=
    vp_eq_block (exactArith K) M N P S L R E vlen alpha C A B fuel hd hr hv hf
  obtain ⟨m, n, p, rfl, rfl, rfl, hm, hn, hp, hC, hA, hB⟩ := validDims_nat hd
  have hd' : ∀ C' : List K, C'.length = C.length →
      ValidDims (m : ℤ) (n : ℤ) (p : ℤ) C' A B := by
    intro C' h
    obtain ⟨a1, a2, a3, a4, a5, a6⟩ := hd
    exact ⟨a1, a2, a3, by rw [h]; exact a4, a5, a6⟩
  obtain ⟨s, l, r, e, rfl, rfl, rfl, rfl, hre, hem, hsl, hln⟩ := validRegion_nat hr
  obtain ⟨C1', hrun1, hlen1, hcells1⟩ :=
    block_nat (exactArith K) C A B alpha 0 m n p s l r e hre.le hem hsl.le hln hC hA hB
  rw [hb1] at hrun1
  injection hrun1 with hC1
  subst hC1
  obtain ⟨C2, hb2, hvp2⟩ :=
    vp_eq_block (exactArith K) m n p s l r e vlen alpha C1 A B fuel (hd' C1 hlen1) hr hv hf
  obtain ⟨C2', hrun2, hlen2, hcells2⟩ :=
    block_nat (exactArith K) C1 A B alpha 0 m n p s l r e hre.le hem hsl.le hln (by omega) hA hB
  rw [hb2] at hrun2
  injection hrun2 with hC2
  subst hC2
  have hblock := twice_cells _ alpha rfl A B C C1 C2 m n p
    (fun i j => r ≤ i ∧ i < e ∧ s ≤ j ∧ j < l) hcells1 hcells2
  obtain ⟨D1, hm1, hlenD1, hcellsD1⟩ :=
    mat_mult_nat (exactArith K) C A B 0 m n p s (by omega) hC hA hB
  obtain ⟨D2, hm2, _, hcellsD2⟩ :=
    mat_mult_nat (exactArith K) D1 A B 0 m n p s (by omega) (by omega) hA hB
  have hmm := twice_cells _ 1 exact_mul_one.symm A B C D1 D2 m n p
    (fun _ j => s ≤ j) hcellsD1 hcellsD2
  exact ⟨⟨C1, C2, hb1, hb2, hblock⟩, ⟨C1, C2, hvp1, hvp2, hblock⟩, ⟨D1, D2, hm1, hm2, hmm⟩⟩

/-- The two kernels in exact arithmetic, cell by cell: both end with one
    buffer, whose cell `(i, j)` is the cell of `C` plus, inside the region,
    `alpha` times the dot product of row `i` of `A` and column `j` of `B`. -/
theorem exact_cells {K : Type} [CommRing K] [DecidableEq K]
    (M N P S L R E vlen : ℤ) (alpha : K) (C A B : List K) (fuel : ℕ)
    (hd : ValidDims M N P C A B) (hr : ValidRegion M N S L R E)
    (hv : 0 ≤ vlen) (hf : P.toNat < fuel) :
    ∃ C1, matmult_block_notrans (exactArith K) C A B alpha M N P S L R E = some C1 ∧
      matmult_vp_notrans (exactArith K) fuel C A B alpha M N P S L R E vlen = Outcome.done C1 ∧
      C1.length = C.length ∧
      ∀ i j : ℤ, 0 ≤ i → i < M → 0 ≤ j → j < N →
        cell C1 M 0 i j = cell C M 0 i j +
          if R ≤ i ∧ i < E ∧ S ≤ j ∧ j < L then
            alpha * ∑ k ∈ Finset.range P.toNat, cell A M 0 i (k : ℤ) * cell B P 0 (k : ℤ) j
          else 0 := by
  obtain ⟨C1, hb, hvp⟩ :=
    vp_eq_block (exactArith K) M N P S L R E vlen alpha C A B fuel hd hr hv hf
  obtain ⟨m, n, p, rfl, rfl, rfl, hm, hn, hp, hC, hA, hB⟩ := validDims_nat hd
  obtain ⟨s, l, r, e, rfl, rfl, rfl, rfl, hre, hem, hsl, hln⟩ := validRegion_nat hr
  obtain ⟨C1', hrun1, hlen1, hcells1⟩ :=
    block_nat (exactArith K) C A B alpha 0 m n p s l r e hre.le hem hsl.le hln hC hA hB
  rw [hb] at hrun1
  injection hrun1 with hC1
  subst hC1
  refine ⟨C1, hb, hvp, hlen1, ?_⟩
  intro i j hi1 hi2 hj1 hj2
  obtain ⟨i, rfl⟩ := Int.eq_ofNat_of_zero_le hi1
  obtain ⟨j, rfl⟩ := Int.eq_ofNat_of_zero_le hj1
  rw [cell_natCast, cell_natCast, hcells1 i j (by omega) (by omega)]
  by_cases hreg : r ≤ i ∧ i < e ∧ s ≤ j ∧ j < l
  · rw [if_pos hreg, if_pos (by omega), cellFold_exact_cells]
  · rw [if_neg hreg, if_neg (by omega), add_zero]

theorem list_eq_of_cells_int (M N P : ℤ) (C A B C1 : List α) (d : α)
    (hd : ValidDims M N P C A B) (hlen : C1.length = C.length)
    (h : ∀ i j : ℤ, 0 ≤ i → i < M → 0 ≤ j → j < N → cell C1 M d i j = cell C M d i j) :
    C1 = C := by
  obtain ⟨m, n, p, rfl, rfl, rfl, hm, hn, hp, hC, hA, hB⟩ := validDims_nat hd
  apply list_eq_of_cells m n d C1 C (by omega) hC
  intro i j hi hj
  have := h (i : ℤ) (j : ℤ) (by omega) (by omega) (by omega) (by omega)
  rwa [cell_natCast, cell_natCast] at this

/-- On unbounded integers (the auxiliary model). Scale linearity in exact arithmetic: for valid inputs, `vlen >= 0` and
    enough fuel, the difference that `matmult_block_notrans` and
    `matmult_vp_notrans` make to `C` is linear in `alpha`: in every cell
    `result(c*alpha) - C = c * (result(alpha) - C)`; in particular
    `result(2*alpha) - C = 2 * (result(alpha) - C)`, and with `alpha = 0` both
    kernels return `C` itself. -/
theorem scale_linearity {K : Type} [CommRing K] [DecidableEq K]
    (M N P S L R E vlen : ℤ) (alpha c : K) (C A B : List K) (fuel : ℕ)
    (hd : ValidDims M N P C A B) (hr : ValidRegion M N S L R E)
    (hv : 0 ≤ vlen) (hf : P.toNat < fuel) :
    ∃ C1 C2 C3, matmult_block_notrans (exactArith K) C A B alpha M N P S L R E = some C1 ∧
      matmult_vp_notrans (exactArith K) fuel C A B alpha M N P S L R E vlen = Outcome.done C1 ∧
      matmult_block_notrans (exactArith K) C A B (c * alpha) M N P S L R E = some C2 ∧
      matmult_vp_notrans (exactArith K) fuel C A B (c * alpha) M N P S L R E vlen
        = Outcome.done C2 ∧
      matmult_block_notrans (exactArith K) C A B (2 * alpha) M N P S L R E = some C3 ∧
      matmult_vp_notrans (exactArith K) fuel C A B (2 * alpha) M N P S L R E vlen
        = Outcome.done C3 ∧
      (∀ i j : ℤ, 0 ≤ i → i < M → 0 ≤ j → j < N →
        cell C2 M 0 i j - cell C M 0 i j = c * (cell C1 M 0 i j - cell C M 0 i j) ∧
        cell C3 M 0 i j - cell C M 0 i j = 2 * (cell C1 M 0 i j - cell C M 0 i j)) ∧
      matmult_block_notrans (exactArith K) C A B 0 M N P S L R E = some C ∧
      matmult_vp_notrans (exactArith K) fuel C A B 0 M N P S L R E vlen = Outcome.done C := by
  obtain ⟨C1, hb1, hv1, _, hc1⟩ := exact_cells M N P S L R E vlen alpha C A B fuel hd hr hv hf
  obtain ⟨C2, hb2, hv2, _, hc2⟩ :=
    exact_cells M N P S L R E vlen (c * alpha) C A B fuel hd hr hv hf
  obtain ⟨C3, hb3, hv3, _, hc3⟩ :=
    exact_cells M N P S L R E vlen (2 * alpha) C A B fuel hd hr hv hf
  obtain ⟨C0, hb0, hv0, hlen0, hc0⟩ :=
    exact_cells M N P S L R E vlen 0 C A B fuel hd hr hv hf
  have h0 : C0 = C := by
    apply list_eq_of_cells_int M N P C A B C0 0 hd hlen0
    intro i j hi1 hi2 hj1 hj2
    rw [hc0 i j hi1 hi2 hj1 hj2]
    split_ifs <;> simp
  subst h0
  refine ⟨C1, C2, C3, hb1, hv1, hb2, hv2, hb3, hv3, ?_, hb0, hv0⟩
  intro i j hi1 hi2 hj1 hj2
  rw [hc1 i j hi1 hi2 hj1 hj2, hc2 i j hi1 hi2 hj1 hj2, hc3 i j hi1 hi2 hj1 hj2]
  constructor <;> split_ifs <;> ring

/-- Two disjoint tiles whose union is a region: running a kernel on the first
    tile and then on the second ends with the buffer of one run on the region
    (any arithmetic, both kernels). -/
theorem two_tiles (ar : Arith α) (M N P S L R E S1 L1 R1 E1 S2 L2 R2 E2 vlen : ℤ) (alpha : α)
    (C A B : List α) (fuel : ℕ) (hd : ValidDims M N P C A B)
    (hr : ValidRegion M N S L R E) (hr1 : ValidRegion M N S1 L1 R1 E1)
    (hr2 : ValidRegion M N S2 L2 R2 E2)
    (hsplit : ∀ i j : ℤ, (R ≤ i ∧ i < E ∧ S ≤ j ∧ j < L) ↔
      ((R1 ≤ i ∧ i < E1 ∧ S1 ≤ j ∧ j < L1) ∨ (R2 ≤ i ∧ i < E2 ∧ S2 ≤ j ∧ j < L2)))
    (hdisj : ∀ i j : ℤ, ¬ ((R1 ≤ i ∧ i < E1 ∧ S1 ≤ j ∧ j < L1) ∧
      (R2 ≤ i ∧ i < E2 ∧ S2 ≤ j ∧ j < L2)))
    (hv : 0 ≤ vlen) (hf : P.toNat < fuel) :
    ∃ Cfull C1, matmult_block_notrans ar C A B alpha M N P S L R E = some Cfull ∧
      matmult_vp_notrans ar fuel C A B alpha M N P S L R E vlen = Outcome.done Cfull ∧
      matmult_block_notrans ar C A B alpha M N P S1 L1 R1 E1 = some C1 ∧
      matmult_block_notrans ar C1 A B alpha M N P S2 L2 R2 E2 = some Cfull ∧
      matmult_vp_notrans ar fuel C A B alpha M N P S1 L1 R1 E1 vlen = Outcome.done C1 ∧
      matmult_vp_notrans ar fuel C1 A B alpha M N P S2 L2 R2 E2 vlen = Outcome.done Cfull := by
  obtain ⟨Cf, hbf, hvf⟩ := vp_eq_block ar M N P S L R E vlen alpha C A B fuel hd hr hv hf
  obtain ⟨C1, hb1, hv1⟩ := vp_eq_block ar M N P S1 L1 R1 E1 vlen alpha C A B fuel hd hr1 hv hf
  obtain ⟨m, n, p, rfl, rfl, rfl, hm, hn, hp, hC, hA, hB⟩ := validDims_nat hd
  obtain ⟨d⟩ := nonempty_of_validDims hm hn hC
  obtain ⟨s, l, r, e, rfl, rfl, rfl, rfl, hre, hem, hsl, hln⟩ := validRegion_nat hr
  obtain ⟨s1, l1, r1, e1, rfl, rfl, rfl, rfl, hre1, hem1, hsl1, hln1⟩ := validRegion_nat hr1
  obtain ⟨s2, l2, r2, e2, rfl, rfl, rfl, rfl, hre2, hem2, hsl2, hln2⟩ := validRegion_nat hr2
  obtain ⟨Cf', hrunf, hlenf, hcellsf⟩ :=
    block_nat ar C A B alpha d m n p s l r e hre.le hem hsl.le hln hC hA hB
  rw [hbf] at hrunf
  injection hrunf with h
  subst h
  obtain ⟨C1', hrun1, hlen1, hcells1⟩ :=
    block_nat ar C A B alpha d m n p s1 l1 r1 e1 hre1.le hem1 hsl1.le hln1 hC hA hB
  rw [hb1] at hrun1
  injection hrun1 with h
  subst h
  have hd1 : ValidDims (m : ℤ) (n : ℤ) (p : ℤ) C1 A B := by
    obtain ⟨a1, a2, a3, a4, a5, a6⟩ := hd
    exact ⟨a1, a2, a3, by rw [hlen1]; exact a4, a5, a6⟩
  obtain ⟨C2, hb2, hv2⟩ := vp_eq_block ar m n p s2 l2 r2 e2 vlen alpha C1 A B fuel hd1 hr2 hv hf
  obtain ⟨C2', hrun2, hlen2, hcells2⟩ :=
    block_nat ar C1 A B alpha d m n p s2 l2 r2 e2 hre2.le hem2 hsl2.le hln2 (by omega) hA hB
  rw [hb2] at hrun2
  injection hrun2 with h
  subst h
  have heq : C2 = Cf := by
    apply list_eq_of_cells m n d C2 Cf (by omega) (by omega)
    intro i j hi hj
    rw [hcells2 i j hi hj, hcells1 i j hi hj, hcellsf i j hi hj]
    have h1 := hsplit (i : ℤ) (j : ℤ)
    have h2 := hdisj (i : ℤ) (j : ℤ)
    simp only [Nat.cast_le, Nat.cast_lt] at h1 h2
    by_cases hreg1 : r1 ≤ i ∧ i < e1 ∧ s1 ≤ j ∧ j < l1
    · have hreg2 : ¬ (r2 ≤ i ∧ i < e2 ∧ s2 ≤ j ∧ j < l2) := fun h => h2 ⟨hreg1, h⟩
      rw [if_pos hreg1, if_neg hreg2, if_pos (h1.2 (Or.inl hreg1))]
    · by_cases hreg2 : r2 ≤ i ∧ i < e2 ∧ s2 ≤ j ∧ j < l2
      · rw [if_neg hreg1, if_pos hreg2, if_pos (h1.2 (Or.inr hreg2))]
      · rw [if_neg hreg1, if_neg hreg2, if_neg (fun h => (h1.1 h).elim hreg1 hreg2)]
  subst heq
  exact ⟨C2, C1, hbf, hvf, hb1, hb2, hv1, hv2⟩

/-- On unbounded integers (the auxiliary model). Tile composition, for every arithmetic: for a valid region,
    `vlen >= 1` and enough fuel, let `Cfull` be the buffer of one call of
    `matmult_block_notrans` on `[R,E) x [S,L)`.  For every row split `R < X < E`,
    calling the kernel on `[R,X) x [S,L)` and then on `[X,E) x [S,L)`, or in the
    other order, returns exactly `Cfull`; for every column split `S < Y < L`,
    calling it on `[R,E) x [S,Y)` and then on `[R,E) x [Y,L)`, or in the other
    order, returns exactly `Cfull`.  The same holds for `matmult_vp_notrans`. -/
theorem tile_composition (ar : Arith α) (M N P S L R E vlen : ℤ) (alpha : α)
    (C A B : List α) (fuel : ℕ) (hd : ValidDims M N P C A B) (hr : ValidRegion M N S L R E)
    (hv : 1 ≤ vlen) (hf : P.toNat < fuel) :
    ∃ Cfull, matmult_block_notrans ar C A B alpha M N P S L R E = some Cfull ∧
      matmult_vp_notrans ar fuel C A B alpha M N P S L R E vlen = Outcome.done Cfull ∧
      (∀ X : ℤ, R < X → X < E →
        (∃ C1, matmult_block_notrans ar C A B alpha M N P S L R X = some C1 ∧
          matmult_block_notrans ar C1 A B alpha M N P S L X E = some Cfull ∧
          matmult_vp_notrans ar fuel C A B alpha M N P S L R X vlen = Outcome.done C1 ∧
          matmult_vp_notrans ar fuel C1 A B alpha M N P S L X E vlen = Outcome.done Cfull) ∧
        (∃ C1, matmult_block_notrans ar C A B alpha M N P S L X E = some C1 ∧
          matmult_block_notrans ar C1 A B alpha M N P S L R X = some Cfull ∧
          matmult_vp_notrans ar fuel C A B alpha M N P S L X E vlen = Outcome.done C1 ∧
          matmult_vp_notrans ar fuel C1 A B alpha M N P S L R X vlen = Outcome.done Cfull)) ∧
      (∀ Y : ℤ, S < Y → Y < L →
        (∃ C1, matmult_block_notrans ar C A B alpha M N P S Y R E = some C1 ∧
          matmult_block_notrans ar C1 A B alpha M N P Y L R E = some Cfull ∧
          matmult_vp_notrans ar fuel C A B alpha M N P S Y R E vlen = Outcome.done C1 ∧
          matmult_vp_notrans ar fuel C1 A B alpha M N P Y L R E vlen = Outcome.done Cfull) ∧
        (∃ C1, matmult_block_notrans ar C A B alpha M N P Y L R E = some C1 ∧
          matmult_block_notrans ar C1 A B alpha M N P S Y R E = some Cfull ∧
          matmult_vp_notrans ar fuel C A B alpha M N P Y L R E vlen = Outcome.done C1 ∧
          matmult_vp_notrans ar fuel C1 A B alpha M N P S Y R E vlen = Outcome.done Cfull)) := by
  obtain ⟨h1, h2, h3, h4, h5, h6⟩ := hr
  have hr' : ValidRegion M N S L R E := ⟨h1, h2, h3, h4, h5, h6⟩
  have hv0 : 0 ≤ vlen := by omega
  obtain ⟨Cf, hbf, hvf⟩ := vp_eq_block ar M N P S L R E vlen alpha C A B fuel hd hr' hv0 hf
  refine ⟨Cf, hbf, hvf, ?_, ?_⟩
  · intro X hRX hXE
    have rRX : ValidRegion M N S L R X := ⟨h1, hRX, by omega, h4, h5, h6⟩
    have rXE : ValidRegion M N S L X E := ⟨by omega, hXE, h3, h4, h5, h6⟩
    obtain ⟨Cf1, Ca, fa, _, a1, a2, a3, a4⟩ :=
      two_tiles ar M N P S L R E S L R X S L X E vlen alpha C A B fuel hd hr' rRX rXE
        (fun i j => by constructor <;> intro h <;> omega) (fun i j h => by omega) hv0 hf
    obtain ⟨Cf2, Cb, fb, _, b1, b2, b3, b4⟩ :=
      two_tiles ar M N P S L R E S L X E S L R X vlen alpha C A B fuel hd hr' rXE rRX
        (fun i j => by constructor <;> intro h <;> omega) (fun i j h => by omega) hv0 hf
    rw [hbf] at fa fb
    injection fa with e1
    injection fb with e2
    subst e1 e2
    exact ⟨⟨Ca, a1, a2, a3, a4⟩, ⟨Cb, b1, b2, b3, b4⟩⟩
  · intro Y hSY hYL
    have rSY : ValidRegion M N S Y R E := ⟨h1, h2, h3, h4, hSY, by omega⟩
    have rYL : ValidRegion M N Y L R E := ⟨h1, h2, h3, by omega, hYL, h6⟩
    obtain ⟨Cf3, Cc, fc, _, c1, c2, c3, c4⟩ :=
      two_tiles ar M N P S L R E S Y R E Y L R E vlen alpha C A B fuel hd hr' rSY rYL
        (fun i j => by constructor <;> intro h <;> omega) (fun i j h => by omega) hv0 hf
    obtain ⟨Cf4, Cd, fd, _, d1, d2, d3, d4⟩ :=
      two_tiles ar M N P S L R E Y L R E S Y R E vlen alpha C A B fuel hd hr' rYL rSY
        (fun i j => by constructor <;> intro h <;> omega) (fun i j h => by omega) hv0 hf
    rw [hbf] at fc fd
    injection fc with e3
    injection fd with e4
    subst e3 e4
    exact ⟨⟨Cc, c1, c2, c3, c4⟩, ⟨Cd, d1, d2, d3, d4⟩⟩

/-- On unbounded integers (the auxiliary model). Identity multiply in exact arithmetic: for `M = N = P = n >= 1`, `A` the
    `n x n` identity, `C` all zero, the full range, `vlen >= 0` and enough fuel,
    `matmult_block_notrans` and `matmult_vp_notrans` return a buffer with
    `C'[j*n+i] = alpha * B[j*n+i]` in every cell.  Over the rationals, `n = 2`,
    `B = [2,4,3,5]`: `alpha = 1` gives `[2,4,3,5]` and `alpha = 1/2` gives
    `[1,2,3/2,5/2]`. -/
theorem identity_multiply {K : Type} [CommRing K] [DecidableEq K]
    (n vlen : ℤ) (alpha : K) (C A B : List K) (fuel : ℕ)
    (hd : ValidDims n n n C A B) (hv : 0 ≤ vlen) (hf : n.toNat < fuel)
    (hA : ∀ i k : ℤ, 0 ≤ i → i < n → 0 ≤ k → k < n →
      cell A n 0 i k = if i = k then 1 else 0)
    (hC : ∀ i j : ℤ, 0 ≤ i → i < n → 0 ≤ j → j < n → cell C n 0 i j = 0) :
    (∃ C', matmult_block_notrans (exactArith K) C A B alpha n n n 0 n 0 n = some C' ∧
      matmult_vp_notrans (exactArith K) fuel C A B alpha n n n 0 n 0 n vlen = Outcome.done C' ∧
      ∀ i j : ℤ, 0 ≤ i → i < n → 0 ≤ j → j < n →
        cell C' n 0 i j = alpha * cell B n 0 i j) ∧
    matmult_block_notrans (exactArith ℚ) [0, 0, 0, 0] [1, 0, 0, 1] [2, 4, 3, 5] 1
        2 2 2 0 2 0 2 = some [2, 4, 3, 5] ∧
    matmult_block_notrans (exactArith ℚ) [0, 0, 0, 0] [1, 0, 0, 1] [2, 4, 3, 5] (1 / 2)
        2 2 2 0 2 0 2 = some [1, 2, 3 / 2, 5 / 2] := by
  refine ⟨?_, ?_, ?_⟩
  · have hn : 0 < n := hd.1
    have hr : ValidRegion n n 0 n 0 n := ⟨le_refl _, hn, le_refl _, le_refl _, hn, le_refl _⟩
    obtain ⟨C1, hb, hvp, _, hcells⟩ :=
      exact_cells n n n 0 n 0 n vlen alpha C A B fuel hd hr hv hf
    refine ⟨C1, hb, hvp, ?_⟩
    intro i j hi1 hi2 hj1 hj2
    rw [hcells i j hi1 hi2 hj1 hj2, hC i j hi1 hi2 hj1 hj2, if_pos ⟨hi1, hi2, hj1, hj2⟩,
      zero_add]
    congr 1
    obtain ⟨i, rfl⟩ := Int.eq_ofNat_of_zero_le hi1
    have hterm : ∀ k ∈ Finset.range n.toNat,
        cell A n 0 (i : ℤ) (k : ℤ) * cell B n 0 (k : ℤ) j
          = if i = k then cell B n 0 (k : ℤ) j else 0 := by
      intro k hk
      rw [Finset.mem_range] at hk
      rw [hA (i : ℤ) (k : ℤ) hi1 hi2 (by omega) (by omega)]
      by_cases hik : i = k
      · rw [if_pos (by exact_mod_cast hik), if_pos hik, one_mul]
      · rw [if_neg (by exact_mod_cast hik), if_neg hik, zero_mul]
    rw [Finset.sum_congr rfl hterm, Finset.sum_ite_eq, if_pos (by rw [Finset.mem_range]; omega)]
  · simp [matmult_block_notrans, jLoop, kLoop, rowLoop, rd, wr, exactArith]
  · simp [matmult_block_notrans, jLoop, kLoop, rowLoop, rd, wr, exactArith]
    norm_num

/-- On unbounded integers (the auxiliary model). Order-preserving chunking, for an arbitrary element type with
    arbitrary `add`, `mul` and zero test (no algebraic law assumed): for valid
    inputs, every `vlen >= 1` and enough fuel, `matmult_vp_notrans` ends with
    exactly the buffer `matmult_block_notrans` returns, and every cell of the
    region is the cell of `C` after the steps `k = 0, 1, .., P-1` in this order,
    step `k` adding `A[i,k] * (B[k,j] * alpha)` unless `B[k,j]` tests as zero
    (`cellFold`). -/
theorem chunking_preserves_order (ar : Arith α) (M N P S L R E vlen : ℤ) (alpha : α)
    (C A B : List α) (fuel : ℕ) (hd : ValidDims M N P C A B) (hr : ValidRegion M N S L R E)
    (hv : 1 ≤ vlen) (hf : P.toNat < fuel) :
    ∃ C', matmult_block_notrans ar C A B alpha M N P S L R E = some C' ∧
      matmult_vp_notrans ar fuel C A B alpha M N P S L R E vlen = Outcome.done C' ∧
      ∀ (d : α) (i j : ℤ), R ≤ i → i < E → S ≤ j → j < L →
        cell C' M d i j
          = cellFold ar (fun b => ar.mul b alpha) A B d M.toNat P.toNat i.toNat (j * P).toNat
              (cell C M d i j) := by
  obtain ⟨C1, hb, hvp⟩ :=
    vp_eq_block ar M N P S L R E vlen alpha C A B fuel hd hr (by omega) hf
  refine ⟨C1, hb, hvp, ?_⟩
  intro d i j hi1 hi2 hj1 hj2
  obtain ⟨m, n, p, rfl, rfl, rfl, hm, hn, hp, hC, hA, hB⟩ := validDims_nat hd
  obtain ⟨s, l, r, e, rfl, rfl, rfl, rfl, hre, hem, hsl, hln⟩ := validRegion_nat hr
  obtain ⟨C1', hrun1, hlen1, hcells1⟩ :=
    block_nat ar C A B alpha d m n p s l r e hre.le hem hsl.le hln hC hA hB
  rw [hb] at hrun1
  injection hrun1 with h
  subst h
  obtain ⟨i, rfl⟩ := Int.eq_ofNat_of_zero_le (show 0 ≤ i by omega)
  obtain ⟨j, rfl⟩ := Int.eq_ofNat_of_zero_le (show 0 ≤ j by omega)
  have e1 : ((j : ℤ) * (p : ℤ)).toNat = j * p := by
    rw [← Nat.cast_mul, Int.toNat_ofNat]
  rw [cell_natCast, cell_natCast, hcells1 i j (by omega) (by omega),
    if_pos ⟨by omega, by omega, by omega, by omega⟩, Int.toNat_ofNat, Int.toNat_ofNat,
    Int.toNat_ofNat, e1]

theorem vpWhile_traced {σ : Type} (body : ℤ → ℤ → σ → Option σ) (P vlen : ℤ) :
    ∀ (fuel : ℕ) (vpS vpL : ℤ) (s : σ) (tr : List (ℤ × ℤ)) (a b a' b' : ℤ) (s' : σ)
      (tr' : List (ℤ × ℤ)),
      vpWhile body P vlen fuel vpS vpL s = Outcome.done (a, b, s') →
      vpWhile recordChunk P vlen fuel vpS vpL tr = Outcome.done (a', b', tr') →
      vpWhile (tracedBody body) P vlen fuel vpS vpL (s, tr) = Outcome.done (a, b, (s', tr')) := by
  intro fuel
  induction fuel with
  | zero =>
    intro vpS vpL s tr a b a' b' s' tr' h
    exact Outcome.noConfusion h
  | succ fuel ih =>
    intro vpS vpL s tr a b a' b' s' tr' h1 h2
    rw [vpWhile] at h1 h2 ⊢
    by_cases hlt : vpS < P
    · rw [if_pos hlt] at h1 h2 ⊢
      cases hb : body vpS vpL s with
      | none =>
        rw [hb] at h1
        exact Outcome.noConfusion h1
      | some s1 =>
        rw [hb] at h1
        have ht : tracedBody body vpS vpL (s, tr) = some (s1, tr ++ [(vpS, vpL)]) := by
          simp [tracedBody, hb]
        rw [ht]
        exact ih _ _ _ _ _ _ _ _ _ _ h1 h2
    · rw [if_neg hlt] at h1 h2 ⊢
      injection h1 with h1
      injection h2 with h2
      simp only [Prod.mk.injEq] at h1 h2
      obtain ⟨rfl, rfl, rfl⟩ := h1
      obtain ⟨_, _, rfl⟩ := h2
      rfl

/-- The instrumented viewport kernel ends with the buffer of the kernel and
    the chunks of the loop skeleton. -/
theorem vp_traced_eq (ar : Arith α) (fuel : ℕ) (C A B : List α) (alpha : α)
    (M N P S L R E vlen : ℤ) (C' : List α) (a b : ℤ) (tr : List (ℤ × ℤ))
    (h1 : matmult_vp_notrans ar fuel C A B alpha M N P S L R E vlen = Outcome.done C')
    (h2 : vpChunks fuel P vlen = Outcome.done (a, b, tr)) :
    matmult_vp_notrans_traced ar fuel C A B alpha M N P S L R E vlen = Outcome.done (C', tr) := by
  simp only [matmult_vp_notrans, matmult_vp_notrans_traced, vpChunks, vpDriver] at h1 h2 ⊢
  cases hw : vpWhile (vpBody ar A B alpha M P S L R E) P
      (if vlen = 0 then VLEN_DEFAULT else vlen) fuel 0
      (if (if vlen = 0 then VLEN_DEFAULT else vlen) < P then
        (if vlen = 0 then VLEN_DEFAULT else vlen) else P) C with
  | done r =>
    obtain ⟨x, y, s'⟩ := r
    rw [hw] at h1
    simp only [Outcome.state] at h1
    injection h1 with h1
    subst h1
    rw [vpWhile_traced _ P _ fuel 0 _ C [] x y a b s' tr hw h2]
    rfl
  | outOfBounds => rw [hw] at h1; exact Outcome.noConfusion h1
  | outOfFuel => rw [hw] at h1; exact Outcome.noConfusion h1

theorem chunkList_getElem? (v P : ℤ) (m c : ℕ) :
    (chunkList v P m)[c]? =
      if c < m then some ((c : ℤ) * v, min (((c : ℤ) + 1) * v) P) else none := by
  by_cases h : c < m
  · simp [chunkList, List.getElem?_map, List.getElem?_range, h]
  · simp [chunkList, List.getElem?_map, h]
    omega

theorem chunk_count_bounds (P v : ℤ) (hP : 1 ≤ P) (hv : 1 ≤ v) :
    ∃ m : ℕ, ((P + v - 1) / v).toNat = m ∧ (m : ℤ) = ⌈(P : ℚ) / (v : ℚ)⌉ ∧
      ((m : ℤ) - 1) * v < P ∧ P ≤ (m : ℤ) * v := by
  obtain ⟨hc1, hc2⟩ := ceil_div_bounds P v hP hv
  refine ⟨_, rfl, ?_, ?_, ?_⟩
  · rw [ceil_rat_eq P v hv, hc1]
  · rw [hc1]; exact hc2
  · rw [hc1]
    have h2 : P + v - 1 < ((P + v - 1) / v + 1) * v :=
      Int.lt_ediv_add_one_mul_self _ (by omega)
    have e : ((P + v - 1) / v + 1) * v = (P + v - 1) / v * v + v := by ring
    omega

theorem chunk_inner (v P : ℤ) (m c : ℕ) (hv : 1 ≤ v) (hm : ((m : ℤ) - 1) * v < P)
    (hc : c + 1 < m) : min (((c : ℤ) + 1) * v) P = ((c : ℤ) + 1) * v := by
  have h1 : (c : ℤ) + 1 ≤ (m : ℤ) - 1 := by omega
  have h2 := mul_le_mul_of_nonneg_right h1 (show (0 : ℤ) ≤ v by omega)
  omega

theorem chunkList_disjoint (v P : ℤ) (m : ℕ) (hv : 1 ≤ v) :
    List.Pairwise (fun p q : ℤ × ℤ => p.2 ≤ q.1) (chunkList v P m) := by
  rw [chunkList, List.pairwise_map]
  apply List.Pairwise.imp _ (List.pairwise_lt_range m)
  intro a b hab
  have h1 : (a : ℤ) + 1 ≤ (b : ℤ) := by omega
  have h2 := mul_le_mul_of_nonneg_right h1 (show (0 : ℤ) ≤ v by omega)
  show min (((a : ℤ) + 1) * v) P ≤ (b : ℤ) * v
  omega

theorem chunkList_cover (v P : ℤ) (m : ℕ) (hv : 1 ≤ v) (hm : P ≤ (m : ℤ) * v) (k : ℤ) :
    (0 ≤ k ∧ k < P) ↔ ∃ p ∈ chunkList v P m, p.1 ≤ k ∧ k < p.2 := by
  constructor
  · rintro ⟨h0, hk⟩
    have hq0 : 0 ≤ k / v := Int.ediv_nonneg h0 (by omega)
    have h1 : k / v * v ≤ k := Int.ediv_mul_le _ (by omega)
    have h2 : k < (k / v + 1) * v := Int.lt_ediv_add_one_mul_self _ (by omega)
    have hc : ((k / v).toNat : ℤ) = k / v := Int.toNat_of_nonneg hq0
    have hlt : (k / v).toNat < m := by
      by_contra hge
      have h3 : (m : ℤ) ≤ k / v := by omega
      have h4 := mul_le_mul_of_nonneg_right h3 (show (0 : ℤ) ≤ v by omega)
      omega
    refine ⟨(((k / v).toNat : ℤ) * v, min ((((k / v).toNat : ℤ) + 1) * v) P), ?_, ?_, ?_⟩
    · simp only [chunkList, List.mem_map, List.mem_range]
      exact ⟨(k / v).toNat, hlt, rfl⟩
    · rw [hc]; exact h1
    · rw [hc]
      show k < min ((k / v + 1) * v) P
      omega
  · rintro ⟨p, hp, h1, h2⟩
    simp only [chunkList, List.mem_map, List.mem_range] at hp
    obtain ⟨c, _, rfl⟩ := hp
    have h3 : (0 : ℤ) ≤ (c : ℤ) * v := mul_nonneg (by omega) (by omega)
    have h1' : (c : ℤ) * v ≤ k := h1
    have h2' : k < min (((c : ℤ) + 1) * v) P := h2
    omega

/-- On unbounded integers (the auxiliary model). Chunk partition: for valid inputs (so `P >= 1`), `vlen >= 0` with `v`
    the length in effect, and enough fuel, the `(vpS, vpL)` pairs with which
    `matmult_vp_notrans` runs its inner loops are exactly
    `(c*v, min ((c+1)*v) P)` for `c = 0, .., ceil(P/v) - 1`, in this order.  The
    chunks are non-empty, of width at most `v` and exactly `v` except possibly
    the last, consecutive (each ends where the next starts), pairwise
    non-overlapping, and their union is exactly `[0, P)`. -/
theorem chunk_partition (ar : Arith α) (M N P S L R E vlen : ℤ) (alpha : α)
    (C A B : List α) (fuel : ℕ) (hd : ValidDims M N P C A B) (hr : ValidRegion M N S L R E)
    (hv : 0 ≤ vlen) (hf : P.toNat < fuel) :
    ∃ (C' : List α) (tr : List (ℤ × ℤ)) (m : ℕ),
      matmult_vp_notrans ar fuel C A B alpha M N P S L R E vlen = Outcome.done C' ∧
      matmult_vp_notrans_traced ar fuel C A B alpha M N P S L R E vlen = Outcome.done (C', tr) ∧
      tr.length = m ∧ (m : ℤ) = ⌈(P : ℚ) / (effectiveVlen vlen : ℚ)⌉ ∧
      (∀ c : ℕ, c < m → tr[c]? = some ((c : ℤ) * effectiveVlen vlen,
          min (((c : ℤ) + 1) * effectiveVlen vlen) P)) ∧
      (∀ p ∈ tr, p.1 < p.2 ∧ p.2 - p.1 ≤ effectiveVlen vlen) ∧
      (∀ (c : ℕ) (p q : ℤ × ℤ), tr[c]? = some p → tr[c + 1]? = some q →
        p.2 = q.1 ∧ p.2 - p.1 = effectiveVlen vlen) ∧
      (∀ p : ℤ × ℤ, tr[0]? = some p → p.1 = 0) ∧
      (∀ p : ℤ × ℤ, tr[m - 1]? = some p → p.2 = P) ∧
      List.Pairwise (fun p q : ℤ × ℤ => p.2 ≤ q.1) tr ∧
      (∀ k : ℤ, (0 ≤ k ∧ k < P) ↔ ∃ p ∈ tr, p.1 ≤ k ∧ k < p.2) := by
  have hP : 1 ≤ P := by have := hd.2.2.1; omega
  have hv1 := effectiveVlen_pos vlen hv
  obtain ⟨m, hm, hceil, hm1, hm2⟩ := chunk_count_bounds P (effectiveVlen vlen) hP hv1
  obtain ⟨C', _, hvp⟩ := vp_eq_block ar M N P S L R E vlen alpha C A B fuel hd hr hv hf
  have hch := vpChunks_eq P vlen fuel hP hv hf
  rw [hm] at hch
  have hm0 : 0 < m := by
    rcases Nat.eq_zero_or_pos m with h | h
    · subst h; simp at hm2; omega
    · exact h
  refine ⟨C', _, m, hvp, vp_traced_eq ar fuel C A B alpha M N P S L R E vlen C' P P _ hvp hch,
    chunkList_length _ _ _, hceil, ?_, ?_, ?_, ?_, ?_, chunkList_disjoint _ P m hv1,
    chunkList_cover _ P m hv1 hm2⟩
  · intro c hc
    rw [chunkList_getElem?, if_pos hc]
  · intro p hp
    refine ⟨chunkList_nonempty_chunks _ P m hv1 hm1 p hp, ?_⟩
    simp only [chunkList, List.mem_map, List.mem_range] at hp
    obtain ⟨c, _, rfl⟩ := hp
    have e : ((c : ℤ) + 1) * effectiveVlen vlen
        = (c : ℤ) * effectiveVlen vlen + effectiveVlen vlen := by ring
    show min (((c : ℤ) + 1) * effectiveVlen vlen) P - (c : ℤ) * effectiveVlen vlen
      ≤ effectiveVlen vlen
    omega
  · intro c p q hp hq
    rw [chunkList_getElem?] at hp hq
    have hc : c + 1 < m := by
      by_contra h
      rw [if_neg h] at hq
      exact Option.noConfusion hq
    rw [if_pos (by omega)] at hp
    rw [if_pos hc] at hq
    injection hp with hp
    injection hq with hq
    subst hp hq
    have e := chunk_inner (effectiveVlen vlen) P m c hv1 hm1 hc
    have e2 : ((c : ℤ) + 1) * effectiveVlen vlen
        = (c : ℤ) * effectiveVlen vlen + effectiveVlen vlen := by ring
    refine ⟨?_, ?_⟩
    · show min (((c : ℤ) + 1) * effectiveVlen vlen) P = ((c + 1 : ℕ) : ℤ) * effectiveVlen vlen
      rw [e]; push_cast; rfl
    · show min (((c : ℤ) + 1) * effectiveVlen vlen) P - (c : ℤ) * effectiveVlen vlen
        = effectiveVlen vlen
      rw [e, e2]; omega
  · intro p hp
    rw [chunkList_getElem?, if_pos hm0] at hp
    injection hp with hp
    subst hp
    simp
  · intro p hp
    rw [chunkList_getElem?, if_pos (by omega)] at hp
    injection hp with hp
    subst hp
    have e : (((m - 1 : ℕ) : ℤ) + 1) = (m : ℤ) := by omega
    show min ((((m - 1 : ℕ) : ℤ) + 1) * effectiveVlen vlen) P = P
    rw [e]
    omega

theorem range_succ_map_cursor (cc a br M : ℤ) (n : ℕ) :
    (List.range (n + 1)).map (fun (k : ℕ) => (cc, a + (k : ℤ) * M, br + (k : ℤ)))
      = (cc, a, br) ::
        (List.range n).map (fun (k : ℕ) => (cc, a + M + (k : ℤ) * M, br + 1 + (k : ℤ))) := by
  rw [List.range_succ_eq_map, List.map_cons, List.map_map]
  congr 1
  · simp
  · apply List.map_congr_left
    intro k _
    simp only [Function.comp, Nat.succ_eq_add_one, Nat.cast_add, Nat.cast_one]
    congr 2 <;> ring

theorem mmKLoopLog_eq (ar : Arith α) (A B : List α) (M : ℤ) (hM : 0 ≤ M) (cc : ℤ) :
    ∀ (n : ℕ) (a br : ℤ) (C : List α) (log : List (ℤ × ℤ × ℤ)),
      mmKLoopLog ar A B M cc n a br C log
        = (mmKLoop ar A B M cc n a br C).map (fun r =>
            (r.1, r.2.1, r.2.2,
              log ++ (List.range n).map (fun (k : ℕ) => (cc, a + (k : ℤ) * M, br + (k : ℤ))))) := by
  intro n
  induction n with
  | zero => intro a br C log; simp [mmKLoopLog, mmKLoop]
  | succ n ih =>
    intro a br C log
    rw [mmKLoopLog, mmKLoop]
    cases hB : rd B br with
    | none => rfl
    | some b =>
      simp only
      by_cases hz : ar.isZero b = true
      · rw [if_pos hz, if_pos hz, ih, range_succ_map_cursor]
        simp
      · rw [if_neg hz, if_neg hz, mmRowLoop_eq]
        cases hr : rowLoop ar A b M.toNat cc a C with
        | none => rfl
        | some C1 =>
          simp only [Option.map_some']
          rw [Int.toNat_of_nonneg hM, ih, range_succ_map_cursor]
          simp

theorem mmJLoopLog_eq (ar : Arith α) (A B : List α) (M P : ℤ) (hM : 0 ≤ M) :
    ∀ (n : ℕ) (cc br : ℤ) (C : List α) (log : List (ℤ × ℤ × ℤ)),
      mmJLoopLog ar A B M P n cc br C log
        = (mmJLoop ar A B M P n cc br C).map (fun C' =>
            (C', log ++ cursorLog M P.toNat n cc br)) := by
  intro n
  induction n with
  | zero => intro cc br C log; simp [mmJLoopLog, mmJLoop, cursorLog]
  | succ n ih =>
    intro cc br C log
    rw [mmJLoopLog, mmJLoop, mmKLoopLog_eq ar A B M hM]
    cases hk : mmKLoop ar A B M cc (P - 0).toNat 0 br C with
    | none => rfl
    | some r =>
      obtain ⟨C1, a1, br1⟩ := r
      simp only [Option.map_some']
      have hbr : br1 = br + ((P.toNat : ℕ) : ℤ) := by
        rw [mmKLoop_eq ar A B M hM] at hk
        cases hg : kLoopG ar (fun b => b) A B M M.toNat cc (P - 0).toNat br 0 C with
        | none => rw [hg] at hk; exact Option.noConfusion hk
        | some C2 =>
          rw [hg] at hk
          simp only [Option.map_some', Option.some.injEq, Prod.mk.injEq] at hk
          rw [← hk.2.2, Int.sub_zero]
      rw [ih, hbr, cursorLog, Int.sub_zero]
      simp

theorem cursorLog_length (M : ℤ) (kcount : ℕ) :
    ∀ (n : ℕ) (cc br : ℤ), (cursorLog M kcount n cc br).length = n * kcount := by
  intro n
  induction n with
  | zero => intro cc br; simp [cursorLog]
  | succ n ih =>
    intro cc br
    rw [cursorLog, List.length_append, ih, List.length_map, List.length_range, Nat.succ_mul]
    omega

theorem cursorLog_getElem? (M : ℤ) (kcount : ℕ) :
    ∀ (n : ℕ) (cc br : ℤ) (jj k : ℕ), jj < n → k < kcount →
      (cursorLog M kcount n cc br)[jj * kcount + k]?
        = some (cc + (jj : ℤ) * M, (k : ℤ) * M, br + (jj : ℤ) * (kcount : ℤ) + (k : ℤ)) := by
  intro n
  induction n with
  | zero => intro cc br jj k hj; omega
  | succ n ih =>
    intro cc br jj k hj hk
    rw [cursorLog]
    rcases Nat.eq_zero_or_pos jj with h0 | hpos
    · subst h0
      rw [Nat.zero_mul, Nat.zero_add, List.getElem?_append_left (by simp; exact hk)]
      simp [List.getElem?_map, List.getElem?_range, hk]
    · obtain ⟨j', rfl⟩ : ∃ j', jj = j' + 1 := ⟨jj - 1, by omega⟩
      rw [List.getElem?_append_right (by simp [Nat.succ_mul]; omega)]
      have e : (j' + 1) * kcount + k - ((List.range kcount).map
          (fun (k : ℕ) => (cc, (k : ℤ) * M, br + (k : ℤ)))).length = j' * kcount + k := by
        simp [Nat.succ_mul]; omega
      rw [e, ih (cc + M) (br + (kcount : ℤ)) j' k (by omega) hk]
      congr 2
      · push_cast; ring
      · congr 1
        push_cast; ring

/-- On unbounded integers (the auxiliary model). Read-cursor invariant of the reference kernel, for every arithmetic
    and whatever `B` holds: for valid dimensions and `0 <= S < N`, the run of
    `mat_mult` has `(N-S)*P` inner iterations, and at the start of the `k`-th
    inner iteration of column `j` (`S <= j < N`, `0 <= k < P`) the cursors are
    `cc = j*M`, `ar = k*M`, `br = j*P + k`; in particular `ar = 0` at the start
    of every column. -/
theorem mat_mult_cursors (ar : Arith α) (S N M P : ℤ) (C A B : List α)
    (hd : ValidDims M N P C A B) (hS : 0 ≤ S) (hSN : S < N) :
    ∃ (C' : List α) (log : List (ℤ × ℤ × ℤ)),
      mat_mult ar S N M P C A B = some C' ∧
      mat_mult_traced ar S N M P C A B = some (C', log) ∧
      log.length = (N - S).toNat * P.toNat ∧
      (∀ j k : ℤ, S ≤ j → j < N → 0 ≤ k → k < P →
        log[((j - S) * P + k).toNat]? = some (j * M, k * M, j * P + k)) ∧
      (∀ j : ℤ, S ≤ j → j < N → log[((j - S) * P).toNat]? = some (j * M, 0, j * P)) := by
  have hM : 0 ≤ M := by have := hd.1; omega
  have hP : 0 < P := hd.2.2.1
  obtain ⟨C', hrun⟩ : ∃ C', mat_mult ar S N M P C A B = some C' := by
    obtain ⟨m, n, p, rfl, rfl, rfl, hm, hn, hp, hC, hA, hB⟩ := validDims_nat hd
    obtain ⟨s, rfl⟩ := Int.eq_ofNat_of_zero_le hS
    obtain ⟨d⟩ := nonempty_of_validDims hm hn hC
    obtain ⟨C', hrun, _⟩ := mat_mult_nat ar C A B d m n p s (by omega) hC hA hB
    exact ⟨C', hrun⟩
  have htr : mat_mult_traced ar S N M P C A B
      = some (C', cursorLog M P.toNat (N - S).toNat (S * M) (S * P)) := by
    rw [mat_mult] at hrun
    rw [mat_mult_traced, mmJLoopLog_eq ar A B M P hM, hrun]
    simp
  have hPc : ((P.toNat : ℕ) : ℤ) = P := Int.toNat_of_nonneg hP.le
  have hcells : ∀ j k : ℤ, S ≤ j → j < N → 0 ≤ k → k < P →
      (cursorLog M P.toNat (N - S).toNat (S * M) (S * P))[((j - S) * P + k).toNat]?
        = some (j * M, k * M, j * P + k) := by
    intro j k hj1 hj2 hk1 hk2
    have hjc : (((j - S).toNat : ℕ) : ℤ) = j - S := Int.toNat_of_nonneg (by omega)
    have hkc : ((k.toNat : ℕ) : ℤ) = k := Int.toNat_of_nonneg hk1
    have e : ((j - S) * P + k).toNat = (j - S).toNat * P.toNat + k.toNat := by
      rw [← Int.toNat_ofNat ((j - S).toNat * P.toNat + k.toNat)]
      congr 1
      push_cast
      rw [hjc, hkc, hPc]
    rw [e, cursorLog_getElem? M P.toNat (N - S).toNat (S * M) (S * P) (j - S).toNat k.toNat
      (by omega) (by omega), hjc, hkc, hPc]
    congr 2
    · ring
    · congr 1
      ring
  refine ⟨C', _, hrun, htr, cursorLog_length _ _ _ _ _, hcells, ?_⟩
  intro j hj1 hj2
  have := hcells j 0 hj1 hj2 (le_refl _) hP
  simpa using this

/-- On unbounded integers (the auxiliary model). With `alpha = 1` the sub-block kernel is the reference kernel: for
    every arithmetic and every element `one` with `b * one = b` for all `b`
    (no other law assumed), valid dimensions and all buffers,
    `matmult_block_notrans` with `alpha = one` on the full range `R = 0`,
    `E = M`, `S = 0`, `L = N` and `mat_mult(0, N, M, P, C, A, B)` return the same
    buffer. -/
theorem block_alpha_one_is_mat_mult (ar : Arith α) (one : α) (h1 : ∀ b, ar.mul b one = b)
    (M N P : ℤ) (C A B : List α) (hd : ValidDims M N P C A B) :
    ∃ C', matmult_block_notrans ar C A B one M N P 0 N 0 M = some C' ∧
      mat_mult ar 0 N M P C A B = some C' := by
  have hr : ValidRegion M N 0 N 0 M := by
    obtain ⟨hM, hN, _⟩ := hd
    exact ⟨le_refl _, hM, le_refl _, le_refl _, hN, le_refl _⟩
  obtain ⟨C', h, _⟩ := vp_eq_block ar M N P 0 N 0 M 0 one C A B (P.toNat + 1) hd hr
    (le_refl _) (by omega)
  refine ⟨C', h, ?_⟩
  rw [← block_eq_mat_mult ar one h1 M N P (by have := hd.1; omega)
    (by have := hd.2.2.1; omega), h]

theorem getD_of_rd_eq (l1 l2 : List α) (M i j : ℕ) (d : α)
    (h : rd l1 ((j : ℤ) * (M : ℤ) + (i : ℤ)) = rd l2 ((j : ℤ) * (M : ℤ) + (i : ℤ))) :
    l1.getD (j * M + i) d = l2.getD (j * M + i) d := by
  have e : (j : ℤ) * (M : ℤ) + (i : ℤ) = ((j * M + i : ℕ) : ℤ) := by push_cast; rfl
  rw [e, rd_natCast, rd_natCast] at h
  rw [List.getD_eq_getElem?_getD, List.getD_eq_getElem?_getD, h]

theorem cellFold_congr (ar : Arith α) (coef : α → α) (A B A' B' : List α) (d : α) (M : ℕ) :
    ∀ (n a b : ℕ) (c : α),
      (∀ k, k < n → A.getD (a + k * M) d = A'.getD (a + k * M) d) →
      (∀ k, k < n → B.getD (b + k) d = B'.getD (b + k) d) →
      cellFold ar coef A B d M n a b c = cellFold ar coef A' B' d M n a b c := by
  intro n
  induction n with
  | zero => intros; rfl
  | succ n ih =>
    intro a b c hA hB
    have hA0 := hA 0 (by omega)
    have hB0 := hB 0 (by omega)
    simp only [Nat.zero_mul, Nat.add_zero] at hA0 hB0
    rw [cellFold, cellFold, hA0, hB0]
    apply ih
    · intro k hk
      have := hA (k + 1) (by omega)
      rwa [Nat.succ_mul, show a + (k * M + M) = a + M + k * M by omega] at this
    · intro k hk
      have := hB (k + 1) (by omega)
      rwa [show b + (k + 1) = b + 1 + k by omega] at this

/-- On unbounded integers (the auxiliary model). Input locality, for every arithmetic: take two runs of
    `matmult_block_notrans` (or of `matmult_vp_notrans`) with the same valid
    parameters and `alpha`, on buffers `C, A, B` and `C2, A2, B2` that agree on
    the cells of `C` inside `[R,E) x [S,L)`, on the rows `[R,E)` of `A` and on the
    columns `[S,L)` of `B`.  Then the two results agree on every cell inside
    `[R,E) x [S,L)`, whatever the buffers hold elsewhere. -/
theorem input_locality (ar : Arith α) (M N P S L R E vlen : ℤ) (alpha : α)
    (C A B C2 A2 B2 : List α) (fuel : ℕ)
    (hd : ValidDims M N P C A B) (hd2 : ValidDims M N P C2 A2 B2)
    (hr : ValidRegion M N S L R E) (hv : 0 ≤ vlen) (hf : P.toNat < fuel)
    (hC : ∀ i j : ℤ, R ≤ i → i < E → S ≤ j → j < L → rd C (j * M + i) = rd C2 (j * M + i))
    (hA : ∀ i k : ℤ, R ≤ i → i < E → 0 ≤ k → k < P → rd A (k * M + i) = rd A2 (k * M + i))
    (hB : ∀ k j : ℤ, 0 ≤ k → k < P → S ≤ j → j < L → rd B (j * P + k) = rd B2 (j * P + k)) :
    ∃ D D2, matmult_block_notrans ar C A B alpha M N P S L R E = some D ∧
      matmult_block_notrans ar C2 A2 B2 alpha M N P S L R E = some D2 ∧
      matmult_vp_notrans ar fuel C A B alpha M N P S L R E vlen = Outcome.done D ∧
      matmult_vp_notrans ar fuel C2 A2 B2 alpha M N P S L R E vlen = Outcome.done D2 ∧
      ∀ i j : ℤ, R ≤ i → i < E → S ≤ j → j < L → rd D (j * M + i) = rd D2 (j * M + i) := by
  obtain ⟨D, hb, hvp⟩ := vp_eq_block ar M N P S L R E vlen alpha C A B fuel hd hr hv hf
  obtain ⟨D2, hb2, hvp2⟩ := vp_eq_block ar M N P S L R E vlen alpha C2 A2 B2 fuel hd2 hr hv hf
  obtain ⟨m, n, p, rfl, rfl, rfl, hm, hn, hp, hCl, hAl, hBl⟩ := validDims_nat hd
  obtain ⟨_, _, _, hCl2, hAl2, hBl2⟩ := hd2
  have hCl2' : C2.length = m * n := by exact_mod_cast hCl2
  have hAl2' : A2.length = m * p := by exact_mod_cast hAl2
  have hBl2' : B2.length = p * n := by exact_mod_cast hBl2
  obtain ⟨s, l, r, e, rfl, rfl, rfl, rfl, hre, hem, hsl, hln⟩ := validRegion_nat hr
  obtain ⟨d⟩ := nonempty_of_validDims hm hn hCl
  obtain ⟨D', hrun, hlen, hcells⟩ :=
    block_nat ar C A B alpha d m n p s l r e hre.le hem hsl.le hln hCl hAl hBl
  rw [hb] at hrun
  injection hrun with h
  subst h
  obtain ⟨D2', hrun2, hlen2, hcells2⟩ :=
    block_nat ar C2 A2 B2 alpha d m n p s l r e hre.le hem hsl.le hln hCl2' hAl2' hBl2'
  rw [hb2] at hrun2
  injection hrun2 with h
  subst h
  refine ⟨D, D2, hb, hb2, hvp, hvp2, ?_⟩
  intro i j hi1 hi2 hj1 hj2
  obtain ⟨i, rfl⟩ := Int.eq_ofNat_of_zero_le (show 0 ≤ i by omega)
  obtain ⟨j, rfl⟩ := Int.eq_ofNat_of_zero_le (show 0 ≤ j by omega)
  apply rd_eq_of_getD D D2 m i j d (by omega)
  rw [hcells i j (by omega) (by omega), hcells2 i j (by omega) (by omega),
    if_pos ⟨by omega, by omega, by omega, by omega⟩,
    if_pos ⟨by omega, by omega, by omega, by omega⟩,
    getD_of_rd_eq C C2 m i j d (hC _ _ hi1 hi2 hj1 hj2)]
  apply cellFold_congr
  · intro k hk
    rw [Nat.add_comm i (k * m)]
    exact getD_of_rd_eq A A2 m i k d (hA _ _ hi1 hi2 (by omega) (by omega))
  · intro k hk
    exact getD_of_rd_eq B B2 p k j d (hB _ _ (by omega) (by omega) hj1 hj2)

theorem forInt_eq_iterE {σ : Type} (iv : ℤ → Except Fault ℤ)
    (hiv : ∀ x, 0 ≤ x → x ≤ INT_MAX → iv x = Except.ok x) (hi : ℤ) (hhi : hi ≤ INT_MAX)
    (body : σ → Except Fault σ) :
    ∀ (fuel : ℕ) (lo : ℤ) (s : σ), 0 ≤ lo → lo ≤ hi → (hi - lo).toNat < fuel →
      forInt iv hi body fuel lo s = iterE body (hi - lo).toNat s := by
  intro fuel
  induction fuel with
  | zero => intro lo s _ _ hf; omega
  | succ fuel ih =>
    intro lo s h0 hle hf
    rw [forInt]
    by_cases hlt : lo < hi
    · have e : (hi - lo).toNat = (hi - (lo + 1)).toNat + 1 := by omega
      rw [if_pos hlt, e, iterE]
      cases hb : body s with
      | error err => rfl
      | ok s1 =>
        simp only
        rw [hiv (lo + 1) (by omega) (by omega)]
        simp only
        exact ih (lo + 1) s1 (by omega) (by omega) (by omega)
    · have e : (hi - lo).toNat = 0 := by omega
      rw [if_neg hlt, e, iterE]

theorem iterE_rowBody32 (ar : Arith α) (A : List α) (coeff : α) :
    ∀ (n : ℕ) (C : List α) (cr a : ℤ),
      iterE (rowBody32 ar A coeff) n (C, cr, a)
        = match rowLoop ar A coeff n cr a C with
          | some C' => Except.ok (C', cr + (n : ℤ), a + (n : ℤ))
          | none => Except.error Fault.outOfBounds := by
  intro n
  induction n with
  | zero => intro C cr a; simp [iterE, rowLoop]
  | succ n ih =>
    intro C cr a
    rw [iterE, rowLoop, rowBody32]
    cases hA : rd A a with
    | none => cases hC : rd C cr <;> rfl
    | some x =>
      cases hC : rd C cr with
      | none => rfl
      | some c =>
        simp only [deref]
        cases hw : wr C cr (ar.add c (ar.mul x coeff)) with
        | none => rfl
        | some C1 =>
          simp only
          rw [ih]
          cases rowLoop ar A coeff n (cr + 1) (a + 1) C1 with
          | none => rfl
          | some C' =>
            simp only
            congr 3
            · push_cast; ring
            · push_cast; ring

theorem iterE_kBody32 (ar : Arith α) (iv : ℤ → Except Fault ℤ)
    (hiv : ∀ x, 0 ≤ x → x ≤ INT_MAX → iv x = Except.ok x) (fuel : ℕ) (A B : List α)
    (alpha : α) (M R E cc : ℤ) (hR : 0 ≤ R) (hRE : R ≤ E) (hE : E ≤ INT_MAX)
    (hf : (E - R).toNat < fuel) :
    ∀ (n : ℕ) (C : List α) (br ac : ℤ),
      iterE (kBody32 ar iv fuel A B alpha M R E cc) n (C, br, ac)
        = match kLoop ar A B alpha M (E - R).toNat cc n br ac C with
          | some C' => Except.ok (C', br + (n : ℤ), ac + (n : ℤ) * M)
          | none => Except.error Fault.outOfBounds := by
  intro n
  induction n with
  | zero => intro C br ac; simp [iterE, kLoop]
  | succ n ih =>
    intro C br ac
    have e1 : ∀ C' : List α, (Except.ok (C', br + 1 + (n : ℤ), ac + M + (n : ℤ) * M)
        : Except Fault (List α × ℤ × ℤ))
        = Except.ok (C', br + ((n + 1 : ℕ) : ℤ), ac + ((n + 1 : ℕ) : ℤ) * M) := by
      intro C'
      congr 3
      · push_cast; ring
      · push_cast; ring
    rw [iterE, kLoop, kBody32]
    cases hB : rd B br with
    | none => rfl
    | some b =>
      simp only [deref]
      by_cases hz : ar.isZero b = true
      · rw [if_pos hz, if_pos hz]
        simp only
        rw [ih]
        cases kLoop ar A B alpha M (E - R).toNat cc n (br + 1) (ac + M) C with
        | none => rfl
        | some C' => exact e1 C'
      · rw [if_neg hz, if_neg hz, forInt_eq_iterE iv hiv E hE _ fuel R _ hR hRE hf,
          iterE_rowBody32]
        cases rowLoop ar A (ar.mul b alpha) (E - R).toNat cc ac C with
        | none => rfl
        | some C1 =>
          simp only
          rw [ih]
          cases kLoop ar A B alpha M (E - R).toNat cc n (br + 1) (ac + M) C1 with
          | none => rfl
          | some C' => exact e1 C'

theorem iterE_jBody32 (ar : Arith α) (iv : ℤ → Except Fault ℤ)
    (hiv : ∀ x, 0 ≤ x → x ≤ INT_MAX → iv x = Except.ok x) (fuel : ℕ) (A B : List α)
    (alpha : α) (M P R E klo khi a0 : ℤ) (hR : 0 ≤ R) (hRE : R ≤ E) (hE : E ≤ INT_MAX)
    (hf : (E - R).toNat < fuel) (hk0 : 0 ≤ klo) (hk : klo ≤ khi) (hkhi : khi ≤ INT_MAX)
    (hfk : (khi - klo).toNat < fuel) :
    ∀ (n : ℕ) (C : List α) (cc bc : ℤ),
      iterE (jBody32 ar iv fuel A B alpha M P R E klo khi a0) n (C, cc, bc)
        = match jLoop ar A B alpha M P (E - R).toNat (khi - klo).toNat a0 n cc bc C with
          | some C' => Except.ok (C', cc + (n : ℤ) * M, bc + (n : ℤ) * P)
          | none => Except.error Fault.outOfBounds := by
  intro n
  induction n with
  | zero => intro C cc bc; simp [iterE, jLoop]
  | succ n ih =>
    intro C cc bc
    rw [iterE, jLoop, jBody32, forInt_eq_iterE iv hiv khi hkhi _ fuel klo _ hk0 hk hfk,
      iterE_kBody32 ar iv hiv fuel A B alpha M R E cc hR hRE hE hf]
    cases kLoop ar A B alpha M (E - R).toNat cc (khi - klo).toNat bc a0 C with
    | none => rfl
    | some C1 =>
      simp only
      rw [ih]
      cases jLoop ar A B alpha M P (E - R).toNat (khi - klo).toNat a0 n (cc + M) (bc + P) C1 with
      | none => rfl
      | some C' =>
        simp only
        congr 3
        · push_cast; ring
        · push_cast; ring

theorem mul_add_lt_mul (a b c x : ℤ) (hab : a < b) (hx : x < c) (hc : 0 ≤ c) :
    a * c + x < b * c := by
  have h1 : a + 1 ≤ b := by omega
  have h2 := mul_le_mul_of_nonneg_right h1 hc
  have e : (a + 1) * c = a * c + c := by ring
  omega

theorem mul_le_mul_bound (a b c : ℤ) (hab : a ≤ b) (hc : 0 ≤ c) : a * c ≤ b * c :=
  mul_le_mul_of_nonneg_right hab hc

theorem block32_eq (ar : Arith α) (iv : ℤ → Except Fault ℤ)
    (hiv : ∀ x, 0 ≤ x → x ≤ INT_MAX → iv x = Except.ok x) (fuel : ℕ) (C A B : List α)
    (alpha : α) (M N P S L R E : ℤ)
    (hSM : 0 ≤ S * M) (hSMR : S * M + R ≤ INT_MAX) (hSP0 : 0 ≤ S * P) (hSP : S * P ≤ INT_MAX)
    (hS : 0 ≤ S) (hSL : S ≤ L) (hL : L ≤ INT_MAX) (hfL : (L - S).toNat < fuel)
    (hR : 0 ≤ R) (hRE : R ≤ E) (hE : E ≤ INT_MAX) (hfE : (E - R).toNat < fuel)
    (hP0 : 0 ≤ P) (hP : P ≤ INT_MAX) (hfP : (P - 0).toNat < fuel) :
    matmult_block_notrans32 ar iv fuel C A B alpha M N P S L R E
      = match matmult_block_notrans ar C A B alpha M N P S L R E with
        | some C' => Except.ok C'
        | none => Except.error Fault.outOfBounds := by
  rw [matmult_block_notrans32, matmult_block_notrans]
  rw [hiv (S * M) hSM (by omega)]
  simp only
  rw [hiv (S * M + R) (by omega) hSMR, hiv (S * P) hSP0 hSP]
  simp only
  rw [forInt_eq_iterE iv hiv L hL _ fuel S _ hS hSL hfL,
    iterE_jBody32 ar iv hiv fuel A B alpha M P R E 0 P R hR hRE hE hfE (le_refl _) hP0 hP hfP]
  cases jLoop ar A B alpha M P (E - R).toNat (P - 0).toNat R (L - S).toNat (S * M + R) (S * P) C
    <;> rfl

theorem vpBody32_eq (ar : Arith α) (iv : ℤ → Except Fault ℤ)
    (hiv : ∀ x, 0 ≤ x → x ≤ INT_MAX → iv x = Except.ok x) (fuel : ℕ) (C A B : List α)
    (alpha : α) (M P S L R E vpS vpL : ℤ)
    (hSM : 0 ≤ S * M) (hSMR : S * M + R ≤ INT_MAX) (hSP0 : 0 ≤ S * P)
    (hSPv : S * P + vpS ≤ INT_MAX) (hvM0 : 0 ≤ vpS * M) (hvMR : vpS * M + R ≤ INT_MAX)
    (hS : 0 ≤ S) (hSL : S ≤ L) (hL : L ≤ INT_MAX) (hfL : (L - S).toNat < fuel)
    (hR : 0 ≤ R) (hRE : R ≤ E) (hE : E ≤ INT_MAX) (hfE : (E - R).toNat < fuel)
    (hv0 : 0 ≤ vpS) (hvv : vpS ≤ vpL) (hvL : vpL ≤ INT_MAX) (hfv : (vpL - vpS).toNat < fuel) :
    vpBody32 ar iv fuel A B alpha M P S L R E vpS vpL C
      = deref (vpBody ar A B alpha M P S L R E vpS vpL C) := by
  rw [vpBody32, vpBody]
  rw [hiv (S * M) hSM (by omega)]
  simp only
  rw [hiv (S * M + R) (by omega) hSMR, hiv (S * P) hSP0 (by omega)]
  simp only
  rw [hiv (S * P + vpS) (by omega) hSPv, hiv (vpS * M) hvM0 (by omega)]
  simp only
  rw [hiv (vpS * M + R) (by omega) hvMR]
  simp only
  rw [forInt_eq_iterE iv hiv L hL _ fuel S _ hS hSL hfL,
    iterE_jBody32 ar iv hiv fuel A B alpha M P R E vpS vpL _ hR hRE hE hfE hv0 hvv hvL hfv]
  cases jLoop ar A B alpha M P (E - R).toNat (vpL - vpS).toNat (vpS * M + R) (L - S).toNat
    (S * M + R) (S * P + vpS) C <;> rfl

theorem vpWhile32_eq {σ : Type} (iv : ℤ → Except Fault ℤ)
    (hiv : ∀ x, 0 ≤ x → x ≤ INT_MAX → iv x = Except.ok x)
    (body32 : ℤ → ℤ → σ → Except Fault σ) (body : ℤ → ℤ → σ → Option σ) (P vlen : ℤ)
    (hv : 1 ≤ vlen) (hPv : P + vlen ≤ INT_MAX)
    (hbody : ∀ vpS vpL s, 0 ≤ vpS → vpS < P → vpS ≤ vpL → vpL ≤ P →
      body32 vpS vpL s = deref (body vpS vpL s)) :
    ∀ (fuel : ℕ) (vpS vpL : ℤ) (s : σ), 0 ≤ vpS → vpS ≤ vpL → vpL ≤ P →
      vpWhile32 iv body32 P vlen fuel vpS vpL s
        = match vpWhile body P vlen fuel vpS vpL s with
          | Outcome.done r => Except.ok r.2.2
          | Outcome.outOfBounds => Except.error Fault.outOfBounds
          | Outcome.outOfFuel => Except.error Fault.outOfFuel := by
  intro fuel
  induction fuel with
  | zero => intro vpS vpL s _ _ _; rfl
  | succ fuel ih =>
    intro vpS vpL s h0 h1 h2
    rw [vpWhile32, vpWhile]
    by_cases hlt : vpS < P
    · rw [if_pos hlt, if_pos hlt, hbody vpS vpL s h0 hlt h1 h2]
      cases body vpS vpL s with
      | none => rfl
      | some s1 =>
        simp only [deref]
        rw [hiv (vpL + vlen) (by omega) (by omega)]
        simp only
        apply ih
        · omega
        · split_ifs <;> omega
        · split_ifs <;> omega
    · rw [if_neg hlt, if_neg hlt]

theorem iterE_mmRowBody32 (ar : Arith α) (iv : ℤ → Except Fault ℤ)
    (hiv : ∀ x, 0 ≤ x → x ≤ INT_MAX → iv x = Except.ok x) (A : List α) (beta : α) :
    ∀ (n : ℕ) (C : List α) (cr a : ℤ), 0 ≤ cr → cr + (n : ℤ) ≤ INT_MAX → 0 ≤ a →
      a + (n : ℤ) ≤ INT_MAX →
      iterE (mmRowBody32 ar iv A beta) n (C, cr, a)
        = match rowLoop ar A beta n cr a C with
          | some C' => Except.ok (C', cr + (n : ℤ), a + (n : ℤ))
          | none => Except.error Fault.outOfBounds := by
  intro n
  induction n with
  | zero => intro C cr a _ _ _ _; simp [iterE, rowLoop]
  | succ n ih =>
    intro C cr a h1 h2 h3 h4
    push_cast at h2 h4
    rw [iterE, rowLoop, mmRowBody32]
    cases hC : rd C cr with
    | none => cases hA : rd A a <;> rfl
    | some c =>
      cases hA : rd A a with
      | none => rfl
      | some x =>
        simp only [deref]
        cases hw : wr C cr (ar.add c (ar.mul x beta)) with
        | none => rfl
        | some C1 =>
          simp only
          rw [hiv (cr + 1) (by omega) (by omega), hiv (a + 1) (by omega) (by omega)]
          simp only
          rw [ih C1 (cr + 1) (a + 1) (by omega) (by omega) (by omega) (by omega)]
          cases rowLoop ar A beta n (cr + 1) (a + 1) C1 with
          | none => rfl
          | some C' =>
            simp only
            congr 3
            · push_cast; ring
            · push_cast; ring

theorem iterE_mmKBody32 (ar : Arith α) (iv : ℤ → Except Fault ℤ)
    (hiv : ∀ x, 0 ≤ x → x ≤ INT_MAX → iv x = Except.ok x) (fuel : ℕ) (A B : List α)
    (M cc : ℤ) (hM0 : 0 ≤ M) (hM : M ≤ INT_MAX) (hfM : M.toNat < fuel) (hcc0 : 0 ≤ cc)
    (hcc : cc + M ≤ INT_MAX) :
    ∀ (n : ℕ) (C : List α) (a br : ℤ), 0 ≤ a → a + (n : ℤ) * M ≤ INT_MAX → 0 ≤ br →
      br + (n : ℤ) ≤ INT_MAX →
      iterE (mmKBody32 ar iv fuel A B M cc) n (C, a, br)
        = match mmKLoop ar A B M cc n a br C with
          | some r => Except.ok r
          | none => Except.error Fault.outOfBounds := by
  intro n
  induction n with
  | zero => intro C a br _ _ _ _; simp [iterE, mmKLoop]
  | succ n ih =>
    intro C a br h1 h2 h3 h4
    have hMc : ((M.toNat : ℕ) : ℤ) = M := Int.toNat_of_nonneg hM0
    have e : ((n + 1 : ℕ) : ℤ) * M = (n : ℤ) * M + M := by push_cast; ring
    have hnM : 0 ≤ (n : ℤ) * M := mul_nonneg (by omega) hM0
    rw [e] at h2
    push_cast at h4
    rw [iterE, mmKLoop, mmKBody32]
    cases hB : rd B br with
    | none => rfl
    | some b =>
      simp only [deref]
      by_cases hz : ar.isZero b = true
      · rw [if_pos hz, if_pos hz, hiv (a + M) (by omega) (by omega)]
        simp only
        rw [hiv (br + 1) (by omega) (by omega)]
        simp only
        exact ih C (a + M) (br + 1) (by omega) (by omega) (by omega) (by omega)
      · rw [if_neg hz, if_neg hz,
          forInt_eq_iterE iv hiv M hM _ fuel 0 _ (le_refl _) hM0 (by simpa using hfM),
          Int.sub_zero,
          iterE_mmRowBody32 ar iv hiv A b M.toNat C cc a hcc0 (by omega) h1 (by omega),
          mmRowLoop_eq]
        cases rowLoop ar A b M.toNat cc a C with
        | none => rfl
        | some C1 =>
          simp only [Option.map_some']
          rw [hiv (br + 1) (by omega) (by omega)]
          simp only
          exact ih C1 (a + ↑M.toNat) (br + 1) (by omega) (by omega) (by omega) (by omega)

theorem iterE_mmJBody32 (ar : Arith α) (iv : ℤ → Except Fault ℤ)
    (hiv : ∀ x, 0 ≤ x → x ≤ INT_MAX → iv x = Except.ok x) (fuel : ℕ) (A B : List α)
    (M P : ℤ) (hM0 : 0 ≤ M) (hM : M ≤ INT_MAX) (hfM : M.toNat < fuel)
    (hP0 : 0 ≤ P) (hP : P ≤ INT_MAX) (hfP : P.toNat < fuel) (hPM : P * M ≤ INT_MAX) :
    ∀ (n : ℕ) (C : List α) (cc br : ℤ), 0 ≤ cc → cc + (n : ℤ) * M ≤ INT_MAX → 0 ≤ br →
      br + (n : ℤ) * P ≤ INT_MAX →
      (match iterE (mmJBody32 ar iv fuel A B M P) n (C, cc, br) with
        | Except.ok r => Except.ok r.1
        | Except.error e => Except.error e)
        = match mmJLoop ar A B M P n cc br C with
          | some C' => Except.ok C'
          | none => Except.error Fault.outOfBounds := by
  intro n
  induction n with
  | zero => intro C cc br _ _ _ _; simp [iterE, mmJLoop]
  | succ n ih =>
    intro C cc br h1 h2 h3 h4
    have hPc : ((P.toNat : ℕ) : ℤ) = P := Int.toNat_of_nonneg hP0
    have e1 : ((n + 1 : ℕ) : ℤ) * M = (n : ℤ) * M + M := by push_cast; ring
    have e2 : ((n + 1 : ℕ) : ℤ) * P = (n : ℤ) * P + P := by push_cast; ring
    have hnM : 0 ≤ (n : ℤ) * M := mul_nonneg (by omega) hM0
    have hnP : 0 ≤ (n : ℤ) * P := mul_nonneg (by omega) hP0
    rw [e1] at h2
    rw [e2] at h4
    rw [iterE, mmJLoop, mmJBody32,
      forInt_eq_iterE iv hiv P hP _ fuel 0 _ (le_refl _) hP0 (by simpa using hfP),
      iterE_mmKBody32 ar iv hiv fuel A B M cc hM0 hM hfM h1 (by omega) (P - 0).toNat C 0 br
        (le_refl _) (by rw [Int.sub_zero, hPc]; omega) h3 (by rw [Int.sub_zero, hPc]; omega),
      mmKLoop_eq ar A B M hM0]
    cases kLoopG ar (fun b => b) A B M M.toNat cc (P - 0).toNat br 0 C with
    | none => rfl
    | some C1 =>
      simp only [Option.map_some']
      rw [hiv (cc + M) (by omega) (by omega)]
      simp only
      exact ih C1 (cc + M) (br + ↑(P - 0).toNat) (by omega) (by omega)
        (by rw [Int.sub_zero, hPc]; omega) (by rw [Int.sub_zero, hPc]; omega)

theorem mat_mult32_eq (ar : Arith α) (iv : ℤ → Except Fault ℤ)
    (hiv : ∀ x, 0 ≤ x → x ≤ INT_MAX → iv x = Except.ok x) (fuel : ℕ) (C A B : List α)
    (S N M P : ℤ) (hM0 : 0 ≤ M) (hM : M ≤ INT_MAX) (hfM : M.toNat < fuel)
    (hP0 : 0 ≤ P) (hP : P ≤ INT_MAX) (hfP : P.toNat < fuel) (hPM : P * M ≤ INT_MAX)
    (hS : 0 ≤ S) (hSN : S ≤ N) (hN : N ≤ INT_MAX) (hfN : (N - S).toNat < fuel)
    (hNM : N * M ≤ INT_MAX) (hNP : N * P ≤ INT_MAX) :
    mat_mult32 ar iv fuel S N M P C A B
      = match mat_mult ar S N M P C A B with
        | some C' => Except.ok C'
        | none => Except.error Fault.outOfBounds := by
  have hSM0 : 0 ≤ S * M := mul_nonneg hS hM0
  have hSP0 : 0 ≤ S * P := mul_nonneg hS hP0
  have hNc : (((N - S).toNat : ℕ) : ℤ) = N - S := Int.toNat_of_nonneg (by omega)
  have e1 : S * M + (N - S) * M = N * M := by ring
  have e2 : S * P + (N - S) * P = N * P := by ring
  have hd1 : 0 ≤ (N - S) * M := mul_nonneg (by omega) hM0
  have hd2 : 0 ≤ (N - S) * P := mul_nonneg (by omega) hP0
  rw [mat_mult32, mat_mult, hiv (S * M) hSM0 (by omega)]
  simp only
  rw [hiv (S * P) hSP0 (by omega)]
  simp only
  rw [forInt_eq_iterE iv hiv N hN _ fuel S _ hS hSN hfN,
    ← iterE_mmJBody32 ar iv hiv fuel A B M P hM0 hM hfM hP0 hP hfP hPM (N - S).toNat C
      (S * M) (S * P) hSM0 (by rw [hNc]; omega) hSP0 (by rw [hNc]; omega)]
  cases iterE (mmJBody32 ar iv fuel A B M P) (N - S).toNat (C, S * M, S * P) <;> rfl

theorem checked32_ok (x : ℤ) (h0 : 0 ≤ x) (h1 : x ≤ INT_MAX) : checked32 x = Except.ok x := by
  rw [checked32, if_pos ⟨h0, h1⟩]

theorem wrapped32_ok (x : ℤ) (h0 : 0 ≤ x) (h1 : x ≤ INT_MAX) : wrapped32 x = Except.ok x := by
  rw [wrapped32, wrap32]
  rw [INT_MAX] at h1
  congr 1
  omega

theorem vp32_eq (ar : Arith α) (iv : ℤ → Except Fault ℤ)
    (hiv : ∀ x, 0 ≤ x → x ≤ INT_MAX → iv x = Except.ok x) (fuel : ℕ) (C A B : List α)
    (alpha : α) (M N P S L R E vlen : ℤ) (hd : ValidDims M N P C A B)
    (hr : ValidRegion M N S L R E) (hv : 1 ≤ vlen)
    (hMN : M * N ≤ INT_MAX) (hMP : M * P ≤ INT_MAX) (hPN : P * N ≤ INT_MAX)
    (hPv : P + vlen ≤ INT_MAX)
    (hfM : M.toNat < fuel) (hfN : N.toNat < fuel) (hfP : P.toNat < fuel) :
    matmult_vp_notrans32 ar iv fuel C A B alpha M N P S L R E vlen
      = match matmult_vp_notrans ar fuel C A B alpha M N P S L R E vlen with
        | Outcome.done C' => Except.ok C'
        | Outcome.outOfBounds => Except.error Fault.outOfBounds
        | Outcome.outOfFuel => Except.error Fault.outOfFuel := by
  obtain ⟨hM, hN, hP, _, _, _⟩ := hd
  obtain ⟨hR, hRE, hEM, hS, hSL, hLN⟩ := hr
  have hMle : M ≤ M * N := by
    have := mul_le_mul_of_nonneg_left (show (1 : ℤ) ≤ N by omega) (show (0 : ℤ) ≤ M by omega)
    omega
  have hNle : N ≤ M * N := by
    have := mul_le_mul_of_nonneg_right (show (1 : ℤ) ≤ M by omega) (show (0 : ℤ) ≤ N by omega)
    omega
  have hSM0 : 0 ≤ S * M := mul_nonneg hS hM.le
  have hSP0 : 0 ≤ S * P := mul_nonneg hS hP.le
  have hSMR : S * M + R < N * M := mul_add_lt_mul S N M R (by omega) (by omega) hM.le
  have hc1 : N * M = M * N := mul_comm _ _
  have hc2 : N * P = P * N := mul_comm _ _
  have hc3 : P * M = M * P := mul_comm _ _
  have hv0 : vlen ≠ 0 := by omega
  have hbody : ∀ vpS vpL (C1 : List α), 0 ≤ vpS → vpS < P → vpS ≤ vpL → vpL ≤ P →
      vpBody32 ar iv fuel A B alpha M P S L R E vpS vpL C1
        = deref (vpBody ar A B alpha M P S L R E vpS vpL C1) := by
    intro vpS vpL C1 h0 h1 h2 h3
    have hSPv : S * P + vpS < N * P := mul_add_lt_mul S N P vpS (by omega) h1 hP.le
    have hvMR : vpS * M + R < P * M := mul_add_lt_mul vpS P M R h1 (by omega) hM.le
    exact vpBody32_eq ar iv hiv fuel C1 A B alpha M P S L R E vpS vpL hSM0 (by omega) hSP0
      (by omega) (mul_nonneg h0 hM.le) (by omega) hS hSL.le (by omega) (by omega) hR hRE.le
      (by omega) (by omega) h0 h2 (by omega) (by omega)
  rw [matmult_vp_notrans32, matmult_vp_notrans, vpDriver]
  simp only [if_neg hv0]
  rw [vpWhile32_eq iv hiv _ (vpBody ar A B alpha M P S L R E) P vlen hv hPv hbody fuel 0 _ C
    (le_refl _) (by split_ifs <;> omega) (by split_ifs <;> omega)]
  cases vpWhile (vpBody ar A B alpha M P S L R E) P vlen fuel 0 (if vlen < P then vlen else P) C
    <;> rfl

/-- C19. No integer overflow in index arithmetic: with positive dimensions, a
    valid region, `vlen >= 1`, and `M*N`, `M*P`, `P*N`, `P + vlen` at most
    `INT_MAX = 2^31 - 1` (and fuel above `M`, `N`, `P`), the runs of the three
    kernels in which every computed `int` value (`S*M`, `S*M+R`, `S*P`,
    `S*P+vpS`, `vpS*M`, `vpS*M+R`, `vpL+vlen`, the loop counters, and `cc`, `cr`,
    `ar`, `br` of `mat_mult`) is checked to lie in `[0, INT_MAX]` never fault, the
    runs with 32-bit wrap-around never fault either, and both end with the
    buffers of the kernels on unbounded integers. -/
theorem no_int_overflow (ar : Arith α) (M N P S L R E vlen : ℤ) (alpha : α)
    (C A B : List α) (fuel : ℕ) (hd : ValidDims M N P C A B) (hr : ValidRegion M N S L R E)
    (hv : 1 ≤ vlen) (hMN : M * N ≤ INT_MAX) (hMP : M * P ≤ INT_MAX) (hPN : P * N ≤ INT_MAX)
    (hPv : P + vlen ≤ INT_MAX)
    (hfM : M.toNat < fuel) (hfN : N.toNat < fuel) (hfP : P.toNat < fuel) :
    ∃ C1 C3, matmult_block_notrans ar C A B alpha M N P S L R E = some C1 ∧
      matmult_vp_notrans ar fuel C A B alpha M N P S L R E vlen = Outcome.done C1 ∧
      mat_mult ar S N M P C A B = some C3 ∧
      matmult_block_notrans32 ar checked32 fuel C A B alpha M N P S L R E = Except.ok C1 ∧
      matmult_vp_notrans32 ar checked32 fuel C A B alpha M N P S L R E vlen = Except.ok C1 ∧
      mat_mult32 ar checked32 fuel S N M P C A B = Except.ok C3 ∧
      matmult_block_notrans32 ar wrapped32 fuel C A B alpha M N P S L R E = Except.ok C1 ∧
      matmult_vp_notrans32 ar wrapped32 fuel C A B alpha M N P S L R E vlen = Except.ok C1 ∧
      mat_mult32 ar wrapped32 fuel S N M P C A B = Except.ok C3 := by
  obtain ⟨C1, hb, hvp⟩ :=
    vp_eq_block ar M N P S L R E vlen alpha C A B fuel hd hr (by omega) hfP
  obtain ⟨C3, hmm⟩ : ∃ C3, mat_mult ar S N M P C A B = some C3 := by
    obtain ⟨m, n, p, rfl, rfl, rfl, hm, hn, hp, hC, hA, hB⟩ := validDims_nat hd
    obtain ⟨s, rfl⟩ := Int.eq_ofNat_of_zero_le hr.2.2.2.1
    obtain ⟨d⟩ := nonempty_of_validDims hm hn hC
    obtain ⟨C', hrun, _⟩ := mat_mult_nat ar C A B d m n p s
      (by have := hr.2.2.2.2.1; have := hr.2.2.2.2.2; omega) hC hA hB
    exact ⟨C', hrun⟩
  have hvp32 : ∀ iv : ℤ → Except Fault ℤ, (∀ x, 0 ≤ x → x ≤ INT_MAX → iv x = Except.ok x) →
      matmult_vp_notrans32 ar iv fuel C A B alpha M N P S L R E vlen = Except.ok C1 := by
    intro iv hiv
    rw [vp32_eq ar iv hiv fuel C A B alpha M N P S L R E vlen hd hr hv hMN hMP hPN hPv hfM hfN
      hfP, hvp]
  obtain ⟨hM, hN, hP, _, _, _⟩ := hd
  obtain ⟨hR, hRE, hEM, hS, hSL, hLN⟩ := hr
  have hMle : M ≤ M * N := by
    have := mul_le_mul_of_nonneg_left (show (1 : ℤ) ≤ N by omega) (show (0 : ℤ) ≤ M by omega)
    omega
  have hNle : N ≤ M * N := by
    have := mul_le_mul_of_nonneg_right (show (1 : ℤ) ≤ M by omega) (show (0 : ℤ) ≤ N by omega)
    omega
  have hPle : P ≤ P * N := by
    have := mul_le_mul_of_nonneg_left (show (1 : ℤ) ≤ N by omega) (show (0 : ℤ) ≤ P by omega)
    omega
  have hSM0 : 0 ≤ S * M := mul_nonneg hS hM.le
  have hSP0 : 0 ≤ S * P := mul_nonneg hS hP.le
  have hSMR : S * M + R < N * M := mul_add_lt_mul S N M R (by omega) (by omega) hM.le
  have hSP : S * P ≤ N * P := mul_le_mul_bound S N P (by omega) hP.le
  have hc1 : N * M = M * N := mul_comm _ _
  have hc2 : N * P = P * N := mul_comm _ _
  have hc3 : P * M = M * P := mul_comm _ _
  have hb32 : ∀ iv : ℤ → Except Fault ℤ, (∀ x, 0 ≤ x → x ≤ INT_MAX → iv x = Except.ok x) →
      matmult_block_notrans32 ar iv fuel C A B alpha M N P S L R E = Except.ok C1 := by
    intro iv hiv
    rw [block32_eq ar iv hiv fuel C A B alpha M N P S L R E hSM0 (by omega) hSP0 (by omega) hS
      hSL.le (by omega) (by omega) hR hRE.le (by omega) (by omega) hP.le (by omega)
      (by simpa using hfP), hb]
  have hm32 : ∀ iv : ℤ → Except Fault ℤ, (∀ x, 0 ≤ x → x ≤ INT_MAX → iv x = Except.ok x) →
      mat_mult32 ar iv fuel S N M P C A B = Except.ok C3 := by
    intro iv hiv
    rw [mat_mult32_eq ar iv hiv fuel C A B S N M P hM.le (by omega) hfM hP.le (by omega) hfP
      (by omega) hS (by omega) (by omega) (by omega) (by omega) (by omega), hmm]
  exact ⟨C1, C3, hb, hvp, hmm, hb32 _ checked32_ok, hvp32 _ checked32_ok, hm32 _ checked32_ok,
    hb32 _ wrapped32_ok, hvp32 _ wrapped32_ok, hm32 _ wrapped32_ok⟩

/-- Witness for C19: a 2 x 3 x 2 product on the region `[1,2) x [1,3)`, `vlen = 1`. -/
theorem no_int_overflow_witness :
    ValidDims 2 3 2 [0, 0, 0, 0, 0, 0] [1, 2, 3, 4] [(1 : ℤ), 0, 0, 1, 1, 1] ∧
    ValidRegion 2 3 1 3 1 2 ∧ (2 : ℤ) * 3 ≤ INT_MAX ∧ (2 : ℤ) * 2 ≤ INT_MAX ∧
    (2 : ℤ) + 1 ≤ INT_MAX ∧
    ∃ C1 C3, matmult_block_notrans (exactArith ℤ) [0, 0, 0, 0, 0, 0] [1, 2, 3, 4]
        [1, 0, 0, 1, 1, 1] 1 2 3 2 1 3 1 2 = some C1 ∧
      matmult_vp_notrans (exactArith ℤ) 4 [0, 0, 0, 0, 0, 0] [1, 2, 3, 4]
        [1, 0, 0, 1, 1, 1] 1 2 3 2 1 3 1 2 1 = Outcome.done C1 ∧
      mat_mult (exactArith ℤ) 1 3 2 2 [0, 0, 0, 0, 0, 0] [1, 2, 3, 4] [1, 0, 0, 1, 1, 1]
        = some C3 ∧
      matmult_block_notrans32 (exactArith ℤ) checked32 4 [0, 0, 0, 0, 0, 0] [1, 2, 3, 4]
        [1, 0, 0, 1, 1, 1] 1 2 3 2 1 3 1 2 = Except.ok C1 ∧
      matmult_vp_notrans32 (exactArith ℤ) checked32 4 [0, 0, 0, 0, 0, 0] [1, 2, 3, 4]
        [1, 0, 0, 1, 1, 1] 1 2 3 2 1 3 1 2 1 = Except.ok C1 ∧
      mat_mult32 (exactArith ℤ) checked32 4 1 3 2 2 [0, 0, 0, 0, 0, 0] [1, 2, 3, 4]
        [1, 0, 0, 1, 1, 1] = Except.ok C3 ∧
      matmult_block_notrans32 (exactArith ℤ) wrapped32 4 [0, 0, 0, 0, 0, 0] [1, 2, 3, 4]
        [1, 0, 0, 1, 1, 1] 1 2 3 2 1 3 1 2 = Except.ok C1 ∧
      matmult_vp_notrans32 (exactArith ℤ) wrapped32 4 [0, 0, 0, 0, 0, 0] [1, 2, 3, 4]
        [1, 0, 0, 1, 1, 1] 1 2 3 2 1 3 1 2 1 = Except.ok C1 ∧
      mat_mult32 (exactArith ℤ) wrapped32 4 1 3 2 2 [0, 0, 0, 0, 0, 0] [1, 2, 3, 4]
        [1, 0, 0, 1, 1, 1] = Except.ok C3 :=
  ⟨by decide, by decide, by decide, by decide, by decide,
    no_int_overflow (exactArith ℤ) 2 3 2 1 3 1 2 1 1 [0, 0, 0, 0, 0, 0] [1, 2, 3, 4]
      [1, 0, 0, 1, 1, 1] 4 (by decide) (by decide) (by decide) (by decide) (by decide)
      (by decide) (by decide) (by decide) (by decide) (by decide)⟩

theorem checked32_exact : ExactStore checked32 := checked32_ok

theorem wrapped32_exact : ExactStore wrapped32 := wrapped32_ok

/-- Without `int` overflow the block kernel with machine integers returns what
    the kernel on unbounded integers returns. -/
theorem block32_of_block (ar : Arith α) (iv : ℤ → Except Fault ℤ) (hiv : ExactStore iv)
    (fuel : ℕ) (C A B : List α) (alpha : α) (M N P S L R E : ℤ)
    (hM : 0 < M) (hN : 0 < N) (hP : 0 < P) (hr : ValidRegion M N S L R E)
    (hs : SizesFit M N P) (hf : EnoughFuel fuel M N P) (C' : List α)
    (h : matmult_block_notrans ar C A B alpha M N P S L R E = some C') :
    matmult_block_notrans32 ar iv fuel C A B alpha M N P S L R E = Except.ok C' := by
  obtain ⟨hR, hRE, hEM, hS, hSL, hLN⟩ := hr
  obtain ⟨hMN, hMP, hPN⟩ := hs
  obtain ⟨hfM, hfN, hfP⟩ := hf
  have hMle : M ≤ M * N := by
    have := mul_le_mul_of_nonneg_left (show (1 : ℤ) ≤ N by omega) (show (0 : ℤ) ≤ M by omega)
    omega
  have hNle : N ≤ M * N := by
    have := mul_le_mul_of_nonneg_right (show (1 : ℤ) ≤ M by omega) (show (0 : ℤ) ≤ N by omega)
    omega
  have hPle : P ≤ P * N := by
    have := mul_le_mul_of_nonneg_left (show (1 : ℤ) ≤ N by omega) (show (0 : ℤ) ≤ P by omega)
    omega
  have hSM0 : 0 ≤ S * M := mul_nonneg hS hM.le
  have hSP0 : 0 ≤ S * P := mul_nonneg hS hP.le
  have hSMR : S * M + R < N * M := mul_add_lt_mul S N M R (by omega) (by omega) hM.le
  have hSP : S * P ≤ N * P := mul_le_mul_bound S N P (by omega) hP.le
  have hc1 : N * M = M * N := mul_comm _ _
  have hc2 : N * P = P * N := mul_comm _ _
  rw [block32_eq ar iv hiv fuel C A B alpha M N P S L R E hSM0 (by omega) hSP0 (by omega) hS
    hSL.le (by omega) (by omega) hR hRE.le (by omega) (by omega) hP.le (by omega)
    (by simpa using hfP), h]

/-- Without `int` overflow `mat_mult32` returns what `mat_mult` returns. -/
theorem mat_mult32_of_mat_mult (ar : Arith α) (iv : ℤ → Except Fault ℤ) (hiv : ExactStore iv)
    (fuel : ℕ) (C A B : List α) (S N M P : ℤ)
    (hM : 0 < M) (hP : 0 < P) (hS : 0 ≤ S) (hSN : S < N)
    (hs : SizesFit M N P) (hf : EnoughFuel fuel M N P) (C' : List α)
    (h : mat_mult ar S N M P C A B = some C') :
    mat_mult32 ar iv fuel S N M P C A B = Except.ok C' := by
  obtain ⟨hMN, hMP, hPN⟩ := hs
  obtain ⟨hfM, hfN, hfP⟩ := hf
  have hN : 0 < N := by omega
  have hMle : M ≤ M * N := by
    have := mul_le_mul_of_nonneg_left (show (1 : ℤ) ≤ N by omega) (show (0 : ℤ) ≤ M by omega)
    omega
  have hNle : N ≤ M * N := by
    have := mul_le_mul_of_nonneg_right (show (1 : ℤ) ≤ M by omega) (show (0 : ℤ) ≤ N by omega)
    omega
  have hPle : P ≤ P * N := by
    have := mul_le_mul_of_nonneg_left (show (1 : ℤ) ≤ N by omega) (show (0 : ℤ) ≤ P by omega)
    omega
  have hc1 : N * M = M * N := mul_comm _ _
  have hc2 : N * P = P * N := mul_comm _ _
  have hc3 : P * M = M * P := mul_comm _ _
  rw [mat_mult32_eq ar iv hiv fuel C A B S N M P hM.le (by omega) hfM hP.le (by omega) hfP
    (by omega) hS (by omega) (by omega) (by omega) (by omega) (by omega), h]

/-- The body of the `while` loop with machine integers is the body on
    unbounded integers for every chunk `0 <= vpS < P`, `vpS <= vpL <= P`, when the
    sizes fit. -/
theorem vpBody32_of_vpBody (ar : Arith α) (iv : ℤ → Except Fault ℤ) (hiv : ExactStore iv)
    (fuel : ℕ) (A B : List α) (alpha : α) (M N P S L R E : ℤ)
    (hM : 0 < M) (hN : 0 < N) (hP : 0 < P) (hr : ValidRegion M N S L R E)
    (hs : SizesFit M N P) (hf : EnoughFuel fuel M N P) :
    ∀ vpS vpL (C1 : List α), 0 ≤ vpS → vpS < P → vpS ≤ vpL → vpL ≤ P →
      vpBody32 ar iv fuel A B alpha M P S L R E vpS vpL C1
        = deref (vpBody ar A B alpha M P S L R E vpS vpL C1) := by
  obtain ⟨hR, hRE, hEM, hS, hSL, hLN⟩ := hr
  obtain ⟨hMN, hMP, hPN⟩ := hs
  obtain ⟨hfM, hfN, hfP⟩ := hf
  have hMle : M ≤ M * N := by
    have := mul_le_mul_of_nonneg_left (show (1 : ℤ) ≤ N by omega) (show (0 : ℤ) ≤ M by omega)
    omega
  have hNle : N ≤ M * N := by
    have := mul_le_mul_of_nonneg_right (show (1 : ℤ) ≤ M by omega) (show (0 : ℤ) ≤ N by omega)
    omega
  have hPle : P ≤ P * N := by
    have := mul_le_mul_of_nonneg_left (show (1 : ℤ) ≤ N by omega) (show (0 : ℤ) ≤ P by omega)
    omega
  have hSM0 : 0 ≤ S * M := mul_nonneg hS hM.le
  have hSP0 : 0 ≤ S * P := mul_nonneg hS hP.le
  have hSMR : S * M + R < N * M := mul_add_lt_mul S N M R (by omega) (by omega) hM.le
  have hc1 : N * M = M * N := mul_comm _ _
  have hc2 : N * P = P * N := mul_comm _ _
  have hc3 : P * M = M * P := mul_comm _ _
  intro vpS vpL C1 h0 h1 h2 h3
  have hSPv : S * P + vpS < N * P := mul_add_lt_mul S N P vpS (by omega) h1 hP.le
  have hvMR : vpS * M + R < P * M := mul_add_lt_mul vpS P M R h1 (by omega) hM.le
  exact vpBody32_eq ar iv hiv fuel C1 A B alpha M P S L R E vpS vpL hSM0 (by omega) hSP0
    (by omega) (mul_nonneg h0 hM.le) (by omega) hS hSL.le (by omega) (by omega) hR hRE.le
    (by omega) (by omega) h0 h2 (by omega) (by omega)

theorem vp32_unfold (ar : Arith α) (iv : ℤ → Except Fault ℤ) (fuel : ℕ) (C A B : List α)
    (alpha : α) (M N P S L R E vlen : ℤ) :
    matmult_vp_notrans32 ar iv fuel C A B alpha M N P S L R E vlen
      = vpDriver32 iv (vpBody32 ar iv fuel A B alpha M P S L R E) fuel P vlen C := rfl

/-- The loop skeleton with machine integers is the skeleton on unbounded
    integers when `P + v` fits (`v` the viewport length in effect) and the two
    bodies agree on every chunk inside `[0, P]`. -/
theorem vpDriver32_of_vpDriver {σ : Type} (iv : ℤ → Except Fault ℤ) (hiv : ExactStore iv)
    (body32 : ℤ → ℤ → σ → Except Fault σ) (body : ℤ → ℤ → σ → Option σ) (P vlen : ℤ)
    (hP : 0 < P) (hv : 0 ≤ vlen) (hPv : P + effectiveVlen vlen ≤ INT_MAX)
    (hbody : ∀ vpS vpL s, 0 ≤ vpS → vpS < P → vpS ≤ vpL → vpL ≤ P →
      body32 vpS vpL s = deref (body vpS vpL s))
    (fuel : ℕ) (s : σ) (r : ℤ × ℤ × σ)
    (h : vpDriver body fuel P vlen s = Outcome.done r) :
    vpDriver32 iv body32 fuel P vlen s = Except.ok r.2.2 := by
  have hv1 := effectiveVlen_pos vlen hv
  rw [vpDriver] at h
  rw [vpDriver32]
  have e : (if vlen = 0 then VLEN_DEFAULT else vlen) = effectiveVlen vlen := rfl
  simp only [e] at h ⊢
  rw [vpWhile32_eq iv hiv body32 body P (effectiveVlen vlen) hv1 hPv hbody fuel 0 _ s
    (le_refl _) (by split_ifs <;> omega) (by split_ifs <;> omega), h]

/-- Without `int` overflow the viewport kernel with machine integers ends with
    the buffer of the kernel on unbounded integers. -/
theorem vp32_of_vp (ar : Arith α) (iv : ℤ → Except Fault ℤ) (hiv : ExactStore iv)
    (fuel : ℕ) (C A B : List α) (alpha : α) (M N P S L R E vlen : ℤ)
    (hM : 0 < M) (hN : 0 < N) (hP : 0 < P) (hr : ValidRegion M N S L R E)
    (hv : 0 ≤ vlen) (hs : SizesFit M N P) (hPv : P + effectiveVlen vlen ≤ INT_MAX)
    (hf : EnoughFuel fuel M N P) (C' : List α)
    (h : matmult_vp_notrans ar fuel C A B alpha M N P S L R E vlen = Outcome.done C') :
    matmult_vp_notrans32 ar iv fuel C A B alpha M N P S L R E vlen = Except.ok C' := by
  rw [matmult_vp_notrans] at h
  cases hd : vpDriver (vpBody ar A B alpha M P S L R E) fuel P vlen C with
  | done r =>
    obtain ⟨x, y, s'⟩ := r
    rw [hd] at h
    simp only [Outcome.state] at h
    injection h with h
    subst h
    rw [vp32_unfold, vpDriver32_of_vpDriver iv hiv _ _ P vlen hP hv hPv
      (vpBody32_of_vpBody ar iv hiv fuel A B alpha M N P S L R E hM hN hP hr hs hf) fuel C _ hd]
  | outOfBounds => rw [hd] at h; exact Outcome.noConfusion h
  | outOfFuel => rw [hd] at h; exact Outcome.noConfusion h

theorem rd_neg (buf : List α) (i : ℤ) (h : i < 0) : rd buf i = none := by
  rw [rd, if_neg (by omega)]

/-- The large test input is well-formed: buffers of `3 * INT_MAX`, `INT_MAX`
    and `3` elements for `M = INT_MAX`, `N = 3`, `P = 1`. -/
theorem large_input_valid (B : List ℤ) (hB : B.length = 3) :
    ValidDims 2147483647 3 1 largeC largeA B := by
  refine ⟨by decide, by decide, by decide, ?_, ?_, ?_⟩
  · rw [largeC, List.length_replicate]; norm_num
  · rw [largeA, List.length_replicate]; norm_num
  · rw [hB]; norm_num

/-- With `M = INT_MAX` and a region starting at column `S = 2` the product
    `S*M` is not a 32-bit value: the checked block kernel faults at once,
    whatever the buffers and the rest of the region. -/
theorem block32_checked_overflow (ar : Arith α) (fuel : ℕ) (C A B : List α) (alpha : α)
    (N P L R E : ℤ) :
    matmult_block_notrans32 ar checked32 fuel C A B alpha 2147483647 N P 2 L R E
      = Except.error Fault.intOverflow := by
  simp [matmult_block_notrans32, checked32, INT_MAX]

/-- With `M = INT_MAX`, `P = 1` and the region `[0,E) x [2,3)` the wrapped
    block kernel starts its `C` cursor at the offset `wrap32 (2 * INT_MAX) = -2`
    and its first row step is a dereference outside the buffers. -/
theorem block32_wrapped_oob (fuel : ℕ) (C A : List ℤ) (alpha N E : ℤ) (hE : 0 < E) :
    matmult_block_notrans32 (exactArith ℤ) wrapped32 (fuel + 1) C A [0, 0, 1] alpha
      2147483647 N 1 2 3 0 E = Except.error Fault.outOfBounds := by
  have hC : rd C (-2) = none := rd_neg C (-2) (by decide)
  have hB : rd [(0 : ℤ), 0, 1] 2 = some 1 := by decide
  cases hA : rd A 0 <;>
    simp [matmult_block_notrans32, wrapped32, wrap32, forInt, jBody32, kBody32,
      rowBody32, hB, hC, hA, hE, deref, exactArith]

/-- As `block32_checked_overflow`, for the viewport kernel: the fault is at `S*M`
    in the first pass of the `while` loop. -/
theorem vp32_checked_overflow (ar : Arith α) (fuel : ℕ) (C A B : List α) (alpha : α)
    (N L R E vlen : ℤ) :
    matmult_vp_notrans32 ar checked32 (fuel + 1) C A B alpha 2147483647 N 1 2 L R E vlen
      = Except.error Fault.intOverflow := by
  simp [matmult_vp_notrans32, vpWhile32, vpBody32, checked32, INT_MAX]

/-- As `block32_wrapped_oob`, for the viewport kernel with `vlen = 0` or
    `vlen >= 1`. -/
theorem vp32_wrapped_oob (fuel : ℕ) (C A : List ℤ) (alpha N E vlen : ℤ) (hE : 0 < E)
    (hv : 0 ≤ vlen) :
    matmult_vp_notrans32 (exactArith ℤ) wrapped32 (fuel + 1) C A [0, 0, 1] alpha
      2147483647 N 1 2 3 0 E vlen = Except.error Fault.outOfBounds := by
  have hC : rd C (-2) = none := rd_neg C (-2) (by decide)
  have hB : rd [(0 : ℤ), 0, 1] 2 = some 1 := by decide
  have hL : (if (if vlen = 0 then VLEN_DEFAULT else vlen) < 1
      then (if vlen = 0 then VLEN_DEFAULT else vlen) else 1) = 1 := by
    rw [VLEN_DEFAULT]; split_ifs <;> omega
  rw [matmult_vp_notrans32]
  simp only [hL]
  cases hA : rd A 0 <;>
    simp [vpWhile32, vpBody32, wrapped32, wrap32, forInt, jBody32,
      kBody32, rowBody32, hB, hC, hA, hE, deref, exactArith]

/-- As `vp32_checked_overflow`, for the instrumented viewport kernel. -/
theorem vp32_traced_checked_overflow (ar : Arith α) (fuel : ℕ) (C A B : List α) (alpha : α)
    (N L R E vlen : ℤ) :
    matmult_vp_notrans32_traced ar checked32 (fuel + 1) C A B alpha 2147483647 N 1 2 L R E vlen
      = Except.error Fault.intOverflow := by
  simp [matmult_vp_notrans32_traced, vpDriver32, vpWhile32, tracedBody32, vpBody32, checked32,
    INT_MAX]

/-- As `vp32_wrapped_oob`, for the instrumented viewport kernel. -/
theorem vp32_traced_wrapped_oob (fuel : ℕ) (C A : List ℤ) (alpha N E vlen : ℤ) (hE : 0 < E)
    (hv : 0 ≤ vlen) :
    matmult_vp_notrans32_traced (exactArith ℤ) wrapped32 (fuel + 1) C A [0, 0, 1] alpha
      2147483647 N 1 2 3 0 E vlen = Except.error Fault.outOfBounds := by
  have hC : rd C (-2) = none := rd_neg C (-2) (by decide)
  have hB : rd [(0 : ℤ), 0, 1] 2 = some 1 := by decide
  have hL : (if (if vlen = 0 then VLEN_DEFAULT else vlen) < 1
      then (if vlen = 0 then VLEN_DEFAULT else vlen) else 1) = 1 := by
    rw [VLEN_DEFAULT]; split_ifs <;> omega
  rw [matmult_vp_notrans32_traced, vpDriver32]
  simp only [hL]
  cases hA : rd A 0 <;>
    simp [vpWhile32, tracedBody32, vpBody32, wrapped32, wrap32, forInt, jBody32,
      kBody32, rowBody32, hB, hC, hA, hE, deref, exactArith]

/-- With `M = INT_MAX` and start column `S = 2` the checked reference kernel
    faults at `cc = S*M`, whatever the buffers. -/
theorem mat_mult32_checked_overflow (ar : Arith α) (fuel : ℕ) (C A B : List α) (N P : ℤ) :
    mat_mult32 ar checked32 fuel 2 N 2147483647 P C A B = Except.error Fault.intOverflow := by
  simp [mat_mult32, checked32, INT_MAX]

/-- With `M = INT_MAX`, `N = 3`, `P = 1` and start column `S = 2` the wrapped
    reference kernel starts at `cc = -2` and reads `C[-2]`. -/
theorem mat_mult32_wrapped_oob (fuel : ℕ) (C A : List ℤ) :
    mat_mult32 (exactArith ℤ) wrapped32 (fuel + 1) 2 3 2147483647 1 C A [0, 0, 1]
      = Except.error Fault.outOfBounds := by
  have hC : rd C (-2) = none := rd_neg C (-2) (by decide)
  have hB : rd [(0 : ℤ), 0, 1] 2 = some 1 := by decide
  simp [mat_mult32, wrapped32, wrap32, forInt, mmJBody32, mmKBody32, mmRowBody32, hB, hC,
    deref, exactArith]

/-- With `M = INT_MAX`, `N = 3`, `P = 1`, start column `S = 0` and
    `B = [0, 0, 1]` the checked reference kernel faults at `cc += M` after
    column 1 (`INT_MAX + INT_MAX`). -/
theorem mat_mult32_checked_overflow_full (fuel : ℕ) (C A : List ℤ) :
    mat_mult32 (exactArith ℤ) checked32 (fuel + 2) 0 3 2147483647 1 C A [0, 0, 1]
      = Except.error Fault.intOverflow := by
  have hB0 : rd [(0 : ℤ), 0, 1] 0 = some 0 := by decide
  have hB1 : rd [(0 : ℤ), 0, 1] 1 = some 0 := by decide
  simp [mat_mult32, checked32, INT_MAX, forInt, mmJBody32, mmKBody32, hB0, hB1, deref,
    exactArith]

/-- On the same input the wrapped reference kernel enters column 2 with
    `cc = wrap32 (2 * INT_MAX) = -2` and reads `C[-2]`. -/
theorem mat_mult32_wrapped_oob_full (fuel : ℕ) (C A : List ℤ) :
    mat_mult32 (exactArith ℤ) wrapped32 (fuel + 3) 0 3 2147483647 1 C A [0, 0, 1]
      = Except.error Fault.outOfBounds := by
  have hB0 : rd [(0 : ℤ), 0, 1] 0 = some 0 := by decide
  have hB1 : rd [(0 : ℤ), 0, 1] 1 = some 0 := by decide
  have hB2 : rd [(0 : ℤ), 0, 1] 2 = some 1 := by decide
  have hC : rd C (-2) = none := rd_neg C (-2) (by decide)
  simp [mat_mult32, wrapped32, wrap32, forInt, mmJBody32, mmKBody32, mmRowBody32, hB0, hB1,
    hB2, hC, deref, exactArith]

/-- As `mat_mult32_checked_overflow`, for the instrumented reference kernel. -/
theorem mat_mult32_traced_checked_overflow (ar : Arith α) (fuel : ℕ) (C A B : List α)
    (N P : ℤ) :
    mat_mult32_traced ar checked32 fuel 2 N 2147483647 P C A B
      = Except.error Fault.intOverflow := by
  simp [mat_mult32_traced, checked32, INT_MAX]

/-- As `mat_mult32_checked_overflow_full`, for the instrumented reference
    kernel. -/
theorem mat_mult32_traced_checked_overflow_full (fuel : ℕ) (C A : List ℤ) :
    mat_mult32_traced (exactArith ℤ) checked32 (fuel + 2) 0 3 2147483647 1 C A [0, 0, 1]
      = Except.error Fault.intOverflow := by
  have hB0 : rd [(0 : ℤ), 0, 1] 0 = some 0 := by decide
  have hB1 : rd [(0 : ℤ), 0, 1] 1 = some 0 := by decide
  simp [mat_mult32_traced, checked32, INT_MAX, forInt, mmJBody32Log, mmKBody32Log, mmKBody32,
    hB0, hB1, deref, exactArith]

/-- As `mat_mult32_wrapped_oob_full`, for the instrumented reference kernel. -/
theorem mat_mult32_traced_wrapped_oob_full (fuel : ℕ) (C A : List ℤ) :
    mat_mult32_traced (exactArith ℤ) wrapped32 (fuel + 3) 0 3 2147483647 1 C A [0, 0, 1]
      = Except.error Fault.outOfBounds := by
  have hB0 : rd [(0 : ℤ), 0, 1] 0 = some 0 := by decide
  have hB1 : rd [(0 : ℤ), 0, 1] 1 = some 0 := by decide
  have hB2 : rd [(0 : ℤ), 0, 1] 2 = some 1 := by decide
  have hC : rd C (-2) = none := rd_neg C (-2) (by decide)
  simp [mat_mult32_traced, wrapped32, wrap32, forInt, mmJBody32Log, mmKBody32Log, mmKBody32,
    mmRowBody32, hB0, hB1, hB2, hC, deref, exactArith]

/-- The chunk recorder never shortens its trace. -/
theorem vpWhile32c_trace_le (iv : ℤ → Except Fault ℤ) (P vlen : ℤ) :
    ∀ (fuel : ℕ) (vpS vpL : ℤ) (tr : List (ℤ × ℤ)) (r : ℤ × ℤ × List (ℤ × ℤ)),
      vpWhile32c iv recordChunk32 P vlen fuel vpS vpL tr = Except.ok r →
      tr.length ≤ r.2.2.length := by
  intro fuel
  induction fuel with
  | zero => intro vpS vpL tr r h; exact Except.noConfusion h
  | succ fuel ih =>
    intro vpS vpL tr r h
    rw [vpWhile32c] at h
    by_cases hlt : vpS < P
    · rw [if_pos hlt, recordChunk32] at h
      simp only at h
      cases hi : iv (vpL + vlen) with
      | error e => rw [hi] at h; exact Except.noConfusion h
      | ok x =>
        rw [hi] at h
        have := ih _ _ _ r h
        rw [List.length_append] at this
        omega
    · rw [if_neg hlt] at h
      injection h with h
      subst h
      exact le_refl _

/-- With `P = 2` and `vlen = INT_MAX` the checked loop skeleton faults at
    `vpL += vlen` (line 116) at the end of its first pass. -/
theorem vpChunks32_checked_overflow (fuel : ℕ) :
    vpChunks32 checked32 (fuel + 1) 2 2147483647 = Except.error Fault.intOverflow := by
  simp [vpChunks32, vpWhile32c, recordChunk32, checked32, INT_MAX]

/-- With `P = INT_MAX` and `vlen = 2^30 + 1` the wrapped loop skeleton is still
    running after three passes, or out of fuel: `vpL += vlen` wraps to a
    negative value in the first pass. -/
theorem vpChunks32_wrapped_long (fuel : ℕ) (r : ℤ × ℤ × List (ℤ × ℤ))
    (h : vpChunks32 wrapped32 fuel 2147483647 1073741825 = Except.ok r) :
    3 ≤ r.2.2.length := by
  match fuel, h with
  | 0, h => exact Except.noConfusion h
  | 1, h => simp [vpChunks32, vpWhile32c, recordChunk32, wrapped32, wrap32] at h
  | 2, h => simp [vpChunks32, vpWhile32c, recordChunk32, wrapped32, wrap32] at h
  | 3, h => simp [vpChunks32, vpWhile32c, recordChunk32, wrapped32, wrap32] at h
  | fuel + 4, h =>
    rw [vpChunks32] at h
    simp only [vpWhile32c, recordChunk32, wrapped32, wrap32] at h
    norm_num at h
    have := vpWhile32c_trace_le _ _ _ _ _ _ _ _ h
    simp only [List.nil_append, List.length_append, List.length_singleton,
      List.length_cons, List.length_nil] at this
    omega

theorem iterE_mmKBody32Log (ar : Arith α) (iv : ℤ → Except Fault ℤ) (hiv : ExactStore iv)
    (fuel : ℕ) (A B : List α)
    (M cc : ℤ) (hM0 : 0 ≤ M) (hM : M ≤ INT_MAX) (hfM : M.toNat < fuel) (hcc0 : 0 ≤ cc)
    (hcc : cc + M ≤ INT_MAX) :
    ∀ (n : ℕ) (C : List α) (a br : ℤ) (log : List (ℤ × ℤ × ℤ)), 0 ≤ a →
      a + (n : ℤ) * M ≤ INT_MAX → 0 ≤ br → br + (n : ℤ) ≤ INT_MAX →
      iterE (mmKBody32Log ar iv fuel A B M cc) n (C, a, br, log)
        = match mmKLoopLog ar A B M cc n a br C log with
          | some r => Except.ok r
          | none => Except.error Fault.outOfBounds := by
  intro n
  induction n with
  | zero => intro C a br log _ _ _ _; simp [iterE, mmKLoopLog]
  | succ n ih =>
    intro C a br log h1 h2 h3 h4
    have hMc : ((M.toNat : ℕ) : ℤ) = M := Int.toNat_of_nonneg hM0
    have e : ((n + 1 : ℕ) : ℤ) * M = (n : ℤ) * M + M := by push_cast; ring
    have hnM : 0 ≤ (n : ℤ) * M := mul_nonneg (by omega) hM0
    rw [e] at h2
    push_cast at h4
    rw [iterE, mmKLoopLog, mmKBody32Log, mmKBody32]
    cases hB : rd B br with
    | none => rfl
    | some b =>
      simp only [deref]
      by_cases hz : ar.isZero b = true
      · rw [if_pos hz, if_pos hz, hiv (a + M) (by omega) (by omega)]
        simp only
        rw [hiv (br + 1) (by omega) (by omega)]
        simp only
        exact ih C (a + M) (br + 1) _ (by omega) (by omega) (by omega) (by omega)
      · rw [if_neg hz, if_neg hz,
          forInt_eq_iterE iv hiv M hM _ fuel 0 _ (le_refl _) hM0 (by simpa using hfM),
          Int.sub_zero,
          iterE_mmRowBody32 ar iv hiv A b M.toNat C cc a hcc0 (by omega) h1 (by omega),
          mmRowLoop_eq]
        cases rowLoop ar A b M.toNat cc a C with
        | none => rfl
        | some C1 =>
          simp only [Option.map_some']
          rw [hiv (br + 1) (by omega) (by omega)]
          simp only
          exact ih C1 (a + ↑M.toNat) (br + 1) _ (by omega) (by omega) (by omega) (by omega)

theorem iterE_mmJBody32Log (ar : Arith α) (iv : ℤ → Except Fault ℤ) (hiv : ExactStore iv)
    (fuel : ℕ) (A B : List α)
    (M P : ℤ) (hM0 : 0 ≤ M) (hM : M ≤ INT_MAX) (hfM : M.toNat < fuel)
    (hP0 : 0 ≤ P) (hP : P ≤ INT_MAX) (hfP : P.toNat < fuel) (hPM : P * M ≤ INT_MAX) :
    ∀ (n : ℕ) (C : List α) (cc br : ℤ) (log : List (ℤ × ℤ × ℤ)), 0 ≤ cc →
      cc + (n : ℤ) * M ≤ INT_MAX → 0 ≤ br → br + (n : ℤ) * P ≤ INT_MAX →
      (match iterE (mmJBody32Log ar iv fuel A B M P) n (C, cc, br, log) with
        | Except.ok r => Except.ok (r.1, r.2.2.2)
        | Except.error e => Except.error e)
        = match mmJLoopLog ar A B M P n cc br C log with
          | some r => Except.ok r
          | none => Except.error Fault.outOfBounds := by
  intro n
  induction n with
  | zero => intro C cc br log _ _ _ _; simp [iterE, mmJLoopLog]
  | succ n ih =>
    intro C cc br log h1 h2 h3 h4
    have hPc : ((P.toNat : ℕ) : ℤ) = P := Int.toNat_of_nonneg hP0
    have e1 : ((n + 1 : ℕ) : ℤ) * M = (n : ℤ) * M + M := by push_cast; ring
    have e2 : ((n + 1 : ℕ) : ℤ) * P = (n : ℤ) * P + P := by push_cast; ring
    have hnM : 0 ≤ (n : ℤ) * M := mul_nonneg (by omega) hM0
    have hnP : 0 ≤ (n : ℤ) * P := mul_nonneg (by omega) hP0
    rw [e1] at h2
    rw [e2] at h4
    rw [iterE, mmJLoopLog, mmJBody32Log,
      forInt_eq_iterE iv hiv P hP _ fuel 0 _ (le_refl _) hP0 (by simpa using hfP),
      iterE_mmKBody32Log ar iv hiv fuel A B M cc hM0 hM hfM h1 (by omega) (P - 0).toNat C 0 br
        log (le_refl _) (by rw [Int.sub_zero, hPc]; omega) h3
        (by rw [Int.sub_zero, hPc]; omega),
      mmKLoopLog_eq ar A B M hM0, mmKLoop_eq ar A B M hM0]
    cases kLoopG ar (fun b => b) A B M M.toNat cc (P - 0).toNat br 0 C with
    | none => rfl
    | some C1 =>
      simp only [Option.map_some']
      rw [hiv (cc + M) (by omega) (by omega)]
      simp only
      exact ih C1 (cc + M) (br + ↑(P - 0).toNat) _ (by omega) (by omega)
        (by rw [Int.sub_zero, hPc]; omega) (by rw [Int.sub_zero, hPc]; omega)

/-- Without `int` overflow the instrumented `mat_mult32` returns what the
    instrumented `mat_mult` returns. -/
theorem mat_mult32_traced_of_traced (ar : Arith α) (iv : ℤ → Except Fault ℤ)
    (hiv : ExactStore iv) (fuel : ℕ) (C A B : List α) (S N M P : ℤ)
    (hM : 0 < M) (hP : 0 < P) (hS : 0 ≤ S) (hSN : S < N)
    (hs : SizesFit M N P) (hf : EnoughFuel fuel M N P) (r : List α × List (ℤ × ℤ × ℤ))
    (h : mat_mult_traced ar S N M P C A B = some r) :
    mat_mult32_traced ar iv fuel S N M P C A B = Except.ok r := by
  obtain ⟨hMN, hMP, hPN⟩ := hs
  obtain ⟨hfM, hfN, hfP⟩ := hf
  have hN : 0 < N := by omega
  have hMle : M ≤ M * N := by
    have := mul_le_mul_of_nonneg_left (show (1 : ℤ) ≤ N by omega) (show (0 : ℤ) ≤ M by omega)
    omega
  have hNle : N ≤ M * N := by
    have := mul_le_mul_of_nonneg_right (show (1 : ℤ) ≤ M by omega) (show (0 : ℤ) ≤ N by omega)
    omega
  have hPle : P ≤ P * N := by
    have := mul_le_mul_of_nonneg_left (show (1 : ℤ) ≤ N by omega) (show (0 : ℤ) ≤ P by omega)
    omega
  have hc1 : N * M = M * N := mul_comm _ _
  have hc2 : N * P = P * N := mul_comm _ _
  have hc3 : P * M = M * P := mul_comm _ _
  have hSM0 : 0 ≤ S * M := mul_nonneg hS hM.le
  have hSP0 : 0 ≤ S * P := mul_nonneg hS hP.le
  have hNc : (((N - S).toNat : ℕ) : ℤ) = N - S := Int.toNat_of_nonneg (by omega)
  have e1 : S * M + (N - S) * M = N * M := by ring
  have e2 : S * P + (N - S) * P = N * P := by ring
  have hd1 : 0 ≤ (N - S) * M := mul_nonneg (by omega) hM.le
  have hd2 : 0 ≤ (N - S) * P := mul_nonneg (by omega) hP.le
  have key := iterE_mmJBody32Log ar iv hiv fuel A B M P hM.le (by omega) hfM hP.le (by omega)
    hfP (by omega) (N - S).toNat C (S * M) (S * P) [] hSM0 (by rw [hNc]; omega) hSP0
    (by rw [hNc]; omega)
  rw [mat_mult_traced] at h
  rw [h] at key
  rw [mat_mult32_traced, hiv (S * M) hSM0 (by omega)]
  simp only
  rw [hiv (S * P) hSP0 (by omega)]
  simp only
  rw [forInt_eq_iterE iv hiv N (by omega) _ fuel S _ hS hSN.le (by omega)]
  cases hit : iterE (mmJBody32Log ar iv fuel A B M P) (N - S).toNat (C, S * M, S * P, []) with
  | error e => rw [hit] at key; exact Except.noConfusion key
  | ok q =>
    rw [hit] at key
    obtain ⟨C1, x, y, log⟩ := q
    simp only at key ⊢
    exact key

theorem vpWhile32c_eq {σ : Type} (iv : ℤ → Except Fault ℤ) (hiv : ExactStore iv)
    (body32 : ℤ → ℤ → σ → Except Fault σ) (body : ℤ → ℤ → σ → Option σ) (P vlen : ℤ)
    (hv : 1 ≤ vlen) (hPv : P + vlen ≤ INT_MAX)
    (hbody : ∀ vpS vpL s, 0 ≤ vpS → vpS < P → vpS ≤ vpL → vpL ≤ P →
      body32 vpS vpL s = deref (body vpS vpL s)) :
    ∀ (fuel : ℕ) (vpS vpL : ℤ) (s : σ), 0 ≤ vpS → vpS ≤ vpL → vpL ≤ P →
      vpWhile32c iv body32 P vlen fuel vpS vpL s
        = match vpWhile body P vlen fuel vpS vpL s with
          | Outcome.done r => Except.ok r
          | Outcome.outOfBounds => Except.error Fault.outOfBounds
          | Outcome.outOfFuel => Except.error Fault.outOfFuel := by
  intro fuel
  induction fuel with
  | zero => intro vpS vpL s _ _ _; rfl
  | succ fuel ih =>
    intro vpS vpL s h0 h1 h2
    rw [vpWhile32c, vpWhile]
    by_cases hlt : vpS < P
    · rw [if_pos hlt, if_pos hlt, hbody vpS vpL s h0 hlt h1 h2]
      cases body vpS vpL s with
      | none => rfl
      | some s1 =>
        simp only [deref]
        rw [hiv (vpL + vlen) (by omega) (by omega)]
        simp only
        apply ih
        · omega
        · split_ifs <;> omega
        · split_ifs <;> omega
    · rw [if_neg hlt, if_neg hlt]

/-- The chunk recorder with machine integers ends as the recorder on unbounded
    integers, when `P + v` fits. -/
theorem vpChunks32_of_vpChunks (iv : ℤ → Except Fault ℤ) (hiv : ExactStore iv) (fuel : ℕ)
    (P vlen : ℤ) (hP : 0 < P) (hv : 0 ≤ vlen) (hPv : P + effectiveVlen vlen ≤ INT_MAX)
    (r : ℤ × ℤ × List (ℤ × ℤ)) (h : vpChunks fuel P vlen = Outcome.done r) :
    vpChunks32 iv fuel P vlen = Except.ok r := by
  have hv1 := effectiveVlen_pos vlen hv
  rw [vpChunks, vpDriver] at h
  rw [vpChunks32]
  have e : (if vlen = 0 then VLEN_DEFAULT else vlen) = effectiveVlen vlen := rfl
  simp only [e] at h ⊢
  rw [vpWhile32c_eq iv hiv recordChunk32 recordChunk P (effectiveVlen vlen) hv1 hPv
    (fun _ _ _ _ _ _ _ => rfl) fuel 0 _ [] (le_refl _) (by split_ifs <;> omega)
    (by split_ifs <;> omega), h]

/-- Without `int` overflow the instrumented viewport kernel with machine
    integers ends as the instrumented kernel on unbounded integers. -/
theorem vp32_traced_of_traced (ar : Arith α) (iv : ℤ → Except Fault ℤ) (hiv : ExactStore iv)
    (fuel : ℕ) (C A B : List α) (alpha : α) (M N P S L R E vlen : ℤ)
    (hM : 0 < M) (hN : 0 < N) (hP : 0 < P) (hr : ValidRegion M N S L R E)
    (hv : 0 ≤ vlen) (hs : SizesFit M N P) (hPv : P + effectiveVlen vlen ≤ INT_MAX)
    (hf : EnoughFuel fuel M N P) (r : List α × List (ℤ × ℤ))
    (h : matmult_vp_notrans_traced ar fuel C A B alpha M N P S L R E vlen = Outcome.done r) :
    matmult_vp_notrans32_traced ar iv fuel C A B alpha M N P S L R E vlen = Except.ok r := by
  have hbody : ∀ vpS vpL (st : List α × List (ℤ × ℤ)), 0 ≤ vpS → vpS < P → vpS ≤ vpL →
      vpL ≤ P →
      tracedBody32 (vpBody32 ar iv fuel A B alpha M P S L R E) vpS vpL st
        = deref (tracedBody (vpBody ar A B alpha M P S L R E) vpS vpL st) := by
    intro vpS vpL st h0 h1 h2 h3
    rw [tracedBody32, tracedBody,
      vpBody32_of_vpBody ar iv hiv fuel A B alpha M N P S L R E hM hN hP hr hs hf vpS vpL st.1
        h0 h1 h2 h3]
    cases vpBody ar A B alpha M P S L R E vpS vpL st.1 <;> rfl
  rw [matmult_vp_notrans_traced] at h
  cases hd : vpDriver (tracedBody (vpBody ar A B alpha M P S L R E)) fuel P vlen (C, []) with
  | done q =>
    obtain ⟨x, y, s'⟩ := q
    rw [hd] at h
    simp only [Outcome.state] at h
    injection h with h
    subst h
    exact vpDriver32_of_vpDriver iv hiv _ _ P vlen hP hv hPv hbody fuel (C, []) _ hd
  | outOfBounds => rw [hd] at h; exact Outcome.noConfusion h
  | outOfFuel => rw [hd] at h; exact Outcome.noConfusion h

/-- A counting loop given any fuel: when its body is the body `body'` or out of
    fuel, the loop is the full run of `body'` or out of fuel. -/
theorem forInt_cut {σ : Type} (iv : ℤ → Except Fault ℤ) (hiv : ExactStore iv) (hi : ℤ)
    (hhi : hi ≤ INT_MAX) (body body' : σ → Except Fault σ)
    (hb : ∀ s, body s = body' s ∨ body s = Except.error Fault.outOfFuel) :
    ∀ (fuel : ℕ) (lo : ℤ) (s : σ), 0 ≤ lo → lo ≤ hi →
      forInt iv hi body fuel lo s = iterE body' (hi - lo).toNat s ∨
        forInt iv hi body fuel lo s = Except.error Fault.outOfFuel := by
  intro fuel
  induction fuel with
  | zero => intro lo s _ _; exact Or.inr rfl
  | succ fuel ih =>
    intro lo s h0 hle
    rw [forInt]
    by_cases hlt : lo < hi
    · have e : (hi - lo).toNat = (hi - (lo + 1)).toNat + 1 := by omega
      rw [if_pos hlt, e, iterE]
      rcases hb s with h | h
      · rw [h]
        cases body' s with
        | error err => exact Or.inl rfl
        | ok s1 =>
          simp only
          rw [hiv (lo + 1) (by omega) (by omega)]
          simp only
          exact ih (lo + 1) s1 (by omega) (by omega)
      · rw [h]; exact Or.inr rfl
    · have e : (hi - lo).toNat = 0 := by omega
      rw [if_neg hlt, e, iterE]
      exact Or.inl rfl

/-- A counting loop given any fuel `f` against the same loop with enough fuel
    `F`, the body of the first being the body of the second or out of fuel. -/
theorem forInt_cut_of_enough {σ : Type} (iv : ℤ → Except Fault ℤ) (hiv : ExactStore iv)
    (hi : ℤ) (hhi : hi ≤ INT_MAX) (body body' : σ → Except Fault σ)
    (hb : ∀ s, body s = body' s ∨ body s = Except.error Fault.outOfFuel)
    (f F : ℕ) (lo : ℤ) (s : σ) (h0 : 0 ≤ lo) (hle : lo ≤ hi) (hF : (hi - lo).toNat < F) :
    forInt iv hi body f lo s = forInt iv hi body' F lo s ∨
      forInt iv hi body f lo s = Except.error Fault.outOfFuel := by
  rw [forInt_eq_iterE iv hiv hi hhi body' F lo s h0 hle hF]
  exact forInt_cut iv hiv hi hhi body body' hb f lo s h0 hle

theorem kBody32_cut (ar : Arith α) (iv : ℤ → Except Fault ℤ) (hiv : ExactStore iv)
    (f F : ℕ) (A B : List α) (alpha : α) (M R E cc : ℤ) (hR : 0 ≤ R) (hRE : R ≤ E)
    (hE : E ≤ INT_MAX) (hF : (E - R).toNat < F) (s : List α × ℤ × ℤ) :
    kBody32 ar iv f A B alpha M R E cc s = kBody32 ar iv F A B alpha M R E cc s ∨
      kBody32 ar iv f A B alpha M R E cc s = Except.error Fault.outOfFuel := by
  obtain ⟨C, br, ac⟩ := s
  rw [kBody32, kBody32]
  cases deref (rd B br) with
  | error e => exact Or.inl rfl
  | ok b =>
    simp only
    by_cases hz : ar.isZero b = true
    · rw [if_pos hz, if_pos hz]; exact Or.inl rfl
    · rw [if_neg hz, if_neg hz]
      rcases forInt_cut_of_enough iv hiv E hE (rowBody32 ar A (ar.mul b alpha))
        (rowBody32 ar A (ar.mul b alpha)) (fun _ => Or.inl rfl) f F R (C, cc, ac) hR hRE hF
        with h | h
      · rw [h]; exact Or.inl rfl
      · rw [h]; exact Or.inr rfl

theorem jBody32_cut (ar : Arith α) (iv : ℤ → Except Fault ℤ) (hiv : ExactStore iv)
    (f F : ℕ) (A B : List α) (alpha : α) (M P R E klo khi a0 : ℤ) (hR : 0 ≤ R) (hRE : R ≤ E)
    (hE : E ≤ INT_MAX) (hF : (E - R).toNat < F) (hk0 : 0 ≤ klo) (hk : klo ≤ khi)
    (hkhi : khi ≤ INT_MAX) (hFk : (khi - klo).toNat < F) (s : List α × ℤ × ℤ) :
    jBody32 ar iv f A B alpha M P R E klo khi a0 s
        = jBody32 ar iv F A B alpha M P R E klo khi a0 s ∨
      jBody32 ar iv f A B alpha M P R E klo khi a0 s = Except.error Fault.outOfFuel := by
  obtain ⟨C, cc, bc⟩ := s
  rw [jBody32, jBody32]
  rcases forInt_cut_of_enough iv hiv khi hkhi (kBody32 ar iv f A B alpha M R E cc)
    (kBody32 ar iv F A B alpha M R E cc)
    (kBody32_cut ar iv hiv f F A B alpha M R E cc hR hRE hE hF) f F klo (C, bc, a0) hk0 hk hFk
    with h | h
  · rw [h]; exact Or.inl rfl
  · rw [h]; exact Or.inr rfl

/-- The block kernel given any fuel is the kernel with enough fuel, or out of
    fuel. -/
theorem block32_cut (ar : Arith α) (iv : ℤ → Except Fault ℤ) (hiv : ExactStore iv)
    (f F : ℕ) (C A B : List α) (alpha : α) (M N P S L R E : ℤ)
    (hM : 0 < M) (hN : 0 < N) (hP : 0 < P) (hr : ValidRegion M N S L R E)
    (hs : SizesFit M N P) (hF : EnoughFuel F M N P) :
    matmult_block_notrans32 ar iv f C A B alpha M N P S L R E
        = matmult_block_notrans32 ar iv F C A B alpha M N P S L R E ∨
      matmult_block_notrans32 ar iv f C A B alpha M N P S L R E
        = Except.error Fault.outOfFuel := by
  obtain ⟨hR, hRE, hEM, hS, hSL, hLN⟩ := hr
  obtain ⟨hMN, hMP, hPN⟩ := hs
  obtain ⟨hfM, hfN, hfP⟩ := hF
  have hMle : M ≤ M * N := by
    have := mul_le_mul_of_nonneg_left (show (1 : ℤ) ≤ N by omega) (show (0 : ℤ) ≤ M by omega)
    omega
  have hNle : N ≤ M * N := by
    have := mul_le_mul_of_nonneg_right (show (1 : ℤ) ≤ M by omega) (show (0 : ℤ) ≤ N by omega)
    omega
  have hPle : P ≤ P * N := by
    have := mul_le_mul_of_nonneg_left (show (1 : ℤ) ≤ N by omega) (show (0 : ℤ) ≤ P by omega)
    omega
  rw [matmult_block_notrans32, matmult_block_notrans32]
  cases iv (S * M) with
  | error e => exact Or.inl rfl
  | ok sm =>
    simp only
    cases iv (sm + R) with
    | error e => exact Or.inl rfl
    | ok cc0 =>
      simp only
      cases iv (S * P) with
      | error e => exact Or.inl rfl
      | ok bc0 =>
        simp only
        rcases forInt_cut_of_enough iv hiv L (by omega) (jBody32 ar iv f A B alpha M P R E 0 P R)
          (jBody32 ar iv F A B alpha M P R E 0 P R)
          (jBody32_cut ar iv hiv f F A B alpha M P R E 0 P R hR hRE.le (by omega) (by omega)
            (le_refl _) hP.le (by omega) (by simpa using hfP)) f F S (C, cc0, bc0) hS hSL.le
          (by omega) with h | h
        · rw [h]; exact Or.inl rfl
        · rw [h]; exact Or.inr rfl

theorem vpBody32_cut (ar : Arith α) (iv : ℤ → Except Fault ℤ) (hiv : ExactStore iv)
    (f F : ℕ) (A B : List α) (alpha : α) (M N P S L R E : ℤ)
    (hM : 0 < M) (hN : 0 < N) (hP : 0 < P) (hr : ValidRegion M N S L R E)
    (hs : SizesFit M N P) (hF : EnoughFuel F M N P) (vpS vpL : ℤ) (C : List α)
    (h0 : 0 ≤ vpS) (h1 : vpS ≤ vpL) (h2 : vpL ≤ P) :
    vpBody32 ar iv f A B alpha M P S L R E vpS vpL C
        = vpBody32 ar iv F A B alpha M P S L R E vpS vpL C ∨
      vpBody32 ar iv f A B alpha M P S L R E vpS vpL C = Except.error Fault.outOfFuel := by
  obtain ⟨hR, hRE, hEM, hS, hSL, hLN⟩ := hr
  obtain ⟨hMN, hMP, hPN⟩ := hs
  obtain ⟨hfM, hfN, hfP⟩ := hF
  have hMle : M ≤ M * N := by
    have := mul_le_mul_of_nonneg_left (show (1 : ℤ) ≤ N by omega) (show (0 : ℤ) ≤ M by omega)
    omega
  have hNle : N ≤ M * N := by
    have := mul_le_mul_of_nonneg_right (show (1 : ℤ) ≤ M by omega) (show (0 : ℤ) ≤ N by omega)
    omega
  have hPle : P ≤ P * N := by
    have := mul_le_mul_of_nonneg_left (show (1 : ℤ) ≤ N by omega) (show (0 : ℤ) ≤ P by omega)
    omega
  rw [vpBody32, vpBody32]
  cases iv (S * M) with
  | error e => exact Or.inl rfl
  | ok sm =>
    simp only
    cases iv (sm + R) with
    | error e => exact Or.inl rfl
    | ok cc0 =>
      simp only
      cases iv (S * P) with
      | error e => exact Or.inl rfl
      | ok sp =>
        simp only
        cases iv (sp + vpS) with
        | error e => exact Or.inl rfl
        | ok bc0 =>
          simp only
          cases iv (vpS * M) with
          | error e => exact Or.inl rfl
          | ok vm =>
            simp only
            cases iv (vm + R) with
            | error e => exact Or.inl rfl
            | ok a0 =>
              simp only
              rcases forInt_cut_of_enough iv hiv L (by omega)
                (jBody32 ar iv f A B alpha M P R E vpS vpL a0)
                (jBody32 ar iv F A B alpha M P R E vpS vpL a0)
                (jBody32_cut ar iv hiv f F A B alpha M P R E vpS vpL a0 hR hRE.le (by omega)
                  (by omega) h0 h1 (by omega) (by omega)) f F S (C, cc0, bc0) hS hSL.le
                (by omega) with h | h
              · rw [h]; exact Or.inl rfl
              · rw [h]; exact Or.inr rfl

theorem vpWhile32_cut {σ : Type} (iv : ℤ → Except Fault ℤ) (hiv : ExactStore iv)
    (body body' : ℤ → ℤ → σ → Except Fault σ) (P vlen : ℤ) (hv : 1 ≤ vlen)
    (hPv : P + vlen ≤ INT_MAX)
    (hb : ∀ vpS vpL s, 0 ≤ vpS → vpS ≤ vpL → vpL ≤ P →
      body vpS vpL s = body' vpS vpL s ∨ body vpS vpL s = Except.error Fault.outOfFuel) :
    ∀ (f F : ℕ) (vpS vpL : ℤ) (s r : σ), 0 ≤ vpS → vpS ≤ vpL → vpL ≤ P →
      vpWhile32 iv body' P vlen F vpS vpL s = Except.ok r →
      vpWhile32 iv body P vlen f vpS vpL s = Except.ok r ∨
        vpWhile32 iv body P vlen f vpS vpL s = Except.error Fault.outOfFuel := by
  intro f
  induction f with
  | zero => intro F vpS vpL s r _ _ _ _; exact Or.inr rfl
  | succ f ih =>
    intro F vpS vpL s r h0 h1 h2 hrun
    cases F with
    | zero => exact Except.noConfusion hrun
    | succ F =>
      rw [vpWhile32] at hrun ⊢
      by_cases hlt : vpS < P
      · rw [if_pos hlt] at hrun ⊢
        rcases hb vpS vpL s h0 h1 h2 with h | h
        · rw [h]
          cases hb' : body' vpS vpL s with
          | error e => rw [hb'] at hrun; exact Except.noConfusion hrun
          | ok s1 =>
            rw [hb'] at hrun
            simp only at hrun ⊢
            rw [hiv (vpL + vlen) (by omega) (by omega)] at hrun ⊢
            simp only at hrun ⊢
            exact ih F _ _ s1 r (by omega) (by split_ifs <;> omega) (by split_ifs <;> omega)
              hrun
        · rw [h]; exact Or.inr rfl
      · rw [if_neg hlt] at hrun ⊢
        exact Or.inl hrun

/-- The viewport kernel given any fuel ends as the kernel with enough fuel
    ends, or out of fuel. -/
theorem vp32_cut (ar : Arith α) (iv : ℤ → Except Fault ℤ) (hiv : ExactStore iv)
    (f F : ℕ) (C A B : List α) (alpha : α) (M N P S L R E vlen : ℤ)
    (hM : 0 < M) (hN : 0 < N) (hP : 0 < P) (hr : ValidRegion M N S L R E) (hv : 0 ≤ vlen)
    (hs : SizesFit M N P) (hPv : P + effectiveVlen vlen ≤ INT_MAX) (hF : EnoughFuel F M N P)
    (C' : List α)
    (h : matmult_vp_notrans32 ar iv F C A B alpha M N P S L R E vlen = Except.ok C') :
    matmult_vp_notrans32 ar iv f C A B alpha M N P S L R E vlen = Except.ok C' ∨
      matmult_vp_notrans32 ar iv f C A B alpha M N P S L R E vlen
        = Except.error Fault.outOfFuel := by
  have hv1 := effectiveVlen_pos vlen hv
  have e : (if vlen = 0 then VLEN_DEFAULT else vlen) = effectiveVlen vlen := rfl
  rw [matmult_vp_notrans32] at h ⊢
  simp only [e] at h ⊢
  exact vpWhile32_cut iv hiv _ _ P (effectiveVlen vlen) hv1 hPv
    (fun vpS vpL s h0 h1 h2 =>
      vpBody32_cut ar iv hiv f F A B alpha M N P S L R E hM hN hP hr hs hF vpS vpL s h0 h1 h2)
    f F 0 _ C C' (le_refl _) (by split_ifs <;> omega) (by split_ifs <;> omega) h

theorem mmKBody32_cut (ar : Arith α) (iv : ℤ → Except Fault ℤ) (hiv : ExactStore iv)
    (f F : ℕ) (A B : List α) (M cc : ℤ) (hM0 : 0 ≤ M) (hM : M ≤ INT_MAX)
    (hF : M.toNat < F) (s : List α × ℤ × ℤ) :
    mmKBody32 ar iv f A B M cc s = mmKBody32 ar iv F A B M cc s ∨
      mmKBody32 ar iv f A B M cc s = Except.error Fault.outOfFuel := by
  obtain ⟨C, a, br⟩ := s
  rw [mmKBody32, mmKBody32]
  cases deref (rd B br) with
  | error e => exact Or.inl rfl
  | ok b =>
    simp only
    by_cases hz : ar.isZero b = true
    · rw [if_pos hz, if_pos hz]; exact Or.inl rfl
    · rw [if_neg hz, if_neg hz]
      rcases forInt_cut_of_enough iv hiv M hM (mmRowBody32 ar iv A b) (mmRowBody32 ar iv A b)
        (fun _ => Or.inl rfl) f F 0 (C, cc, a) (le_refl _) hM0 (by simpa using hF) with h | h
      · rw [h]; exact Or.inl rfl
      · rw [h]; exact Or.inr rfl

theorem mmJBody32_cut (ar : Arith α) (iv : ℤ → Except Fault ℤ) (hiv : ExactStore iv)
    (f F : ℕ) (A B : List α) (M P : ℤ) (hM0 : 0 ≤ M) (hM : M ≤ INT_MAX)
    (hF : M.toNat < F) (hP0 : 0 ≤ P) (hP : P ≤ INT_MAX) (hFP : P.toNat < F)
    (s : List α × ℤ × ℤ) :
    mmJBody32 ar iv f A B M P s = mmJBody32 ar iv F A B M P s ∨
      mmJBody32 ar iv f A B M P s = Except.error Fault.outOfFuel := by
  obtain ⟨C, cc, br⟩ := s
  rw [mmJBody32, mmJBody32]
  rcases forInt_cut_of_enough iv hiv P hP (mmKBody32 ar iv f A B M cc)
    (mmKBody32 ar iv F A B M cc) (mmKBody32_cut ar iv hiv f F A B M cc hM0 hM hF) f F 0
    (C, 0, br) (le_refl _) hP0 (by simpa using hFP) with h | h
  · rw [h]; exact Or.inl rfl
  · rw [h]; exact Or.inr rfl

/-- The reference kernel given any fuel is the kernel with enough fuel, or out
    of fuel. -/
theorem mat_mult32_cut (ar : Arith α) (iv : ℤ → Except Fault ℤ) (hiv : ExactStore iv)
    (f F : ℕ) (C A B : List α) (S N M P : ℤ) (hM : 0 < M) (hP : 0 < P) (hS : 0 ≤ S)
    (hSN : S < N) (hs : SizesFit M N P) (hF : EnoughFuel F M N P) :
    mat_mult32 ar iv f S N M P C A B = mat_mult32 ar iv F S N M P C A B ∨
      mat_mult32 ar iv f S N M P C A B = Except.error Fault.outOfFuel := by
  obtain ⟨hMN, hMP, hPN⟩ := hs
  obtain ⟨hfM, hfN, hfP⟩ := hF
  have hN : 0 < N := by omega
  have hMle : M ≤ M * N := by
    have := mul_le_mul_of_nonneg_left (show (1 : ℤ) ≤ N by omega) (show (0 : ℤ) ≤ M by omega)
    omega
  have hNle : N ≤ M * N := by
    have := mul_le_mul_of_nonneg_right (show (1 : ℤ) ≤ M by omega) (show (0 : ℤ) ≤ N by omega)
    omega
  have hPle : P ≤ P * N := by
    have := mul_le_mul_of_nonneg_left (show (1 : ℤ) ≤ N by omega) (show (0 : ℤ) ≤ P by omega)
    omega
  rw [mat_mult32, mat_mult32]
  cases iv (S * M) with
  | error e => exact Or.inl rfl
  | ok cc0 =>
    simp only
    cases iv (S * P) with
    | error e => exact Or.inl rfl
    | ok br0 =>
      simp only
      rcases forInt_cut_of_enough iv hiv N (by omega) (mmJBody32 ar iv f A B M P)
        (mmJBody32 ar iv F A B M P)
        (mmJBody32_cut ar iv hiv f F A B M P hM.le (by omega) hfM hP.le (by omega) hfP) f F S
        (C, cc0, br0) hS hSN.le (by omega) with h | h
      · rw [h]; exact Or.inl rfl
      · rw [h]; exact Or.inr rfl

theorem validRegion_full (M N : ℤ) (hM : 0 < M) (hN : 0 < N) : ValidRegion M N 0 N 0 M :=
  ⟨le_refl _, hM, le_refl _, le_refl _, hN, le_refl _⟩

theorem rd_replicate (n : ℕ) (z : α) (i : ℤ) (h0 : 0 ≤ i) (h1 : i.toNat < n) :
    rd (List.replicate n z) i = some z := by
  rw [rd, if_pos h0, List.getElem?_replicate, if_pos h1]

/-- The `k` loop over entries of `B` that all test as zero leaves `C` as it
    is. -/
theorem kLoop_zero (ar : Arith α) (A B : List α) (alpha : α) (M : ℤ) (rows : ℕ) (cc : ℤ) :
    ∀ (n : ℕ) (br ac : ℤ) (C : List α),
      (∀ k : ℕ, k < n → ∃ b, rd B (br + (k : ℤ)) = some b ∧ ar.isZero b = true) →
      kLoop ar A B alpha M rows cc n br ac C = some C := by
  intro n
  induction n with
  | zero => intro br ac C _; rfl
  | succ n ih =>
    intro br ac C h
    obtain ⟨b, hb, hz⟩ := h 0 (by omega)
    rw [kLoop]
    simp only [Nat.cast_zero, add_zero] at hb
    rw [hb]
    simp only [hz, if_true]
    apply ih
    intro k hk
    obtain ⟨b', hb', hz'⟩ := h (k + 1) (by omega)
    refine ⟨b', ?_, hz'⟩
    rw [← hb']
    congr 1
    push_cast
    ring

/-- With `M = N = 1`, `P = INT_MAX`, `vlen = 2^30 + 1` and a `B` whose first
    `2^30 + 1` entries are zero, the wrapped viewport kernel runs the chunk
    `[0, 2^30 + 1)`, wraps `vpL += vlen` to `-2147483646`, runs the empty chunk
    `[2^30 + 1, -2147483646)`, and in its third pass, with
    `vpS = -2147483646`, reads `B[-2147483646]`. -/
theorem vp32_wrapped_long_vlen (f : ℕ) (hf : 1073741825 < f) (C A B : List ℤ) (alpha : ℤ)
    (hB : ∀ k : ℕ, k < 1073741825 → rd B (k : ℤ) = some 0) :
    matmult_vp_notrans32 (exactArith ℤ) wrapped32 f C A B alpha 1 1 2147483647 0 1 0 1
      1073741825 = Except.error Fault.outOfBounds := by
  have hneg : rd B (-2147483646) = none := rd_neg B _ (by decide)
  have h1 : vpBody32 (exactArith ℤ) wrapped32 f A B alpha 1 2147483647 0 1 0 1 0 1073741825 C
      = Except.ok C := by
    rw [vpBody32_eq (exactArith ℤ) wrapped32 wrapped32_exact f C A B alpha 1 2147483647 0 1 0 1
      0 1073741825 (by decide) (by decide) (by decide) (by decide) (by decide) (by decide)
      (by decide) (by decide) (by decide) (by omega) (by decide) (by decide) (by decide)
      (by omega) (by decide) (by decide) (by decide) (by omega)]
    rw [vpBody]
    have e1 : ((1 : ℤ) - 0).toNat = 1 := by decide
    rw [e1, jLoop, kLoop_zero (exactArith ℤ) A B alpha 1 _ _ _ _ _ C]
    · rfl
    · intro k hk
      have e2 : ((1073741825 : ℤ) - 0).toNat = 1073741825 := by decide
      rw [e2] at hk
      refine ⟨0, ?_, by decide⟩
      have := hB k hk
      simpa using this
  obtain ⟨g, rfl⟩ : ∃ g, f = g + 3 := ⟨f - 3, by omega⟩
  rw [matmult_vp_notrans32]
  simp only [show ¬ ((1073741825 : ℤ) = 0) by decide, if_false,
    show (1073741825 : ℤ) < 2147483647 by decide, if_true]
  rw [vpWhile32, if_pos (by decide), h1]
  simp [vpWhile32, vpBody32, wrapped32, wrap32, forInt, jBody32, kBody32, hneg, deref]

/-- The input with the long inner dimension is well-formed: `M = N = 1`,
    `P = INT_MAX`, buffers of `1`, `INT_MAX` and `INT_MAX` elements. -/
theorem long_input_valid : ValidDims 1 1 2147483647 [0] largeA largeZeroB := by
  refine ⟨by decide, by decide, by decide, by decide, ?_, ?_⟩
  · rw [largeA, List.length_replicate]; norm_num
  · rw [largeZeroB, List.length_replicate]; norm_num

theorem largeZeroB_rd (k : ℕ) (hk : k < 2147483647) : rd largeZeroB (k : ℤ) = some 0 := by
  rw [largeZeroB]
  exact rd_replicate _ _ _ (by omega) (by simpa using hk)

/-- With `M = N = 1`, `P = INT_MAX` and a `B` of zeros the block kernel skips
    every step and returns `C`, for any store exact on `[0, INT_MAX]`. -/
theorem block32_long_zero (iv : ℤ → Except Fault ℤ) (hiv : ExactStore iv) (f : ℕ)
    (hf : 2147483647 < f) (C A B : List ℤ) (alpha : ℤ)
    (hB : ∀ k : ℕ, k < 2147483647 → rd B (k : ℤ) = some 0) :
    matmult_block_notrans32 (exactArith ℤ) iv f C A B alpha 1 1 2147483647 0 1 0 1
      = Except.ok C := by
  rw [block32_eq (exactArith ℤ) iv hiv f C A B alpha 1 1 2147483647 0 1 0 1 (by decide)
    (by decide) (by decide) (by decide) (by decide) (by decide) (by decide) (by omega)
    (by decide) (by decide) (by decide) (by omega) (by decide) (by decide) (by omega)]
  rw [matmult_block_notrans]
  have e1 : ((1 : ℤ) - 0).toNat = 1 := by decide
  simp only [e1]
  rw [jLoop, kLoop_zero (exactArith ℤ) A B alpha 1 _ _ _ _ _ C]
  · rfl
  · intro k hk
    have e2 : ((2147483647 : ℤ) - 0).toNat = 2147483647 := by decide
    rw [e2] at hk
    refine ⟨0, ?_, by decide⟩
    have := hB k hk
    simpa using this

/-- As `vp32_wrapped_long_vlen`, for the instrumented viewport kernel. -/
theorem vp32_traced_wrapped_long_vlen (f : ℕ) (hf : 1073741825 < f) (C A B : List ℤ)
    (alpha : ℤ) (hB : ∀ k : ℕ, k < 1073741825 → rd B (k : ℤ) = some 0) :
    matmult_vp_notrans32_traced (exactArith ℤ) wrapped32 f C A B alpha 1 1 2147483647 0 1 0 1
      1073741825 = Except.error Fault.outOfBounds := by
  have hneg : rd B (-2147483646) = none := rd_neg B _ (by decide)
  have h1 : vpBody32 (exactArith ℤ) wrapped32 f A B alpha 1 2147483647 0 1 0 1 0 1073741825 C
      = Except.ok C := by
    rw [vpBody32_eq (exactArith ℤ) wrapped32 wrapped32_exact f C A B alpha 1 2147483647 0 1 0 1
      0 1073741825 (by decide) (by decide) (by decide) (by decide) (by decide) (by decide)
      (by decide) (by decide) (by decide) (by omega) (by decide) (by decide) (by decide)
      (by omega) (by decide) (by decide) (by decide) (by omega)]
    rw [vpBody]
    have e1 : ((1 : ℤ) - 0).toNat = 1 := by decide
    rw [e1, jLoop, kLoop_zero (exactArith ℤ) A B alpha 1 _ _ _ _ _ C]
    · rfl
    · intro k hk
      have e2 : ((1073741825 : ℤ) - 0).toNat = 1073741825 := by decide
      rw [e2] at hk
      refine ⟨0, ?_, by decide⟩
      have := hB k hk
      simpa using this
  obtain ⟨g, rfl⟩ : ∃ g, f = g + 3 := ⟨f - 3, by omega⟩
  rw [matmult_vp_notrans32_traced, vpDriver32]
  simp only [show ¬ ((1073741825 : ℤ) = 0) by decide, if_false,
    show (1073741825 : ℤ) < 2147483647 by decide, if_true]
  rw [vpWhile32, if_pos (by decide), tracedBody32, h1]
  simp [vpWhile32, tracedBody32, vpBody32, wrapped32, wrap32, forInt, jBody32, kBody32, hneg,
    deref]

/-- On the full range `R = 0`, `S = 0` the block kernel computes no index
    beyond the loop counters: it returns a buffer whenever `M`, `N`, `P`
    themselves are `int` values, whatever the sizes of the buffers. -/
theorem block32_full_range_returns (ar : Arith α) (iv : ℤ → Except Fault ℤ)
    (hiv : ExactStore iv) (fuel : ℕ) (C A B : List α) (alpha : α) (M N P : ℤ)
    (hd : ValidDims M N P C A B) (hM : M ≤ INT_MAX) (hN : N ≤ INT_MAX) (hP : P ≤ INT_MAX)
    (hf : EnoughFuel fuel M N P) :
    ∃ C', matmult_block_notrans32 ar iv fuel C A B alpha M N P 0 N 0 M = Except.ok C' := by
  obtain ⟨⟨C1, h1⟩, _⟩ := bounds_safety ar M N P 0 N 0 M 0 alpha C A B hd
    (validRegion_full M N hd.1 hd.2.1) (le_refl _)
  obtain ⟨hfM, hfN, hfP⟩ := hf
  have hM0 := hd.1
  have hN0 := hd.2.1
  have hP0 := hd.2.2.1
  refine ⟨C1, ?_⟩
  rw [block32_eq ar iv hiv fuel C A B alpha M N P 0 N 0 M (by simp) (by simp [INT_MAX])
    (by simp) (by simp [INT_MAX]) (le_refl _) hN0.le hN (by simpa using hfN) (le_refl _)
    hM0.le hM (by simpa using hfM) hP0.le hP (by simpa using hfP), h1]

theorem rd_map_range (len : ℕ) (g : ℕ → ℤ) (t : ℕ) (h : t < len) :
    rd ((List.range len).map g) (t : ℤ) = some (g t) := by
  rw [rd, if_pos (by omega), Int.toNat_ofNat, List.getElem?_map, List.getElem?_range h]
  rfl

theorem spikeBuf_rd_one (len p : ℕ) (h : p < len) : rd (spikeBuf len p) (p : ℤ) = some 1 := by
  rw [spikeBuf, rd_map_range len _ p h, if_pos rfl]

theorem spikeBuf_rd_zero (len p t : ℕ) (h : t < len) (hne : t ≠ p) :
    rd (spikeBuf len p) (t : ℤ) = some 0 := by
  rw [spikeBuf, rd_map_range len _ t h, if_neg hne]

/-- The column loop over entries of `B` that all test as zero leaves `C` as it
    is. -/
theorem jLoop_zero (ar : Arith α) (A B : List α) (alpha : α) (M P : ℤ) (rows kcount : ℕ)
    (a0 : ℤ) :
    ∀ (n : ℕ) (cc bc : ℤ) (C : List α),
      (∀ j k : ℕ, j < n → k < kcount →
        ∃ b, rd B (bc + (j : ℤ) * P + (k : ℤ)) = some b ∧ ar.isZero b = true) →
      jLoop ar A B alpha M P rows kcount a0 n cc bc C = some C := by
  intro n
  induction n with
  | zero => intro cc bc C _; rfl
  | succ n ih =>
    intro cc bc C h
    rw [jLoop, kLoop_zero ar A B alpha M rows cc kcount bc a0 C]
    · simp only
      apply ih
      intro j k hj hk
      obtain ⟨b, hb, hz⟩ := h (j + 1) k (by omega) hk
      refine ⟨b, ?_, hz⟩
      rw [← hb]
      congr 1
      push_cast
      ring
    · intro k hk
      obtain ⟨b, hb, hz⟩ := h 0 k (by omega) hk
      refine ⟨b, ?_, hz⟩
      rw [← hb]
      congr 1
      push_cast
      ring

/-- With `M = N = P = 46342` (so `P*M > INT_MAX`), the full range, `vlen = 46341`
    and a `B` that is zero except for a one at `B[46341]`, the wrapped viewport
    kernel runs its first chunk `[0, 46341)`, then computes `vpS*M` at
    `vpS = 46341` as `wrap32 2147534622 = -2147432674` and reads `A` at that
    offset. -/
theorem vp32_wrapped_square_oob (f : ℕ) (hf : 46342 < f) (C A B : List ℤ) (alpha : ℤ)
    (hB1 : rd B 46341 = some 1)
    (hBz : ∀ t : ℕ, t < 2147580964 → t ≠ 46341 → rd B (t : ℤ) = some 0) :
    matmult_vp_notrans32 (exactArith ℤ) wrapped32 f C A B alpha
      46342 46342 46342 0 46342 0 46342 46341 = Except.error Fault.outOfBounds := by
  have hA : rd A (-2147432674) = none := rd_neg A _ (by decide)
  have e1 : ((46342 : ℤ) - 0).toNat = 46342 := by decide
  have e2 : ((46341 : ℤ) - 0).toNat = 46341 := by decide
  have h1 : vpBody32 (exactArith ℤ) wrapped32 f A B alpha 46342 46342
      0 46342 0 46342 0 46341 C = Except.ok C := by
    rw [vpBody32_eq (exactArith ℤ) wrapped32 wrapped32_exact f C A B alpha 46342 46342 0 46342 0
      46342 0 46341 (by decide) (by decide) (by decide) (by decide) (by decide) (by decide)
      (by decide) (by decide) (by decide) (by omega) (by decide) (by decide)
      (by decide) (by omega) (by decide) (by decide) (by decide) (by omega)]
    rw [vpBody, jLoop_zero (exactArith ℤ) A B alpha 46342 46342 _ _ _ _ _ _ C]
    · rfl
    · intro j k hj hk
      rw [e1] at hj
      rw [e2] at hk
      refine ⟨0, ?_, by decide⟩
      have e3 : (0 : ℤ) * 46342 + 0 + (j : ℤ) * 46342 + (k : ℤ) = ((j * 46342 + k : ℕ) : ℤ) := by
        push_cast; ring
      rw [e3]
      exact hBz _ (by omega) (by omega)
  obtain ⟨g, rfl⟩ : ∃ g, f = g + 2 := ⟨f - 2, by omega⟩
  rw [matmult_vp_notrans32]
  simp only [show ¬ ((46341 : ℤ) = 0) by decide, if_false,
    show (46341 : ℤ) < 46342 by decide, if_true]
  rw [vpWhile32, if_pos (by decide), h1]
  simp [vpWhile32, vpBody32, wrapped32, wrap32, forInt, jBody32, kBody32, rowBody32, hA, hB1,
    deref, exactArith]

/-- The test input of the 46342 x 46342 identity is well-formed, `A` is the
    identity and `C` is zero. -/
theorem square_input_valid :
    ValidDims 46342 46342 46342 (zeroBuf 2147580964) (identityBuf 46342)
      (spikeBuf 2147580964 46341) ∧
    (∀ i k : ℤ, 0 ≤ i → i < 46342 → 0 ≤ k → k < 46342 →
      cell (identityBuf 46342) 46342 0 i k = if i = k then 1 else 0) ∧
    (∀ i j : ℤ, 0 ≤ i → i < 46342 → 0 ≤ j → j < 46342 →
      cell (zeroBuf 2147580964) 46342 0 i j = 0) := by
  refine ⟨⟨by decide, by decide, by decide, ?_, ?_, ?_⟩, ?_, ?_⟩
  · rw [zeroBuf, List.length_replicate]; norm_num
  · rw [identityBuf, List.length_map, List.length_range]; norm_num
  · rw [spikeBuf, List.length_map, List.length_range]; norm_num
  · intro i k hi0 hi hk0 hk
    obtain ⟨i', rfl⟩ := Int.eq_ofNat_of_zero_le hi0
    obtain ⟨k', rfl⟩ := Int.eq_ofNat_of_zero_le hk0
    have e : (k' : ℤ) * 46342 + (i' : ℤ) = ((k' * 46342 + i' : ℕ) : ℤ) := by push_cast; ring
    have hd : (k' * 46342 + i') / 46342 = k' := by omega
    have hm : (k' * 46342 + i') % 46342 = i' := by omega
    have hlt : k' * 46342 + i' < 46342 * 46342 := by omega
    rw [cell, e, identityBuf, rd_map_range _ _ _ hlt, Option.getD_some, hd, hm]
    by_cases h : i' = k'
    · rw [if_pos h.symm, if_pos (by rw [h])]
    · rw [if_neg (fun h' => h h'.symm), if_neg (by exact_mod_cast h)]
  · intro i j hi0 hi hj0 hj
    obtain ⟨i', rfl⟩ := Int.eq_ofNat_of_zero_le hi0
    obtain ⟨j', rfl⟩ := Int.eq_ofNat_of_zero_le hj0
    have e : (j' : ℤ) * 46342 + (i' : ℤ) = ((j' * 46342 + i' : ℕ) : ℤ) := by push_cast; ring
    rw [cell, e, zeroBuf,
      rd_replicate _ _ _ (Int.ofNat_nonneg _) (by rw [Int.toNat_ofNat]; omega)]
    rfl

theorem effectiveVlen_of_pos (vlen : ℤ) (hv : 1 ≤ vlen) : effectiveVlen vlen = vlen := by
  rw [effectiveVlen, if_neg (by omega)]

/-- C1, amended with the 32-bit bounds. Sub-block kernel postcondition in exact
    arithmetic: with positive dimensions, buffers of sizes `M*N`, `M*P`, `P*N`,
    these three sizes at most `INT_MAX = 2^31 - 1`, and a valid region,
    `matmult_block_notrans32` (every computed `int` stored by `iv`, any store
    that is exact on `[0, INT_MAX]`, such as `checked32` and `wrapped32`; fuel
    above `M`, `N`, `P`) returns a buffer `C'` in which every cell `(i, j)` of
    the region `[R,E) x [S,L)` holds
    `C[j*M+i] + alpha * sum over k in [0,P) of A[k*M+i] * B[j*P+k]`. -/
theorem block32_postcondition {K : Type} [CommRing K] [DecidableEq K]
    (iv : ℤ → Except Fault ℤ) (hiv : ExactStore iv) (fuel : ℕ)
    (M N P S L R E : ℤ) (alpha : K) (C A B : List K)
    (hd : ValidDims M N P C A B) (hr : ValidRegion M N S L R E)
    (hs : SizesFit M N P) (hf : EnoughFuel fuel M N P) :
    ∃ C', matmult_block_notrans32 (exactArith K) iv fuel C A B alpha M N P S L R E
        = Except.ok C' ∧
      ∀ i j : ℤ, R ≤ i → i < E → S ≤ j → j < L →
        cell C' M 0 i j
          = cell C M 0 i j
            + alpha * ∑ k ∈ Finset.range P.toNat, cell A M 0 i (k : ℤ) * cell B P 0 (k : ℤ) j := by
  obtain ⟨C', h, hc⟩ := matmult_block_notrans_postcondition M N P S L R E alpha C A B hd hr
  exact ⟨C', block32_of_block _ iv hiv fuel C A B alpha M N P S L R E hd.1 hd.2.1 hd.2.2.1 hr
    hs hf C' h, hc⟩

/-- Witness for C1: the 2 x 2 identity times `B = [2,4,3,5]`, full range,
    checked `int` arithmetic. -/
theorem block32_postcondition_witness :
    ExactStore checked32 ∧
    ValidDims 2 2 2 [0, 0, 0, 0] [1, 0, 0, 1] [(2 : ℤ), 4, 3, 5] ∧ ValidRegion 2 2 0 2 0 2 ∧
    SizesFit 2 2 2 ∧ EnoughFuel 3 2 2 2 ∧
    ∃ C', matmult_block_notrans32 (exactArith ℤ) checked32 3 [0, 0, 0, 0] [1, 0, 0, 1]
        [2, 4, 3, 5] 1 2 2 2 0 2 0 2 = Except.ok C' ∧
      ∀ i j : ℤ, 0 ≤ i → i < 2 → 0 ≤ j → j < 2 →
        cell C' 2 0 i j
          = cell [0, 0, 0, 0] 2 0 i j
            + 1 * ∑ k ∈ Finset.range (2 : ℤ).toNat,
                cell [1, 0, 0, 1] 2 0 i (k : ℤ) * cell [2, 4, 3, 5] 2 0 (k : ℤ) j :=
  ⟨checked32_exact, by decide, by decide, by decide, by decide,
    block32_postcondition checked32 checked32_exact 3 2 2 2 0 2 0 2 1 [0, 0, 0, 0]
      [1, 0, 0, 1] [2, 4, 3, 5] (by decide) (by decide) (by decide) (by decide)⟩

/-- C1, counterexample: `M = INT_MAX`, `N = 3`, `P = 1` with buffers of
    `3 * INT_MAX`, `INT_MAX` and `3` elements and the region `[0,1) x [2,3)`
    meet every precondition of the claim, but `S*M = 2 * INT_MAX` (line 27) is
    not an `int`: checked, the kernel faults there; wrapped, `Cc` is `&C[-2]`
    and the first `*Cr += ...` falls outside `C`.  No buffer is returned. -/
theorem block32_postcondition_overflow :
    ValidDims 2147483647 3 1 largeC largeA [0, 0, 1] ∧ ValidRegion 2147483647 3 2 3 0 1 ∧
    (∀ fuel : ℕ, matmult_block_notrans32 (exactArith ℤ) checked32 fuel largeC largeA
        [0, 0, 1] 1 2147483647 3 1 2 3 0 1 = Except.error Fault.intOverflow) ∧
    (∀ fuel : ℕ, matmult_block_notrans32 (exactArith ℤ) wrapped32 (fuel + 1) largeC largeA
        [0, 0, 1] 1 2147483647 3 1 2 3 0 1 = Except.error Fault.outOfBounds) :=
  ⟨large_input_valid _ rfl, by decide,
    fun fuel => block32_checked_overflow _ fuel _ _ _ _ _ _ _ _ _,
    fun fuel => block32_wrapped_oob fuel _ _ 1 3 1 (by decide)⟩

/-- C2, amended with the 32-bit bounds. Viewport invariance in exact
    arithmetic: for valid inputs with `M*N`, `M*P`, `P*N` at most `INT_MAX`,
    every `vlen >= 1` (below, equal to or above `P`) with `P + vlen` at most
    `INT_MAX`, any store exact on `[0, INT_MAX]` and enough fuel,
    `matmult_vp_notrans32` ends with exactly the buffer that
    `matmult_block_notrans32` returns; in particular, when `P + 30` is at most
    `INT_MAX`, the runs with `vlen = 1` and `vlen = 30` end with the same
    buffer. -/
theorem vp32_eq_block32 {K : Type} [CommRing K] [DecidableEq K]
    (iv : ℤ → Except Fault ℤ) (hiv : ExactStore iv) (fuel : ℕ)
    (M N P S L R E vlen : ℤ) (alpha : K) (C A B : List K)
    (hd : ValidDims M N P C A B) (hr : ValidRegion M N S L R E) (hv : 1 ≤ vlen)
    (hs : SizesFit M N P) (hPv : P + vlen ≤ INT_MAX) (hf : EnoughFuel fuel M N P) :
    (∃ C', matmult_block_notrans32 (exactArith K) iv fuel C A B alpha M N P S L R E
        = Except.ok C' ∧
      matmult_vp_notrans32 (exactArith K) iv fuel C A B alpha M N P S L R E vlen
        = Except.ok C') ∧
    (P + 30 ≤ INT_MAX →
      ∃ C', matmult_vp_notrans32 (exactArith K) iv fuel C A B alpha M N P S L R E 1
          = Except.ok C' ∧
        matmult_vp_notrans32 (exactArith K) iv fuel C A B alpha M N P S L R E 30
          = Except.ok C') := by
  have hM := hd.1
  have hN := hd.2.1
  have hP := hd.2.2.1
  obtain ⟨C', hb, hvp⟩ :=
    vp_eq_block (exactArith K) M N P S L R E vlen alpha C A B fuel hd hr (by omega) hf.2.2
  refine ⟨⟨C', block32_of_block _ iv hiv fuel C A B alpha M N P S L R E hM hN hP hr hs hf C' hb,
    vp32_of_vp _ iv hiv fuel C A B alpha M N P S L R E vlen hM hN hP hr (by omega) hs
      (by rw [effectiveVlen_of_pos vlen hv]; exact hPv) hf C' hvp⟩, fun h30 => ?_⟩
  obtain ⟨C1, hb1, hv1⟩ :=
    vp_eq_block (exactArith K) M N P S L R E 1 alpha C A B fuel hd hr (by omega) hf.2.2
  obtain ⟨C30, hb30, hv30⟩ :=
    vp_eq_block (exactArith K) M N P S L R E 30 alpha C A B fuel hd hr (by omega) hf.2.2
  rw [hb1] at hb30
  injection hb30 with e
  subst e
  exact ⟨C1,
    vp32_of_vp _ iv hiv fuel C A B alpha M N P S L R E 1 hM hN hP hr (by omega) hs
      (by rw [effectiveVlen_of_pos 1 (le_refl _)]; omega) hf C1 hv1,
    vp32_of_vp _ iv hiv fuel C A B alpha M N P S L R E 30 hM hN hP hr (by omega) hs
      (by rw [effectiveVlen_of_pos 30 (by omega)]; exact h30) hf C1 hv30⟩

/-- Witness for C2: a 2 x 2 x 2 product on the full range, `vlen = 1`. -/
theorem vp32_eq_block32_witness :
    ExactStore checked32 ∧
    ValidDims 2 2 2 [0, 0, 0, 0] [1, 2, 3, 4] [(2 : ℤ), 4, 3, 5] ∧ ValidRegion 2 2 0 2 0 2 ∧
    (1 : ℤ) ≤ 1 ∧ SizesFit 2 2 2 ∧ (2 : ℤ) + 1 ≤ INT_MAX ∧ EnoughFuel 3 2 2 2 ∧
    ((∃ C', matmult_block_notrans32 (exactArith ℤ) checked32 3 [0, 0, 0, 0] [1, 2, 3, 4]
          [2, 4, 3, 5] 1 2 2 2 0 2 0 2 = Except.ok C' ∧
        matmult_vp_notrans32 (exactArith ℤ) checked32 3 [0, 0, 0, 0] [1, 2, 3, 4]
          [2, 4, 3, 5] 1 2 2 2 0 2 0 2 1 = Except.ok C') ∧
      ((2 : ℤ) + 30 ≤ INT_MAX →
        ∃ C', matmult_vp_notrans32 (exactArith ℤ) checked32 3 [0, 0, 0, 0] [1, 2, 3, 4]
            [2, 4, 3, 5] 1 2 2 2 0 2 0 2 1 = Except.ok C' ∧
          matmult_vp_notrans32 (exactArith ℤ) checked32 3 [0, 0, 0, 0] [1, 2, 3, 4]
            [2, 4, 3, 5] 1 2 2 2 0 2 0 2 30 = Except.ok C')) :=
  ⟨checked32_exact, by decide, by decide, by decide, by decide, by decide, by decide,
    vp32_eq_block32 checked32 checked32_exact 3 2 2 2 0 2 0 2 1 1 [0, 0, 0, 0] [1, 2, 3, 4]
      [2, 4, 3, 5] (by decide) (by decide) (by decide) (by decide) (by decide) (by decide)⟩

/-- C2, counterexample: on the valid 1 x 1 x 2 input with `vlen = INT_MAX` the
    block kernel returns `[2]`, while in the viewport kernel `vpL += vlen`
    (line 116) is `2 + INT_MAX`, not an `int`: the checked run faults.  With
    `M = N = 1`, `P = INT_MAX`, `B` all zero and `vlen = 2^30 + 1` the block
    kernel returns `C = [0]`, while the viewport kernel with 32-bit wrap-around
    gets `vpL = -2147483646` after its first chunk and in its third pass, with
    `vpS = -2147483646`, reads `B` before the buffer.  On the large input
    (`M = INT_MAX`, region `[0,1) x [2,3)`, `vlen = 1`) `S*M` (line 86)
    overflows: the checked run faults, the wrapped run leaves `C`. -/
theorem vp32_eq_block32_overflow :
    (ValidDims 1 1 2 [0] [1, 1] [(1 : ℤ), 1] ∧ ValidRegion 1 1 0 1 0 1 ∧
      (1 : ℤ) ≤ 2147483647 ∧
      matmult_block_notrans32 (exactArith ℤ) checked32 3 [0] [1, 1] [1, 1] 1 1 1 2 0 1 0 1
        = Except.ok [2] ∧
      matmult_vp_notrans32 (exactArith ℤ) checked32 3 [0] [1, 1] [1, 1] 1 1 1 2 0 1 0 1
        2147483647 = Except.error Fault.intOverflow) ∧
    (ValidDims 1 1 2147483647 [0] largeA largeZeroB ∧ ValidRegion 1 1 0 1 0 1 ∧
      (1 : ℤ) ≤ 1073741825 ∧ EnoughFuel 2147483648 1 1 2147483647 ∧
      matmult_block_notrans32 (exactArith ℤ) wrapped32 2147483648 [0] largeA largeZeroB 1
        1 1 2147483647 0 1 0 1 = Except.ok [0] ∧
      matmult_vp_notrans32 (exactArith ℤ) wrapped32 2147483648 [0] largeA largeZeroB 1
        1 1 2147483647 0 1 0 1 1073741825 = Except.error Fault.outOfBounds) ∧
    (ValidDims 2147483647 3 1 largeC largeA [0, 0, 1] ∧ ValidRegion 2147483647 3 2 3 0 1 ∧
      (∀ fuel : ℕ, matmult_vp_notrans32 (exactArith ℤ) checked32 (fuel + 1) largeC largeA
          [0, 0, 1] 1 2147483647 3 1 2 3 0 1 1 = Except.error Fault.intOverflow) ∧
      (∀ fuel : ℕ, matmult_vp_notrans32 (exactArith ℤ) wrapped32 (fuel + 1) largeC largeA
          [0, 0, 1] 1 2147483647 3 1 2 3 0 1 1 = Except.error Fault.outOfBounds)) :=
  ⟨⟨by decide, by decide, by decide, rfl, rfl⟩,
    ⟨long_input_valid, by decide, by decide, by decide,
      block32_long_zero wrapped32 wrapped32_exact 2147483648 (by decide) _ _ _ _
        (fun k hk => largeZeroB_rd k hk),
      vp32_wrapped_long_vlen 2147483648 (by decide) _ _ _ _
        (fun k hk => largeZeroB_rd k (by omega))⟩,
    ⟨large_input_valid _ rfl, by decide,
      fun fuel => vp32_checked_overflow _ fuel _ _ _ _ _ _ _ _ _,
      fun fuel => vp32_wrapped_oob fuel _ _ 1 3 1 1 (by decide) (by decide)⟩⟩

/-- C3, amended with the 32-bit bounds. Reference kernel postcondition in exact
    arithmetic: with positive dimensions, buffers of sizes `M*N`, `M*P`, `P*N`,
    these sizes at most `INT_MAX`, and `0 <= S < N`, `mat_mult32` (any store
    exact on `[0, INT_MAX]`, enough fuel) returns a buffer `C'` in which every
    cell `(i, j)` with `0 <= i < M` and `S <= j < N` holds
    `C[j*M+i] + sum over k in [0,P) of A[k*M+i] * B[j*P+k]`, and every cell of a
    column `j < S` is the cell of `C`. -/
theorem mat_mult32_postcondition {K : Type} [CommRing K] [DecidableEq K]
    (iv : ℤ → Except Fault ℤ) (hiv : ExactStore iv) (fuel : ℕ)
    (S N M P : ℤ) (C A B : List K) (hd : ValidDims M N P C A B) (hS : 0 ≤ S) (hSN : S < N)
    (hs : SizesFit M N P) (hf : EnoughFuel fuel M N P) :
    ∃ C', mat_mult32 (exactArith K) iv fuel S N M P C A B = Except.ok C' ∧
      (∀ i j : ℤ, 0 ≤ i → i < M → S ≤ j → j < N →
        cell C' M 0 i j
          = cell C M 0 i j
            + ∑ k ∈ Finset.range P.toNat, cell A M 0 i (k : ℤ) * cell B P 0 (k : ℤ) j) ∧
      (∀ i j : ℤ, 0 ≤ i → i < M → 0 ≤ j → j < S → cell C' M 0 i j = cell C M 0 i j) := by
  obtain ⟨C', h, hc⟩ := mat_mult_postcondition S N M P C A B hd hS hSN
  exact ⟨C', mat_mult32_of_mat_mult _ iv hiv fuel C A B S N M P hd.1 hd.2.2.1 hS hSN hs hf C' h,
    hc⟩

/-- Witness for C3: a 2 x 2 x 2 product, columns `[1, 2)`. -/
theorem mat_mult32_postcondition_witness :
    ExactStore checked32 ∧
    ValidDims 2 2 2 [0, 0, 0, 0] [1, 2, 3, 4] [(2 : ℤ), 4, 3, 5] ∧ (0 : ℤ) ≤ 1 ∧ (1 : ℤ) < 2 ∧
    SizesFit 2 2 2 ∧ EnoughFuel 3 2 2 2 ∧
    ∃ C', mat_mult32 (exactArith ℤ) checked32 3 1 2 2 2 [0, 0, 0, 0] [1, 2, 3, 4] [2, 4, 3, 5]
        = Except.ok C' ∧
      (∀ i j : ℤ, 0 ≤ i → i < 2 → 1 ≤ j → j < 2 →
        cell C' 2 0 i j
          = cell [0, 0, 0, 0] 2 0 i j
            + ∑ k ∈ Finset.range (2 : ℤ).toNat,
                cell [1, 2, 3, 4] 2 0 i (k : ℤ) * cell [2, 4, 3, 5] 2 0 (k : ℤ) j) ∧
      (∀ i j : ℤ, 0 ≤ i → i < 2 → 0 ≤ j → j < 1 →
        cell C' 2 0 i j = cell [0, 0, 0, 0] 2 0 i j) :=
  ⟨checked32_exact, by decide, by decide, by decide, by decide, by decide,
    mat_mult32_postcondition checked32 checked32_exact 3 1 2 2 2 [0, 0, 0, 0] [1, 2, 3, 4]
      [2, 4, 3, 5] (by decide) (by decide) (by decide) (by decide) (by decide)⟩

/-- C3, counterexample: `M = INT_MAX`, `N = 3`, `P = 1` with buffers of the
    required sizes.  With `S = 2`, `cc = S*M` (line 17) is `2 * INT_MAX`: checked,
    `mat_mult32` faults there; wrapped, `cc = -2` and `C[cr]` is read outside
    `C`.  With `S = 0` the same happens at `cc += M` (line 44) after column 1. -/
theorem mat_mult32_postcondition_overflow :
    ValidDims 2147483647 3 1 largeC largeA [0, 0, 1] ∧
    (∀ fuel : ℕ, mat_mult32 (exactArith ℤ) checked32 fuel 2 3 2147483647 1 largeC largeA
        [0, 0, 1] = Except.error Fault.intOverflow) ∧
    (∀ fuel : ℕ, mat_mult32 (exactArith ℤ) wrapped32 (fuel + 1) 2 3 2147483647 1 largeC largeA
        [0, 0, 1] = Except.error Fault.outOfBounds) ∧
    (∀ fuel : ℕ, mat_mult32 (exactArith ℤ) checked32 (fuel + 2) 0 3 2147483647 1 largeC largeA
        [0, 0, 1] = Except.error Fault.intOverflow) ∧
    (∀ fuel : ℕ, mat_mult32 (exactArith ℤ) wrapped32 (fuel + 3) 0 3 2147483647 1 largeC largeA
        [0, 0, 1] = Except.error Fault.outOfBounds) :=
  ⟨large_input_valid _ rfl,
    fun fuel => mat_mult32_checked_overflow _ fuel _ _ _ _ _,
    fun fuel => mat_mult32_wrapped_oob fuel _ _,
    fun fuel => mat_mult32_checked_overflow_full fuel _ _,
    fun fuel => mat_mult32_wrapped_oob_full fuel _ _⟩

/-- C4, amended with the 32-bit bounds. Region isolation, for every
    arithmetic: with valid dimensions and region, `M*N`, `M*P`, `P*N` at most
    `INT_MAX`, every `alpha`, every `vlen >= 0` with `P + v` at most `INT_MAX`
    (`v` the viewport length in effect, 30 for `vlen = 0`), any store exact on
    `[0, INT_MAX]` and enough fuel, both `matmult_block_notrans32` and
    `matmult_vp_notrans32` return a buffer in which every cell `(i, j)` of the
    `M x N` matrix outside `[R,E) x [S,L)` reads as it did in `C`. -/
theorem region_isolation32 (ar : Arith α) (iv : ℤ → Except Fault ℤ) (hiv : ExactStore iv)
    (fuel : ℕ) (M N P S L R E vlen : ℤ) (alpha : α) (C A B : List α)
    (hd : ValidDims M N P C A B) (hr : ValidRegion M N S L R E) (hv : 0 ≤ vlen)
    (hs : SizesFit M N P) (hPv : P + effectiveVlen vlen ≤ INT_MAX)
    (hf : EnoughFuel fuel M N P) :
    ∃ C1 C2, matmult_block_notrans32 ar iv fuel C A B alpha M N P S L R E = Except.ok C1 ∧
      matmult_vp_notrans32 ar iv fuel C A B alpha M N P S L R E vlen = Except.ok C2 ∧
      ∀ i j : ℤ, 0 ≤ i → i < M → 0 ≤ j → j < N → ¬ (R ≤ i ∧ i < E ∧ S ≤ j ∧ j < L) →
        rd C1 (j * M + i) = rd C (j * M + i) ∧ rd C2 (j * M + i) = rd C (j * M + i) := by
  obtain ⟨C1, C2, h1, h2, hc⟩ :=
    region_isolation ar M N P S L R E vlen alpha C A B fuel hd hr hv hf.2.2
  exact ⟨C1, C2,
    block32_of_block ar iv hiv fuel C A B alpha M N P S L R E hd.1 hd.2.1 hd.2.2.1 hr hs hf C1 h1,
    vp32_of_vp ar iv hiv fuel C A B alpha M N P S L R E vlen hd.1 hd.2.1 hd.2.2.1 hr hv hs hPv
      hf C2 h2, hc⟩

/-- Witness for C4: the region `[1,2) x [1,2)` of a 2 x 2 matrix, `vlen = 0`. -/
theorem region_isolation32_witness :
    ExactStore checked32 ∧
    ValidDims 2 2 2 [7, 7, 7, 7] [1, 2, 3, 4] [(2 : ℤ), 4, 3, 5] ∧ ValidRegion 2 2 1 2 1 2 ∧
    (0 : ℤ) ≤ 0 ∧ SizesFit 2 2 2 ∧ 2 + effectiveVlen 0 ≤ INT_MAX ∧ EnoughFuel 3 2 2 2 ∧
    ∃ C1 C2, matmult_block_notrans32 (exactArith ℤ) checked32 3 [7, 7, 7, 7] [1, 2, 3, 4]
          [2, 4, 3, 5] 1 2 2 2 1 2 1 2 = Except.ok C1 ∧
      matmult_vp_notrans32 (exactArith ℤ) checked32 3 [7, 7, 7, 7] [1, 2, 3, 4]
          [2, 4, 3, 5] 1 2 2 2 1 2 1 2 0 = Except.ok C2 ∧
      ∀ i j : ℤ, 0 ≤ i → i < 2 → 0 ≤ j → j < 2 → ¬ (1 ≤ i ∧ i < 2 ∧ 1 ≤ j ∧ j < 2) →
        rd C1 (j * 2 + i) = rd [7, 7, 7, 7] (j * 2 + i) ∧
          rd C2 (j * 2 + i) = rd [7, 7, 7, 7] (j * 2 + i) :=
  ⟨checked32_exact, by decide, by decide, by decide, by decide, by decide, by decide,
    region_isolation32 (exactArith ℤ) checked32 checked32_exact 3 2 2 2 1 2 1 2 0 1
      [7, 7, 7, 7] [1, 2, 3, 4] [2, 4, 3, 5] (by decide) (by decide) (by decide) (by decide)
      (by decide) (by decide)⟩

/-- C4, counterexample: on the valid large input (`M = INT_MAX`, `N = 3`,
    `P = 1`, region `[0,1) x [2,3)`, `vlen = 0`) `S*M` overflows in both
    kernels: the checked runs fault, and the wrapped runs start at `&C[-2]`,
    two elements before the buffer, where `*Cr += ...` reads and writes outside
    the region and outside `C`. -/
theorem region_isolation32_overflow :
    ValidDims 2147483647 3 1 largeC largeA [0, 0, 1] ∧ ValidRegion 2147483647 3 2 3 0 1 ∧
    (∀ fuel : ℕ, matmult_block_notrans32 (exactArith ℤ) checked32 fuel largeC largeA
        [0, 0, 1] 1 2147483647 3 1 2 3 0 1 = Except.error Fault.intOverflow) ∧
    (∀ fuel : ℕ, matmult_block_notrans32 (exactArith ℤ) wrapped32 (fuel + 1) largeC largeA
        [0, 0, 1] 1 2147483647 3 1 2 3 0 1 = Except.error Fault.outOfBounds) ∧
    (∀ fuel : ℕ, matmult_vp_notrans32 (exactArith ℤ) checked32 (fuel + 1) largeC largeA
        [0, 0, 1] 1 2147483647 3 1 2 3 0 1 0 = Except.error Fault.intOverflow) ∧
    (∀ fuel : ℕ, matmult_vp_notrans32 (exactArith ℤ) wrapped32 (fuel + 1) largeC largeA
        [0, 0, 1] 1 2147483647 3 1 2 3 0 1 0 = Except.error Fault.outOfBounds) :=
  ⟨large_input_valid _ rfl, by decide,
    fun fuel => block32_checked_overflow _ fuel _ _ _ _ _ _ _ _ _,
    fun fuel => block32_wrapped_oob fuel _ _ 1 3 1 (by decide),
    fun fuel => vp32_checked_overflow _ fuel _ _ _ _ _ _ _ _ _,
    fun fuel => vp32_wrapped_oob fuel _ _ 1 3 1 0 (by decide) (by decide)⟩

/-- With `M = N = P = 1`, the full range and `vlen = INT_MIN` the wrapped
    viewport kernel runs an empty first chunk `[0, INT_MIN)`, wraps
    `vpL += vlen` to `0`, and in its second pass, with `vpS = INT_MIN`, reads
    `B[INT_MIN]`. -/
theorem vp32_wrapped_negative_vlen (ar : Arith α) (fuel : ℕ) (C A B : List α) (alpha : α) :
    matmult_vp_notrans32 ar wrapped32 (fuel + 2) C A B alpha 1 1 1 0 1 0 1 (-2147483648)
      = Except.error Fault.outOfBounds := by
  have hB : rd B (-2147483648) = none := rd_neg B _ (by decide)
  simp [matmult_vp_notrans32, vpWhile32, vpBody32, wrapped32, wrap32, forInt, jBody32,
    kBody32, hB, deref]

/-- C5, amended with the 32-bit bounds. Bounds safety: with positive
    dimensions, buffers of lengths exactly `M*N`, `M*P`, `P*N`, these lengths at
    most `INT_MAX`, a valid region (`E = M` and `L = N` allowed), `vlen >= 0`
    with `P + v` at most `INT_MAX` (`v` the viewport length in effect), any
    store exact on `[0, INT_MAX]` and enough fuel, the runs of
    `matmult_block_notrans32`, of `matmult_vp_notrans32` and, for
    `0 <= S0 < N`, of `mat_mult32` end with a buffer; given any other amount of
    fuel `f` a run ends with that buffer or out of fuel.  So no dereference
    falls outside its buffer and no `int` overflows, wherever a run is cut. -/
theorem bounds_safety32 (ar : Arith α) (iv : ℤ → Except Fault ℤ) (hiv : ExactStore iv)
    (fuel : ℕ) (M N P S L R E vlen : ℤ) (alpha : α) (C A B : List α)
    (hd : ValidDims M N P C A B) (hr : ValidRegion M N S L R E) (hv : 0 ≤ vlen)
    (hs : SizesFit M N P) (hPv : P + effectiveVlen vlen ≤ INT_MAX)
    (hf : EnoughFuel fuel M N P) :
    (∃ C1, matmult_block_notrans32 ar iv fuel C A B alpha M N P S L R E = Except.ok C1 ∧
      ∀ f : ℕ, matmult_block_notrans32 ar iv f C A B alpha M N P S L R E = Except.ok C1 ∨
        matmult_block_notrans32 ar iv f C A B alpha M N P S L R E
          = Except.error Fault.outOfFuel) ∧
    (∃ C2, matmult_vp_notrans32 ar iv fuel C A B alpha M N P S L R E vlen = Except.ok C2 ∧
      ∀ f : ℕ, matmult_vp_notrans32 ar iv f C A B alpha M N P S L R E vlen = Except.ok C2 ∨
        matmult_vp_notrans32 ar iv f C A B alpha M N P S L R E vlen
          = Except.error Fault.outOfFuel) ∧
    (∀ S0 : ℤ, 0 ≤ S0 → S0 < N →
      ∃ C3, mat_mult32 ar iv fuel S0 N M P C A B = Except.ok C3 ∧
        ∀ f : ℕ, mat_mult32 ar iv f S0 N M P C A B = Except.ok C3 ∨
          mat_mult32 ar iv f S0 N M P C A B = Except.error Fault.outOfFuel) := by
  have hM := hd.1
  have hN := hd.2.1
  have hP := hd.2.2.1
  obtain ⟨⟨C1, h1⟩, _, h2, h3⟩ := bounds_safety ar M N P S L R E vlen alpha C A B hd hr hv
  obtain ⟨C2, h2⟩ := h2 fuel hf.2.2
  have k1 := block32_of_block ar iv hiv fuel C A B alpha M N P S L R E hM hN hP hr hs hf C1 h1
  have k2 := vp32_of_vp ar iv hiv fuel C A B alpha M N P S L R E vlen hM hN hP hr hv hs hPv hf
    C2 h2
  refine ⟨⟨C1, k1, fun f => ?_⟩, ⟨C2, k2, fun f => ?_⟩, fun S0 h0 hSN => ?_⟩
  · rw [← k1]
    exact block32_cut ar iv hiv f fuel C A B alpha M N P S L R E hM hN hP hr hs hf
  · exact vp32_cut ar iv hiv f fuel C A B alpha M N P S L R E vlen hM hN hP hr hv hs hPv hf C2 k2
  · obtain ⟨C3, h3⟩ := h3 S0 h0 hSN
    have k3 := mat_mult32_of_mat_mult ar iv hiv fuel C A B S0 N M P hM hP h0 hSN hs hf C3 h3
    refine ⟨C3, k3, fun f => ?_⟩
    rw [← k3]
    exact mat_mult32_cut ar iv hiv f fuel C A B S0 N M P hM hP h0 hSN hs hf

/-- Witness for C5: a 2 x 3 x 2 product on the region `[1,2) x [1,3)`, `vlen = 1`. -/
theorem bounds_safety32_witness :
    ExactStore checked32 ∧
    ValidDims 2 3 2 [0, 0, 0, 0, 0, 0] [1, 2, 3, 4] [(1 : ℤ), 0, 0, 1, 1, 1] ∧
    ValidRegion 2 3 1 3 1 2 ∧ (0 : ℤ) ≤ 1 ∧ SizesFit 2 3 2 ∧ 2 + effectiveVlen 1 ≤ INT_MAX ∧
    EnoughFuel 4 2 3 2 ∧
    ((∃ C1, matmult_block_notrans32 (exactArith ℤ) checked32 4 [0, 0, 0, 0, 0, 0] [1, 2, 3, 4]
        [1, 0, 0, 1, 1, 1] 1 2 3 2 1 3 1 2 = Except.ok C1 ∧
      ∀ f : ℕ, matmult_block_notrans32 (exactArith ℤ) checked32 f [0, 0, 0, 0, 0, 0]
          [1, 2, 3, 4] [1, 0, 0, 1, 1, 1] 1 2 3 2 1 3 1 2 = Except.ok C1 ∨
        matmult_block_notrans32 (exactArith ℤ) checked32 f [0, 0, 0, 0, 0, 0]
          [1, 2, 3, 4] [1, 0, 0, 1, 1, 1] 1 2 3 2 1 3 1 2 = Except.error Fault.outOfFuel) ∧
    (∃ C2, matmult_vp_notrans32 (exactArith ℤ) checked32 4 [0, 0, 0, 0, 0, 0] [1, 2, 3, 4]
        [1, 0, 0, 1, 1, 1] 1 2 3 2 1 3 1 2 1 = Except.ok C2 ∧
      ∀ f : ℕ, matmult_vp_notrans32 (exactArith ℤ) checked32 f [0, 0, 0, 0, 0, 0]
          [1, 2, 3, 4] [1, 0, 0, 1, 1, 1] 1 2 3 2 1 3 1 2 1 = Except.ok C2 ∨
        matmult_vp_notrans32 (exactArith ℤ) checked32 f [0, 0, 0, 0, 0, 0]
          [1, 2, 3, 4] [1, 0, 0, 1, 1, 1] 1 2 3 2 1 3 1 2 1 = Except.error Fault.outOfFuel) ∧
    (∀ S0 : ℤ, 0 ≤ S0 → S0 < 3 →
      ∃ C3, mat_mult32 (exactArith ℤ) checked32 4 S0 3 2 2 [0, 0, 0, 0, 0, 0] [1, 2, 3, 4]
          [1, 0, 0, 1, 1, 1] = Except.ok C3 ∧
        ∀ f : ℕ, mat_mult32 (exactArith ℤ) checked32 f S0 3 2 2 [0, 0, 0, 0, 0, 0]
            [1, 2, 3, 4] [1, 0, 0, 1, 1, 1] = Except.ok C3 ∨
          mat_mult32 (exactArith ℤ) checked32 f S0 3 2 2 [0, 0, 0, 0, 0, 0]
            [1, 2, 3, 4] [1, 0, 0, 1, 1, 1] = Except.error Fault.outOfFuel)) :=
  ⟨checked32_exact, by decide, by decide, by decide, by decide, by decide, by decide,
    bounds_safety32 (exactArith ℤ) checked32 checked32_exact 4 2 3 2 1 3 1 2 1 1
      [0, 0, 0, 0, 0, 0] [1, 2, 3, 4] [1, 0, 0, 1, 1, 1] (by decide) (by decide) (by decide)
      (by decide) (by decide) (by decide)⟩

/-- C5, counterexample: the large input (`M = INT_MAX`, `N = 3`, `P = 1`,
    buffers of exactly `M*N`, `M*P`, `P*N` elements, region `[0,1) x [2,3)`,
    `vlen = 1`, `S0 = 2`) meets the stated preconditions, and with 32-bit
    wrap-around each of the three kernels dereferences `C` at the offset `-2`:
    the out-of-range branch is taken.  Checked, each faults at `S*M`. -/
theorem bounds_safety32_overflow :
    ValidDims 2147483647 3 1 largeC largeA [0, 0, 1] ∧ ValidRegion 2147483647 3 2 3 0 1 ∧
    (∀ fuel : ℕ, matmult_block_notrans32 (exactArith ℤ) wrapped32 (fuel + 1) largeC largeA
        [0, 0, 1] 1 2147483647 3 1 2 3 0 1 = Except.error Fault.outOfBounds) ∧
    (∀ fuel : ℕ, matmult_vp_notrans32 (exactArith ℤ) wrapped32 (fuel + 1) largeC largeA
        [0, 0, 1] 1 2147483647 3 1 2 3 0 1 1 = Except.error Fault.outOfBounds) ∧
    (∀ fuel : ℕ, mat_mult32 (exactArith ℤ) wrapped32 (fuel + 1) 2 3 2147483647 1 largeC largeA
        [0, 0, 1] = Except.error Fault.outOfBounds) ∧
    (∀ fuel : ℕ, matmult_block_notrans32 (exactArith ℤ) checked32 fuel largeC largeA
        [0, 0, 1] 1 2147483647 3 1 2 3 0 1 = Except.error Fault.intOverflow) ∧
    (∀ fuel : ℕ, matmult_vp_notrans32 (exactArith ℤ) checked32 (fuel + 1) largeC largeA
        [0, 0, 1] 1 2147483647 3 1 2 3 0 1 1 = Except.error Fault.intOverflow) ∧
    (∀ fuel : ℕ, mat_mult32 (exactArith ℤ) checked32 fuel 2 3 2147483647 1 largeC largeA
        [0, 0, 1] = Except.error Fault.intOverflow) :=
  ⟨large_input_valid _ rfl, by decide,
    fun fuel => block32_wrapped_oob fuel _ _ 1 3 1 (by decide),
    fun fuel => vp32_wrapped_oob fuel _ _ 1 3 1 1 (by decide) (by decide),
    fun fuel => mat_mult32_wrapped_oob fuel _ _,
    fun fuel => block32_checked_overflow _ fuel _ _ _ _ _ _ _ _ _,
    fun fuel => vp32_checked_overflow _ fuel _ _ _ _ _ _ _ _ _,
    fun fuel => mat_mult32_checked_overflow _ fuel _ _ _ _ _⟩

/-- C6, amended: for `vlen = 0` (valid dimensions and region, `M*N`, `M*P`,
    `P*N` and `P + 30` at most `INT_MAX`, any store exact on `[0, INT_MAX]`,
    enough fuel) `matmult_vp_notrans32` substitutes the default 30: it runs to
    the end and ends with exactly the buffer of the call with `vlen = 30`. -/
theorem vp32_zero_vlen_is_default (ar : Arith α) (iv : ℤ → Except Fault ℤ)
    (hiv : ExactStore iv) (fuel : ℕ) (M N P S L R E : ℤ) (alpha : α) (C A B : List α)
    (hd : ValidDims M N P C A B) (hr : ValidRegion M N S L R E)
    (hs : SizesFit M N P) (hPv : P + VLEN_DEFAULT ≤ INT_MAX) (hf : EnoughFuel fuel M N P) :
    ∃ C', matmult_vp_notrans32 ar iv fuel C A B alpha M N P S L R E 0 = Except.ok C' ∧
      matmult_vp_notrans32 ar iv fuel C A B alpha M N P S L R E VLEN_DEFAULT = Except.ok C' := by
  obtain ⟨C', h0, h30⟩ := vp_zero_vlen_is_default ar M N P S L R E alpha C A B fuel hd hr hf.2.2
  exact ⟨C',
    vp32_of_vp ar iv hiv fuel C A B alpha M N P S L R E 0 hd.1 hd.2.1 hd.2.2.1 hr (le_refl _) hs
      hPv hf C' h0,
    vp32_of_vp ar iv hiv fuel C A B alpha M N P S L R E VLEN_DEFAULT hd.1 hd.2.1 hd.2.2.1 hr
      (by decide) hs hPv hf C' h30⟩

/-- Witness for C6: a 2 x 2 x 2 product on the full range. -/
theorem vp32_zero_vlen_is_default_witness :
    ExactStore checked32 ∧
    ValidDims 2 2 2 [0, 0, 0, 0] [1, 2, 3, 4] [(2 : ℤ), 4, 3, 5] ∧ ValidRegion 2 2 0 2 0 2 ∧
    SizesFit 2 2 2 ∧ 2 + VLEN_DEFAULT ≤ INT_MAX ∧ EnoughFuel 3 2 2 2 ∧
    ∃ C', matmult_vp_notrans32 (exactArith ℤ) checked32 3 [0, 0, 0, 0] [1, 2, 3, 4]
          [2, 4, 3, 5] 1 2 2 2 0 2 0 2 0 = Except.ok C' ∧
      matmult_vp_notrans32 (exactArith ℤ) checked32 3 [0, 0, 0, 0] [1, 2, 3, 4]
          [2, 4, 3, 5] 1 2 2 2 0 2 0 2 VLEN_DEFAULT = Except.ok C' :=
  ⟨checked32_exact, by decide, by decide, by decide, by decide, by decide,
    vp32_zero_vlen_is_default (exactArith ℤ) checked32 checked32_exact 3 2 2 2 0 2 0 2 1
      [0, 0, 0, 0] [1, 2, 3, 4] [2, 4, 3, 5] (by decide) (by decide) (by decide) (by decide)
      (by decide)⟩

/-- C6, counterexample: the guard at line 80 is `vlen == 0`, a negative `vlen`
    is not replaced.  On the valid 1 x 1 x 1 input `C = [0]`, `A = [1]`,
    `B = [1]` the call with `vlen = 30` ends with `C = [1]`; the call with
    `vlen = INT_MIN = -2147483648`, run with 32-bit wrap-around, has the empty
    first chunk `[0, INT_MIN)`, then `vpS = INT_MIN`, `vpL = 0`, and its second
    pass reads `B[INT_MIN]` outside the buffer, for every fuel from 2 on. -/
theorem vp32_negative_vlen_not_default :
    ValidDims 1 1 1 [0] [1] [(1 : ℤ)] ∧ ValidRegion 1 1 0 1 0 1 ∧ SizesFit 1 1 1 ∧
    (-2147483648 : ℤ) ≤ 0 ∧
    matmult_vp_notrans32 (exactArith ℤ) wrapped32 2 [0] [1] [1] 1 1 1 1 0 1 0 1 30
      = Except.ok [1] ∧
    (∀ fuel : ℕ, matmult_vp_notrans32 (exactArith ℤ) wrapped32 (fuel + 2) [0] [1] [1] 1
        1 1 1 0 1 0 1 (-2147483648) = Except.error Fault.outOfBounds) :=
  ⟨by decide, by decide, by decide, by decide, rfl,
    fun fuel => vp32_wrapped_negative_vlen _ fuel _ _ _ _⟩

/-- C7, amended with the 32-bit bound. Termination of the viewport loop: for
    `P >= 1`, `vlen >= 0` (`v` the length in effect, 30 for `vlen = 0`) with
    `P + v` at most `INT_MAX`, any store exact on `[0, INT_MAX]` and more than
    `P` units of fuel, the `while` loop of `matmult_vp_notrans32` runs exactly
    `ceil(P/v)` iterations (one when `v >= P`), every iteration moves the cursor
    `vpS` to a strictly larger value (`vpS < vpL`, the successive cursors
    followed by the exit value form a strictly increasing sequence), and on
    exit `vpS = P`. -/
theorem vp32_loop_terminates (iv : ℤ → Except Fault ℤ) (hiv : ExactStore iv) (P vlen : ℤ)
    (fuel : ℕ) (hP : 1 ≤ P) (hv : 0 ≤ vlen) (hPv : P + effectiveVlen vlen ≤ INT_MAX)
    (hf : P.toNat < fuel) :
    ∃ vpL tr, vpChunks32 iv fuel P vlen = Except.ok (P, vpL, tr) ∧
      (tr.length : ℤ) = ⌈(P : ℚ) / (effectiveVlen vlen : ℚ)⌉ ∧
      (P ≤ effectiveVlen vlen → tr.length = 1) ∧
      (∀ p ∈ tr, p.1 < p.2) ∧
      List.Pairwise (fun a b => a < b) (tr.map Prod.fst ++ [P]) := by
  obtain ⟨vpL, tr, h, rest⟩ := vp_loop_terminates P vlen fuel hP hv hf
  exact ⟨vpL, tr, vpChunks32_of_vpChunks iv hiv fuel P vlen (by omega) hv hPv _ h, rest⟩

/-- Witness for C7: `P = 5`, `vlen = 2`, three iterations. -/
theorem vp32_loop_terminates_witness :
    ExactStore checked32 ∧ (1 : ℤ) ≤ 5 ∧ (0 : ℤ) ≤ 2 ∧ 5 + effectiveVlen 2 ≤ INT_MAX ∧
    (5 : ℤ).toNat < 6 ∧
    ∃ vpL tr, vpChunks32 checked32 6 5 2 = Except.ok (5, vpL, tr) ∧
      (tr.length : ℤ) = ⌈((5 : ℤ) : ℚ) / (effectiveVlen 2 : ℚ)⌉ ∧
      ((5 : ℤ) ≤ effectiveVlen 2 → tr.length = 1) ∧
      (∀ p ∈ tr, p.1 < p.2) ∧
      List.Pairwise (fun a b => a < b) (tr.map Prod.fst ++ [5]) :=
  ⟨checked32_exact, by decide, by decide, by decide, by decide,
    vp32_loop_terminates checked32 checked32_exact 5 2 6 (by decide) (by decide) (by decide)
      (by decide)⟩

/-- C7, counterexample: with `P = 2` and `vlen = INT_MAX` the statement
    `vpL += vlen` (line 116) computes `2 + INT_MAX`, not an `int`: the checked
    loop faults in its first pass.  With `P = INT_MAX` and `vlen = 2^30 + 1`,
    where `ceil(P/vlen) = 2`, the loop with 32-bit wrap-around gets
    `vpL = -2147483646` in its first pass and never exits after two iterations:
    with fuel for two iterations and the exit test it is still running, and
    every run that ends has made at least three. -/
theorem vp32_loop_overflow :
    (1 : ℤ) ≤ 2 ∧ (1 : ℤ) ≤ effectiveVlen 2147483647 ∧
    (∀ fuel : ℕ, vpChunks32 checked32 (fuel + 1) 2 2147483647
      = Except.error Fault.intOverflow) ∧
    (1 : ℤ) ≤ 2147483647 ∧ (1 : ℤ) ≤ effectiveVlen 1073741825 ∧
    ⌈((2147483647 : ℤ) : ℚ) / (effectiveVlen 1073741825 : ℚ)⌉ = 2 ∧
    vpChunks32 wrapped32 3 2147483647 1073741825 = Except.error Fault.outOfFuel ∧
    (∀ (fuel : ℕ) (r : ℤ × ℤ × List (ℤ × ℤ)),
      vpChunks32 wrapped32 fuel 2147483647 1073741825 = Except.ok r → 3 ≤ r.2.2.length) :=
  ⟨by decide, by decide, fun fuel => vpChunks32_checked_overflow fuel, by decide, by decide,
    by rw [Int.ceil_eq_iff]; norm_num [effectiveVlen], rfl,
    fun fuel r h => vpChunks32_wrapped_long fuel r h⟩

/-- C8, amended: in exact arithmetic, for valid dimensions with `M*N`, `M*P`,
    `P*N` at most `INT_MAX` and `alpha = 1` (any store exact on `[0, INT_MAX]`,
    enough fuel), `matmult_block_notrans32` on the full range `R = 0`, `E = M`,
    `S = 0`, `L = N` and `mat_mult32(0, N, M, P, C, A, B)` return the same
    buffer. -/
theorem block32_full_range_eq_mat_mult32 {K : Type} [CommRing K] [DecidableEq K]
    (iv : ℤ → Except Fault ℤ) (hiv : ExactStore iv) (fuel : ℕ)
    (M N P : ℤ) (C A B : List K) (hd : ValidDims M N P C A B)
    (hs : SizesFit M N P) (hf : EnoughFuel fuel M N P) :
    ∃ C', matmult_block_notrans32 (exactArith K) iv fuel C A B 1 M N P 0 N 0 M = Except.ok C' ∧
      mat_mult32 (exactArith K) iv fuel 0 N M P C A B = Except.ok C' := by
  obtain ⟨C', h1, h2⟩ := block_full_range_eq_mat_mult M N P C A B hd
  exact ⟨C',
    block32_of_block _ iv hiv fuel C A B 1 M N P 0 N 0 M hd.1 hd.2.1 hd.2.2.1
      (validRegion_full M N hd.1 hd.2.1) hs hf C' h1,
    mat_mult32_of_mat_mult _ iv hiv fuel C A B 0 N M P hd.1 hd.2.2.1 (le_refl _) hd.2.1 hs hf
      C' h2⟩

/-- Witness for C8: a 2 x 2 x 2 product. -/
theorem block32_full_range_eq_mat_mult32_witness :
    ExactStore checked32 ∧
    ValidDims 2 2 2 [1, 1, 1, 1] [1, 2, 3, 4] [(2 : ℤ), 4, 3, 5] ∧ SizesFit 2 2 2 ∧
    EnoughFuel 3 2 2 2 ∧
    ∃ C', matmult_block_notrans32 (exactArith ℤ) checked32 3 [1, 1, 1, 1] [1, 2, 3, 4]
          [2, 4, 3, 5] 1 2 2 2 0 2 0 2 = Except.ok C' ∧
      mat_mult32 (exactArith ℤ) checked32 3 0 2 2 2 [1, 1, 1, 1] [1, 2, 3, 4] [2, 4, 3, 5]
        = Except.ok C' :=
  ⟨checked32_exact, by decide, by decide, by decide,
    block32_full_range_eq_mat_mult32 checked32 checked32_exact 3 2 2 2 [1, 1, 1, 1]
      [1, 2, 3, 4] [2, 4, 3, 5] (by decide) (by decide) (by decide)⟩

/-- C8, counterexample: `mat_mult` has no `alpha` parameter (`C += A*B`), the
    block kernel adds `alpha*A*B`: on the 1 x 1 x 1 input `C = [0]`, `A = [1]`,
    `B = [1]` with `alpha = 2` the block kernel returns `[2]` and `mat_mult32`
    returns `[1]`, checked or wrapped.  And with `alpha = 1` on the large input
    (`M = INT_MAX`, `N = 3`, `P = 1`) the block kernel on the full range, which
    computes no index beyond its loop counters, returns a buffer, while
    `mat_mult32(0, N, ..)` overflows at `cc += M` (line 44) after column 1:
    checked it faults, wrapped it reads `C[-2]`. -/
theorem block32_full_range_ne_mat_mult32 :
    (ValidDims 1 1 1 [0] [1] [(1 : ℤ)] ∧ SizesFit 1 1 1 ∧
      matmult_block_notrans32 (exactArith ℤ) checked32 2 [0] [1] [1] 2 1 1 1 0 1 0 1
        = Except.ok [2] ∧
      mat_mult32 (exactArith ℤ) checked32 2 0 1 1 1 [0] [1] [1] = Except.ok [1] ∧
      matmult_block_notrans32 (exactArith ℤ) wrapped32 2 [0] [1] [1] 2 1 1 1 0 1 0 1
        = Except.ok [2] ∧
      mat_mult32 (exactArith ℤ) wrapped32 2 0 1 1 1 [0] [1] [1] = Except.ok [1]) ∧
    (ValidDims 2147483647 3 1 largeC largeA [0, 0, 1] ∧
      EnoughFuel 2147483648 2147483647 3 1 ∧
      (∃ C', matmult_block_notrans32 (exactArith ℤ) checked32 2147483648 largeC largeA
          [0, 0, 1] 1 2147483647 3 1 0 3 0 2147483647 = Except.ok C') ∧
      (∃ C', matmult_block_notrans32 (exactArith ℤ) wrapped32 2147483648 largeC largeA
          [0, 0, 1] 1 2147483647 3 1 0 3 0 2147483647 = Except.ok C') ∧
      (∀ fuel : ℕ, mat_mult32 (exactArith ℤ) checked32 (fuel + 2) 0 3 2147483647 1 largeC
          largeA [0, 0, 1] = Except.error Fault.intOverflow) ∧
      (∀ fuel : ℕ, mat_mult32 (exactArith ℤ) wrapped32 (fuel + 3) 0 3 2147483647 1 largeC
          largeA [0, 0, 1] = Except.error Fault.outOfBounds)) :=
  ⟨⟨by decide, by decide, rfl, rfl, rfl, rfl⟩,
    ⟨large_input_valid _ rfl, by decide,
      block32_full_range_returns _ checked32 checked32_exact 2147483648 _ _ _ 1 _ _ _
        (large_input_valid _ rfl) (by decide) (by decide) (by decide) (by decide),
      block32_full_range_returns _ wrapped32 wrapped32_exact 2147483648 _ _ _ 1 _ _ _
        (large_input_valid _ rfl) (by decide) (by decide) (by decide) (by decide),
      fun fuel => mat_mult32_checked_overflow_full fuel _ _,
      fun fuel => mat_mult32_wrapped_oob_full fuel _ _⟩⟩

/-- C10, amended with the 32-bit bounds. Accumulation semantics in exact
    arithmetic: for valid inputs with `M*N`, `M*P`, `P*N` and `P + v` at most
    `INT_MAX` (`v` the viewport length in effect), `vlen >= 0`, any store exact
    on `[0, INT_MAX]` and enough fuel, each of `matmult_block_notrans32`,
    `matmult_vp_notrans32` and `mat_mult32` can be applied twice in succession
    to `C`, and in every cell of the matrix
    `C_after_twice - C_before = 2 * (C_after_once - C_before)`. -/
theorem accumulation_twice32 {K : Type} [CommRing K] [DecidableEq K]
    (iv : ℤ → Except Fault ℤ) (hiv : ExactStore iv) (fuel : ℕ)
    (M N P S L R E vlen : ℤ) (alpha : K) (C A B : List K)
    (hd : ValidDims M N P C A B) (hr : ValidRegion M N S L R E) (hv : 0 ≤ vlen)
    (hs : SizesFit M N P) (hPv : P + effectiveVlen vlen ≤ INT_MAX)
    (hf : EnoughFuel fuel M N P) :
    (∃ C1 C2,
      matmult_block_notrans32 (exactArith K) iv fuel C A B alpha M N P S L R E = Except.ok C1 ∧
      matmult_block_notrans32 (exactArith K) iv fuel C1 A B alpha M N P S L R E = Except.ok C2 ∧
      ∀ i j : ℤ, 0 ≤ i → i < M → 0 ≤ j → j < N →
        cell C2 M 0 i j - cell C M 0 i j = 2 * (cell C1 M 0 i j - cell C M 0 i j)) ∧
    (∃ C1 C2,
      matmult_vp_notrans32 (exactArith K) iv fuel C A B alpha M N P S L R E vlen
        = Except.ok C1 ∧
      matmult_vp_notrans32 (exactArith K) iv fuel C1 A B alpha M N P S L R E vlen
        = Except.ok C2 ∧
      ∀ i j : ℤ, 0 ≤ i → i < M → 0 ≤ j → j < N →
        cell C2 M 0 i j - cell C M 0 i j = 2 * (cell C1 M 0 i j - cell C M 0 i j)) ∧
    (∃ C1 C2, mat_mult32 (exactArith K) iv fuel S N M P C A B = Except.ok C1 ∧
      mat_mult32 (exactArith K) iv fuel S N M P C1 A B = Except.ok C2 ∧
      ∀ i j : ℤ, 0 ≤ i → i < M → 0 ≤ j → j < N →
        cell C2 M 0 i j - cell C M 0 i j = 2 * (cell C1 M 0 i j - cell C M 0 i j)) := by
  have hM := hd.1
  have hN := hd.2.1
  have hP := hd.2.2.1
  have hS := hr.2.2.2.1
  have hSN : S < N := by have := hr.2.2.2.2.1; have := hr.2.2.2.2.2; omega
  obtain ⟨⟨B1, B2, hb1, hb2, hbc⟩, ⟨V1, V2, hv1, hv2, hvc⟩, ⟨M1, M2, hm1, hm2, hmc⟩⟩ :=
    accumulation_twice M N P S L R E vlen alpha C A B fuel hd hr hv hf.2.2
  exact ⟨⟨B1, B2,
      block32_of_block _ iv hiv fuel C A B alpha M N P S L R E hM hN hP hr hs hf B1 hb1,
      block32_of_block _ iv hiv fuel B1 A B alpha M N P S L R E hM hN hP hr hs hf B2 hb2, hbc⟩,
    ⟨V1, V2,
      vp32_of_vp _ iv hiv fuel C A B alpha M N P S L R E vlen hM hN hP hr hv hs hPv hf V1 hv1,
      vp32_of_vp _ iv hiv fuel V1 A B alpha M N P S L R E vlen hM hN hP hr hv hs hPv hf V2 hv2,
      hvc⟩,
    ⟨M1, M2,
      mat_mult32_of_mat_mult _ iv hiv fuel C A B S N M P hM hP hS hSN hs hf M1 hm1,
      mat_mult32_of_mat_mult _ iv hiv fuel M1 A B S N M P hM hP hS hSN hs hf M2 hm2, hmc⟩⟩

/-- Witness for C10: a 2 x 2 x 2 product on the region `[1,2) x [1,2)`,
    `alpha = 3`, `vlen = 1`. -/
theorem accumulation_twice32_witness :
    ExactStore checked32 ∧
    ValidDims 2 2 2 [7, 7, 7, 7] [1, 2, 3, 4] [(2 : ℤ), 4, 3, 5] ∧ ValidRegion 2 2 1 2 1 2 ∧
    (0 : ℤ) ≤ 1 ∧ SizesFit 2 2 2 ∧ 2 + effectiveVlen 1 ≤ INT_MAX ∧ EnoughFuel 3 2 2 2 ∧
    ((∃ C1 C2, matmult_block_notrans32 (exactArith ℤ) checked32 3 [7, 7, 7, 7] [1, 2, 3, 4]
          [2, 4, 3, 5] 3 2 2 2 1 2 1 2 = Except.ok C1 ∧
      matmult_block_notrans32 (exactArith ℤ) checked32 3 C1 [1, 2, 3, 4] [2, 4, 3, 5] 3
          2 2 2 1 2 1 2 = Except.ok C2 ∧
      ∀ i j : ℤ, 0 ≤ i → i < 2 → 0 ≤ j → j < 2 →
        cell C2 2 0 i j - cell [7, 7, 7, 7] 2 0 i j
          = 2 * (cell C1 2 0 i j - cell [7, 7, 7, 7] 2 0 i j)) ∧
    (∃ C1 C2, matmult_vp_notrans32 (exactArith ℤ) checked32 3 [7, 7, 7, 7] [1, 2, 3, 4]
          [2, 4, 3, 5] 3 2 2 2 1 2 1 2 1 = Except.ok C1 ∧
      matmult_vp_notrans32 (exactArith ℤ) checked32 3 C1 [1, 2, 3, 4] [2, 4, 3, 5] 3
          2 2 2 1 2 1 2 1 = Except.ok C2 ∧
      ∀ i j : ℤ, 0 ≤ i → i < 2 → 0 ≤ j → j < 2 →
        cell C2 2 0 i j - cell [7, 7, 7, 7] 2 0 i j
          = 2 * (cell C1 2 0 i j - cell [7, 7, 7, 7] 2 0 i j)) ∧
    (∃ C1 C2, mat_mult32 (exactArith ℤ) checked32 3 1 2 2 2 [7, 7, 7, 7] [1, 2, 3, 4]
          [2, 4, 3, 5] = Except.ok C1 ∧
      mat_mult32 (exactArith ℤ) checked32 3 1 2 2 2 C1 [1, 2, 3, 4] [2, 4, 3, 5]
        = Except.ok C2 ∧
      ∀ i j : ℤ, 0 ≤ i → i < 2 → 0 ≤ j → j < 2 →
        cell C2 2 0 i j - cell [7, 7, 7, 7] 2 0 i j
          = 2 * (cell C1 2 0 i j - cell [7, 7, 7, 7] 2 0 i j))) :=
  ⟨checked32_exact, by decide, by decide, by decide, by decide, by decide, by decide,
    accumulation_twice32 checked32 checked32_exact 3 2 2 2 1 2 1 2 1 3 [7, 7, 7, 7]
      [1, 2, 3, 4] [2, 4, 3, 5] (by decide) (by decide) (by decide) (by decide) (by decide)
      (by decide)⟩

/-- C10, counterexample: on the large input (`M = INT_MAX`, `N = 3`, `P = 1`,
    region `[0,1) x [2,3)`, `vlen = 1`, all parameters valid) the first
    application of each kernel already fails: `S*M = 2 * INT_MAX` is not an
    `int`.  Checked, each run faults; wrapped, each dereferences `C[-2]`. -/
theorem accumulation_twice32_overflow :
    ValidDims 2147483647 3 1 largeC largeA [0, 0, 1] ∧ ValidRegion 2147483647 3 2 3 0 1 ∧
    (∀ fuel : ℕ, matmult_block_notrans32 (exactArith ℤ) checked32 fuel largeC largeA
        [0, 0, 1] 1 2147483647 3 1 2 3 0 1 = Except.error Fault.intOverflow) ∧
    (∀ fuel : ℕ, matmult_vp_notrans32 (exactArith ℤ) checked32 (fuel + 1) largeC largeA
        [0, 0, 1] 1 2147483647 3 1 2 3 0 1 1 = Except.error Fault.intOverflow) ∧
    (∀ fuel : ℕ, mat_mult32 (exactArith ℤ) checked32 fuel 2 3 2147483647 1 largeC largeA
        [0, 0, 1] = Except.error Fault.intOverflow) ∧
    (∀ fuel : ℕ, matmult_block_notrans32 (exactArith ℤ) wrapped32 (fuel + 1) largeC largeA
        [0, 0, 1] 1 2147483647 3 1 2 3 0 1 = Except.error Fault.outOfBounds) ∧
    (∀ fuel : ℕ, matmult_vp_notrans32 (exactArith ℤ) wrapped32 (fuel + 1) largeC largeA
        [0, 0, 1] 1 2147483647 3 1 2 3 0 1 1 = Except.error Fault.outOfBounds) ∧
    (∀ fuel : ℕ, mat_mult32 (exactArith ℤ) wrapped32 (fuel + 1) 2 3 2147483647 1 largeC largeA
        [0, 0, 1] = Except.error Fault.outOfBounds) :=
  ⟨large_input_valid _ rfl, by decide,
    fun fuel => block32_checked_overflow _ fuel _ _ _ _ _ _ _ _ _,
    fun fuel => vp32_checked_overflow _ fuel _ _ _ _ _ _ _ _ _,
    fun fuel => mat_mult32_checked_overflow _ fuel _ _ _ _ _,
    fun fuel => block32_wrapped_oob fuel _ _ 1 3 1 (by decide),
    fun fuel => vp32_wrapped_oob fuel _ _ 1 3 1 1 (by decide) (by decide),
    fun fuel => mat_mult32_wrapped_oob fuel _ _⟩

/-- C11, amended with the 32-bit bounds. Scale linearity in exact arithmetic:
    for valid inputs with `M*N`, `M*P`, `P*N` and `P + v` at most `INT_MAX` (`v`
    the viewport length in effect), `vlen >= 0`, any store exact on
    `[0, INT_MAX]` and enough fuel, the difference that
    `matmult_block_notrans32` and `matmult_vp_notrans32` make to `C` is linear
    in `alpha`: in every cell `result(c*alpha) - C = c * (result(alpha) - C)`; in
    particular `result(2*alpha) - C = 2 * (result(alpha) - C)`, and with
    `alpha = 0` both kernels return `C` itself. -/
theorem scale_linearity32 {K : Type} [CommRing K] [DecidableEq K]
    (iv : ℤ → Except Fault ℤ) (hiv : ExactStore iv) (fuel : ℕ)
    (M N P S L R E vlen : ℤ) (alpha c : K) (C A B : List K)
    (hd : ValidDims M N P C A B) (hr : ValidRegion M N S L R E) (hv : 0 ≤ vlen)
    (hs : SizesFit M N P) (hPv : P + effectiveVlen vlen ≤ INT_MAX)
    (hf : EnoughFuel fuel M N P) :
    ∃ C1 C2 C3,
      matmult_block_notrans32 (exactArith K) iv fuel C A B alpha M N P S L R E = Except.ok C1 ∧
      matmult_vp_notrans32 (exactArith K) iv fuel C A B alpha M N P S L R E vlen
        = Except.ok C1 ∧
      matmult_block_notrans32 (exactArith K) iv fuel C A B (c * alpha) M N P S L R E
        = Except.ok C2 ∧
      matmult_vp_notrans32 (exactArith K) iv fuel C A B (c * alpha) M N P S L R E vlen
        = Except.ok C2 ∧
      matmult_block_notrans32 (exactArith K) iv fuel C A B (2 * alpha) M N P S L R E
        = Except.ok C3 ∧
      matmult_vp_notrans32 (exactArith K) iv fuel C A B (2 * alpha) M N P S L R E vlen
        = Except.ok C3 ∧
      (∀ i j : ℤ, 0 ≤ i → i < M → 0 ≤ j → j < N →
        cell C2 M 0 i j - cell C M 0 i j = c * (cell C1 M 0 i j - cell C M 0 i j) ∧
        cell C3 M 0 i j - cell C M 0 i j = 2 * (cell C1 M 0 i j - cell C M 0 i j)) ∧
      matmult_block_notrans32 (exactArith K) iv fuel C A B 0 M N P S L R E = Except.ok C ∧
      matmult_vp_notrans32 (exactArith K) iv fuel C A B 0 M N P S L R E vlen = Except.ok C := by
  have tb : ∀ (a : K) (C' : List K),
      matmult_block_notrans (exactArith K) C A B a M N P S L R E = some C' →
      matmult_block_notrans32 (exactArith K) iv fuel C A B a M N P S L R E = Except.ok C' :=
    fun a C' h => block32_of_block _ iv hiv fuel C A B a M N P S L R E hd.1 hd.2.1 hd.2.2.1
      hr hs hf C' h
  have tv : ∀ (a : K) (C' : List K),
      matmult_vp_notrans (exactArith K) fuel C A B a M N P S L R E vlen = Outcome.done C' →
      matmult_vp_notrans32 (exactArith K) iv fuel C A B a M N P S L R E vlen = Except.ok C' :=
    fun a C' h => vp32_of_vp _ iv hiv fuel C A B a M N P S L R E vlen hd.1 hd.2.1 hd.2.2.1
      hr hv hs hPv hf C' h
  obtain ⟨C1, C2, C3, h1, h2, h3, h4, h5, h6, hc, h7, h8⟩ :=
    scale_linearity M N P S L R E vlen alpha c C A B fuel hd hr hv hf.2.2
  exact ⟨C1, C2, C3, tb _ _ h1, tv _ _ h2, tb _ _ h3, tv _ _ h4, tb _ _ h5, tv _ _ h6, hc,
    tb _ _ h7, tv _ _ h8⟩

/-- Witness for C11: a 2 x 2 x 2 product on the full range, `alpha = 3`,
    `c = 5`, `vlen = 1`. -/
theorem scale_linearity32_witness :
    ExactStore checked32 ∧
    ValidDims 2 2 2 [7, 7, 7, 7] [1, 2, 3, 4] [(2 : ℤ), 4, 3, 5] ∧ ValidRegion 2 2 0 2 0 2 ∧
    (0 : ℤ) ≤ 1 ∧ SizesFit 2 2 2 ∧ 2 + effectiveVlen 1 ≤ INT_MAX ∧ EnoughFuel 3 2 2 2 ∧
    ∃ C1 C2 C3,
      matmult_block_notrans32 (exactArith ℤ) checked32 3 [7, 7, 7, 7] [1, 2, 3, 4]
        [2, 4, 3, 5] 3 2 2 2 0 2 0 2 = Except.ok C1 ∧
      matmult_vp_notrans32 (exactArith ℤ) checked32 3 [7, 7, 7, 7] [1, 2, 3, 4]
        [2, 4, 3, 5] 3 2 2 2 0 2 0 2 1 = Except.ok C1 ∧
      matmult_block_notrans32 (exactArith ℤ) checked32 3 [7, 7, 7, 7] [1, 2, 3, 4]
        [2, 4, 3, 5] (5 * 3) 2 2 2 0 2 0 2 = Except.ok C2 ∧
      matmult_vp_notrans32 (exactArith ℤ) checked32 3 [7, 7, 7, 7] [1, 2, 3, 4]
        [2, 4, 3, 5] (5 * 3) 2 2 2 0 2 0 2 1 = Except.ok C2 ∧
      matmult_block_notrans32 (exactArith ℤ) checked32 3 [7, 7, 7, 7] [1, 2, 3, 4]
        [2, 4, 3, 5] (2 * 3) 2 2 2 0 2 0 2 = Except.ok C3 ∧
      matmult_vp_notrans32 (exactArith ℤ) checked32 3 [7, 7, 7, 7] [1, 2, 3, 4]
        [2, 4, 3, 5] (2 * 3) 2 2 2 0 2 0 2 1 = Except.ok C3 ∧
      (∀ i j : ℤ, 0 ≤ i → i < 2 → 0 ≤ j → j < 2 →
        cell C2 2 0 i j - cell [7, 7, 7, 7] 2 0 i j
          = 5 * (cell C1 2 0 i j - cell [7, 7, 7, 7] 2 0 i j) ∧
        cell C3 2 0 i j - cell [7, 7, 7, 7] 2 0 i j
          = 2 * (cell C1 2 0 i j - cell [7, 7, 7, 7] 2 0 i j)) ∧
      matmult_block_notrans32 (exactArith ℤ) checked32 3 [7, 7, 7, 7] [1, 2, 3, 4]
        [2, 4, 3, 5] 0 2 2 2 0 2 0 2 = Except.ok [7, 7, 7, 7] ∧
      matmult_vp_notrans32 (exactArith ℤ) checked32 3 [7, 7, 7, 7] [1, 2, 3, 4]
        [2, 4, 3, 5] 0 2 2 2 0 2 0 2 1 = Except.ok [7, 7, 7, 7] :=
  ⟨checked32_exact, by decide, by decide, by decide, by decide, by decide, by decide,
    scale_linearity32 checked32 checked32_exact 3 2 2 2 0 2 0 2 1 3 5 [7, 7, 7, 7]
      [1, 2, 3, 4] [2, 4, 3, 5] (by decide) (by decide) (by decide) (by decide) (by decide)
      (by decide)⟩

/-- C11, counterexample: on the large input (`M = INT_MAX`, `N = 3`, `P = 1`,
    region `[0,1) x [2,3)`, `vlen = 1`) neither kernel returns a buffer for
    `alpha = 1` or for the doubled `alpha = 2`: `S*M = 2 * INT_MAX` is not an
    `int`.  Checked, the runs fault; wrapped, they dereference `C[-2]`. -/
theorem scale_linearity32_overflow :
    ValidDims 2147483647 3 1 largeC largeA [0, 0, 1] ∧ ValidRegion 2147483647 3 2 3 0 1 ∧
    (∀ (fuel : ℕ) (alpha : ℤ), matmult_block_notrans32 (exactArith ℤ) checked32 fuel largeC
        largeA [0, 0, 1] alpha 2147483647 3 1 2 3 0 1 = Except.error Fault.intOverflow) ∧
    (∀ (fuel : ℕ) (alpha : ℤ), matmult_vp_notrans32 (exactArith ℤ) checked32 (fuel + 1) largeC
        largeA [0, 0, 1] alpha 2147483647 3 1 2 3 0 1 1 = Except.error Fault.intOverflow) ∧
    (∀ (fuel : ℕ) (alpha : ℤ), matmult_block_notrans32 (exactArith ℤ) wrapped32 (fuel + 1)
        largeC largeA [0, 0, 1] alpha 2147483647 3 1 2 3 0 1
          = Except.error Fault.outOfBounds) ∧
    (∀ (fuel : ℕ) (alpha : ℤ), matmult_vp_notrans32 (exactArith ℤ) wrapped32 (fuel + 1) largeC
        largeA [0, 0, 1] alpha 2147483647 3 1 2 3 0 1 1 = Except.error Fault.outOfBounds) :=
  ⟨large_input_valid _ rfl, by decide,
    fun fuel alpha => block32_checked_overflow _ fuel _ _ _ alpha _ _ _ _ _,
    fun fuel alpha => vp32_checked_overflow _ fuel _ _ _ alpha _ _ _ _ _,
    fun fuel alpha => block32_wrapped_oob fuel _ _ alpha 3 1 (by decide),
    fun fuel alpha => vp32_wrapped_oob fuel _ _ alpha 3 1 1 (by decide) (by decide)⟩

/-- C12, amended with the 32-bit bounds. Tile composition, for every
    arithmetic: for a valid region, `M*N`, `M*P`, `P*N` at most `INT_MAX`,
    `vlen >= 1` with `P + vlen` at most `INT_MAX`, any store exact on
    `[0, INT_MAX]` and enough fuel, let `Cfull` be the buffer of one call of
    `matmult_block_notrans32` on `[R,E) x [S,L)`.  For every row split
    `R < X < E`, calling the kernel on `[R,X) x [S,L)` and then on
    `[X,E) x [S,L)`, or in the other order, returns exactly `Cfull`; for every
    column split `S < Y < L`, calling it on `[R,E) x [S,Y)` and then on
    `[R,E) x [Y,L)`, or in the other order, returns exactly `Cfull`.  The same
    holds for `matmult_vp_notrans32`. -/
theorem tile_composition32 (ar : Arith α) (iv : ℤ → Except Fault ℤ) (hiv : ExactStore iv)
    (fuel : ℕ) (M N P S L R E vlen : ℤ) (alpha : α) (C A B : List α)
    (hd : ValidDims M N P C A B) (hr : ValidRegion M N S L R E) (hv : 1 ≤ vlen)
    (hs : SizesFit M N P) (hPv : P + vlen ≤ INT_MAX) (hf : EnoughFuel fuel M N P) :
    ∃ Cfull, matmult_block_notrans32 ar iv fuel C A B alpha M N P S L R E = Except.ok Cfull ∧
      matmult_vp_notrans32 ar iv fuel C A B alpha M N P S L R E vlen = Except.ok Cfull ∧
      (∀ X : ℤ, R < X → X < E →
        (∃ C1, matmult_block_notrans32 ar iv fuel C A B alpha M N P S L R X = Except.ok C1 ∧
          matmult_block_notrans32 ar iv fuel C1 A B alpha M N P S L X E = Except.ok Cfull ∧
          matmult_vp_notrans32 ar iv fuel C A B alpha M N P S L R X vlen = Except.ok C1 ∧
          matmult_vp_notrans32 ar iv fuel C1 A B alpha M N P S L X E vlen = Except.ok Cfull) ∧
        (∃ C1, matmult_block_notrans32 ar iv fuel C A B alpha M N P S L X E = Except.ok C1 ∧
          matmult_block_notrans32 ar iv fuel C1 A B alpha M N P S L R X = Except.ok Cfull ∧
          matmult_vp_notrans32 ar iv fuel C A B alpha M N P S L X E vlen = Except.ok C1 ∧
          matmult_vp_notrans32 ar iv fuel C1 A B alpha M N P S L R X vlen
            = Except.ok Cfull)) ∧
      (∀ Y : ℤ, S < Y → Y < L →
        (∃ C1, matmult_block_notrans32 ar iv fuel C A B alpha M N P S Y R E = Except.ok C1 ∧
          matmult_block_notrans32 ar iv fuel C1 A B alpha M N P Y L R E = Except.ok Cfull ∧
          matmult_vp_notrans32 ar iv fuel C A B alpha M N P S Y R E vlen = Except.ok C1 ∧
          matmult_vp_notrans32 ar iv fuel C1 A B alpha M N P Y L R E vlen = Except.ok Cfull) ∧
        (∃ C1, matmult_block_notrans32 ar iv fuel C A B alpha M N P Y L R E = Except.ok C1 ∧
          matmult_block_notrans32 ar iv fuel C1 A B alpha M N P S Y R E = Except.ok Cfull ∧
          matmult_vp_notrans32 ar iv fuel C A B alpha M N P Y L R E vlen = Except.ok C1 ∧
          matmult_vp_notrans32 ar iv fuel C1 A B alpha M N P S Y R E vlen
            = Except.ok Cfull)) := by
  have hPv1 : P + effectiveVlen vlen ≤ INT_MAX := by
    rw [effectiveVlen_of_pos vlen hv]; exact hPv
  have tb : ∀ (C0 : List α) (S1 L1 R1 E1 : ℤ) (C' : List α), ValidRegion M N S1 L1 R1 E1 →
      matmult_block_notrans ar C0 A B alpha M N P S1 L1 R1 E1 = some C' →
      matmult_block_notrans32 ar iv fuel C0 A B alpha M N P S1 L1 R1 E1 = Except.ok C' :=
    fun C0 S1 L1 R1 E1 C' hr1 h => block32_of_block ar iv hiv fuel C0 A B alpha M N P
      S1 L1 R1 E1 hd.1 hd.2.1 hd.2.2.1 hr1 hs hf C' h
  have tv : ∀ (C0 : List α) (S1 L1 R1 E1 : ℤ) (C' : List α), ValidRegion M N S1 L1 R1 E1 →
      matmult_vp_notrans ar fuel C0 A B alpha M N P S1 L1 R1 E1 vlen = Outcome.done C' →
      matmult_vp_notrans32 ar iv fuel C0 A B alpha M N P S1 L1 R1 E1 vlen = Except.ok C' :=
    fun C0 S1 L1 R1 E1 C' hr1 h => vp32_of_vp ar iv hiv fuel C0 A B alpha M N P
      S1 L1 R1 E1 vlen hd.1 hd.2.1 hd.2.2.1 hr1 (by omega) hs hPv1 hf C' h
  obtain ⟨Cfull, hb, hvp, hX, hY⟩ :=
    tile_composition ar M N P S L R E vlen alpha C A B fuel hd hr hv hf.2.2
  obtain ⟨hR, hRE, hEM, hS, hSL, hLN⟩ := id hr
  refine ⟨Cfull, tb _ _ _ _ _ _ hr hb, tv _ _ _ _ _ _ hr hvp, fun X h1 h2 => ?_,
    fun Y h1 h2 => ?_⟩
  · have ra : ValidRegion M N S L R X := ⟨hR, h1, by omega, hS, hSL, hLN⟩
    have rb : ValidRegion M N S L X E := ⟨by omega, h2, hEM, hS, hSL, hLN⟩
    obtain ⟨⟨C1, a1, a2, a3, a4⟩, ⟨C2, b1, b2, b3, b4⟩⟩ := hX X h1 h2
    exact ⟨⟨C1, tb _ _ _ _ _ _ ra a1, tb _ _ _ _ _ _ rb a2, tv _ _ _ _ _ _ ra a3,
        tv _ _ _ _ _ _ rb a4⟩,
      ⟨C2, tb _ _ _ _ _ _ rb b1, tb _ _ _ _ _ _ ra b2, tv _ _ _ _ _ _ rb b3,
        tv _ _ _ _ _ _ ra b4⟩⟩
  · have ra : ValidRegion M N S Y R E := ⟨hR, hRE, hEM, hS, h1, by omega⟩
    have rb : ValidRegion M N Y L R E := ⟨hR, hRE, hEM, by omega, h2, hLN⟩
    obtain ⟨⟨C1, a1, a2, a3, a4⟩, ⟨C2, b1, b2, b3, b4⟩⟩ := hY Y h1 h2
    exact ⟨⟨C1, tb _ _ _ _ _ _ ra a1, tb _ _ _ _ _ _ rb a2, tv _ _ _ _ _ _ ra a3,
        tv _ _ _ _ _ _ rb a4⟩,
      ⟨C2, tb _ _ _ _ _ _ rb b1, tb _ _ _ _ _ _ ra b2, tv _ _ _ _ _ _ rb b3,
        tv _ _ _ _ _ _ ra b4⟩⟩

/-- Witness for C12: a 3 x 2 matrix `C`, full range, `vlen = 1`. -/
theorem tile_composition32_witness :
    ExactStore checked32 ∧
    ValidDims 3 2 2 [7, 7, 7, 7, 7, 7] [1, 2, 3, 4, 5, 6] [(2 : ℤ), 4, 3, 5] ∧
    ValidRegion 3 2 0 2 0 3 ∧ (1 : ℤ) ≤ 1 ∧ SizesFit 3 2 2 ∧ (2 : ℤ) + 1 ≤ INT_MAX ∧
    EnoughFuel 4 3 2 2 ∧
    ∃ Cfull, matmult_block_notrans32 (exactArith ℤ) checked32 4 [7, 7, 7, 7, 7, 7]
        [1, 2, 3, 4, 5, 6] [2, 4, 3, 5] 1 3 2 2 0 2 0 3 = Except.ok Cfull ∧
      matmult_vp_notrans32 (exactArith ℤ) checked32 4 [7, 7, 7, 7, 7, 7] [1, 2, 3, 4, 5, 6]
        [2, 4, 3, 5] 1 3 2 2 0 2 0 3 1 = Except.ok Cfull ∧
      (∀ X : ℤ, 0 < X → X < 3 →
        (∃ C1, matmult_block_notrans32 (exactArith ℤ) checked32 4 [7, 7, 7, 7, 7, 7]
            [1, 2, 3, 4, 5, 6] [2, 4, 3, 5] 1 3 2 2 0 2 0 X = Except.ok C1 ∧
          matmult_block_notrans32 (exactArith ℤ) checked32 4 C1 [1, 2, 3, 4, 5, 6]
            [2, 4, 3, 5] 1 3 2 2 0 2 X 3 = Except.ok Cfull ∧
          matmult_vp_notrans32 (exactArith ℤ) checked32 4 [7, 7, 7, 7, 7, 7]
            [1, 2, 3, 4, 5, 6] [2, 4, 3, 5] 1 3 2 2 0 2 0 X 1 = Except.ok C1 ∧
          matmult_vp_notrans32 (exactArith ℤ) checked32 4 C1 [1, 2, 3, 4, 5, 6]
            [2, 4, 3, 5] 1 3 2 2 0 2 X 3 1 = Except.ok Cfull) ∧
        (∃ C1, matmult_block_notrans32 (exactArith ℤ) checked32 4 [7, 7, 7, 7, 7, 7]
            [1, 2, 3, 4, 5, 6] [2, 4, 3, 5] 1 3 2 2 0 2 X 3 = Except.ok C1 ∧
          matmult_block_notrans32 (exactArith ℤ) checked32 4 C1 [1, 2, 3, 4, 5, 6]
            [2, 4, 3, 5] 1 3 2 2 0 2 0 X = Except.ok Cfull ∧
          matmult_vp_notrans32 (exactArith ℤ) checked32 4 [7, 7, 7, 7, 7, 7]
            [1, 2, 3, 4, 5, 6] [2, 4, 3, 5] 1 3 2 2 0 2 X 3 1 = Except.ok C1 ∧
          matmult_vp_notrans32 (exactArith ℤ) checked32 4 C1 [1, 2, 3, 4, 5, 6]
            [2, 4, 3, 5] 1 3 2 2 0 2 0 X 1 = Except.ok Cfull)) ∧
      (∀ Y : ℤ, 0 < Y → Y < 2 →
        (∃ C1, matmult_block_notrans32 (exactArith ℤ) checked32 4 [7, 7, 7, 7, 7, 7]
            [1, 2, 3, 4, 5, 6] [2, 4, 3, 5] 1 3 2 2 0 Y 0 3 = Except.ok C1 ∧
          matmult_block_notrans32 (exactArith ℤ) checked32 4 C1 [1, 2, 3, 4, 5, 6]
            [2, 4, 3, 5] 1 3 2 2 Y 2 0 3 = Except.ok Cfull ∧
          matmult_vp_notrans32 (exactArith ℤ) checked32 4 [7, 7, 7, 7, 7, 7]
            [1, 2, 3, 4, 5, 6] [2, 4, 3, 5] 1 3 2 2 0 Y 0 3 1 = Except.ok C1 ∧
          matmult_vp_notrans32 (exactArith ℤ) checked32 4 C1 [1, 2, 3, 4, 5, 6]
            [2, 4, 3, 5] 1 3 2 2 Y 2 0 3 1 = Except.ok Cfull) ∧
        (∃ C1, matmult_block_notrans32 (exactArith ℤ) checked32 4 [7, 7, 7, 7, 7, 7]
            [1, 2, 3, 4, 5, 6] [2, 4, 3, 5] 1 3 2 2 Y 2 0 3 = Except.ok C1 ∧
          matmult_block_notrans32 (exactArith ℤ) checked32 4 C1 [1, 2, 3, 4, 5, 6]
            [2, 4, 3, 5] 1 3 2 2 0 Y 0 3 = Except.ok Cfull ∧
          matmult_vp_notrans32 (exactArith ℤ) checked32 4 [7, 7, 7, 7, 7, 7]
            [1, 2, 3, 4, 5, 6] [2, 4, 3, 5] 1 3 2 2 Y 2 0 3 1 = Except.ok C1 ∧
          matmult_vp_notrans32 (exactArith ℤ) checked32 4 C1 [1, 2, 3, 4, 5, 6]
            [2, 4, 3, 5] 1 3 2 2 0 Y 0 3 1 = Except.ok Cfull)) :=
  ⟨checked32_exact, by decide, by decide, by decide, by decide, by decide, by decide,
    tile_composition32 (exactArith ℤ) checked32 checked32_exact 4 3 2 2 0 2 0 3 1 1
      [7, 7, 7, 7, 7, 7] [1, 2, 3, 4, 5, 6] [2, 4, 3, 5] (by decide) (by decide) (by decide)
      (by decide) (by decide) (by decide)⟩

/-- C12, counterexample: on the large input (`M = INT_MAX`, `N = 3`, `P = 1`)
    take the valid region `[0,2) x [2,3)` and the row split `X = 1`.  The call on
    the whole region and the calls on the tiles `[0,1) x [2,3)` and
    `[1,2) x [2,3)` all compute `S*M = 2 * INT_MAX`, not an `int`: checked, they
    fault; wrapped, the call on the region and the call on the first tile
    dereference `C[-2]`.  No buffer is returned to compare. -/
theorem tile_composition32_overflow :
    ValidDims 2147483647 3 1 largeC largeA [0, 0, 1] ∧ ValidRegion 2147483647 3 2 3 0 2 ∧
    (0 : ℤ) < 1 ∧ (1 : ℤ) < 2 ∧
    (∀ (fuel : ℕ) (R E : ℤ), matmult_block_notrans32 (exactArith ℤ) checked32 fuel largeC
        largeA [0, 0, 1] 1 2147483647 3 1 2 3 R E = Except.error Fault.intOverflow) ∧
    (∀ (fuel : ℕ) (R E : ℤ), matmult_vp_notrans32 (exactArith ℤ) checked32 (fuel + 1) largeC
        largeA [0, 0, 1] 1 2147483647 3 1 2 3 R E 1 = Except.error Fault.intOverflow) ∧
    (∀ fuel : ℕ, matmult_block_notrans32 (exactArith ℤ) wrapped32 (fuel + 1) largeC largeA
        [0, 0, 1] 1 2147483647 3 1 2 3 0 2 = Except.error Fault.outOfBounds) ∧
    (∀ fuel : ℕ, matmult_block_notrans32 (exactArith ℤ) wrapped32 (fuel + 1) largeC largeA
        [0, 0, 1] 1 2147483647 3 1 2 3 0 1 = Except.error Fault.outOfBounds) ∧
    (∀ fuel : ℕ, matmult_vp_notrans32 (exactArith ℤ) wrapped32 (fuel + 1) largeC largeA
        [0, 0, 1] 1 2147483647 3 1 2 3 0 2 1 = Except.error Fault.outOfBounds) ∧
    (∀ fuel : ℕ, matmult_vp_notrans32 (exactArith ℤ) wrapped32 (fuel + 1) largeC largeA
        [0, 0, 1] 1 2147483647 3 1 2 3 0 1 1 = Except.error Fault.outOfBounds) :=
  ⟨large_input_valid _ rfl, by decide, by decide, by decide,
    fun fuel R E => block32_checked_overflow _ fuel _ _ _ _ _ _ _ R E,
    fun fuel R E => vp32_checked_overflow _ fuel _ _ _ _ _ _ R E _,
    fun fuel => block32_wrapped_oob fuel _ _ 1 3 2 (by decide),
    fun fuel => block32_wrapped_oob fuel _ _ 1 3 1 (by decide),
    fun fuel => vp32_wrapped_oob fuel _ _ 1 3 2 1 (by decide) (by decide),
    fun fuel => vp32_wrapped_oob fuel _ _ 1 3 1 1 (by decide) (by decide)⟩

/-- C13, amended with the 32-bit bounds. Identity multiply in exact arithmetic:
    for `M = N = P = n >= 1` with `n*n` at most `INT_MAX`, `A` the `n x n`
    identity, `C` all zero, the full range, `vlen >= 0` with `n + v` at most
    `INT_MAX` (`v` the viewport length in effect), any store exact on
    `[0, INT_MAX]` and enough fuel, `matmult_block_notrans32` and
    `matmult_vp_notrans32` return a buffer with `C'[j*n+i] = alpha * B[j*n+i]` in
    every cell.  Over the rationals, `n = 2`, `B = [2,4,3,5]`: `alpha = 1` gives
    `[2,4,3,5]` and `alpha = 1/2` gives `[1,2,3/2,5/2]`, for both kernels
    (`vlen = 1`). -/
theorem identity_multiply32 {K : Type} [CommRing K] [DecidableEq K]
    (iv : ℤ → Except Fault ℤ) (hiv : ExactStore iv) (fuel : ℕ)
    (n vlen : ℤ) (alpha : K) (C A B : List K)
    (hd : ValidDims n n n C A B) (hv : 0 ≤ vlen) (hs : SizesFit n n n)
    (hPv : n + effectiveVlen vlen ≤ INT_MAX) (hf : EnoughFuel fuel n n n)
    (hA : ∀ i k : ℤ, 0 ≤ i → i < n → 0 ≤ k → k < n →
      cell A n 0 i k = if i = k then 1 else 0)
    (hC : ∀ i j : ℤ, 0 ≤ i → i < n → 0 ≤ j → j < n → cell C n 0 i j = 0) :
    (∃ C', matmult_block_notrans32 (exactArith K) iv fuel C A B alpha n n n 0 n 0 n
        = Except.ok C' ∧
      matmult_vp_notrans32 (exactArith K) iv fuel C A B alpha n n n 0 n 0 n vlen
        = Except.ok C' ∧
      ∀ i j : ℤ, 0 ≤ i → i < n → 0 ≤ j → j < n →
        cell C' n 0 i j = alpha * cell B n 0 i j) ∧
    matmult_block_notrans32 (exactArith ℚ) iv 3 [0, 0, 0, 0] [1, 0, 0, 1] [2, 4, 3, 5] 1
        2 2 2 0 2 0 2 = Except.ok [2, 4, 3, 5] ∧
    matmult_block_notrans32 (exactArith ℚ) iv 3 [0, 0, 0, 0] [1, 0, 0, 1] [2, 4, 3, 5] (1 / 2)
        2 2 2 0 2 0 2 = Except.ok [1, 2, 3 / 2, 5 / 2] ∧
    matmult_vp_notrans32 (exactArith ℚ) iv 3 [0, 0, 0, 0] [1, 0, 0, 1] [2, 4, 3, 5] 1
        2 2 2 0 2 0 2 1 = Except.ok [2, 4, 3, 5] ∧
    matmult_vp_notrans32 (exactArith ℚ) iv 3 [0, 0, 0, 0] [1, 0, 0, 1] [2, 4, 3, 5] (1 / 2)
        2 2 2 0 2 0 2 1 = Except.ok [1, 2, 3 / 2, 5 / 2] := by
  obtain ⟨⟨C', hb, hvp, hc⟩, q1, q2⟩ :=
    identity_multiply n vlen alpha C A B fuel hd hv hf.2.2 hA hC
  have hr := validRegion_full n n hd.1 hd.2.1
  have hd2 : ValidDims 2 2 2 [(0 : ℚ), 0, 0, 0] [1, 0, 0, 1] [2, 4, 3, 5] := by decide
  have hr2 : ValidRegion 2 2 0 2 0 2 := by decide
  have hs2 : SizesFit 2 2 2 := by decide
  have hf2 : EnoughFuel 3 2 2 2 := by decide
  have hp2 : (2 : ℤ) + effectiveVlen 1 ≤ INT_MAX := by decide
  have tq : ∀ (a : ℚ) (D : List ℚ),
      matmult_block_notrans (exactArith ℚ) [0, 0, 0, 0] [1, 0, 0, 1] [2, 4, 3, 5] a
        2 2 2 0 2 0 2 = some D →
      matmult_block_notrans32 (exactArith ℚ) iv 3 [0, 0, 0, 0] [1, 0, 0, 1] [2, 4, 3, 5] a
          2 2 2 0 2 0 2 = Except.ok D ∧
        matmult_vp_notrans32 (exactArith ℚ) iv 3 [0, 0, 0, 0] [1, 0, 0, 1] [2, 4, 3, 5] a
          2 2 2 0 2 0 2 1 = Except.ok D := by
    intro a D h
    obtain ⟨D', h1, h2⟩ := vp_eq_block (exactArith ℚ) 2 2 2 0 2 0 2 1 a [0, 0, 0, 0]
      [1, 0, 0, 1] [2, 4, 3, 5] 3 hd2 hr2 (by decide) (by decide)
    rw [h] at h1
    injection h1 with e
    subst e
    exact ⟨block32_of_block _ iv hiv 3 _ _ _ a 2 2 2 0 2 0 2 (by decide) (by decide) (by decide)
        hr2 hs2 hf2 D h,
      vp32_of_vp _ iv hiv 3 _ _ _ a 2 2 2 0 2 0 2 1 (by decide) (by decide) (by decide)
        hr2 (by decide) hs2 hp2 hf2 D h2⟩
  exact ⟨⟨C', block32_of_block _ iv hiv fuel C A B alpha n n n 0 n 0 n hd.1 hd.2.1 hd.2.2.1 hr
        hs hf C' hb,
      vp32_of_vp _ iv hiv fuel C A B alpha n n n 0 n 0 n vlen hd.1 hd.2.1 hd.2.2.1 hr hv hs hPv
        hf C' hvp, hc⟩,
    (tq 1 _ q1).1, (tq (1 / 2) _ q2).1, (tq 1 _ q1).2, (tq (1 / 2) _ q2).2⟩

/-- Witness for C13: `n = 2`, `alpha = 1/2`, `vlen = 1`, over the rationals. -/
theorem identity_multiply32_witness :
    ExactStore checked32 ∧
    ValidDims 2 2 2 [0, 0, 0, 0] [1, 0, 0, 1] [(2 : ℚ), 4, 3, 5] ∧ (0 : ℤ) ≤ 1 ∧
    SizesFit 2 2 2 ∧ 2 + effectiveVlen 1 ≤ INT_MAX ∧ EnoughFuel 3 2 2 2 ∧
    (∃ C', matmult_block_notrans32 (exactArith ℚ) checked32 3 [0, 0, 0, 0] [1, 0, 0, 1]
        [2, 4, 3, 5] (1 / 2) 2 2 2 0 2 0 2 = Except.ok C' ∧
      matmult_vp_notrans32 (exactArith ℚ) checked32 3 [0, 0, 0, 0] [1, 0, 0, 1]
        [2, 4, 3, 5] (1 / 2) 2 2 2 0 2 0 2 1 = Except.ok C' ∧
      ∀ i j : ℤ, 0 ≤ i → i < 2 → 0 ≤ j → j < 2 →
        cell C' 2 0 i j = 1 / 2 * cell [2, 4, 3, 5] 2 0 i j) ∧
    matmult_block_notrans32 (exactArith ℚ) checked32 3 [0, 0, 0, 0] [1, 0, 0, 1] [2, 4, 3, 5] 1
        2 2 2 0 2 0 2 = Except.ok [2, 4, 3, 5] ∧
    matmult_block_notrans32 (exactArith ℚ) checked32 3 [0, 0, 0, 0] [1, 0, 0, 1] [2, 4, 3, 5]
        (1 / 2) 2 2 2 0 2 0 2 = Except.ok [1, 2, 3 / 2, 5 / 2] ∧
    matmult_vp_notrans32 (exactArith ℚ) checked32 3 [0, 0, 0, 0] [1, 0, 0, 1] [2, 4, 3, 5] 1
        2 2 2 0 2 0 2 1 = Except.ok [2, 4, 3, 5] ∧
    matmult_vp_notrans32 (exactArith ℚ) checked32 3 [0, 0, 0, 0] [1, 0, 0, 1] [2, 4, 3, 5]
        (1 / 2) 2 2 2 0 2 0 2 1 = Except.ok [1, 2, 3 / 2, 5 / 2] :=
  have hA : ∀ i k : ℤ, 0 ≤ i → i < 2 → 0 ≤ k → k < 2 →
      cell [(1 : ℚ), 0, 0, 1] 2 0 i k = if i = k then 1 else 0 := by
    intro i k hi1 hi2 hk1 hk2
    have hi : i = 0 ∨ i = 1 := by omega
    have hk : k = 0 ∨ k = 1 := by omega
    rcases hi with rfl | rfl <;> rcases hk with rfl | rfl <;> simp [cell, rd]
  have hC : ∀ i j : ℤ, 0 ≤ i → i < 2 → 0 ≤ j → j < 2 →
      cell [(0 : ℚ), 0, 0, 0] 2 0 i j = 0 := by
    intro i j hi1 hi2 hj1 hj2
    have hi : i = 0 ∨ i = 1 := by omega
    have hj : j = 0 ∨ j = 1 := by omega
    rcases hi with rfl | rfl <;> rcases hj with rfl | rfl <;> simp [cell, rd]
  ⟨checked32_exact, by decide, by decide, by decide, by decide, by decide,
    identity_multiply32 checked32 checked32_exact 3 2 1 (1 / 2) [0, 0, 0, 0] [1, 0, 0, 1]
      [2, 4, 3, 5] (by decide) (by decide) (by decide) (by decide) (by decide) hA hC⟩

/-- C13, counterexample: `n = 2`, `A = [1,0,0,1]`, `C = [0,0,0,0]`,
    `B = [2,4,3,5]`, `alpha = 1`, full range and `vlen = INT_MAX` (a `vlen >= 0`).
    The block kernel returns `[2,4,3,5]`, but in the viewport kernel
    `vpL += vlen` (line 116) is `2 + INT_MAX`, a signed overflow: the checked run
    faults and returns no buffer.  And `n = 46342` (where `n*n > INT_MAX`), `A`
    the identity, `C` zero, `B` zero except for a one at `B[46341]`, `alpha = 1`,
    `vlen = 46341`: the block kernel returns a buffer, while the viewport kernel
    with 32-bit wrap-around computes `vpS*M = 46341 * 46342` (line 88) as
    `-2147432674` in its second chunk and reads `A` before the buffer. -/
theorem identity_multiply32_overflow :
    (ValidDims 2 2 2 [0, 0, 0, 0] [1, 0, 0, 1] [(2 : ℤ), 4, 3, 5] ∧ (0 : ℤ) ≤ 2147483647 ∧
      EnoughFuel 3 2 2 2 ∧
      matmult_block_notrans32 (exactArith ℤ) checked32 3 [0, 0, 0, 0] [1, 0, 0, 1]
          [2, 4, 3, 5] 1 2 2 2 0 2 0 2 = Except.ok [2, 4, 3, 5] ∧
      matmult_vp_notrans32 (exactArith ℤ) checked32 3 [0, 0, 0, 0] [1, 0, 0, 1] [2, 4, 3, 5] 1
          2 2 2 0 2 0 2 2147483647 = Except.error Fault.intOverflow) ∧
    (ValidDims 46342 46342 46342 (zeroBuf 2147580964) (identityBuf 46342)
        (spikeBuf 2147580964 46341) ∧
      (∀ i k : ℤ, 0 ≤ i → i < 46342 → 0 ≤ k → k < 46342 →
        cell (identityBuf 46342) 46342 0 i k = if i = k then 1 else 0) ∧
      (∀ i j : ℤ, 0 ≤ i → i < 46342 → 0 ≤ j → j < 46342 →
        cell (zeroBuf 2147580964) 46342 0 i j = 0) ∧
      (0 : ℤ) ≤ 46341 ∧ EnoughFuel 46343 46342 46342 46342 ∧
      (∃ C', matmult_block_notrans32 (exactArith ℤ) wrapped32 46343 (zeroBuf 2147580964)
          (identityBuf 46342) (spikeBuf 2147580964 46341) 1 46342 46342 46342 0 46342 0 46342
            = Except.ok C') ∧
      matmult_vp_notrans32 (exactArith ℤ) wrapped32 46343 (zeroBuf 2147580964)
          (identityBuf 46342) (spikeBuf 2147580964 46341) 1 46342 46342 46342 0 46342 0 46342
          46341 = Except.error Fault.outOfBounds) :=
  ⟨⟨by decide, by decide, by decide, rfl, rfl⟩,
    ⟨square_input_valid.1, square_input_valid.2.1, square_input_valid.2.2, by decide,
      by decide,
      block32_full_range_returns _ wrapped32 wrapped32_exact 46343 _ _ _ 1 _ _ _
        square_input_valid.1 (by decide) (by decide) (by decide) (by decide),
      vp32_wrapped_square_oob 46343 (by decide) _ _ _ 1
        (spikeBuf_rd_one 2147580964 46341 (by decide))
        (fun t h hne => spikeBuf_rd_zero 2147580964 46341 t h hne)⟩⟩

/-- C14, amended with the 32-bit bounds. Order-preserving chunking, for an
    arbitrary element type with arbitrary `add`, `mul` and zero test (no
    algebraic law assumed): for valid inputs with `M*N`, `M*P`, `P*N` at most
    `INT_MAX`, every `vlen >= 1` with `P + vlen` at most `INT_MAX`, any store
    exact on `[0, INT_MAX]` and enough fuel, `matmult_vp_notrans32` ends with
    exactly the buffer `matmult_block_notrans32` returns, and every cell of the
    region is the cell of `C` after the steps `k = 0, 1, .., P-1` in this order,
    step `k` adding `A[i,k] * (B[k,j] * alpha)` unless `B[k,j]` tests as zero
    (`cellFold`). -/
theorem chunking_preserves_order32 (ar : Arith α) (iv : ℤ → Except Fault ℤ)
    (hiv : ExactStore iv) (fuel : ℕ) (M N P S L R E vlen : ℤ) (alpha : α) (C A B : List α)
    (hd : ValidDims M N P C A B) (hr : ValidRegion M N S L R E) (hv : 1 ≤ vlen)
    (hs : SizesFit M N P) (hPv : P + vlen ≤ INT_MAX) (hf : EnoughFuel fuel M N P) :
    ∃ C', matmult_block_notrans32 ar iv fuel C A B alpha M N P S L R E = Except.ok C' ∧
      matmult_vp_notrans32 ar iv fuel C A B alpha M N P S L R E vlen = Except.ok C' ∧
      ∀ (d : α) (i j : ℤ), R ≤ i → i < E → S ≤ j → j < L →
        cell C' M d i j
          = cellFold ar (fun b => ar.mul b alpha) A B d M.toNat P.toNat i.toNat (j * P).toNat
              (cell C M d i j) := by
  obtain ⟨C', hb, hvp, hc⟩ :=
    chunking_preserves_order ar M N P S L R E vlen alpha C A B fuel hd hr hv hf.2.2
  exact ⟨C',
    block32_of_block ar iv hiv fuel C A B alpha M N P S L R E hd.1 hd.2.1 hd.2.2.1 hr hs hf C' hb,
    vp32_of_vp ar iv hiv fuel C A B alpha M N P S L R E vlen hd.1 hd.2.1 hd.2.2.1 hr (by omega)
      hs (by rw [effectiveVlen_of_pos vlen hv]; exact hPv) hf C' hvp, hc⟩

/-- Witness for C14: formal expressions (no algebraic law), `P = 2`, `vlen = 1`. -/
theorem chunking_preserves_order32_witness :
    ExactStore checked32 ∧
    ValidDims 1 1 2 [Sym.atom 1] [Sym.atom 2, Sym.atom 3] [Sym.atom 4, Sym.atom 5] ∧
    ValidRegion 1 1 0 1 0 1 ∧ (1 : ℤ) ≤ 1 ∧ SizesFit 1 1 2 ∧ (2 : ℤ) + 1 ≤ INT_MAX ∧
    EnoughFuel 3 1 1 2 ∧
    ∃ C', matmult_block_notrans32 symArith checked32 3 [Sym.atom 1] [Sym.atom 2, Sym.atom 3]
        [Sym.atom 4, Sym.atom 5] (Sym.atom 6) 1 1 2 0 1 0 1 = Except.ok C' ∧
      matmult_vp_notrans32 symArith checked32 3 [Sym.atom 1] [Sym.atom 2, Sym.atom 3]
        [Sym.atom 4, Sym.atom 5] (Sym.atom 6) 1 1 2 0 1 0 1 1 = Except.ok C' ∧
      ∀ (d : Sym) (i j : ℤ), 0 ≤ i → i < 1 → 0 ≤ j → j < 1 →
        cell C' 1 d i j
          = cellFold symArith (fun b => symArith.mul b (Sym.atom 6)) [Sym.atom 2, Sym.atom 3]
              [Sym.atom 4, Sym.atom 5] d (1 : ℤ).toNat (2 : ℤ).toNat i.toNat (j * 2).toNat
              (cell [Sym.atom 1] 1 d i j) :=
  ⟨checked32_exact, by decide, by decide, by decide, by decide, by decide, by decide,
    chunking_preserves_order32 symArith checked32 checked32_exact 3 1 1 2 0 1 0 1 1 (Sym.atom 6)
      [Sym.atom 1] [Sym.atom 2, Sym.atom 3] [Sym.atom 4, Sym.atom 5]
      (by decide) (by decide) (by decide) (by decide) (by decide) (by decide)⟩

/-- C14, counterexample: on the valid 1 x 1 x 2 input of formal expressions
    with `vlen = INT_MAX` the block kernel returns a buffer, while in the
    viewport kernel `vpL += vlen` (line 116) is `2 + INT_MAX`, a signed overflow:
    the checked run faults.  With `M = N = 1`, `P = INT_MAX`, `B` all zero and
    `vlen = 2^30 + 1` the block kernel returns `C = [0]`, while the viewport
    kernel with 32-bit wrap-around runs a third pass with `vpS = -2147483646`
    and reads `B` before the buffer.  On the large input (`M = INT_MAX`, region
    `[0,1) x [2,3)`, `vlen = 1`) `S*M` overflows in both kernels, whatever the
    arithmetic. -/
theorem chunking_preserves_order32_overflow :
    (ValidDims 1 1 2 [Sym.atom 1] [Sym.atom 2, Sym.atom 3] [Sym.atom 4, Sym.atom 5] ∧
      ValidRegion 1 1 0 1 0 1 ∧ (1 : ℤ) ≤ 2147483647 ∧
      matmult_block_notrans32 symArith checked32 3 [Sym.atom 1] [Sym.atom 2, Sym.atom 3]
        [Sym.atom 4, Sym.atom 5] (Sym.atom 6) 1 1 2 0 1 0 1
        = Except.ok [Sym.plus
            (Sym.plus (Sym.atom 1) (Sym.times (Sym.atom 2) (Sym.times (Sym.atom 4) (Sym.atom 6))))
            (Sym.times (Sym.atom 3) (Sym.times (Sym.atom 5) (Sym.atom 6)))] ∧
      matmult_vp_notrans32 symArith checked32 3 [Sym.atom 1] [Sym.atom 2, Sym.atom 3]
        [Sym.atom 4, Sym.atom 5] (Sym.atom 6) 1 1 2 0 1 0 1 2147483647
        = Except.error Fault.intOverflow) ∧
    (ValidDims 1 1 2147483647 [0] largeA largeZeroB ∧ ValidRegion 1 1 0 1 0 1 ∧
      (1 : ℤ) ≤ 1073741825 ∧ EnoughFuel 2147483648 1 1 2147483647 ∧
      matmult_block_notrans32 (exactArith ℤ) wrapped32 2147483648 [0] largeA largeZeroB 1
        1 1 2147483647 0 1 0 1 = Except.ok [0] ∧
      matmult_vp_notrans32 (exactArith ℤ) wrapped32 2147483648 [0] largeA largeZeroB 1
        1 1 2147483647 0 1 0 1 1073741825 = Except.error Fault.outOfBounds) ∧
    (ValidDims 2147483647 3 1 largeC largeA [0, 0, 1] ∧ ValidRegion 2147483647 3 2 3 0 1 ∧
      (∀ (fuel : ℕ) (ar : Arith ℤ), matmult_block_notrans32 ar checked32 fuel largeC largeA
          [0, 0, 1] 1 2147483647 3 1 2 3 0 1 = Except.error Fault.intOverflow) ∧
      (∀ (fuel : ℕ) (ar : Arith ℤ), matmult_vp_notrans32 ar checked32 (fuel + 1) largeC largeA
          [0, 0, 1] 1 2147483647 3 1 2 3 0 1 1 = Except.error Fault.intOverflow) ∧
      (∀ fuel : ℕ, matmult_block_notrans32 (exactArith ℤ) wrapped32 (fuel + 1) largeC largeA
          [0, 0, 1] 1 2147483647 3 1 2 3 0 1 = Except.error Fault.outOfBounds) ∧
      (∀ fuel : ℕ, matmult_vp_notrans32 (exactArith ℤ) wrapped32 (fuel + 1) largeC largeA
          [0, 0, 1] 1 2147483647 3 1 2 3 0 1 1 = Except.error Fault.outOfBounds)) :=
  ⟨⟨by decide, by decide, by decide, rfl, rfl⟩,
    ⟨long_input_valid, by decide, by decide, by decide,
      block32_long_zero wrapped32 wrapped32_exact 2147483648 (by decide) _ _ _ _
        (fun k hk => largeZeroB_rd k hk),
      vp32_wrapped_long_vlen 2147483648 (by decide) _ _ _ _
        (fun k hk => largeZeroB_rd k (by omega))⟩,
    ⟨large_input_valid _ rfl, by decide,
      fun fuel ar => block32_checked_overflow ar fuel _ _ _ _ _ _ _ _ _,
      fun fuel ar => vp32_checked_overflow ar fuel _ _ _ _ _ _ _ _ _,
      fun fuel => block32_wrapped_oob fuel _ _ 1 3 1 (by decide),
      fun fuel => vp32_wrapped_oob fuel _ _ 1 3 1 1 (by decide) (by decide)⟩⟩

/-- C15, amended with the 32-bit bounds. Chunk partition: for valid inputs (so
    `P >= 1`) with `M*N`, `M*P`, `P*N` at most `INT_MAX`, `vlen >= 0` with `v` the
    length in effect and `P + v` at most `INT_MAX`, any store exact on
    `[0, INT_MAX]` and enough fuel, the `(vpS, vpL)` pairs with which
    `matmult_vp_notrans32` runs its inner loops are exactly
    `(c*v, min ((c+1)*v) P)` for `c = 0, .., ceil(P/v) - 1`, in this order.  The
    chunks are non-empty, of width at most `v` and exactly `v` except possibly
    the last, consecutive (each ends where the next starts), pairwise
    non-overlapping, and their union is exactly `[0, P)`. -/
theorem chunk_partition32 (ar : Arith α) (iv : ℤ → Except Fault ℤ) (hiv : ExactStore iv)
    (fuel : ℕ) (M N P S L R E vlen : ℤ) (alpha : α) (C A B : List α)
    (hd : ValidDims M N P C A B) (hr : ValidRegion M N S L R E) (hv : 0 ≤ vlen)
    (hs : SizesFit M N P) (hPv : P + effectiveVlen vlen ≤ INT_MAX)
    (hf : EnoughFuel fuel M N P) :
    ∃ (C' : List α) (tr : List (ℤ × ℤ)) (m : ℕ),
      matmult_vp_notrans32 ar iv fuel C A B alpha M N P S L R E vlen = Except.ok C' ∧
      matmult_vp_notrans32_traced ar iv fuel C A B alpha M N P S L R E vlen
        = Except.ok (C', tr) ∧
      tr.length = m ∧ (m : ℤ) = ⌈(P : ℚ) / (effectiveVlen vlen : ℚ)⌉ ∧
      (∀ c : ℕ, c < m → tr[c]? = some ((c : ℤ) * effectiveVlen vlen,
          min (((c : ℤ) + 1) * effectiveVlen vlen) P)) ∧
      (∀ p ∈ tr, p.1 < p.2 ∧ p.2 - p.1 ≤ effectiveVlen vlen) ∧
      (∀ (c : ℕ) (p q : ℤ × ℤ), tr[c]? = some p → tr[c + 1]? = some q →
        p.2 = q.1 ∧ p.2 - p.1 = effectiveVlen vlen) ∧
      (∀ p : ℤ × ℤ, tr[0]? = some p → p.1 = 0) ∧
      (∀ p : ℤ × ℤ, tr[m - 1]? = some p → p.2 = P) ∧
      List.Pairwise (fun p q : ℤ × ℤ => p.2 ≤ q.1) tr ∧
      (∀ k : ℤ, (0 ≤ k ∧ k < P) ↔ ∃ p ∈ tr, p.1 ≤ k ∧ k < p.2) := by
  obtain ⟨C', tr, m, h1, h2, rest⟩ :=
    chunk_partition ar M N P S L R E vlen alpha C A B fuel hd hr hv hf.2.2
  exact ⟨C', tr, m,
    vp32_of_vp ar iv hiv fuel C A B alpha M N P S L R E vlen hd.1 hd.2.1 hd.2.2.1 hr hv hs hPv
      hf C' h1,
    vp32_traced_of_traced ar iv hiv fuel C A B alpha M N P S L R E vlen hd.1 hd.2.1 hd.2.2.1 hr
      hv hs hPv hf _ h2, rest⟩

/-- Witness for C15: `P = 5`, `vlen = 2`, the chunks `(0,2)`, `(2,4)`, `(4,5)`. -/
theorem chunk_partition32_witness :
    ExactStore checked32 ∧
    ValidDims 1 1 5 [0] [1, 1, 1, 1, 1] [(1 : ℤ), 2, 3, 4, 5] ∧ ValidRegion 1 1 0 1 0 1 ∧
    (0 : ℤ) ≤ 2 ∧ SizesFit 1 1 5 ∧ 5 + effectiveVlen 2 ≤ INT_MAX ∧ EnoughFuel 6 1 1 5 ∧
    ∃ (C' : List ℤ) (tr : List (ℤ × ℤ)) (m : ℕ),
      matmult_vp_notrans32 (exactArith ℤ) checked32 6 [0] [1, 1, 1, 1, 1] [1, 2, 3, 4, 5] 1
        1 1 5 0 1 0 1 2 = Except.ok C' ∧
      matmult_vp_notrans32_traced (exactArith ℤ) checked32 6 [0] [1, 1, 1, 1, 1]
        [1, 2, 3, 4, 5] 1 1 1 5 0 1 0 1 2 = Except.ok (C', tr) ∧
      tr.length = m ∧ (m : ℤ) = ⌈((5 : ℤ) : ℚ) / (effectiveVlen 2 : ℚ)⌉ ∧
      (∀ c : ℕ, c < m → tr[c]? = some ((c : ℤ) * effectiveVlen 2,
          min (((c : ℤ) + 1) * effectiveVlen 2) 5)) ∧
      (∀ p ∈ tr, p.1 < p.2 ∧ p.2 - p.1 ≤ effectiveVlen 2) ∧
      (∀ (c : ℕ) (p q : ℤ × ℤ), tr[c]? = some p → tr[c + 1]? = some q →
        p.2 = q.1 ∧ p.2 - p.1 = effectiveVlen 2) ∧
      (∀ p : ℤ × ℤ, tr[0]? = some p → p.1 = 0) ∧
      (∀ p : ℤ × ℤ, tr[m - 1]? = some p → p.2 = 5) ∧
      List.Pairwise (fun p q : ℤ × ℤ => p.2 ≤ q.1) tr ∧
      (∀ k : ℤ, (0 ≤ k ∧ k < 5) ↔ ∃ p ∈ tr, p.1 ≤ k ∧ k < p.2) :=
  ⟨checked32_exact, by decide, by decide, by decide, by decide, by decide, by decide,
    chunk_partition32 (exactArith ℤ) checked32 checked32_exact 6 1 1 5 0 1 0 1 2 1 [0]
      [1, 1, 1, 1, 1] [1, 2, 3, 4, 5] (by decide) (by decide) (by decide) (by decide)
      (by decide) (by decide)⟩

/-- C15, counterexample: with `P = 2` and `vlen = INT_MAX` (valid 1 x 1 x 2
    input) the first chunk is run and then `vpL += vlen` (line 116) is
    `2 + INT_MAX`, a signed overflow: the checked instrumented kernel faults
    instead of ending with the chunk list.  With `M = N = 1`, `P = INT_MAX`, `B`
    all zero and `vlen = 2^30 + 1`, where the claimed chunks are
    `(0, 2^30+1)`, `(2^30+1, INT_MAX)`, the kernel with 32-bit wrap-around gets
    `vpL = -2147483646` after its first chunk, runs the chunk
    `(2^30+1, -2147483646)` and then one starting at `vpS = -2147483646`, where
    it reads `B` before the buffer.  On the large input (`M = INT_MAX`, `P = 1`,
    region `[0,1) x [2,3)`, `vlen = 1`) the kernel fails inside its first chunk,
    at `S*M`: checked it faults, wrapped it dereferences `C[-2]`. -/
theorem chunk_partition32_overflow :
    (ValidDims 1 1 2 [0] [1, 1] [(1 : ℤ), 1] ∧ ValidRegion 1 1 0 1 0 1 ∧
      (1 : ℤ) ≤ effectiveVlen 2147483647 ∧
      matmult_vp_notrans32_traced (exactArith ℤ) checked32 3 [0] [1, 1] [1, 1] 1 1 1 2 0 1 0 1
        2147483647 = Except.error Fault.intOverflow) ∧
    (ValidDims 1 1 2147483647 [0] largeA largeZeroB ∧ ValidRegion 1 1 0 1 0 1 ∧
      (1 : ℤ) ≤ effectiveVlen 1073741825 ∧ EnoughFuel 2147483648 1 1 2147483647 ∧
      matmult_vp_notrans32_traced (exactArith ℤ) wrapped32 2147483648 [0] largeA largeZeroB 1
        1 1 2147483647 0 1 0 1 1073741825 = Except.error Fault.outOfBounds) ∧
    (ValidDims 2147483647 3 1 largeC largeA [0, 0, 1] ∧ ValidRegion 2147483647 3 2 3 0 1 ∧
      (∀ fuel : ℕ, matmult_vp_notrans32_traced (exactArith ℤ) checked32 (fuel + 1) largeC
          largeA [0, 0, 1] 1 2147483647 3 1 2 3 0 1 1 = Except.error Fault.intOverflow) ∧
      (∀ fuel : ℕ, matmult_vp_notrans32_traced (exactArith ℤ) wrapped32 (fuel + 1) largeC
          largeA [0, 0, 1] 1 2147483647 3 1 2 3 0 1 1 = Except.error Fault.outOfBounds)) :=
  ⟨⟨by decide, by decide, by decide, rfl⟩,
    ⟨long_input_valid, by decide, by decide, by decide,
      vp32_traced_wrapped_long_vlen 2147483648 (by decide) _ _ _ _
        (fun k hk => largeZeroB_rd k (by omega))⟩,
    ⟨large_input_valid _ rfl, by decide,
      fun fuel => vp32_traced_checked_overflow _ fuel _ _ _ _ _ _ _ _ _,
      fun fuel => vp32_traced_wrapped_oob fuel _ _ 1 3 1 1 (by decide) (by decide)⟩⟩

/-- C16, amended with the 32-bit bounds. Read-cursor invariant of the reference
    kernel, for every arithmetic and whatever `B` holds: for valid dimensions
    with `M*N`, `M*P`, `P*N` at most `INT_MAX`, `0 <= S < N`, any store exact on
    `[0, INT_MAX]` and enough fuel, the run of `mat_mult32` has `(N-S)*P` inner
    iterations, and at the start of the `k`-th inner iteration of column `j`
    (`S <= j < N`, `0 <= k < P`) the cursors are `cc = j*M`, `ar = k*M`,
    `br = j*P + k`; in particular `ar = 0` at the start of every column. -/
theorem mat_mult32_cursors (ar : Arith α) (iv : ℤ → Except Fault ℤ) (hiv : ExactStore iv)
    (fuel : ℕ) (S N M P : ℤ) (C A B : List α)
    (hd : ValidDims M N P C A B) (hS : 0 ≤ S) (hSN : S < N)
    (hs : SizesFit M N P) (hf : EnoughFuel fuel M N P) :
    ∃ (C' : List α) (log : List (ℤ × ℤ × ℤ)),
      mat_mult32 ar iv fuel S N M P C A B = Except.ok C' ∧
      mat_mult32_traced ar iv fuel S N M P C A B = Except.ok (C', log) ∧
      log.length = (N - S).toNat * P.toNat ∧
      (∀ j k : ℤ, S ≤ j → j < N → 0 ≤ k → k < P →
        log[((j - S) * P + k).toNat]? = some (j * M, k * M, j * P + k)) ∧
      (∀ j : ℤ, S ≤ j → j < N → log[((j - S) * P).toNat]? = some (j * M, 0, j * P)) := by
  obtain ⟨C', log, h1, h2, rest⟩ := mat_mult_cursors ar S N M P C A B hd hS hSN
  exact ⟨C', log,
    mat_mult32_of_mat_mult ar iv hiv fuel C A B S N M P hd.1 hd.2.2.1 hS hSN hs hf C' h1,
    mat_mult32_traced_of_traced ar iv hiv fuel C A B S N M P hd.1 hd.2.2.1 hS hSN hs hf _ h2,
    rest⟩

/-- Witness for C16: a 2 x 2 x 2 product whose `B` has zero entries. -/
theorem mat_mult32_cursors_witness :
    ExactStore checked32 ∧
    ValidDims 2 2 2 [0, 0, 0, 0] [1, 2, 3, 4] [(0 : ℤ), 4, 3, 0] ∧ (0 : ℤ) ≤ 0 ∧ (0 : ℤ) < 2 ∧
    SizesFit 2 2 2 ∧ EnoughFuel 3 2 2 2 ∧
    ∃ (C' : List ℤ) (log : List (ℤ × ℤ × ℤ)),
      mat_mult32 (exactArith ℤ) checked32 3 0 2 2 2 [0, 0, 0, 0] [1, 2, 3, 4] [0, 4, 3, 0]
        = Except.ok C' ∧
      mat_mult32_traced (exactArith ℤ) checked32 3 0 2 2 2 [0, 0, 0, 0] [1, 2, 3, 4]
        [0, 4, 3, 0] = Except.ok (C', log) ∧
      log.length = ((2 : ℤ) - 0).toNat * (2 : ℤ).toNat ∧
      (∀ j k : ℤ, 0 ≤ j → j < 2 → 0 ≤ k → k < 2 →
        log[((j - 0) * 2 + k).toNat]? = some (j * 2, k * 2, j * 2 + k)) ∧
      (∀ j : ℤ, 0 ≤ j → j < 2 → log[((j - 0) * 2).toNat]? = some (j * 2, 0, j * 2)) :=
  ⟨checked32_exact, by decide, by decide, by decide, by decide, by decide,
    mat_mult32_cursors (exactArith ℤ) checked32 checked32_exact 3 0 2 2 2 [0, 0, 0, 0]
      [1, 2, 3, 4] [0, 4, 3, 0] (by decide) (by decide) (by decide) (by decide) (by decide)⟩

/-- C16, counterexample: on the large input (`M = INT_MAX`, `N = 3`, `P = 1`) the
    value `cc = j*M` claimed for column `j = 2` is `2 * INT_MAX`, not an `int`.
    Started at `S = 2`, the checked run faults at `cc = S*M` (line 17); started
    at `S = 0`, it faults at `cc += M` (line 44) after column 1, and the wrapped
    run enters column 2 with `cc = -2` and reads `C[-2]`. -/
theorem mat_mult32_cursors_overflow :
    ValidDims 2147483647 3 1 largeC largeA [0, 0, 1] ∧
    (∀ fuel : ℕ, mat_mult32_traced (exactArith ℤ) checked32 fuel 2 3 2147483647 1 largeC
        largeA [0, 0, 1] = Except.error Fault.intOverflow) ∧
    (∀ fuel : ℕ, mat_mult32_traced (exactArith ℤ) checked32 (fuel + 2) 0 3 2147483647 1 largeC
        largeA [0, 0, 1] = Except.error Fault.intOverflow) ∧
    (∀ fuel : ℕ, mat_mult32_traced (exactArith ℤ) wrapped32 (fuel + 3) 0 3 2147483647 1 largeC
        largeA [0, 0, 1] = Except.error Fault.outOfBounds) :=
  ⟨large_input_valid _ rfl,
    fun fuel => mat_mult32_traced_checked_overflow _ fuel _ _ _ _ _,
    fun fuel => mat_mult32_traced_checked_overflow_full fuel _ _,
    fun fuel => mat_mult32_traced_wrapped_oob_full fuel _ _⟩

/-- C17, amended with the 32-bit bounds. With `alpha = 1` the sub-block kernel
    is the reference kernel: for every arithmetic and every element `one` with
    `b * one = b` for all `b` (no other law assumed), valid dimensions with
    `M*N`, `M*P`, `P*N` at most `INT_MAX`, all buffers, any store exact on
    `[0, INT_MAX]` and enough fuel, `matmult_block_notrans32` with
    `alpha = one` on the full range `R = 0`, `E = M`, `S = 0`, `L = N` and
    `mat_mult32(0, N, M, P, C, A, B)` return the same buffer. -/
theorem block32_alpha_one_is_mat_mult32 (ar : Arith α) (one : α)
    (h1 : ∀ b, ar.mul b one = b) (iv : ℤ → Except Fault ℤ) (hiv : ExactStore iv) (fuel : ℕ)
    (M N P : ℤ) (C A B : List α) (hd : ValidDims M N P C A B)
    (hs : SizesFit M N P) (hf : EnoughFuel fuel M N P) :
    ∃ C', matmult_block_notrans32 ar iv fuel C A B one M N P 0 N 0 M = Except.ok C' ∧
      mat_mult32 ar iv fuel 0 N M P C A B = Except.ok C' := by
  obtain ⟨C', hb, hm⟩ := block_alpha_one_is_mat_mult ar one h1 M N P C A B hd
  exact ⟨C',
    block32_of_block ar iv hiv fuel C A B one M N P 0 N 0 M hd.1 hd.2.1 hd.2.2.1
      (validRegion_full M N hd.1 hd.2.1) hs hf C' hb,
    mat_mult32_of_mat_mult ar iv hiv fuel C A B 0 N M P hd.1 hd.2.2.1 (le_refl _) hd.2.1 hs hf
      C' hm⟩

/-- Witness for C17: a 2 x 3 x 2 product whose `B` has zero entries. -/
theorem block32_alpha_one_is_mat_mult32_witness :
    (∀ b : ℤ, (exactArith ℤ).mul b 1 = b) ∧ ExactStore checked32 ∧
    ValidDims 2 3 2 [1, 1, 1, 1, 1, 1] [1, 2, 3, 4] [(2 : ℤ), 4, 0, 5, 0, 0] ∧
    SizesFit 2 3 2 ∧ EnoughFuel 4 2 3 2 ∧
    ∃ C', matmult_block_notrans32 (exactArith ℤ) checked32 4 [1, 1, 1, 1, 1, 1] [1, 2, 3, 4]
        [2, 4, 0, 5, 0, 0] 1 2 3 2 0 3 0 2 = Except.ok C' ∧
      mat_mult32 (exactArith ℤ) checked32 4 0 3 2 2 [1, 1, 1, 1, 1, 1] [1, 2, 3, 4]
        [2, 4, 0, 5, 0, 0] = Except.ok C' :=
  ⟨fun b => mul_one b, checked32_exact, by decide, by decide, by decide,
    block32_alpha_one_is_mat_mult32 (exactArith ℤ) 1 (fun b => mul_one b) checked32
      checked32_exact 4 2 3 2 [1, 1, 1, 1, 1, 1] [1, 2, 3, 4] [2, 4, 0, 5, 0, 0] (by decide)
      (by decide) (by decide)⟩

/-- C17, counterexample: on the large input (`M = INT_MAX`, `N = 3`, `P = 1`,
    `B = [0, 0, 1]`, valid dimensions and buffers) the block kernel on the full
    range, which computes no index beyond its loop counters, returns a buffer,
    but `mat_mult32(0, N, M, P, ..)` returns none to compare: its `int` cursor
    `cc` overflows at `cc += M` (line 44) after column 1.  Checked, the run
    faults; wrapped, `cc = -2` in column 2 and `C[-2]` is read. -/
theorem block32_alpha_one_is_mat_mult32_overflow :
    (∀ b : ℤ, (exactArith ℤ).mul b 1 = b) ∧
    ValidDims 2147483647 3 1 largeC largeA [0, 0, 1] ∧
    EnoughFuel 2147483648 2147483647 3 1 ∧
    (∃ C', matmult_block_notrans32 (exactArith ℤ) checked32 2147483648 largeC largeA
        [0, 0, 1] 1 2147483647 3 1 0 3 0 2147483647 = Except.ok C') ∧
    (∃ C', matmult_block_notrans32 (exactArith ℤ) wrapped32 2147483648 largeC largeA
        [0, 0, 1] 1 2147483647 3 1 0 3 0 2147483647 = Except.ok C') ∧
    (∀ fuel : ℕ, mat_mult32 (exactArith ℤ) checked32 (fuel + 2) 0 3 2147483647 1 largeC
        largeA [0, 0, 1] = Except.error Fault.intOverflow) ∧
    (∀ fuel : ℕ, mat_mult32 (exactArith ℤ) wrapped32 (fuel + 3) 0 3 2147483647 1 largeC
        largeA [0, 0, 1] = Except.error Fault.outOfBounds) :=
  ⟨fun b => mul_one b, large_input_valid _ rfl, by decide,
    block32_full_range_returns _ checked32 checked32_exact 2147483648 _ _ _ 1 _ _ _
      (large_input_valid _ rfl) (by decide) (by decide) (by decide) (by decide),
    block32_full_range_returns _ wrapped32 wrapped32_exact 2147483648 _ _ _ 1 _ _ _
      (large_input_valid _ rfl) (by decide) (by decide) (by decide) (by decide),
    fun fuel => mat_mult32_checked_overflow_full fuel _ _,
    fun fuel => mat_mult32_wrapped_oob_full fuel _ _⟩

/-- C18, amended with the 32-bit bounds. Input locality, for every arithmetic:
    take two runs of `matmult_block_notrans32` (or of `matmult_vp_notrans32`)
    with the same valid parameters and `alpha`, `M*N`, `M*P`, `P*N` and `P + v`
    at most `INT_MAX` (`v` the viewport length in effect), any store exact on
    `[0, INT_MAX]` and enough fuel, on buffers `C, A, B` and `C2, A2, B2` that
    agree on the cells of `C` inside `[R,E) x [S,L)`, on the rows `[R,E)` of `A`
    and on the columns `[S,L)` of `B`.  Then the two results agree on every cell
    inside `[R,E) x [S,L)`, whatever the buffers hold elsewhere. -/
theorem input_locality32 (ar : Arith α) (iv : ℤ → Except Fault ℤ) (hiv : ExactStore iv)
    (fuel : ℕ) (M N P S L R E vlen : ℤ) (alpha : α) (C A B C2 A2 B2 : List α)
    (hd : ValidDims M N P C A B) (hd2 : ValidDims M N P C2 A2 B2)
    (hr : ValidRegion M N S L R E) (hv : 0 ≤ vlen)
    (hs : SizesFit M N P) (hPv : P + effectiveVlen vlen ≤ INT_MAX)
    (hf : EnoughFuel fuel M N P)
    (hC : ∀ i j : ℤ, R ≤ i → i < E → S ≤ j → j < L → rd C (j * M + i) = rd C2 (j * M + i))
    (hA : ∀ i k : ℤ, R ≤ i → i < E → 0 ≤ k → k < P → rd A (k * M + i) = rd A2 (k * M + i))
    (hB : ∀ k j : ℤ, 0 ≤ k → k < P → S ≤ j → j < L → rd B (j * P + k) = rd B2 (j * P + k)) :
    ∃ D D2, matmult_block_notrans32 ar iv fuel C A B alpha M N P S L R E = Except.ok D ∧
      matmult_block_notrans32 ar iv fuel C2 A2 B2 alpha M N P S L R E = Except.ok D2 ∧
      matmult_vp_notrans32 ar iv fuel C A B alpha M N P S L R E vlen = Except.ok D ∧
      matmult_vp_notrans32 ar iv fuel C2 A2 B2 alpha M N P S L R E vlen = Except.ok D2 ∧
      ∀ i j : ℤ, R ≤ i → i < E → S ≤ j → j < L → rd D (j * M + i) = rd D2 (j * M + i) := by
  obtain ⟨D, D2, h1, h2, h3, h4, hc⟩ :=
    input_locality ar M N P S L R E vlen alpha C A B C2 A2 B2 fuel hd hd2 hr hv hf.2.2 hC hA hB
  exact ⟨D, D2,
    block32_of_block ar iv hiv fuel C A B alpha M N P S L R E hd.1 hd.2.1 hd.2.2.1 hr hs hf D h1,
    block32_of_block ar iv hiv fuel C2 A2 B2 alpha M N P S L R E hd.1 hd.2.1 hd.2.2.1 hr hs hf
      D2 h2,
    vp32_of_vp ar iv hiv fuel C A B alpha M N P S L R E vlen hd.1 hd.2.1 hd.2.2.1 hr hv hs hPv
      hf D h3,
    vp32_of_vp ar iv hiv fuel C2 A2 B2 alpha M N P S L R E vlen hd.1 hd.2.1 hd.2.2.1 hr hv hs
      hPv hf D2 h4, hc⟩

/-- Witness for C18: two runs on the region `[1,2) x [1,2)` whose buffers
    differ outside the region's rows and columns. -/
theorem input_locality32_witness :
    ExactStore checked32 ∧
    ValidDims 2 2 2 [7, 7, 7, 9] [1, 2, 3, 4] [(2 : ℤ), 4, 3, 5] ∧
    ValidDims 2 2 2 [0, 0, 0, 9] [5, 2, 6, 4] [(0 : ℤ), 0, 3, 5] ∧ ValidRegion 2 2 1 2 1 2 ∧
    (0 : ℤ) ≤ 1 ∧ SizesFit 2 2 2 ∧ 2 + effectiveVlen 1 ≤ INT_MAX ∧ EnoughFuel 3 2 2 2 ∧
    ∃ D D2, matmult_block_notrans32 (exactArith ℤ) checked32 3 [7, 7, 7, 9] [1, 2, 3, 4]
        [2, 4, 3, 5] 3 2 2 2 1 2 1 2 = Except.ok D ∧
      matmult_block_notrans32 (exactArith ℤ) checked32 3 [0, 0, 0, 9] [5, 2, 6, 4]
        [0, 0, 3, 5] 3 2 2 2 1 2 1 2 = Except.ok D2 ∧
      matmult_vp_notrans32 (exactArith ℤ) checked32 3 [7, 7, 7, 9] [1, 2, 3, 4]
        [2, 4, 3, 5] 3 2 2 2 1 2 1 2 1 = Except.ok D ∧
      matmult_vp_notrans32 (exactArith ℤ) checked32 3 [0, 0, 0, 9] [5, 2, 6, 4]
        [0, 0, 3, 5] 3 2 2 2 1 2 1 2 1 = Except.ok D2 ∧
      ∀ i j : ℤ, 1 ≤ i → i < 2 → 1 ≤ j → j < 2 → rd D (j * 2 + i) = rd D2 (j * 2 + i) :=
  have hC : ∀ i j : ℤ, 1 ≤ i → i < 2 → 1 ≤ j → j < 2 →
      rd [(7 : ℤ), 7, 7, 9] (j * 2 + i) = rd [(0 : ℤ), 0, 0, 9] (j * 2 + i) := by
    intro i j h1 h2 h3 h4
    obtain rfl : i = 1 := by omega
    obtain rfl : j = 1 := by omega
    decide
  have hA : ∀ i k : ℤ, 1 ≤ i → i < 2 → 0 ≤ k → k < 2 →
      rd [(1 : ℤ), 2, 3, 4] (k * 2 + i) = rd [(5 : ℤ), 2, 6, 4] (k * 2 + i) := by
    intro i k h1 h2 h3 h4
    obtain rfl : i = 1 := by omega
    have hk : k = 0 ∨ k = 1 := by omega
    rcases hk with rfl | rfl <;> decide
  have hB : ∀ k j : ℤ, 0 ≤ k → k < 2 → 1 ≤ j → j < 2 →
      rd [(2 : ℤ), 4, 3, 5] (j * 2 + k) = rd [(0 : ℤ), 0, 3, 5] (j * 2 + k) := by
    intro k j h1 h2 h3 h4
    obtain rfl : j = 1 := by omega
    have hk : k = 0 ∨ k = 1 := by omega
    rcases hk with rfl | rfl <;> decide
  ⟨checked32_exact, by decide, by decide, by decide, by decide, by decide, by decide,
    by decide,
    input_locality32 (exactArith ℤ) checked32 checked32_exact 3 2 2 2 1 2 1 2 1 3 [7, 7, 7, 9]
      [1, 2, 3, 4] [2, 4, 3, 5] [0, 0, 0, 9] [5, 2, 6, 4] [0, 0, 3, 5] (by decide) (by decide)
      (by decide) (by decide) (by decide) (by decide) (by decide) hC hA hB⟩

/-- C18, counterexample: two runs on the large input (`M = INT_MAX`, `N = 3`,
    `P = 1`, region `[0,1) x [2,3)`, `vlen = 1`) with `B = [0, 0, 1]` and
    `B2 = [5, 5, 1]`, which agree on the region's column 2, and the same `C` and
    `A`.  All parameters are valid, but `S*M = 2 * INT_MAX` is not an `int`: the
    checked runs fault, and the wrapped run on `B` dereferences `C[-2]`, a cell
    outside the region.  No result is returned to compare. -/
theorem input_locality32_overflow :
    ValidDims 2147483647 3 1 largeC largeA [0, 0, 1] ∧
    ValidDims 2147483647 3 1 largeC largeA [5, 5, 1] ∧ ValidRegion 2147483647 3 2 3 0 1 ∧
    rd [(0 : ℤ), 0, 1] (2 * 1 + 0) = rd [(5 : ℤ), 5, 1] (2 * 1 + 0) ∧
    (∀ (fuel : ℕ) (B : List ℤ), matmult_block_notrans32 (exactArith ℤ) checked32 fuel largeC
        largeA B 1 2147483647 3 1 2 3 0 1 = Except.error Fault.intOverflow) ∧
    (∀ (fuel : ℕ) (B : List ℤ), matmult_vp_notrans32 (exactArith ℤ) checked32 (fuel + 1)
        largeC largeA B 1 2147483647 3 1 2 3 0 1 1 = Except.error Fault.intOverflow) ∧
    (∀ fuel : ℕ, matmult_block_notrans32 (exactArith ℤ) wrapped32 (fuel + 1) largeC largeA
        [0, 0, 1] 1 2147483647 3 1 2 3 0 1 = Except.error Fault.outOfBounds) ∧
    (∀ fuel : ℕ, matmult_vp_notrans32 (exactArith ℤ) wrapped32 (fuel + 1) largeC largeA
        [0, 0, 1] 1 2147483647 3 1 2 3 0 1 1 = Except.error Fault.outOfBounds) :=
  ⟨large_input_valid _ rfl, large_input_valid _ rfl, by decide, by decide,
    fun fuel B => block32_checked_overflow _ fuel _ _ B _ _ _ _ _ _,
    fun fuel B => vp32_checked_overflow _ fuel _ _ B _ _ _ _ _ _,
    fun fuel => block32_wrapped_oob fuel _ _ 1 3 1 (by decide),
    fun fuel => vp32_wrapped_oob fuel _ _ 1 3 1 1 (by decide) (by decide)⟩

end Calgo
